import Mathlib

/-!
# Timer store (`timers/timer_store.go`)

A shallow embedding of the durable timer store: the key layout, the in-memory
span, `Set`, `Delete`, `Cancel`, `ScanDue`, `ScanNext` and `syncSpan`, run
against a model of the key/value facade.

* `int64` values are `Int`; every operation that can leave the 64-bit range is
  followed by `wrap64`.
* Go loops that need not terminate (`nextRow`, `nextColumn`, `ScanNext`) take a
  fuel argument and return `none` when it runs out.
* `time.Now().Unix()` is the argument `now` of the operation that reads it.
* The in-memory store is passed in and returned; the KV bucket is the state
  `KV`, threaded through every operation.
-/

set_option autoImplicit false

namespace Timers

/-! ## Constants -/

/-- Seconds per time bucket. -/
def Resolution : Int := 7

/-- Initial value of a bucket counter. -/
def init_seq : Int := 128

/-- The 64-symbol alphabet of the context hash. -/
def dict : String := "ABCDEFGHIJKLMNOPQRSTUVWXYZabcdefghijklmnopqrstuvwxyz0123456789*&"

/-- Base of `strconv.FormatInt` in `formatTime` and `mapLocator`. -/
def encode_base : Nat := 10

/-! ## 64-bit integers -/

/-- Smallest `int64`. -/
def minInt64 : Int := -9223372036854775808

/-- Largest `int64`. -/
def maxInt64 : Int := 9223372036854775807

/-- Two-complement wrap of an integer into the `int64` range. -/
def wrap64 (v : Int) : Int := (v + 9223372036854775808) % 18446744073709551616 - 9223372036854775808

/-- Membership in the `int64` range. -/
def isInt64 (v : Int) : Prop := minInt64 ≤ v ∧ v ≤ maxInt64

instance (v : Int) : Decidable (isInt64 v) := by unfold isInt64; exact inferInstance

/-- Go `roundUp`: `/` truncates toward zero, `%` has the sign of the dividend. -/
def roundUp (val : Int) : Int :=
  let q := Int.tdiv val Resolution
  let r := Int.tmod val Resolution
  let q := if r > 0 then wrap64 (q + 1) else q
  wrap64 (q * Resolution)

/-- Go `roundDown`. -/
def roundDown (val : Int) : Int :=
  let q := Int.tdiv val Resolution
  wrap64 (q * Resolution)

/-! ## Records -/

/-- CAS token (`gocb.Cas`, an unsigned 64-bit value); zero means unconditional. -/
abbrev Cas := Nat

/-- The context value (`interface{}`), kept as its JSON text. -/
abbrev Json := String

structure AlarmRecord where
  AlarmDue : Int
  ContextRef : String
  deriving DecidableEq, Repr, Inhabited

structure ContextRecord where
  Context : Json
  AlarmRef : String
  deriving DecidableEq, Repr, Inhabited

structure TimerEntry extends AlarmRecord, ContextRecord where
  alarmSeq : Int
  ctxCas : Cas
  topCas : Cas
  deriving DecidableEq, Repr, Inhabited

structure rowIter where
  start : Int
  stop : Int
  current : Int
  deriving DecidableEq, Repr, Inhabited

structure colIter where
  stop : Int
  current : Int
  topCas : Cas
  deriving DecidableEq, Repr, Inhabited

structure Span where
  Start : Int
  Stop : Int
  deriving DecidableEq, Repr, Inhabited

structure storeSpan extends Span where
  empty : Bool
  spanCas : Cas
  deriving DecidableEq, Repr, Inhabited

/-- The in-memory store. The field `pfx` is the source field `prefix`; the
ticker and the lock carry no data. -/
structure TimerStore where
  connstr : String
  bucket : String
  pfx : String
  handler : String
  partn : Int
  log : String
  span : storeSpan
  deriving DecidableEq, Repr, Inhabited

/-- The scan cursor. The store pointer of the source is the store argument of
`nextRow`, `nextColumn` and `ScanNext`. -/
structure TimerIter where
  row : rowIter
  col : Option colIter
  entry : Option TimerEntry
  deriving DecidableEq, Repr, Inhabited

/-! ## The KV facade -/

/-- The one error this module returns, and the failure to decode a document
into the requested Go value. -/
inductive Error where
  | ErrRetryTimeout
  | ErrDecode
  deriving DecidableEq, Repr, Inhabited

/-- The documents the store keeps in the bucket. -/
inductive Value where
  | counter (n : Int)
  | alarm (a : AlarmRecord)
  | context (c : ContextRecord)
  | span (s : Span)
  deriving DecidableEq, Repr, Inhabited

structure Doc where
  val : Value
  cas : Cas
  deriving DecidableEq, Repr, Inhabited

/-- Modelled from the spec: the KV bucket behind `Pool(connstr)`, whose client
code is not among the sources (spec 4.1, 6, 9). `store` is the bucket content,
`casSeq` the last CAS token issued (every write issues the next one), and
`faults` the outcome of the coming operations: each operation consumes the head,
and fails with a transient error, changing nothing else, when it is `true`. An
empty schedule means no further failure. -/
structure KV where
  store : String → Option Doc
  casSeq : Nat
  faults : List Bool

/-- The empty bucket, with no failure scheduled. -/
def KV.empty : KV := { store := fun _ => none, casSeq := 0, faults := [] }

/-- Consume one entry of the failure schedule. -/
def KV.tick (kv : KV) : Bool × KV :=
  match kv.faults with
  | [] => (false, kv)
  | f :: fs => (f, { kv with faults := fs })

/-- Write `val` under `key` with the next CAS token. -/
def KV.put (kv : KV) (key : String) (val : Value) : KV :=
  { kv with
    store := fun k => if k = key then some { val := val, cas := kv.casSeq + 1 } else kv.store k
    casSeq := kv.casSeq + 1 }

/-- Remove `key`. -/
def KV.erase (kv : KV) (key : String) : KV :=
  { kv with store := fun k => if k = key then none else kv.store k }

/-- Every stored document carries a non-zero CAS token that has been issued. -/
def KV.wf (kv : KV) : Prop :=
  ∀ k d, kv.store k = some d → 0 < d.cas ∧ d.cas ≤ kv.casSeq

def Value.asCounter : Value → Option Int
  | .counter n => some n
  | _ => none

def Value.asAlarm : Value → Option AlarmRecord
  | .alarm a => some a
  | _ => none

def Value.asContext : Value → Option ContextRecord
  | .context c => some c
  | _ => none

def Value.asSpan : Value → Option Span
  | .span s => some s
  | _ => none

/-- Result of `MustGet`: `(cas, absent, err)` and the decoded value, set only
when the key is present. -/
structure GetResult (α : Type) where
  cas : Cas
  absent : Bool
  err : Option Error
  out : Option α

/-- Result of `MustCounter`: `(value, cas, err)`. -/
structure CounterResult where
  value : Int
  cas : Cas
  err : Option Error
  deriving DecidableEq, Repr

/-- Result of `MustUpsert` `(cas, err)`, `MustInsert` `(cas, mismatch, err)`,
`MustReplace` and `MustRemove` `(cas, absent, mismatch, err)`. -/
structure WriteResult where
  cas : Cas
  absent : Bool
  mismatch : Bool
  err : Option Error
  deriving DecidableEq, Repr

/-- The result of an operation that failed with `e`. -/
def WriteResult.failed (e : Error) : WriteResult :=
  { cas := 0, absent := false, mismatch := false, err := some e }

/-- Modelled from the spec: `Get(key, outValue) → (cas, absent, err)`,
deserializing into `outValue` when present (spec 4.1); the facade is not among
the sources. A document that is not of the requested kind is a decode error. -/
def MustGet {α : Type} (kv : KV) (key : String) (decode : Value → Option α) : GetResult α × KV :=
  let t := kv.tick
  if t.1 then ({ cas := 0, absent := false, err := some .ErrRetryTimeout, out := none }, t.2)
  else
    match t.2.store key with
    | none => ({ cas := 0, absent := true, err := none, out := none }, t.2)
    | some d =>
      match decode d.val with
      | some v => ({ cas := d.cas, absent := false, err := none, out := some v }, t.2)
      | none => ({ cas := 0, absent := false, err := some .ErrDecode, out := none }, t.2)

/-- Modelled from the spec: `Counter(key, delta, initial, expiry) → (value, cas,
err)`, atomic: on first touch sets to `initial`, subsequently adds `delta`,
returns the post-image (spec 4.1); the facade is not among the sources. -/
def MustCounter (kv : KV) (key : String) (delta initial : Int) : CounterResult × KV :=
  let t := kv.tick
  if t.1 then ({ value := 0, cas := 0, err := some .ErrRetryTimeout }, t.2)
  else
    match t.2.store key with
    | none => ({ value := initial, cas := t.2.casSeq + 1, err := none }, t.2.put key (.counter initial))
    | some d =>
      match d.val with
      | .counter n =>
        ({ value := wrap64 (n + delta), cas := t.2.casSeq + 1, err := none },
          t.2.put key (.counter (wrap64 (n + delta))))
      | _ => ({ value := 0, cas := 0, err := some .ErrDecode }, t.2)

/-- Modelled from the spec: `Upsert(key, value, expiry) → (cas, err)`,
unconditional (spec 4.1); the facade is not among the sources. -/
def MustUpsert (kv : KV) (key : String) (val : Value) : WriteResult × KV :=
  let t := kv.tick
  if t.1 then (WriteResult.failed .ErrRetryTimeout, t.2)
  else ({ cas := t.2.casSeq + 1, absent := false, mismatch := false, err := none }, t.2.put key val)

/-- Modelled from the spec: `Insert(key, value, expiry) → (cas, mismatch, err)`,
failing with mismatch if the key already exists (spec 4.1); the facade is not
among the sources. -/
def MustInsert (kv : KV) (key : String) (val : Value) : WriteResult × KV :=
  let t := kv.tick
  if t.1 then (WriteResult.failed .ErrRetryTimeout, t.2)
  else
    match t.2.store key with
    | some _ => ({ cas := 0, absent := false, mismatch := true, err := none }, t.2)
    | none => ({ cas := t.2.casSeq + 1, absent := false, mismatch := false, err := none }, t.2.put key val)

/-- Modelled from the spec: `Replace(key, value, expectedCas, expiry) → (cas,
absent, mismatch, err)`, absent if the key vanished, mismatch if the CAS differs,
a zero CAS being unconditional (spec 4.1, 9); the facade is not among the
sources. -/
def MustReplace (kv : KV) (key : String) (val : Value) (expectedCas : Cas) : WriteResult × KV :=
  let t := kv.tick
  if t.1 then (WriteResult.failed .ErrRetryTimeout, t.2)
  else
    match t.2.store key with
    | none => ({ cas := 0, absent := true, mismatch := false, err := none }, t.2)
    | some d =>
      if expectedCas ≠ 0 ∧ d.cas ≠ expectedCas then
        ({ cas := 0, absent := false, mismatch := true, err := none }, t.2)
      else ({ cas := t.2.casSeq + 1, absent := false, mismatch := false, err := none }, t.2.put key val)

/-- Modelled from the spec: `Remove(key, expectedCas) → (cas, absent, mismatch,
err)`, where `expectedCas == 0` means unconditional (spec 4.1); the facade is
not among the sources. -/
def MustRemove (kv : KV) (key : String) (expectedCas : Cas) : WriteResult × KV :=
  let t := kv.tick
  if t.1 then (WriteResult.failed .ErrRetryTimeout, t.2)
  else
    match t.2.store key with
    | none => ({ cas := 0, absent := true, mismatch := false, err := none }, t.2)
    | some d =>
      if expectedCas ≠ 0 ∧ d.cas ≠ expectedCas then
        ({ cas := 0, absent := false, mismatch := true, err := none }, t.2)
      else ({ cas := d.cas, absent := false, mismatch := false, err := none }, t.2.erase key)

/-! ## Key layout -/

/-- Go `formatTime`: `strconv.FormatInt(tm, encode_base)`. -/
def formatTime (tm : Int) : String :=
  match tm with
  | Int.ofNat n => (Nat.toDigits encode_base n).asString
  | Int.negSucc n => "-" ++ (Nat.toDigits encode_base (n + 1)).asString

/-- The part `"%v:timerstore:%v:%v"` that every key of a store starts with. -/
def TimerStore.keyBase (r : TimerStore) : String :=
  r.pfx ++ ":timerstore:" ++ r.handler ++ ":" ++ formatTime r.partn

def TimerStore.kvLocatorRoot (r : TimerStore) (due : Int) : String :=
  r.keyBase ++ ":root:" ++ formatTime due

def TimerStore.kvLocatorAlarm (r : TimerStore) (due : Int) (seq : Int) : String :=
  r.keyBase ++ ":alarm:" ++ formatTime due ++ ":" ++ formatTime seq

def TimerStore.kvLocatorSpan (r : TimerStore) : String :=
  r.keyBase ++ ":span"

/-- The RIPEMD-160 digest of `golang.org/x/crypto/ripemd160`, a library outside
the repository, taken as a parameter: a function from the reference to twenty
bytes. -/
structure Ripemd160 where
  Sum : String → List Nat
  size : ∀ s, (Sum s).length = 20
  byte : ∀ s b, b ∈ Sum s → b < 256

/-- Go `asn1.BitString`. -/
structure BitString where
  Bytes : List Nat
  BitLength : Nat

/-- Go `asn1.BitString.At`: the bit at index `i`, most significant bit of a byte
first, and zero outside the string. -/
def BitString.At (b : BitString) (i : Nat) : Nat :=
  if i ≥ b.BitLength then 0
  else (b.Bytes.getD (i / 8) 0 >>> (7 - i % 8)) &&& 1

/-- The inner loop of `kvLocatorContext`: `pos = pos<<1 | bits.At(i+j)` for
`j = 0..4`. -/
def hashPos (bits : BitString) (i : Nat) : Nat :=
  (List.range 5).foldl (fun pos j => (pos <<< 1) ||| bits.At (i + j)) 0

/-- The outer loop of `kvLocatorContext`: `hash += string(dict[pos])` for
`i = 0, 5, .., 155`. -/
def contextHash (bits : BitString) : String :=
  (List.range' 0 32 5).foldl
    (fun hash i => hash ++ String.singleton (dict.toList.getD (hashPos bits i) 'A')) ""

/-- The bit string `kvLocatorContext` builds from the digest of `ref`. -/
def refBits (H : Ripemd160) (ref : String) : BitString :=
  { Bytes := H.Sum ref, BitLength := 160 }

def TimerStore.kvLocatorContext (H : Ripemd160) (r : TimerStore) (ref : String) : String :=
  r.keyBase ++ ":context:" ++ contextHash (refBits H ref)

/-- The conditions of the two `Assert` calls of `kvLocatorContext`, over the
whole run: `64 == len(dict)`, and `pos >= 0 && pos < len(dict)` at each of the 32
steps. -/
def kvLocatorContextAsserts (H : Ripemd160) (ref : String) : Bool :=
  (64 == dict.length) &&
    (List.range' 0 32 5).all
      (fun i => decide (0 ≤ hashPos (refBits H ref) i) && decide (hashPos (refBits H ref) i < dict.length))

/-! ## Span -/

def TimerStore.readSpan (r : TimerStore) : Span := r.span.toSpan

def TimerStore.expandSpan (r : TimerStore) (point : Int) : TimerStore :=
  let r := if r.span.Start > point then { r with span := { r.span with Start := point } } else r
  if r.span.Stop < point then { r with span := { r.span with Stop := point } } else r

def TimerStore.shrinkSpan (r : TimerStore) (start : Int) : TimerStore :=
  if r.span.Start < start then { r with span := { r.span with Start := start } } else r

/-! ## Set, Delete, Cancel -/

/-- What `Set`, `Delete`, `Cancel` and `syncSpan` leave behind: the returned
error, the in-memory store and the bucket. -/
structure OpResult where
  err : Option Error
  store : TimerStore
  kv : KV

/-- Lines 131-136 of `Set`: a due time too close to `now` moves to the next
period, then the due time is rounded up. -/
def setDue (now due : Int) : Int :=
  let due := if wrap64 (due - now) ≤ Resolution then wrap64 (now + Resolution) else due
  roundUp due

def TimerStore.Set (H : Ripemd160) (r : TimerStore) (now : Int) (due : Int) (ref : String)
    (context : Json) (kv : KV) : OpResult :=
  let due := setDue now due
  let pos := r.kvLocatorRoot due
  let c := MustCounter kv pos 1 init_seq
  match c.1.err with
  | some e => { err := some e, store := r, kv := c.2 }
  | none =>
    let akey := r.kvLocatorAlarm due c.1.value
    let ckey := r.kvLocatorContext H ref
    let arecord : AlarmRecord := { AlarmDue := due, ContextRef := ckey }
    let ua := MustUpsert c.2 akey (.alarm arecord)
    match ua.1.err with
    | some e => { err := some e, store := r, kv := ua.2 }
    | none =>
      let crecord : ContextRecord := { Context := context, AlarmRef := akey }
      let uc := MustUpsert ua.2 ckey (.context crecord)
      match uc.1.err with
      | some e => { err := some e, store := r, kv := uc.2 }
      | none => { err := none, store := r.expandSpan due, kv := uc.2 }

def TimerStore.Delete (r : TimerStore) (entry : TimerEntry) (kv : KV) : OpResult :=
  let ra := MustRemove kv entry.AlarmRef 0
  match ra.1.err with
  | some e => { err := some e, store := r, kv := ra.2 }
  | none =>
    let rc := MustRemove ra.2 entry.ContextRef entry.ctxCas
    match rc.1.err with
    | some e => { err := some e, store := r, kv := rc.2 }
    | none =>
      if rc.1.mismatch then { err := none, store := r, kv := rc.2 }
      else if entry.topCas == 0 then { err := none, store := r, kv := rc.2 }
      else
        let pos := r.kvLocatorRoot entry.AlarmDue
        let rt := MustRemove rc.2 pos entry.topCas
        match rt.1.err with
        | some e => { err := some e, store := r, kv := rt.2 }
        | none => { err := none, store := r.shrinkSpan entry.AlarmDue, kv := rt.2 }

def TimerStore.Cancel (H : Ripemd160) (r : TimerStore) (ref : String) (kv : KV) : OpResult :=
  let cref := r.kvLocatorContext H ref
  let g := MustGet kv cref Value.asContext
  match g.1.err with
  | some _ => { err := none, store := r, kv := g.2 }
  | none =>
    if g.1.absent then { err := none, store := r, kv := g.2 }
    else
      let crecord := g.1.out.getD { Context := "", AlarmRef := "" }
      let ra := MustRemove g.2 crecord.AlarmRef 0
      match ra.1.err with
      | some _ => { err := none, store := r, kv := ra.2 }
      | none =>
        if ra.1.absent then { err := none, store := r, kv := ra.2 }
        else
          let rc := MustRemove ra.2 cref 0
          { err := none, store := r, kv := rc.2 }

/-! ## The scanner -/

def TimerStore.ScanDue (r : TimerStore) (wall : Int) : Option TimerIter × Option Error :=
  let span := r.readSpan
  let now := roundDown wall
  if span.Start == span.Stop && wrap64 (now - span.Stop) > 3 * Resolution then (none, none)
  else
    let stop := if now > span.Stop then span.Stop else now
    (some { entry := none, row := { start := span.Start, current := span.Start, stop := stop },
            col := none }, none)

/-- What `nextRow`, `nextColumn` (with `out : Bool`, the flag `found`) and
`ScanNext` (with `out : Option TimerEntry`) return, with the cursor and the
bucket they leave behind. -/
structure StepResult (α : Type) where
  out : α
  err : Option Error
  it : TimerIter
  kv : KV

/-- The `for r.row.current < r.row.stop` loop of `nextRow`; `col` is the local
`colIter` whose `stop` the `MustGet` decodes into. -/
def TimerIter.nextRowLoop (st : TimerStore) :
    Nat → TimerIter → colIter → KV → Option (StepResult Bool)
  | 0, _, _, _ => none
  | fuel + 1, it, col, kv =>
    if it.row.current < it.row.stop then
      let it := { it with row := { it.row with current := wrap64 (it.row.current + Resolution) } }
      let pos := st.kvLocatorRoot it.row.current
      let g := MustGet kv pos Value.asCounter
      match g.1.err with
      | some e => some { out := false, err := some e, it := it, kv := g.2 }
      | none =>
        let col := match g.1.out with
          | some v => { col with stop := v }
          | none => col
        if !g.1.absent then
          some { out := true, err := none, it := { it with col := some { col with topCas := g.1.cas } },
                 kv := g.2 }
        else TimerIter.nextRowLoop st fuel it col g.2
    else some { out := false, err := none, it := it, kv := kv }

def TimerIter.nextRow (st : TimerStore) (fuel : Nat) (it : TimerIter) (kv : KV) :
    Option (StepResult Bool) :=
  let it := { it with col := none, entry := none }
  let col : colIter := { current := init_seq, topCas := 0, stop := 0 }
  TimerIter.nextRowLoop st fuel it col kv

/-- The `for r.col.current <= r.col.stop` loop of `nextColumn`; `col` is the
column cursor `*r.col`. -/
def TimerIter.nextColumnLoop (st : TimerStore) :
    Nat → TimerIter → colIter → KV → Option (StepResult Bool)
  | 0, _, _, _ => none
  | fuel + 1, it, col, kv =>
    if col.current ≤ col.stop then
      let current := col.current
      let col := { col with current := wrap64 (col.current + 1) }
      let it := { it with col := some col }
      let key := st.kvLocatorAlarm it.row.current current
      let ga := MustGet kv key Value.asAlarm
      match ga.1.err with
      | some e => some { out := false, err := some e, it := it, kv := ga.2 }
      | none =>
        if ga.1.absent then TimerIter.nextColumnLoop st fuel it col ga.2
        else
          let alarm := ga.1.out.getD { AlarmDue := 0, ContextRef := "" }
          let gc := MustGet ga.2 alarm.ContextRef Value.asContext
          match gc.1.err with
          | some e => some { out := false, err := some e, it := it, kv := gc.2 }
          | none =>
            let context := gc.1.out.getD { Context := "", AlarmRef := "" }
            if gc.1.absent || context.AlarmRef != key then TimerIter.nextColumnLoop st fuel it col gc.2
            else
              let entry : TimerEntry :=
                { toAlarmRecord := alarm, toContextRecord := context, alarmSeq := current,
                  topCas := 0, ctxCas := gc.1.cas }
              let entry := if current == col.stop then { entry with topCas := col.topCas } else entry
              some { out := true, err := none, it := { it with entry := some entry }, kv := gc.2 }
    else some { out := false, err := none, it := it, kv := kv }

def TimerIter.nextColumn (st : TimerStore) (fuel : Nat) (it : TimerIter) (kv : KV) :
    Option (StepResult Bool) :=
  let it := { it with entry := none }
  match it.col with
  | none => some { out := false, err := none, it := it, kv := kv }
  | some col => TimerIter.nextColumnLoop st fuel it col kv

/-- The `for` loop of `ScanNext`; `inner` is the fuel of each `nextColumn` and
`nextRow` call. -/
def TimerIter.ScanNextLoop (st : TimerStore) (inner : Nat) :
    Nat → TimerIter → KV → Option (StepResult (Option TimerEntry))
  | 0, _, _ => none
  | fuel + 1, it, kv =>
    match TimerIter.nextColumn st inner it kv with
    | none => none
    | some c =>
      match c.err with
      | some e => some { out := none, err := some e, it := c.it, kv := c.kv }
      | none =>
        if c.out then some { out := c.it.entry, err := none, it := c.it, kv := c.kv }
        else
          match TimerIter.nextRow st inner c.it c.kv with
          | none => none
          | some r =>
            if !r.out || r.err.isSome then some { out := none, err := r.err, it := r.it, kv := r.kv }
            else TimerIter.ScanNextLoop st inner fuel r.it r.kv

/-- Go `ScanNext` on an iterator that is not nil. -/
def TimerIter.ScanNext (st : TimerStore) (fuel : Nat) (it : TimerIter) (kv : KV) :
    Option (StepResult (Option TimerEntry)) :=
  TimerIter.ScanNextLoop st fuel fuel it kv

/-- Go `ScanNext` on what `ScanDue` returned: the nil iterator yields no entry and
no error. -/
def ScanNext (st : TimerStore) (fuel : Nat) (r : Option TimerIter) (kv : KV) :
    Option ((Option TimerEntry × Option Error) × Option TimerIter × KV) :=
  match r with
  | none => some ((none, none), none, kv)
  | some it => (TimerIter.ScanNext st fuel it kv).map fun s => ((s.out, s.err), some s.it, s.kv)

/-! ## Span reconciliation and creation -/

/-- The `MustReplace` step that ends `syncSpan` (lines 450-461). -/
def TimerStore.syncSpanReplace (r : TimerStore) (rcas : Cas) (kv : KV) : OpResult :=
  let w := MustReplace kv r.kvLocatorSpan (.span r.span.toSpan) rcas
  match w.1.err with
  | some e => { err := some e, store := r, kv := w.2 }
  | none =>
    if w.1.absent || w.1.mismatch then { err := none, store := r, kv := w.2 }
    else { err := none, store := { r with span := { r.span with spanCas := w.1.cas } }, kv := w.2 }

def TimerStore.syncSpan (r : TimerStore) (now : Int) (kv : KV) : OpResult :=
  let pos := r.kvLocatorSpan
  let g := MustGet kv pos Value.asSpan
  match g.1.err with
  | some e => { err := some e, store := r, kv := g.2 }
  | none =>
    let extspan : Span := g.1.out.getD { Start := 0, Stop := 0 }
    let rcas := g.1.cas
    let absent := g.1.absent
    if absent && r.span.empty then
      let r := { r with span := { Start := roundDown now, Stop := roundUp now, empty := false,
                                  spanCas := 0 } }
      r.syncSpanReplace rcas g.2
    else if absent && !r.span.empty then
      let w := MustInsert g.2 pos (.span r.span.toSpan)
      if w.1.err.isSome || w.1.mismatch then { err := w.1.err, store := r, kv := w.2 }
      else { err := w.1.err, store := { r with span := { r.span with spanCas := w.1.cas } }, kv := w.2 }
    else if !absent && r.span.empty then
      let r := { r with span := { Start := extspan.Start, Stop := extspan.Stop, empty := false,
                                  spanCas := rcas } }
      r.syncSpanReplace rcas g.2
    else if r.span.spanCas != rcas then
      let r := if r.span.Start > extspan.Start then
          { r with span := { r.span with Start := extspan.Start } } else r
      let r := if r.span.Stop < extspan.Stop then
          { r with span := { r.span with Stop := extspan.Stop } } else r
      r.syncSpanReplace rcas g.2
    else if r.span.spanCas == rcas && r.span.toSpan == extspan then
      { err := none, store := r, kv := g.2 }
    else r.syncSpanReplace rcas g.2

/-- Go `newTimerStore`: the store starts with an empty span and runs the first
`syncSpan`; the ticker and the sync routine are left out. -/
def newTimerStore (pfx handler : String) (partn : Int) (connstr bucket : String) (now : Int)
    (kv : KV) : OpResult :=
  let timerstore : TimerStore :=
    { connstr := connstr, bucket := bucket, pfx := pfx, handler := handler, partn := partn,
      log := "timerstore:" ++ pfx ++ ":" ++ handler ++ ":" ++ formatTime partn,
      span := { Start := 0, Stop := 0, empty := true, spanCas := 0 } }
  timerstore.syncSpan now kv

/-! ## Auxiliary definitions for the statements and proofs -/

/-- The number a list of decimal digits stands for. -/
def digitsVal (l : List Char) : Nat := l.foldl (fun a c => 10 * a + (c.toNat - 48)) 0

/-- The column cursor after one step. -/
def colIter.next (col : colIter) : colIter := { col with current := wrap64 (col.current + 1) }

/-- The store `newTimerStore` builds before the first `syncSpan`. -/
def blankStore (pfx handler : String) (partn : Int) (connstr bucket : String) : TimerStore :=
  { connstr := connstr, bucket := bucket, pfx := pfx, handler := handler, partn := partn,
    log := "timerstore:" ++ pfx ++ ":" ++ handler ++ ":" ++ formatTime partn,
    span := { Start := 0, Stop := 0, empty := true, spanCas := 0 } }

/-- A stand-in for the digest in concrete runs: twenty copies of one byte
computed from the characters of the reference. -/
def demoDigest : Ripemd160 where
  Sum s := List.replicate 20 ((s.toList.foldl (fun a c => a + c.toNat) 0 * 37 + 11) % 256)
  size s := by simp
  byte s b hb := by
    rw [List.eq_of_mem_replicate hb]
    exact Nat.mod_lt _ (by norm_num)

/-- A store for concrete runs, created at time 990 on the empty bucket. -/
def demoStore : TimerStore := (newTimerStore "p" "h" 0 "c" "b" 990 KV.empty).store

/-- The run `Set(1000, "r1", "x=1")` at time 990 on the empty bucket. -/
def demoSet1 : OpResult := demoStore.Set demoDigest 990 1000 "r1" "x=1" KV.empty

/-- The cursor `nextRow` leaves on finding bucket 1001 after `demoSet1`. -/
def demoIter : TimerIter :=
  { row := { start := 987, stop := 1001, current := 1001 },
    col := some { stop := 128, current := 128, topCas := 1 }, entry := none }

/-- The entry a scan yields after `demoSet1`. -/
def demoEntry : TimerEntry :=
  { AlarmDue := 1001, ContextRef := demoStore.kvLocatorContext demoDigest "r1", Context := "x=1",
    AlarmRef := demoStore.kvLocatorAlarm 1001 128, alarmSeq := 128, ctxCas := 3, topCas := 1 }

/-- The run `Set(2000, "r1", "y=2")` at time 1012, after `demoSet1`. -/
def demoSet2 : OpResult := demoSet1.store.Set demoDigest 1012 2000 "r1" "y=2" demoSet1.kv

/-- Bit `j` of the digest of `ref`, the most significant bit of each byte first. -/
def digestBit (H : Ripemd160) (ref : String) (j : Nat) : Nat :=
  (H.Sum ref).getD (j / 8) 0 / 2 ^ (7 - j % 8) % 2

/-- The arguments of one `Set` call and the time at which it runs. -/
structure SetCall where
  now : Int
  due : Int
  ref : String
  context : Json

/-- What a sequence of `Set` calls leaves behind, with the rounded due times
stored by the calls that succeeded. -/
structure SetsResult where
  store : TimerStore
  kv : KV
  dues : List Int

/-- Run a sequence of `Set` calls, one after the other. -/
def runSets (H : Ripemd160) : TimerStore → KV → List SetCall → SetsResult
  | r, kv, [] => { store := r, kv := kv, dues := [] }
  | r, kv, c :: cs =>
    let res := r.Set H c.now c.due c.ref c.context kv
    let rest := runSets H res.store res.kv cs
    { rest with dues := if res.err = none then setDue c.now c.due :: rest.dues else rest.dues }

/-- The host's use of one bucket, as the data flow of the spec gives it: `n`
times, take the next entry of the column with `nextColumn` and pass it to
`Delete`. The result is `none` when a step yields no entry, fails, or runs out of
fuel. -/
def fireColumn (fuel : Nat) : Nat → TimerStore → TimerIter → KV → Option (TimerStore × TimerIter × KV)
  | 0, r, it, kv => some (r, it, kv)
  | n + 1, r, it, kv =>
    match TimerIter.nextColumn r fuel it kv with
    | none => none
    | some c =>
      match c.it.entry with
      | none => none
      | some e =>
        if c.out && c.err.isNone && (r.Delete e c.kv).err.isNone then
          fireColumn fuel n (r.Delete e c.kv).store c.it (r.Delete e c.kv).kv
        else none

/-- The union of two spans: the earlier start and the later stop. -/
def spanUnion (a b : Span) : Span :=
  { Start := min a.Start b.Start, Stop := max a.Stop b.Stop }

/-- The entries that successive `nextColumn` calls yield from one bucket, as
`ScanNext` makes them while the column lasts: the call of index `i` runs on the
bucket as it stands then, `kvs[i]`, and the column ends at the first call that
yields nothing, fails or runs out of fuel. -/
def columnYields (st : TimerStore) (fuel : Nat) : List KV → TimerIter → List TimerEntry
  | [], _ => []
  | kv :: kvs, it =>
    match TimerIter.nextColumn st fuel it kv with
    | none => []
    | some c =>
      if c.out && c.err.isNone then
        match c.it.entry with
        | some e => e :: columnYields st fuel kvs c.it
        | none => []
      else []

/-- A bucket for concrete runs whose counter of the time bucket 1001 stands at
the largest 64-bit number, with a live alarm under that sequence number and one
under the smallest 64-bit number. -/
def wrapBucket : KV :=
  ((((KV.empty.put (demoStore.kvLocatorRoot 1001) (.counter maxInt64)).put
      (demoStore.kvLocatorAlarm 1001 maxInt64)
      (.alarm { AlarmDue := 1001, ContextRef := demoStore.kvLocatorContext demoDigest "r1" })).put
      (demoStore.kvLocatorContext demoDigest "r1")
      (.context { Context := "x=1", AlarmRef := demoStore.kvLocatorAlarm 1001 maxInt64 })).put
      (demoStore.kvLocatorAlarm 1001 minInt64)
      (.alarm { AlarmDue := 1001, ContextRef := demoStore.kvLocatorContext demoDigest "r2" })).put
      (demoStore.kvLocatorContext demoDigest "r2")
      (.context { Context := "z=3", AlarmRef := demoStore.kvLocatorAlarm 1001 minInt64 })

/-- The rows a scan finds: the `row.current` after each of up to `n` successive
`nextRow` calls, as `ScanNext` makes them, until one finds nothing, fails or runs
out of fuel. -/
def rowsFound (st : TimerStore) (fuel : Nat) : Nat → TimerIter → KV → List Int
  | 0, _, _ => []
  | n + 1, it, kv =>
    match TimerIter.nextRow st fuel it kv with
    | none => []
    | some r =>
      if r.out && r.err.isNone then r.it.row.current :: rowsFound st fuel n r.it r.kv else []

/-- The time buckets with a root key among the `m` buckets that follow `c`, in
ascending order: `c + R`, `c + 2R`, ..., `c + mR`. -/
def bucketsWithRoot (st : TimerStore) (kv : KV) : Nat → Int → List Int
  | 0, _ => []
  | m + 1, c =>
    if (kv.store (st.kvLocatorRoot (c + 7))).isSome then (c + 7) :: bucketsWithRoot st kv m (c + 7)
    else bucketsWithRoot st kv m (c + 7)

/-- A bucket for concrete runs that holds only the counter of the time bucket
1001, standing at the largest 64-bit number. -/
def endlessBucket : KV :=
  KV.empty.put (demoStore.kvLocatorRoot 1001) (.counter maxInt64)

/-- The cursors a scan that ends at `stop` passes through, on a bucket with
the content of `kv0`: `row.current` is a 64-bit number from which stepping by
`R` does not leave the 64-bit range before `stop` is reached (`stop` lies a whole
number of steps after it, or leaves room for one step below the largest 64-bit
number), and the column cursor, when there is one, was read from the root key of
the row: `stop` is the counter, below the largest 64-bit number, and `topCas` its
CAS. -/
def scanInv (st : TimerStore) (kv0 : KV) (stop : Int) (it : TimerIter) : Prop :=
  isInt64 it.row.current ∧ it.row.stop = stop ∧ stop ≤ maxInt64 ∧
  ((stop - it.row.current) % 7 = 0 ∨ stop ≤ maxInt64 - 6) ∧
  (it.col = none ∨ ∃ col, it.col = some col ∧ init_seq ≤ col.current ∧ col.stop < maxInt64 ∧
    kv0.store (st.kvLocatorRoot it.row.current) =
      some { val := .counter col.stop, cas := col.topCas })

/-- Successive `ScanNext` calls on one iterator: the call of index `i` runs on
the bucket as it stands then, `kvs[i]`. The result is the cursor after the last
call, and `none` when a call runs out of fuel. -/
def scanCalls (st : TimerStore) (fuel : Nat) : List KV → TimerIter → Option TimerIter
  | [], it => some it
  | kv :: kvs, it =>
    match TimerIter.ScanNext st fuel it kv with
    | none => none
    | some s => scanCalls st fuel kvs s.it

/-- The entries that successive `ScanNext` calls yield, each with the time
bucket it comes from (`row.current` after the call): the call of index `i` runs
on the bucket as it stands then, `kvs[i]`, and the list ends at the first call
that returns no entry or runs out of fuel. -/
def scanYields (st : TimerStore) (fuel : Nat) : List KV → TimerIter → List (Int × TimerEntry)
  | [], _ => []
  | kv :: kvs, it =>
    match TimerIter.ScanNext st fuel it kv with
    | none => []
    | some s =>
      match s.out with
      | none => []
      | some e => (s.it.row.current, e) :: scanYields st fuel kvs s.it

/-- What one pass of the loop of `nextColumn` (lines 330-361) makes of the
sequence number `seq` of the time bucket `due` when no KV operation fails, for a
column cursor with the given `stop` and `topCas`: the entry of a live alarm, that
is, of an alarm record stored under `seq` whose context record is stored and
points back at it; nothing otherwise. -/
def liveEntry (st : TimerStore) (kv : KV) (due stop : Int) (topCas : Cas) (seq : Int) :
    Option TimerEntry :=
  match kv.store (st.kvLocatorAlarm due seq) with
  | some { val := .alarm alarm, cas := _ } =>
    match kv.store alarm.ContextRef with
    | some { val := .context context, cas := ctxCas } =>
      if context.AlarmRef = st.kvLocatorAlarm due seq then
        some { toAlarmRecord := alarm, toContextRecord := context, alarmSeq := seq,
               ctxCas := ctxCas, topCas := if seq = stop then topCas else 0 }
      else none
    | _ => none
  | _ => none

/-- The live entries at the `n` sequence numbers from `seq` on, in ascending
order. -/
def columnEntries (st : TimerStore) (kv : KV) (due stop : Int) (topCas : Cas) :
    Nat → Int → List TimerEntry
  | 0, _ => []
  | n + 1, seq =>
    match liveEntry st kv due stop topCas seq with
    | some e => e :: columnEntries st kv due stop topCas n (seq + 1)
    | none => columnEntries st kv due stop topCas n (seq + 1)

/-- The host loop on a scan, as the data flow of the spec gives it: `n` times,
take the next entry with `ScanNext` and pass it to `Delete`. The result holds the
entries delivered, in order, and is `none` when a call yields no entry, fails, or
runs out of fuel. -/
def fireScan (fuel : Nat) :
    Nat → TimerStore → TimerIter → KV → Option (TimerStore × TimerIter × KV × List TimerEntry)
  | 0, r, it, kv => some (r, it, kv, [])
  | n + 1, r, it, kv =>
    match TimerIter.ScanNext r fuel it kv with
    | none => none
    | some s =>
      match s.out with
      | none => none
      | some e =>
        if (r.Delete e s.kv).err.isNone then
          (fireScan fuel n (r.Delete e s.kv).store s.it (r.Delete e s.kv).kv).map
            (fun x => (x.1, x.2.1, x.2.2.1, e :: x.2.2.2))
        else none

/-- The run `Set(1000, "r1", "x=2")` at time 991, after `demoSet1`: a second
`Set` with the same reference into the same time bucket 1001, which supersedes
the alarm of the first. -/
def demoSet1b : OpResult := demoSet1.store.Set demoDigest 991 1000 "r1" "x=2" demoSet1.kv

/-- The entry a scan yields after `demoSet1b`: the second alarm, under sequence
number 129; the first alarm, under 128, is superseded. -/
def demoEntry1b : TimerEntry :=
  { AlarmDue := 1001, ContextRef := demoStore.kvLocatorContext demoDigest "r1", Context := "x=2",
    AlarmRef := demoStore.kvLocatorAlarm 1001 129, alarmSeq := 129, ctxCas := 6, topCas := 4 }

/-- The live entries of the time bucket `due`: those at the sequence numbers
from `init_seq` to the counter its root key holds, in ascending order; none when
the bucket has no root key. -/
def bucketEntries (st : TimerStore) (kv : KV) (due : Int) : List TimerEntry :=
  match kv.store (st.kvLocatorRoot due) with
  | some { val := .counter v, cas := cas } =>
    columnEntries st kv due v cas (v + 1 - init_seq).toNat init_seq
  | _ => []

/-- The live entries of the `m` time buckets that follow `c`: `c + R`,
`c + 2R`, ..., `c + mR`, bucket after bucket. -/
def rowsEntries (st : TimerStore) (kv : KV) : Nat → Int → List TimerEntry
  | 0, _ => []
  | m + 1, c => bucketEntries st kv (c + 7) ++ rowsEntries st kv m (c + 7)

/-- The live entries a scan at the cursor `it` has still to yield, with `m`
buckets after `row.current`: those left in the column, then those of the
buckets. -/
def scanRest (st : TimerStore) (kv : KV) (m : Nat) (it : TimerIter) : List TimerEntry :=
  (match it.col with
    | none => []
    | some col =>
      columnEntries st kv it.row.current col.stop col.topCas
        (col.stop + 1 - col.current).toNat col.current) ++
    rowsEntries st kv m it.row.current

/-- The root keys of the `k` time buckets that follow `c`, in ascending
order. -/
def rowKeys (st : TimerStore) : Nat → Int → List String
  | 0, _ => []
  | k + 1, c => st.kvLocatorRoot (c + 7) :: rowKeys st k (c + 7)

/-- The root keys that the loop of `nextRow` reads (the `MustGet` of line 302),
in order. -/
def TimerIter.nextRowLoopReads (st : TimerStore) : Nat → TimerIter → KV → List String
  | 0, _, _ => []
  | fuel + 1, it, kv =>
    if it.row.current < it.row.stop then
      let it := { it with row := { it.row with current := wrap64 (it.row.current + Resolution) } }
      let pos := st.kvLocatorRoot it.row.current
      let g := MustGet kv pos Value.asCounter
      match g.1.err with
      | some _ => [pos]
      | none => if !g.1.absent then [pos] else pos :: TimerIter.nextRowLoopReads st fuel it g.2
    else []

/-- The root keys that the loop of `ScanNext` reads, in order: those that its
`nextRow` calls read. -/
def TimerIter.ScanNextLoopReads (st : TimerStore) (inner : Nat) :
    Nat → TimerIter → KV → List String
  | 0, _, _ => []
  | fuel + 1, it, kv =>
    match TimerIter.nextColumn st inner it kv with
    | none => []
    | some c =>
      match c.err with
      | some _ => []
      | none =>
        if c.out then []
        else
          TimerIter.nextRowLoopReads st inner { c.it with col := none, entry := none } c.kv ++
            match TimerIter.nextRow st inner c.it c.kv with
            | none => []
            | some r =>
              if !r.out || r.err.isSome then []
              else TimerIter.ScanNextLoopReads st inner fuel r.it r.kv

/-- A scan driven to its end: `ScanNext` is called on what `ScanDue` returned
and then on the iterator each call leaves, until a call returns no entry; at
most `n` calls. The result holds the entries yielded and the root keys read, in
order, and is `none` when a call runs out of fuel or `n` calls do not reach the
end. The nil iterator yields nothing and reads nothing. -/
def scanAll (st : TimerStore) (fuel : Nat) :
    Nat → Option TimerIter → KV → Option (List TimerEntry × List String)
  | 0, _, _ => none
  | _ + 1, none, _ => some ([], [])
  | n + 1, some it, kv =>
    match TimerIter.ScanNext st fuel it kv with
    | none => none
    | some s =>
      match s.out with
      | none => some ([], TimerIter.ScanNextLoopReads st fuel fuel it kv)
      | some e =>
        (scanAll st fuel n (some s.it) s.kv).map
          (fun x => (e :: x.1, TimerIter.ScanNextLoopReads st fuel fuel it kv ++ x.2))

/-! # Theorems -/

/-! ## Arithmetic -/

theorem wrap64_of_isInt64 {v : Int} (h : isInt64 v) : wrap64 v = v := by
  unfold isInt64 minInt64 maxInt64 at h
  unfold wrap64
  omega

theorem isInt64_wrap64 (v : Int) : isInt64 (wrap64 v) := by
  unfold isInt64 minInt64 maxInt64 wrap64
  omega

theorem tdiv_seven (v : Int) :
    Int.tdiv v 7 = if 0 ≤ v then v / 7 else -((-v) / 7) := by
  split
  · exact Int.tdiv_eq_ediv ‹_› (by norm_num)
  · have h : v = -(-v) := by omega
    rw [h, Int.neg_tdiv, Int.tdiv_eq_ediv (by omega) (by norm_num)]
    simp

theorem tmod_seven (v : Int) :
    Int.tmod v 7 = if 0 ≤ v then v % 7 else -((-v) % 7) := by
  have h1 := Int.tmod_add_tdiv v 7
  rw [tdiv_seven] at h1
  split <;> rename_i h <;> simp only [h, if_true, if_false] at h1 <;> omega

theorem roundUp_eq {v : Int} (h : isInt64 v) :
    roundUp v = if 0 ≤ v then (if 0 < v % 7 then (v / 7 + 1) * 7 else v / 7 * 7)
      else -((-v) / 7) * 7 := by
  unfold isInt64 minInt64 maxInt64 at h
  unfold roundUp Resolution
  simp only [tdiv_seven, tmod_seven]
  by_cases h0 : 0 ≤ v
  · simp only [h0, if_true]
    by_cases hr : 0 < v % 7
    · simp only [gt_iff_lt, hr, if_true]
      rw [wrap64_of_isInt64 (v := v / 7 + 1) (by unfold isInt64 minInt64 maxInt64; omega)]
      exact wrap64_of_isInt64 (by unfold isInt64 minInt64 maxInt64; omega)
    · simp only [gt_iff_lt, hr, if_false]
      exact wrap64_of_isInt64 (by unfold isInt64 minInt64 maxInt64; omega)
  · simp only [h0, if_false]
    have hr : ¬ (0 < -(-v % 7)) := by omega
    simp only [gt_iff_lt, hr, if_false]
    exact wrap64_of_isInt64 (by unfold isInt64 minInt64 maxInt64; omega)

/-- On the `int64` range `roundUp` is the least multiple of seven that is not
below its argument. -/
theorem roundUp_spec {v : Int} (h : isInt64 v) :
    roundUp v % 7 = 0 ∧ v ≤ roundUp v ∧ roundUp v < v + 7 ∧ isInt64 (roundUp v) := by
  rw [roundUp_eq h]
  unfold isInt64 minInt64 maxInt64 at *
  split_ifs <;> omega

theorem roundDown_eq {v : Int} (h : isInt64 v) :
    roundDown v = if 0 ≤ v then v / 7 * 7 else -((-v) / 7) * 7 := by
  unfold isInt64 minInt64 maxInt64 at h
  unfold roundDown Resolution
  simp only [tdiv_seven]
  split <;> exact wrap64_of_isInt64 (by unfold isInt64 minInt64 maxInt64; omega)

theorem roundDown_spec_nonneg {v : Int} (h0 : 0 ≤ v) (h : v ≤ maxInt64) :
    roundDown v % 7 = 0 ∧ roundDown v ≤ v ∧ v < roundDown v + 7 ∧ 0 ≤ roundDown v := by
  rw [roundDown_eq (by unfold isInt64 minInt64 maxInt64 at *; omega)]
  unfold maxInt64 at h
  simp only [h0, if_true]
  omega

/-! ## Decimal rendering -/

theorem digitsVal_append (l : List Char) (c : Char) :
    digitsVal (l ++ [c]) = 10 * digitsVal l + (c.toNat - 48) := by
  simp [digitsVal, List.foldl_append]

theorem digitChar_val : ∀ k, k < 10 → (Nat.digitChar k).toNat - 48 = k := by decide

theorem digitChar_mem : ∀ k, k < 10 → Nat.digitChar k ∈ "0123456789".data := by decide

theorem toDigitsCore_spec : ∀ (fuel n : Nat) (ds : List Char), n < fuel →
    ∃ l, Nat.toDigitsCore 10 fuel n ds = l ++ ds ∧ digitsVal l = n ∧ l ≠ [] ∧
      ∀ c ∈ l, c ∈ "0123456789".data := by
  intro fuel
  induction fuel with
  | zero => intro n ds h; omega
  | succ fuel ih =>
    intro n ds h
    have hlt : n % 10 < 10 := Nat.mod_lt _ (by norm_num)
    unfold Nat.toDigitsCore
    by_cases h0 : n / 10 = 0
    · simp only [h0, if_true]
      refine ⟨[Nat.digitChar (n % 10)], by simp, ?_, by simp, ?_⟩
      · have := digitsVal_append [] (Nat.digitChar (n % 10))
        simp only [List.nil_append] at this
        rw [this, digitChar_val _ hlt]
        simp [digitsVal]; omega
      · intro c hc
        simp only [List.mem_singleton] at hc
        rw [hc]; exact digitChar_mem _ hlt
    · simp only [h0, if_false]
      obtain ⟨l, hl, hv, _, hd⟩ := ih (n / 10) (Nat.digitChar (n % 10) :: ds) (by omega)
      refine ⟨l ++ [Nat.digitChar (n % 10)], by simp [hl], ?_, by simp, ?_⟩
      · rw [digitsVal_append, hv, digitChar_val _ hlt]; omega
      · intro c hc
        rcases List.mem_append.1 hc with hc | hc
        · exact hd c hc
        · simp only [List.mem_singleton] at hc
          rw [hc]; exact digitChar_mem _ hlt

theorem toDigits_spec (n : Nat) :
    digitsVal (Nat.toDigits encode_base n) = n ∧ Nat.toDigits encode_base n ≠ [] ∧
      ∀ c ∈ Nat.toDigits encode_base n, c ∈ "0123456789".data := by
  obtain ⟨l, hl, hv, hne, hd⟩ := toDigitsCore_spec (n + 1) n [] (by omega)
  simp only [List.append_nil] at hl
  unfold Nat.toDigits encode_base
  rw [hl]
  exact ⟨hv, hne, hd⟩

theorem toDigits_inj {a b : Nat} (h : Nat.toDigits encode_base a = Nat.toDigits encode_base b) :
    a = b := by
  rw [← (toDigits_spec a).1, ← (toDigits_spec b).1, h]

/-- The characters of a rendered time are decimal digits and the minus sign. -/
theorem formatTime_chars (v : Int) : ∀ c ∈ (formatTime v).data, c ∈ "-0123456789".data := by
  intro c hc
  have key : ∀ c, c ∈ "0123456789".data → c ∈ "-0123456789".data := by decide
  cases v with
  | ofNat n =>
    simp only [formatTime, List.asString] at hc
    exact key c ((toDigits_spec n).2.2 c hc)
  | negSucc n =>
    simp only [formatTime, List.asString, String.data_append] at hc
    rcases List.mem_append.1 hc with hc | hc
    · have : c = '-' := by simpa using hc
      rw [this]; decide
    · exact key c ((toDigits_spec (n + 1)).2.2 c hc)

theorem colon_not_mem_formatTime (v : Int) : ':' ∉ (formatTime v).data := by
  intro h
  exact absurd (formatTime_chars v _ h) (by decide)

theorem formatTime_inj {a b : Int} (h : formatTime a = formatTime b) : a = b := by
  have hd : ∀ c, c ∈ "0123456789".data → c ≠ '-' := by decide
  have hhead : ∀ n (l : List Char), Nat.toDigits encode_base n ≠ '-' :: l := by
    intro n l hl
    have := (toDigits_spec n).2.2 '-' (by rw [hl]; simp)
    exact hd _ this rfl
  cases a with
  | ofNat m =>
    cases b with
    | ofNat n =>
      have h2 := congrArg String.data h
      simp only [formatTime, List.asString] at h2
      rw [toDigits_inj h2]
    | negSucc n =>
      have h2 := congrArg String.data h
      simp only [formatTime, List.asString, String.data_append] at h2
      exact absurd h2 (hhead m _)
  | negSucc m =>
    cases b with
    | ofNat n =>
      have h2 := congrArg String.data h
      simp only [formatTime, List.asString, String.data_append] at h2
      exact absurd h2.symm (hhead n _)
    | negSucc n =>
      have h2 := congrArg String.data h
      simp only [formatTime, List.asString, String.data_append] at h2
      have h3 : Nat.toDigits encode_base (m + 1) = Nat.toDigits encode_base (n + 1) := by
        simpa using h2
      have := toDigits_inj h3
      simp only [Int.negSucc_eq]
      omega

/-! ## Keys -/

theorem kvLocatorRoot_data (r : TimerStore) (d : Int) :
    (r.kvLocatorRoot d).data =
      r.keyBase.data ++ (':' :: 'r' :: 'o' :: 'o' :: 't' :: ':' :: (formatTime d).data) := by
  simp [TimerStore.kvLocatorRoot, String.data_append]

theorem kvLocatorAlarm_data (r : TimerStore) (d s : Int) :
    (r.kvLocatorAlarm d s).data =
      r.keyBase.data ++ (':' :: 'a' :: 'l' :: 'a' :: 'r' :: 'm' :: ':' ::
        ((formatTime d).data ++ ':' :: (formatTime s).data)) := by
  simp [TimerStore.kvLocatorAlarm, String.data_append]

theorem kvLocatorContext_data (H : Ripemd160) (r : TimerStore) (ref : String) :
    (r.kvLocatorContext H ref).data =
      r.keyBase.data ++ (':' :: 'c' :: 'o' :: 'n' :: 't' :: 'e' :: 'x' :: 't' :: ':' ::
        (contextHash (refBits H ref)).data) := by
  simp [TimerStore.kvLocatorContext, String.data_append]

theorem kvLocatorSpan_data (r : TimerStore) :
    r.kvLocatorSpan.data = r.keyBase.data ++ [':', 's', 'p', 'a', 'n'] := by
  simp [TimerStore.kvLocatorSpan, String.data_append]

theorem kvLocatorRoot_inj {r : TimerStore} {a b : Int}
    (h : r.kvLocatorRoot a = r.kvLocatorRoot b) : a = b := by
  have h2 := congrArg String.data h
  simp only [kvLocatorRoot_data, List.append_cancel_left_eq, List.cons.injEq, true_and] at h2
  exact formatTime_inj (String.ext h2)

theorem kvLocatorAlarm_inj {r : TimerStore} {a b s t : Int}
    (h : r.kvLocatorAlarm a s = r.kvLocatorAlarm b t) : a = b ∧ s = t := by
  have h2 := congrArg String.data h
  simp only [kvLocatorAlarm_data, List.append_cancel_left_eq, List.cons.injEq, true_and] at h2
  have h3 := (List.append_cons_inj_of_not_mem (colon_not_mem_formatTime a)
    (colon_not_mem_formatTime s)).1 h2
  exact ⟨formatTime_inj (String.ext h3.1), formatTime_inj (String.ext h3.2.2)⟩

theorem kvLocatorRoot_ne_alarm (r : TimerStore) (a b s : Int) :
    r.kvLocatorRoot a ≠ r.kvLocatorAlarm b s := by
  intro h
  have h2 := congrArg String.data h
  simp [kvLocatorRoot_data, kvLocatorAlarm_data] at h2

theorem kvLocatorRoot_ne_context (H : Ripemd160) (r : TimerStore) (a : Int) (ref : String) :
    r.kvLocatorRoot a ≠ r.kvLocatorContext H ref := by
  intro h
  have h2 := congrArg String.data h
  simp [kvLocatorRoot_data, kvLocatorContext_data] at h2

theorem kvLocatorAlarm_ne_context (H : Ripemd160) (r : TimerStore) (a s : Int) (ref : String) :
    r.kvLocatorAlarm a s ≠ r.kvLocatorContext H ref := by
  intro h
  have h2 := congrArg String.data h
  simp [kvLocatorAlarm_data, kvLocatorContext_data] at h2

/-! ## The facade without failures -/

theorem tick_nil {kv : KV} (h : kv.faults = []) : kv.tick = (false, kv) := by
  simp [KV.tick, h]

@[simp] theorem put_faults (kv : KV) (k : String) (v : Value) : (kv.put k v).faults = kv.faults := rfl

@[simp] theorem erase_faults (kv : KV) (k : String) : (kv.erase k).faults = kv.faults := rfl

@[simp] theorem put_casSeq (kv : KV) (k : String) (v : Value) :
    (kv.put k v).casSeq = kv.casSeq + 1 := rfl

@[simp] theorem erase_casSeq (kv : KV) (k : String) : (kv.erase k).casSeq = kv.casSeq := rfl

theorem put_store (kv : KV) (k : String) (v : Value) (k2 : String) :
    (kv.put k v).store k2 = if k2 = k then some { val := v, cas := kv.casSeq + 1 } else kv.store k2 :=
  rfl

theorem erase_store (kv : KV) (k k2 : String) :
    (kv.erase k).store k2 = if k2 = k then none else kv.store k2 := rfl

theorem MustGet_absent {α : Type} {kv : KV} (h : kv.faults = []) {key : String}
    (hs : kv.store key = none) (dec : Value → Option α) :
    MustGet kv key dec = ({ cas := 0, absent := true, err := none, out := none }, kv) := by
  simp [MustGet, tick_nil h, hs]

theorem MustGet_present {α : Type} {kv : KV} (h : kv.faults = []) {key : String} {d : Doc}
    (hs : kv.store key = some d) {dec : Value → Option α} {v : α} (hd : dec d.val = some v) :
    MustGet kv key dec = ({ cas := d.cas, absent := false, err := none, out := some v }, kv) := by
  simp [MustGet, tick_nil h, hs, hd]

theorem MustCounter_absent {kv : KV} (h : kv.faults = []) {key : String}
    (hs : kv.store key = none) (delta initial : Int) :
    MustCounter kv key delta initial =
      ({ value := initial, cas := kv.casSeq + 1, err := none }, kv.put key (.counter initial)) := by
  simp [MustCounter, tick_nil h, hs]

theorem MustCounter_present {kv : KV} (h : kv.faults = []) {key : String} {n : Int} {c : Cas}
    (hs : kv.store key = some { val := .counter n, cas := c }) (delta initial : Int) :
    MustCounter kv key delta initial =
      ({ value := wrap64 (n + delta), cas := kv.casSeq + 1, err := none },
        kv.put key (.counter (wrap64 (n + delta)))) := by
  simp [MustCounter, tick_nil h, hs]

theorem MustUpsert_ok {kv : KV} (h : kv.faults = []) (key : String) (val : Value) :
    MustUpsert kv key val =
      ({ cas := kv.casSeq + 1, absent := false, mismatch := false, err := none }, kv.put key val) := by
  simp [MustUpsert, tick_nil h]

theorem MustRemove_absent {kv : KV} (h : kv.faults = []) {key : String}
    (hs : kv.store key = none) (cas : Cas) :
    MustRemove kv key cas = ({ cas := 0, absent := true, mismatch := false, err := none }, kv) := by
  simp [MustRemove, tick_nil h, hs]

theorem MustRemove_mismatch {kv : KV} (h : kv.faults = []) {key : String} {d : Doc}
    (hs : kv.store key = some d) {cas : Cas} (h0 : cas ≠ 0) (hc : d.cas ≠ cas) :
    MustRemove kv key cas = ({ cas := 0, absent := false, mismatch := true, err := none }, kv) := by
  simp [MustRemove, tick_nil h, hs, h0, hc]

theorem MustRemove_ok {kv : KV} (h : kv.faults = []) {key : String} {d : Doc}
    (hs : kv.store key = some d) {cas : Cas} (hc : cas = 0 ∨ d.cas = cas) :
    MustRemove kv key cas =
      ({ cas := d.cas, absent := false, mismatch := false, err := none }, kv.erase key) := by
  have : ¬ (cas ≠ 0 ∧ d.cas ≠ cas) := by
    rcases hc with hc | hc <;> simp [hc]
  simp [MustRemove, tick_nil h, hs, this]

/-! ## Rows -/

/-- With no failure, `nextRow` steps over `k` buckets without a counter and
stops at the next one, whose counter it reads into the column cursor. -/
theorem nextRowLoop_found (st : TimerStore) (kv : KV) (hf : kv.faults = []) (v : Int) (cas : Cas) :
    ∀ (k fuel : Nat) (it : TimerIter) (col : colIter), k < fuel →
      isInt64 it.row.current → it.row.current + 7 * ((k : Int) + 1) ≤ it.row.stop →
      it.row.stop ≤ maxInt64 →
      (∀ j : Nat, 1 ≤ j → j ≤ k → kv.store (st.kvLocatorRoot (it.row.current + 7 * (j : Int))) = none) →
      kv.store (st.kvLocatorRoot (it.row.current + 7 * ((k : Int) + 1))) =
        some { val := .counter v, cas := cas } →
      TimerIter.nextRowLoop st fuel it col kv =
        some { out := true, err := none, kv := kv,
               it := { row := { start := it.row.start, stop := it.row.stop,
                                current := it.row.current + 7 * ((k : Int) + 1) },
                       col := some { stop := v, current := col.current, topCas := cas },
                       entry := it.entry } } := by
  intro k
  induction k with
  | zero =>
    intro fuel it col hfuel hcur hstop hmax _ hpres
    obtain ⟨fuel, rfl⟩ : ∃ f, fuel = f + 1 := ⟨fuel - 1, by omega⟩
    have hw : wrap64 (it.row.current + Resolution) = it.row.current + 7 := by
      apply wrap64_of_isInt64
      unfold isInt64 minInt64 maxInt64 Resolution at *
      omega
    have hlt : it.row.current < it.row.stop := by omega
    simp only [Nat.cast_zero, zero_add, mul_one] at hpres ⊢
    simp only [TimerIter.nextRowLoop, hlt, if_true, hw]
    rw [MustGet_present hf hpres (v := v) rfl]
    simp
  | succ k ih =>
    intro fuel it col hfuel hcur hstop hmax habs hpres
    obtain ⟨fuel, rfl⟩ : ∃ f, fuel = f + 1 := ⟨fuel - 1, by omega⟩
    have hw : wrap64 (it.row.current + Resolution) = it.row.current + 7 := by
      apply wrap64_of_isInt64
      unfold isInt64 minInt64 maxInt64 Resolution at *
      push_cast at hstop
      omega
    have hlt : it.row.current < it.row.stop := by push_cast at hstop; omega
    have h1 := habs 1 (by omega) (by omega)
    simp only [Nat.cast_one, mul_one] at h1
    simp only [TimerIter.nextRowLoop, hlt, if_true, hw]
    rw [MustGet_absent hf h1]
    simp only [Bool.not_true, Bool.false_eq_true, if_false]
    rw [ih fuel _ col (by omega)]
    · simp only [StepResult.mk.injEq, Option.some.injEq, TimerIter.mk.injEq, rowIter.mk.injEq, true_and, and_true]
      push_cast; ring
    · unfold isInt64 minInt64 maxInt64 at *
      push_cast at hstop
      try dsimp only
      omega
    · push_cast at hstop ⊢
      try dsimp only
      omega
    · exact hmax
    · intro j hj1 hjk
      have := habs (j + 1) (by omega) (by omega)
      rw [← this]; simp only; push_cast; congr 2; ring
    · rw [← hpres]; simp only; push_cast; congr 2; ring

/-- With no failure, `nextRow` finds nothing when none of the `k` buckets it
steps through before reaching `row.stop` has a counter. -/
theorem nextRowLoop_exhaust (st : TimerStore) (kv : KV) (hf : kv.faults = []) :
    ∀ (k fuel : Nat) (it : TimerIter) (col : colIter), k < fuel →
      isInt64 it.row.current → it.row.current + 7 * (k : Int) ≤ maxInt64 →
      it.row.stop ≤ it.row.current + 7 * (k : Int) →
      (∀ j : Nat, j < k → it.row.current + 7 * (j : Int) < it.row.stop) →
      (∀ j : Nat, 1 ≤ j → j ≤ k → kv.store (st.kvLocatorRoot (it.row.current + 7 * (j : Int))) = none) →
      TimerIter.nextRowLoop st fuel it col kv =
        some { out := false, err := none, kv := kv,
               it := { row := { start := it.row.start, stop := it.row.stop,
                                current := it.row.current + 7 * (k : Int) },
                       col := it.col, entry := it.entry } } := by
  intro k
  induction k with
  | zero =>
    intro fuel it col hfuel hcur hmax hstop _ _
    obtain ⟨fuel, rfl⟩ : ∃ f, fuel = f + 1 := ⟨fuel - 1, by omega⟩
    simp only [Nat.cast_zero, mul_zero, add_zero] at hstop ⊢
    have hlt : ¬ it.row.current < it.row.stop := by omega
    simp only [TimerIter.nextRowLoop, hlt, if_false]
  | succ k ih =>
    intro fuel it col hfuel hcur hmax hstop hbelow habs
    obtain ⟨fuel, rfl⟩ : ∃ f, fuel = f + 1 := ⟨fuel - 1, by omega⟩
    have hw : wrap64 (it.row.current + Resolution) = it.row.current + 7 := by
      apply wrap64_of_isInt64
      unfold isInt64 minInt64 maxInt64 Resolution at *
      push_cast at hmax
      omega
    have hlt : it.row.current < it.row.stop := by
      have := hbelow 0 (by omega)
      simpa using this
    have h1 := habs 1 (by omega) (by omega)
    simp only [Nat.cast_one, mul_one] at h1
    simp only [TimerIter.nextRowLoop, hlt, if_true, hw]
    rw [MustGet_absent hf h1]
    simp only [Bool.not_true, Bool.false_eq_true, if_false]
    rw [ih fuel _ col (by omega)]
    · simp only [StepResult.mk.injEq, Option.some.injEq, TimerIter.mk.injEq, rowIter.mk.injEq,
        true_and, and_true]
      push_cast; ring
    · unfold isInt64 minInt64 maxInt64 at *
      push_cast at hmax
      try dsimp only
      omega
    · push_cast at hmax ⊢
      try dsimp only
      omega
    · push_cast at hstop ⊢
      try dsimp only
      omega
    · intro j hj
      have := hbelow (j + 1) (by omega)
      push_cast at this ⊢
      try dsimp only
      omega
    · intro j hj1 hjk
      have := habs (j + 1) (by omega) (by omega)
      rw [← this]; simp only; push_cast; congr 2; ring

/-! ## Columns -/

/-- With no failure, `nextColumn` yields the alarm at the cursor when its
context record points back at it. -/
theorem nextColumnLoop_yield (st : TimerStore) {kv : KV} (hf : kv.faults = []) (fuel : Nat)
    (it : TimerIter) (col : colIter) {a : AlarmRecord} {p : Cas} {c : ContextRecord} {q : Cas}
    (hle : col.current ≤ col.stop)
    (ha : kv.store (st.kvLocatorAlarm it.row.current col.current) = some { val := .alarm a, cas := p })
    (hc : kv.store a.ContextRef = some { val := .context c, cas := q })
    (hback : c.AlarmRef = st.kvLocatorAlarm it.row.current col.current) :
    TimerIter.nextColumnLoop st (fuel + 1) it col kv =
      some { out := true, err := none, kv := kv,
             it := { row := it.row, col := some col.next,
                     entry := some { toAlarmRecord := a, toContextRecord := c,
                                     alarmSeq := col.current, ctxCas := q,
                                     topCas := if col.current = col.stop then col.topCas else 0 } } } := by
  simp only [TimerIter.nextColumnLoop, hle, if_true]
  rw [MustGet_present hf ha (v := a) rfl]
  simp only [Bool.false_eq_true, if_false, Option.getD_some]
  rw [MustGet_present hf hc (v := c) rfl]
  simp only [Option.getD_some, hback, Bool.false_or, bne_self_eq_false, Bool.false_eq_true,
    if_false, colIter.next]
  by_cases h : col.current = col.stop <;> simp [h]

/-- With no failure, `nextColumn` steps over a sequence number whose alarm is
missing, whose context is missing, or whose context points elsewhere. -/
theorem nextColumnLoop_skip (st : TimerStore) {kv : KV} (hf : kv.faults = []) (fuel : Nat)
    (it : TimerIter) (col : colIter) (hle : col.current ≤ col.stop)
    (h : kv.store (st.kvLocatorAlarm it.row.current col.current) = none ∨
      ∃ a ca, kv.store (st.kvLocatorAlarm it.row.current col.current) =
          some { val := .alarm a, cas := ca } ∧
        (kv.store a.ContextRef = none ∨
          ∃ c cc, kv.store a.ContextRef = some { val := .context c, cas := cc } ∧
            c.AlarmRef ≠ st.kvLocatorAlarm it.row.current col.current)) :
    TimerIter.nextColumnLoop st (fuel + 1) it col kv =
      TimerIter.nextColumnLoop st fuel { it with col := some col.next } col.next kv := by
  simp only [TimerIter.nextColumnLoop, hle, if_true]
  rcases h with h | ⟨a, ca, ha, h⟩
  · rw [MustGet_absent hf h]
    simp [colIter.next]
  · rw [MustGet_present hf ha (v := a) rfl]
    simp only [Bool.false_eq_true, if_false, Option.getD_some]
    rcases h with h | ⟨c, cc, hc, hne⟩
    · rw [MustGet_absent hf h]
      simp [colIter.next]
    · rw [MustGet_present hf hc (v := c) rfl]
      simp [colIter.next, hne]

/-- The column loop ends once the cursor is past `col.stop`. -/
theorem nextColumnLoop_done (st : TimerStore) (kv : KV) (fuel : Nat) (it : TimerIter)
    (col : colIter) (h : col.stop < col.current) :
    TimerIter.nextColumnLoop st (fuel + 1) it col kv =
      some { out := false, err := none, it := it, kv := kv } := by
  have : ¬ col.current ≤ col.stop := by omega
  simp [TimerIter.nextColumnLoop, this]

/-! ## Set and creation without failures -/

/-- A `Set` that meets no failure, into a bucket without a counter. -/
theorem Set_fresh (H : Ripemd160) (r : TimerStore) (now due : Int) (ref : String) (context : Json)
    (kv : KV) (hf : kv.faults = []) (hroot : kv.store (r.kvLocatorRoot (setDue now due)) = none) :
    r.Set H now due ref context kv =
      { err := none, store := r.expandSpan (setDue now due),
        kv := ((kv.put (r.kvLocatorRoot (setDue now due)) (.counter init_seq)).put
                (r.kvLocatorAlarm (setDue now due) init_seq)
                (.alarm { AlarmDue := setDue now due, ContextRef := r.kvLocatorContext H ref })).put
                (r.kvLocatorContext H ref)
                (.context { Context := context,
                            AlarmRef := r.kvLocatorAlarm (setDue now due) init_seq }) } := by
  unfold TimerStore.Set
  simp only [MustCounter_absent hf hroot]
  rw [MustUpsert_ok (by simpa using hf)]
  simp only
  rw [MustUpsert_ok (by simpa using hf)]

/-- A `Set` that meets no failure, into a bucket whose counter stands at `n`. -/
theorem Set_again (H : Ripemd160) (r : TimerStore) (now due : Int) (ref : String) (context : Json)
    (kv : KV) (hf : kv.faults = []) {n : Int} {c : Cas}
    (hroot : kv.store (r.kvLocatorRoot (setDue now due)) = some { val := .counter n, cas := c }) :
    r.Set H now due ref context kv =
      { err := none, store := r.expandSpan (setDue now due),
        kv := ((kv.put (r.kvLocatorRoot (setDue now due)) (.counter (wrap64 (n + 1)))).put
                (r.kvLocatorAlarm (setDue now due) (wrap64 (n + 1)))
                (.alarm { AlarmDue := setDue now due, ContextRef := r.kvLocatorContext H ref })).put
                (r.kvLocatorContext H ref)
                (.context { Context := context,
                            AlarmRef := r.kvLocatorAlarm (setDue now due) (wrap64 (n + 1)) }) } := by
  unfold TimerStore.Set
  simp only [MustCounter_present hf hroot]
  rw [MustUpsert_ok (by simpa using hf)]
  simp only
  rw [MustUpsert_ok (by simpa using hf)]

/-- Creation on a bucket without a span key and without failure: the span is
initialised around `now` and the bucket is left as it was. -/
theorem newTimerStore_fresh (pfx handler : String) (partn : Int) (connstr bucket : String)
    (now : Int) (kv : KV) (hf : kv.faults = [])
    (hspan : kv.store (blankStore pfx handler partn connstr bucket).kvLocatorSpan = none) :
    newTimerStore pfx handler partn connstr bucket now kv =
      { err := none, kv := kv,
        store := { blankStore pfx handler partn connstr bucket with
                   span := { Start := roundDown now, Stop := roundUp now, empty := false,
                             spanCas := 0 } } } := by
  show TimerStore.syncSpan (blankStore pfx handler partn connstr bucket) now kv = _
  unfold TimerStore.syncSpan
  simp only
  rw [MustGet_absent hf hspan]
  have h2 : kv.store ({ blankStore pfx handler partn connstr bucket with
      span := { Start := roundDown now, Stop := roundUp now, empty := false,
                spanCas := 0 } } : TimerStore).kvLocatorSpan = none := hspan
  have h3 : (blankStore pfx handler partn connstr bucket).span.empty = true := rfl
  simp only [h3, Bool.and_self, if_true, TimerStore.syncSpanReplace]
  simp [MustReplace, tick_nil hf, h2]

/-! ## The scan loop -/

theorem ScanNextLoop_yield (st : TimerStore) (inner fuel : Nat) (it : TimerIter) (kv : KV)
    {c : StepResult Bool} (hc : TimerIter.nextColumn st inner it kv = some c)
    (he : c.err = none) (ho : c.out = true) :
    TimerIter.ScanNextLoop st inner (fuel + 1) it kv =
      some { out := c.it.entry, err := none, it := c.it, kv := c.kv } := by
  simp [TimerIter.ScanNextLoop, hc, he, ho]

theorem ScanNextLoop_row (st : TimerStore) (inner fuel : Nat) (it : TimerIter) (kv : KV)
    {c r : StepResult Bool} (hc : TimerIter.nextColumn st inner it kv = some c)
    (he : c.err = none) (ho : c.out = false)
    (hr : TimerIter.nextRow st inner c.it c.kv = some r) (hre : r.err = none)
    (hro : r.out = true) :
    TimerIter.ScanNextLoop st inner (fuel + 1) it kv =
      TimerIter.ScanNextLoop st inner fuel r.it r.kv := by
  simp [TimerIter.ScanNextLoop, hc, he, ho, hr, hre, hro]

theorem ScanNextLoop_end (st : TimerStore) (inner fuel : Nat) (it : TimerIter) (kv : KV)
    {c r : StepResult Bool} (hc : TimerIter.nextColumn st inner it kv = some c)
    (he : c.err = none) (ho : c.out = false)
    (hr : TimerIter.nextRow st inner c.it c.kv = some r) (hre : r.err = none)
    (hro : r.out = false) :
    TimerIter.ScanNextLoop st inner (fuel + 1) it kv =
      some { out := none, err := none, it := r.it, kv := r.kv } := by
  simp [TimerIter.ScanNextLoop, hc, he, ho, hr, hre, hro]

/-! ## Keys of a store do not depend on its span -/

@[simp] theorem expandSpan_keyBase (r : TimerStore) (p : Int) :
    (r.expandSpan p).keyBase = r.keyBase := by
  unfold TimerStore.expandSpan TimerStore.keyBase
  simp only
  split_ifs <;> rfl

@[simp] theorem shrinkSpan_keyBase (r : TimerStore) (p : Int) :
    (r.shrinkSpan p).keyBase = r.keyBase := by
  unfold TimerStore.shrinkSpan TimerStore.keyBase
  split_ifs <;> rfl

@[simp] theorem expandSpan_kvLocatorRoot (r : TimerStore) (p d : Int) :
    (r.expandSpan p).kvLocatorRoot d = r.kvLocatorRoot d := by
  simp [TimerStore.kvLocatorRoot]

@[simp] theorem expandSpan_kvLocatorAlarm (r : TimerStore) (p d s : Int) :
    (r.expandSpan p).kvLocatorAlarm d s = r.kvLocatorAlarm d s := by
  simp [TimerStore.kvLocatorAlarm]

@[simp] theorem expandSpan_kvLocatorContext (H : Ripemd160) (r : TimerStore) (p : Int)
    (ref : String) : (r.expandSpan p).kvLocatorContext H ref = r.kvLocatorContext H ref := by
  simp [TimerStore.kvLocatorContext]

theorem expandSpan_span (r : TimerStore) (p : Int) :
    (r.expandSpan p).span =
      { Start := min r.span.Start p, Stop := max r.span.Stop p, empty := r.span.empty,
        spanCas := r.span.spanCas } := by
  unfold TimerStore.expandSpan
  simp only
  by_cases h1 : r.span.Start > p <;> by_cases h2 : r.span.Stop < p <;>
    simp only [h1, h2, if_true, if_false] <;>
    first
    | (have e1 : min r.span.Start p = p := by omega
       have e2 : max r.span.Stop p = p := by omega
       rw [e1, e2])
    | (have e1 : min r.span.Start p = p := by omega
       have e2 : max r.span.Stop p = r.span.Stop := by omega
       rw [e1, e2])
    | (have e1 : min r.span.Start p = r.span.Start := by omega
       have e2 : max r.span.Stop p = p := by omega
       rw [e1, e2])
    | (have e1 : min r.span.Start p = r.span.Start := by omega
       have e2 : max r.span.Stop p = r.span.Stop := by omega
       rw [e1, e2])

theorem setDue_far {now due : Int} (h0 : 0 ≤ now) (h1 : now + Resolution < due)
    (h2 : due ≤ maxInt64) : setDue now due = roundUp due := by
  unfold setDue
  have : wrap64 (due - now) = due - now :=
    wrap64_of_isInt64 (by unfold isInt64 minInt64 maxInt64 Resolution at *; omega)
  have h3 : ¬ (due - now ≤ Resolution) := by omega
  simp only [this, h3, if_false]

/-- The bucket after a first `Set` into an empty bucket: the counter, the alarm
and the context, and nothing else. -/
theorem store_after_first_set (H : Ripemd160) (r : TimerStore) (d : Int) (ref : String)
    (context : Json) (k : String) :
    (((KV.empty.put (r.kvLocatorRoot d) (.counter init_seq)).put (r.kvLocatorAlarm d init_seq)
        (.alarm { AlarmDue := d, ContextRef := r.kvLocatorContext H ref })).put
        (r.kvLocatorContext H ref)
        (.context { Context := context, AlarmRef := r.kvLocatorAlarm d init_seq })).store k =
      if k = r.kvLocatorContext H ref then
        some { val := .context { Context := context, AlarmRef := r.kvLocatorAlarm d init_seq },
               cas := 3 }
      else if k = r.kvLocatorAlarm d init_seq then
        some { val := .alarm { AlarmDue := d, ContextRef := r.kvLocatorContext H ref }, cas := 2 }
      else if k = r.kvLocatorRoot d then some { val := .counter init_seq, cas := 1 }
      else none := by
  simp [put_store, KV.empty]

/-! ## C1: round trip of `Set` and scan -/

/-- C1. Round trip of `Set` and scan: on a store created at time `created` on an
empty bucket, after `Set(due, ref, context)` at a time `now` with
`due > now + R`, none of which meets a KV failure, `ScanDue` at time `due + R`
returns an iterator and `ScanNext`, given enough fuel, yields an entry whose
`AlarmDue` is `roundUp(due)`, whose `ContextRef` is `kvLocatorContext(ref)` and
whose `Context` is the context passed to `Set`. -/
theorem Set_ScanNext_roundtrip (H : Ripemd160) (pfx handler : String) (partn : Int)
    (connstr bucket : String) (created now due : Int) (ref : String) (context : Json)
    (hcreated : 0 ≤ created) (hnow : created ≤ now) (hdue : now + Resolution < due)
    (hscan : due + Resolution ≤ maxInt64) :
    let c := newTimerStore pfx handler partn connstr bucket created KV.empty
    let s := c.store.Set H now due ref context c.kv
    c.err = none ∧ s.err = none ∧
    ∃ N, ∀ fuel, N ≤ fuel → ∃ e it kv,
      ScanNext s.store fuel (s.store.ScanDue (due + Resolution)).1 s.kv =
        some ((some e, none), some it, kv) ∧
      e.AlarmDue = roundUp due ∧ e.ContextRef = s.store.kvLocatorContext H ref ∧
      e.Context = context := by
  intro c s
  simp only [c, s]
  have hR : Resolution = 7 := rfl
  rw [hR] at hdue hscan
  have hmaxv : maxInt64 = 9223372036854775807 := rfl
  rw [newTimerStore_fresh pfx handler partn connstr bucket created KV.empty rfl rfl]
  simp only
  have hd : setDue now due = roundUp due :=
    setDue_far (by omega) (by rw [hR]; exact hdue) (by omega)
  obtain ⟨hu0, hu1, hu2, hu3⟩ := roundUp_spec (v := due)
    (by unfold isInt64 minInt64 maxInt64; omega)
  obtain ⟨hc0, hc1, hc2, hc3⟩ := roundDown_spec_nonneg hcreated (by omega)
  obtain ⟨hcu0, hcu1, hcu2, hcu3⟩ := roundUp_spec (v := created)
    (by unfold isInt64 minInt64 maxInt64; omega)
  obtain ⟨hs0, hs1, hs2, hs3⟩ := roundDown_spec_nonneg (v := due + 7) (by omega) (by omega)
  rw [Set_fresh H _ now due ref context KV.empty rfl rfl, hd]
  simp only
  refine ⟨trivial, trivial, ?_⟩
  generalize hst : ({ blankStore pfx handler partn connstr bucket with
      span := { Start := roundDown created, Stop := roundUp created, empty := false,
                spanCas := 0 } } : TimerStore) = st
  have hsp : st.span =
      { Start := roundDown created, Stop := roundUp created, empty := false, spanCas := 0 } := by
    rw [← hst]
  generalize hkv : ((KV.empty.put (st.kvLocatorRoot (roundUp due)) (.counter init_seq)).put
        (st.kvLocatorAlarm (roundUp due) init_seq)
        (.alarm { AlarmDue := roundUp due, ContextRef := st.kvLocatorContext H ref })).put
        (st.kvLocatorContext H ref)
        (.context { Context := context, AlarmRef := st.kvLocatorAlarm (roundUp due) init_seq }) = kv1
  have hstore := store_after_first_set H st (roundUp due) ref context
  rw [hkv] at hstore
  have hf : kv1.faults = [] := by rw [← hkv]; rfl
  -- the iterator
  have hiter : ((st.expandSpan (roundUp due)).ScanDue (due + 7)).1 =
      some { row := { start := roundDown created, stop := roundUp due,
                      current := roundDown created }, col := none, entry := none } := by
    unfold TimerStore.ScanDue TimerStore.readSpan
    rw [expandSpan_span, hsp]
    have e1 : min (roundDown created) (roundUp due) = roundDown created := by omega
    have e2 : max (roundUp created) (roundUp due) = roundUp due := by omega
    simp only [e1, e2]
    have hne : (roundDown created == roundUp due) = false := by
      rw [beq_eq_false_iff_ne]; omega
    simp only [hne, Bool.false_and, Bool.false_eq_true, if_false]
    by_cases hgt : roundDown (due + 7) > roundUp due
    · simp [hgt]
    · have : roundDown (due + 7) = roundUp due := by omega
      simp [hgt, this]
  rw [hR, hiter]
  -- the number of buckets to step over
  obtain ⟨k, hk⟩ : ∃ k : Nat, roundDown created + 7 * ((k : Int) + 1) = roundUp due :=
    ⟨((roundUp due - roundDown created) / 7 - 1).toNat, by omega⟩
  refine ⟨k + 2, fun fuel hfuel => ?_⟩
  obtain ⟨f, rfl⟩ : ∃ f, fuel = f + 2 := ⟨fuel - 2, by omega⟩
  -- first round: no column, then the row of the alarm
  have hcol0 : TimerIter.nextColumn (st.expandSpan (roundUp due)) (f + 2)
      { row := { start := roundDown created, stop := roundUp due, current := roundDown created },
        col := none, entry := none } kv1 =
      some { out := false, err := none, kv := kv1,
             it := { row := { start := roundDown created, stop := roundUp due,
                              current := roundDown created }, col := none, entry := none } } := rfl
  have hrow := nextRowLoop_found (st.expandSpan (roundUp due)) kv1 hf init_seq 1 k (f + 2)
    { row := { start := roundDown created, stop := roundUp due, current := roundDown created },
      col := none, entry := none } { current := init_seq, topCas := 0, stop := 0 } (by omega)
    (by simp only; unfold isInt64 minInt64 maxInt64; omega) (by simp only; omega)
    (by simp only; omega)
    (by
      intro j hj1 hjk
      rw [expandSpan_kvLocatorRoot]
      rw [hstore]
      have n1 := kvLocatorRoot_ne_context H st (roundDown created + 7 * (j : Int)) ref
      have n2 := kvLocatorRoot_ne_alarm st (roundDown created + 7 * (j : Int)) (roundUp due) init_seq
      have n3 : st.kvLocatorRoot (roundDown created + 7 * (j : Int)) ≠ st.kvLocatorRoot (roundUp due) := by
        intro h
        have := kvLocatorRoot_inj h
        have hjk2 : (j : Int) ≤ k := by exact_mod_cast hjk
        omega
      simp [n1, n2, n3])
    (by
      simp only [expandSpan_kvLocatorRoot, hk]
      rw [hstore]
      have n1 := kvLocatorRoot_ne_context H st (roundUp due) ref
      have n2 := kvLocatorRoot_ne_alarm st (roundUp due) (roundUp due) init_seq
      simp [n1, n2])
  simp only [hk] at hrow
  have hrow2 : TimerIter.nextRow (st.expandSpan (roundUp due)) (f + 2)
      { row := { start := roundDown created, stop := roundUp due, current := roundDown created },
        col := none, entry := none } kv1 = _ := hrow
  -- second round: the column yields the alarm
  have hcol1 := nextColumnLoop_yield (st.expandSpan (roundUp due)) hf (f + 1)
    { row := { start := roundDown created, stop := roundUp due, current := roundUp due },
      col := some { stop := init_seq, current := init_seq, topCas := 1 }, entry := none }
    { stop := init_seq, current := init_seq, topCas := 1 }
    (a := { AlarmDue := roundUp due, ContextRef := st.kvLocatorContext H ref }) (p := 2)
    (c := { Context := context, AlarmRef := st.kvLocatorAlarm (roundUp due) init_seq }) (q := 3)
    (le_refl _)
    (by
      simp only [expandSpan_kvLocatorAlarm]
      rw [hstore]
      have n1 := kvLocatorAlarm_ne_context H st (roundUp due) init_seq ref
      simp [n1])
    (by simp only; rw [hstore]; simp)
    (by simp)
  have hcol2 : TimerIter.nextColumn (st.expandSpan (roundUp due)) (f + 2)
      { row := { start := roundDown created, stop := roundUp due, current := roundUp due },
        col := some { stop := init_seq, current := init_seq, topCas := 1 }, entry := none } kv1 = _ :=
    hcol1
  simp only [ScanNext, TimerIter.ScanNext]
  rw [ScanNextLoop_row _ _ _ _ _ hcol0 rfl rfl hrow2 rfl rfl]
  rw [ScanNextLoop_yield _ _ _ _ _ hcol2 rfl rfl]
  simp

theorem Set_ScanNext_roundtrip_witness :
    (0 : Int) ≤ 990 ∧ (990 : Int) ≤ 990 ∧ (990 : Int) + Resolution < 1000 ∧
    (1000 : Int) + Resolution ≤ maxInt64 ∧
    (let c := newTimerStore "p" "h" 0 "c" "b" 990 KV.empty
     let s := c.store.Set demoDigest 990 1000 "r1" "x=1" c.kv
     c.err = none ∧ s.err = none ∧
     ∃ N, ∀ fuel, N ≤ fuel → ∃ e it kv,
       ScanNext s.store fuel (s.store.ScanDue (1000 + Resolution)).1 s.kv =
         some ((some e, none), some it, kv) ∧
       e.AlarmDue = roundUp 1000 ∧ e.ContextRef = s.store.kvLocatorContext demoDigest "r1" ∧
       e.Context = "x=1") :=
  ⟨by decide, by decide, by decide, by decide,
    Set_ScanNext_roundtrip demoDigest "p" "h" 0 "c" "b" 990 990 1000 "r1" "x=1"
      (by decide) (by decide) (by decide) (by decide)⟩

/-! ## One bucket with one alarm -/

theorem nextColumn_nil (st : TimerStore) (fuel : Nat) (row : rowIter) (e0 : Option TimerEntry)
    (kv : KV) :
    TimerIter.nextColumn st fuel { row := row, col := none, entry := e0 } kv =
      some { out := false, err := none, kv := kv,
             it := { row := row, col := none, entry := none } } := rfl

/-- A column holding the one sequence number `v` yields nothing when its alarm is
missing, or its context is missing or points elsewhere. -/
theorem nextColumn_single_skip (st : TimerStore) {kv : KV} (hf : kv.faults = []) (fuel : Nat)
    (row : rowIter) (v : Int) (tc : Cas) (e0 : Option TimerEntry)
    (hv0 : minInt64 ≤ v) (hv : v < maxInt64)
    (h : kv.store (st.kvLocatorAlarm row.current v) = none ∨
      ∃ a ca, kv.store (st.kvLocatorAlarm row.current v) = some { val := .alarm a, cas := ca } ∧
        (kv.store a.ContextRef = none ∨
          ∃ c cc, kv.store a.ContextRef = some { val := .context c, cas := cc } ∧
            c.AlarmRef ≠ st.kvLocatorAlarm row.current v)) :
    TimerIter.nextColumn st (fuel + 2)
        { row := row, col := some { stop := v, current := v, topCas := tc }, entry := e0 } kv =
      some { out := false, err := none, kv := kv,
             it := { row := row, col := some { stop := v, current := v + 1, topCas := tc },
                     entry := none } } := by
  have hw : wrap64 (v + 1) = v + 1 :=
    wrap64_of_isInt64 (by unfold isInt64 minInt64 maxInt64 at *; omega)
  show TimerIter.nextColumnLoop st (fuel + 2)
      { row := row, col := some { stop := v, current := v, topCas := tc }, entry := none }
      { stop := v, current := v, topCas := tc } kv = _
  rw [nextColumnLoop_skip st hf (fuel + 1) _ _ (le_refl _) h]
  rw [nextColumnLoop_done st kv fuel _ _ (by simp only [colIter.next, hw]; omega)]
  simp [colIter.next, hw]

/-- A column holding the one sequence number `v` yields its alarm when the
context record points back at it; the entry carries the CAS of the counter. -/
theorem nextColumn_single_yield (st : TimerStore) {kv : KV} (hf : kv.faults = []) (fuel : Nat)
    (row : rowIter) (v : Int) (tc : Cas) (e0 : Option TimerEntry)
    {a : AlarmRecord} {ca : Cas} {c : ContextRecord} {cc : Cas}
    (ha : kv.store (st.kvLocatorAlarm row.current v) = some { val := .alarm a, cas := ca })
    (hc : kv.store a.ContextRef = some { val := .context c, cas := cc })
    (hback : c.AlarmRef = st.kvLocatorAlarm row.current v) :
    TimerIter.nextColumn st (fuel + 1)
        { row := row, col := some { stop := v, current := v, topCas := tc }, entry := e0 } kv =
      some { out := true, err := none, kv := kv,
             it := { row := row, col := some { stop := v, current := wrap64 (v + 1), topCas := tc },
                     entry := some { toAlarmRecord := a, toContextRecord := c, alarmSeq := v,
                                     ctxCas := cc, topCas := tc } } } := by
  show TimerIter.nextColumnLoop st (fuel + 1)
      { row := row, col := some { stop := v, current := v, topCas := tc }, entry := none }
      { stop := v, current := v, topCas := tc } kv = _
  rw [nextColumnLoop_yield st hf fuel _ _ (le_refl _) ha hc hback]
  simp [colIter.next]

/-- A column whose cursor is past its last sequence number yields nothing. -/
theorem nextColumn_past (st : TimerStore) (kv : KV) (fuel : Nat) (row : rowIter) (col : colIter)
    (e0 : Option TimerEntry) (h : col.stop < col.current) :
    TimerIter.nextColumn st (fuel + 1) { row := row, col := some col, entry := e0 } kv =
      some { out := false, err := none, kv := kv,
             it := { row := row, col := some col, entry := none } } := by
  show TimerIter.nextColumnLoop st (fuel + 1) { row := row, col := some col, entry := none } col kv = _
  rw [nextColumnLoop_done st kv fuel _ _ h]

/-- The bucket after two `Set` calls with one reference into two empty buckets. -/
theorem store_after_second_set (H : Ripemd160) (r : TimerStore) (d1 d2 : Int) (ref : String)
    (c1 c2 : Json) (k : String) :
    ((((((KV.empty.put (r.kvLocatorRoot d1) (.counter init_seq)).put (r.kvLocatorAlarm d1 init_seq)
        (.alarm { AlarmDue := d1, ContextRef := r.kvLocatorContext H ref })).put
        (r.kvLocatorContext H ref)
        (.context { Context := c1, AlarmRef := r.kvLocatorAlarm d1 init_seq })).put
        (r.kvLocatorRoot d2) (.counter init_seq)).put (r.kvLocatorAlarm d2 init_seq)
        (.alarm { AlarmDue := d2, ContextRef := r.kvLocatorContext H ref })).put
        (r.kvLocatorContext H ref)
        (.context { Context := c2, AlarmRef := r.kvLocatorAlarm d2 init_seq })).store k =
      if k = r.kvLocatorContext H ref then
        some { val := .context { Context := c2, AlarmRef := r.kvLocatorAlarm d2 init_seq }, cas := 6 }
      else if k = r.kvLocatorAlarm d2 init_seq then
        some { val := .alarm { AlarmDue := d2, ContextRef := r.kvLocatorContext H ref }, cas := 5 }
      else if k = r.kvLocatorRoot d2 then some { val := .counter init_seq, cas := 4 }
      else if k = r.kvLocatorAlarm d1 init_seq then
        some { val := .alarm { AlarmDue := d1, ContextRef := r.kvLocatorContext H ref }, cas := 2 }
      else if k = r.kvLocatorRoot d1 then some { val := .counter init_seq, cas := 1 }
      else none := by
  simp only [put_store, put_casSeq, KV.empty]
  by_cases h1 : k = r.kvLocatorContext H ref
  · simp [h1]
  · by_cases h2 : k = r.kvLocatorAlarm d2 init_seq
    · simp [h1, h2]
    · by_cases h3 : k = r.kvLocatorRoot d2
      · simp [h1, h2, h3]
      · simp [h1, h2, h3]

/-- Without overflow in `due - now` and `now + R`, the due time `Set` stores is a
multiple of the resolution, at least one period after `now`, and in the 64-bit
range. -/
theorem setDue_facts {now due : Int} (hnow : isInt64 now) (hsum : now + Resolution ≤ maxInt64)
    (hdue : isInt64 due) (hdiff : isInt64 (due - now)) :
    setDue now due % 7 = 0 ∧ now + Resolution ≤ setDue now due ∧
    (-9223372036854775808 ≤ setDue now due ∧ setDue now due ≤ 9223372036854775807) := by
  have hR : Resolution = 7 := rfl
  unfold setDue
  rw [wrap64_of_isInt64 hdiff, hR]
  rw [hR] at hsum
  by_cases h : due - now ≤ 7
  · simp only [h, if_true]
    rw [wrap64_of_isInt64 (by unfold isInt64 minInt64 maxInt64 at *; omega)]
    have := roundUp_spec (v := now + 7) (by unfold isInt64 minInt64 maxInt64 at *; omega)
    unfold isInt64 minInt64 maxInt64 at this
    omega
  · simp only [h, if_false]
    have := roundUp_spec hdue
    unfold isInt64 minInt64 maxInt64 at this
    omega

/-- Without overflow, a later `Set` with a later due time stores a due time that
is not earlier. -/
theorem setDue_mono {now1 now2 t1 t2 : Int} (hnow1 : isInt64 now1) (hnow2 : isInt64 now2)
    (hsum1 : now1 + Resolution ≤ maxInt64) (hsum2 : now2 + Resolution ≤ maxInt64)
    (ht1 : isInt64 t1) (ht2 : isInt64 t2) (hdiff1 : isInt64 (t1 - now1))
    (hdiff2 : isInt64 (t2 - now2)) (hnow : now1 ≤ now2) (ht : t1 ≤ t2) :
    setDue now1 t1 ≤ setDue now2 t2 := by
  have hR : Resolution = 7 := rfl
  unfold setDue
  rw [wrap64_of_isInt64 hdiff1, wrap64_of_isInt64 hdiff2, hR]
  rw [hR] at hsum1 hsum2
  rw [wrap64_of_isInt64 (v := now1 + 7) (by unfold isInt64 minInt64 maxInt64 at *; omega),
    wrap64_of_isInt64 (v := now2 + 7) (by unfold isInt64 minInt64 maxInt64 at *; omega)]
  have a1 := roundUp_spec (v := now1 + 7) (by unfold isInt64 minInt64 maxInt64 at *; omega)
  have a2 := roundUp_spec (v := now2 + 7) (by unfold isInt64 minInt64 maxInt64 at *; omega)
  have b1 := roundUp_spec ht1
  have b2 := roundUp_spec ht2
  by_cases h1 : t1 - now1 ≤ 7 <;> by_cases h2 : t2 - now2 ≤ 7 <;>
    simp only [h1, h2, if_true, if_false] <;> omega

/-! ## C3: a second `Set` with the same reference supersedes the first -/

/-- C3. Overwrite supersedes: on a store created on an empty bucket, after
`Set(t1, ref, ctx1)` and `Set(t2, ref, ctx2)` with `t2 > t1` stored in different
buckets, with no KV failure and no overflow in the due times, a scan started at
any time before the second bucket is due ends without yielding an entry, so the
first alarm is not yielded; a scan started once the second bucket is due yields
exactly one entry, which carries `ctx2` and the key of the second alarm as
`AlarmRef`, and then ends. -/
theorem Set_overwrite_supersedes (H : Ripemd160) (pfx handler : String) (partn : Int)
    (connstr bucket : String) (created now1 now2 t1 t2 wall : Int) (ref : String)
    (ctx1 ctx2 : Json)
    (hcreated : 0 ≤ created) (hnow1 : created ≤ now1) (hnow2 : now1 ≤ now2)
    (hnowmax : now2 + Resolution ≤ maxInt64)
    (ht1 : isInt64 t1) (ht2 : isInt64 t2)
    (hdiff1 : isInt64 (t1 - now1)) (hdiff2 : isInt64 (t2 - now2))
    (hlt : t1 < t2) (hbuckets : setDue now1 t1 ≠ setDue now2 t2)
    (hwall0 : 0 ≤ wall) (hwall : wall ≤ maxInt64) :
    let c := newTimerStore pfx handler partn connstr bucket created KV.empty
    let s1 := c.store.Set H now1 t1 ref ctx1 c.kv
    let s2 := s1.store.Set H now2 t2 ref ctx2 s1.kv
    s1.err = none ∧ s2.err = none ∧
    (roundDown wall < setDue now2 t2 →
      ∃ N, ∀ fuel, N ≤ fuel → ∃ it kv,
        ScanNext s2.store fuel (s2.store.ScanDue wall).1 s2.kv = some ((none, none), it, kv)) ∧
    (setDue now2 t2 ≤ roundDown wall →
      ∃ N, ∀ fuel, N ≤ fuel → ∃ e it kv,
        ScanNext s2.store fuel (s2.store.ScanDue wall).1 s2.kv =
          some ((some e, none), some it, kv) ∧
        e.Context = ctx2 ∧ e.AlarmRef = s2.store.kvLocatorAlarm (setDue now2 t2) init_seq ∧
        e.ContextRef = s2.store.kvLocatorContext H ref ∧ e.AlarmDue = setDue now2 t2 ∧
        ∃ it2 kv2, ScanNext s2.store fuel (some it) kv = some ((none, none), it2, kv2)) := by
  intro c s1 s2
  simp only [c, s1, s2]
  have hR : Resolution = 7 := rfl
  rw [hR] at hnowmax
  have hmaxv : maxInt64 = 9223372036854775807 := rfl
  rw [newTimerStore_fresh pfx handler partn connstr bucket created KV.empty rfl rfl]
  simp only
  have hin1 : isInt64 now1 := by unfold isInt64 minInt64 maxInt64; omega
  have hin2 : isInt64 now2 := by unfold isInt64 minInt64 maxInt64; omega
  obtain ⟨hu0, hu1, hu3⟩ := setDue_facts hin1 (by rw [hR]; omega) ht1 hdiff1
  obtain ⟨hv0, hv1, hv3⟩ := setDue_facts hin2 (by rw [hR]; omega) ht2 hdiff2
  have hmono := setDue_mono hin1 hin2 (by rw [hR]; omega) (by rw [hR]; omega) ht1 ht2 hdiff1 hdiff2
    hnow2 (le_of_lt hlt)
  rw [hR] at hu1 hv1
  obtain ⟨hc0, hc1, hc2, hc3⟩ := roundDown_spec_nonneg hcreated (by omega)
  obtain ⟨hcu0, hcu1, hcu2, hcu3⟩ := roundUp_spec (v := created)
    (by unfold isInt64 minInt64 maxInt64; omega)
  obtain ⟨hw0, hw1, hw2, hw3⟩ := roundDown_spec_nonneg hwall0 hwall
  have hd12 : setDue now1 t1 < setDue now2 t2 := by omega
  generalize hst : ({ blankStore pfx handler partn connstr bucket with
      span := { Start := roundDown created, Stop := roundUp created, empty := false,
                spanCas := 0 } } : TimerStore) = st
  have hsp : st.span =
      { Start := roundDown created, Stop := roundUp created, empty := false, spanCas := 0 } := by
    rw [← hst]
  rw [Set_fresh H st now1 t1 ref ctx1 KV.empty rfl rfl]
  simp only
  have hroot2 : (((KV.empty.put (st.kvLocatorRoot (setDue now1 t1)) (.counter init_seq)).put
        (st.kvLocatorAlarm (setDue now1 t1) init_seq)
        (.alarm { AlarmDue := setDue now1 t1, ContextRef := st.kvLocatorContext H ref })).put
        (st.kvLocatorContext H ref)
        (.context { Context := ctx1, AlarmRef := st.kvLocatorAlarm (setDue now1 t1) init_seq })).store
        ((st.expandSpan (setDue now1 t1)).kvLocatorRoot (setDue now2 t2)) = none := by
    rw [store_after_first_set, expandSpan_kvLocatorRoot]
    have n1 := kvLocatorRoot_ne_context H st (setDue now2 t2) ref
    have n2 := kvLocatorRoot_ne_alarm st (setDue now2 t2) (setDue now1 t1) init_seq
    have n3 : st.kvLocatorRoot (setDue now2 t2) ≠ st.kvLocatorRoot (setDue now1 t1) :=
      fun h => hbuckets (kvLocatorRoot_inj h).symm
    simp [n1, n2, n3]
  rw [Set_fresh H _ now2 t2 ref ctx2 _ (by rfl) hroot2]
  simp only [expandSpan_kvLocatorRoot, expandSpan_kvLocatorAlarm, expandSpan_kvLocatorContext]
  refine ⟨trivial, trivial, ?_⟩
  generalize hkv : ((((((KV.empty.put (st.kvLocatorRoot (setDue now1 t1)) (.counter init_seq)).put
        (st.kvLocatorAlarm (setDue now1 t1) init_seq)
        (.alarm { AlarmDue := setDue now1 t1, ContextRef := st.kvLocatorContext H ref })).put
        (st.kvLocatorContext H ref)
        (.context { Context := ctx1, AlarmRef := st.kvLocatorAlarm (setDue now1 t1) init_seq })).put
        (st.kvLocatorRoot (setDue now2 t2)) (.counter init_seq)).put
        (st.kvLocatorAlarm (setDue now2 t2) init_seq)
        (.alarm { AlarmDue := setDue now2 t2, ContextRef := st.kvLocatorContext H ref })).put
        (st.kvLocatorContext H ref)
        (.context { Context := ctx2, AlarmRef := st.kvLocatorAlarm (setDue now2 t2) init_seq })) = kv2
  have hstore := store_after_second_set H st (setDue now1 t1) (setDue now2 t2) ref ctx1 ctx2
  rw [hkv] at hstore
  have hf : kv2.faults = [] := by rw [← hkv]; rfl
  generalize hst2 : (st.expandSpan (setDue now1 t1)).expandSpan (setDue now2 t2) = st2
  have hroot : ∀ d, st2.kvLocatorRoot d = st.kvLocatorRoot d := fun d => by
    rw [← hst2]; simp
  have halarm : ∀ d s, st2.kvLocatorAlarm d s = st.kvLocatorAlarm d s := fun d s => by
    rw [← hst2]; simp
  have hctx : st2.kvLocatorContext H ref = st.kvLocatorContext H ref := by
    rw [← hst2]; simp
  -- what the bucket holds
  have habsent : ∀ d, d ≠ setDue now1 t1 → d ≠ setDue now2 t2 → kv2.store (st2.kvLocatorRoot d) = none := by
    intro d h1 h2
    rw [hroot, hstore]
    have n1 := kvLocatorRoot_ne_context H st d ref
    have n2 := kvLocatorRoot_ne_alarm st d (setDue now2 t2) init_seq
    have n3 : st.kvLocatorRoot d ≠ st.kvLocatorRoot (setDue now2 t2) := fun h => h2 (kvLocatorRoot_inj h)
    have n4 := kvLocatorRoot_ne_alarm st d (setDue now1 t1) init_seq
    have n5 : st.kvLocatorRoot d ≠ st.kvLocatorRoot (setDue now1 t1) := fun h => h1 (kvLocatorRoot_inj h)
    simp [n1, n2, n3, n4, n5]
  have hr1 : kv2.store (st2.kvLocatorRoot (setDue now1 t1)) = some { val := .counter init_seq, cas := 1 } := by
    rw [hroot, hstore]
    have n1 := kvLocatorRoot_ne_context H st (setDue now1 t1) ref
    have n2 := kvLocatorRoot_ne_alarm st (setDue now1 t1) (setDue now2 t2) init_seq
    have n3 : st.kvLocatorRoot (setDue now1 t1) ≠ st.kvLocatorRoot (setDue now2 t2) :=
      fun h => hbuckets (kvLocatorRoot_inj h)
    have n4 := kvLocatorRoot_ne_alarm st (setDue now1 t1) (setDue now1 t1) init_seq
    simp [n1, n2, n3, n4]
  have hr2 : kv2.store (st2.kvLocatorRoot (setDue now2 t2)) = some { val := .counter init_seq, cas := 4 } := by
    rw [hroot, hstore]
    have n1 := kvLocatorRoot_ne_context H st (setDue now2 t2) ref
    have n2 := kvLocatorRoot_ne_alarm st (setDue now2 t2) (setDue now2 t2) init_seq
    simp [n1, n2]
  have hne12 : st.kvLocatorAlarm (setDue now1 t1) init_seq ≠ st.kvLocatorAlarm (setDue now2 t2) init_seq :=
    fun h => hbuckets (kvLocatorAlarm_inj h).1
  have ha1 : kv2.store (st2.kvLocatorAlarm (setDue now1 t1) init_seq) =
      some { val := .alarm { AlarmDue := setDue now1 t1, ContextRef := st.kvLocatorContext H ref },
             cas := 2 } := by
    rw [halarm, hstore]
    have n1 := kvLocatorAlarm_ne_context H st (setDue now1 t1) init_seq ref
    have n3 := (kvLocatorRoot_ne_alarm st (setDue now2 t2) (setDue now1 t1) init_seq).symm
    simp [n1, hne12, n3]
  have ha2 : kv2.store (st2.kvLocatorAlarm (setDue now2 t2) init_seq) =
      some { val := .alarm { AlarmDue := setDue now2 t2, ContextRef := st.kvLocatorContext H ref },
             cas := 5 } := by
    rw [halarm, hstore]
    have n1 := kvLocatorAlarm_ne_context H st (setDue now2 t2) init_seq ref
    simp [n1]
  have hcx : kv2.store (st.kvLocatorContext H ref) =
      some { val := .context { Context := ctx2, AlarmRef := st.kvLocatorAlarm (setDue now2 t2) init_seq },
             cas := 6 } := by
    rw [hstore]; simp
  -- the span the scan reads
  have hspan2 : st2.readSpan = { Start := roundDown created, Stop := setDue now2 t2 } := by
    rw [← hst2]
    unfold TimerStore.readSpan
    rw [expandSpan_span, expandSpan_span, hsp]
    have e1 : min (min (roundDown created) (setDue now1 t1)) (setDue now2 t2) = roundDown created := by omega
    have e2 : max (max (roundUp created) (setDue now1 t1)) (setDue now2 t2) = setDue now2 t2 := by omega
    simp only [e1, e2]
  have hiter : (st2.ScanDue wall).1 =
      some { row := { start := roundDown created,
                      stop := if roundDown wall > setDue now2 t2 then setDue now2 t2 else roundDown wall,
                      current := roundDown created }, col := none, entry := none } := by
    unfold TimerStore.ScanDue
    rw [hspan2]
    have hne : (roundDown created == setDue now2 t2) = false := by
      rw [beq_eq_false_iff_ne]; omega
    simp only [hne, Bool.false_and, Bool.false_eq_true, if_false]
  rw [hiter]
  try simp only [halarm, hctx]
  -- the bucket of the first alarm yields nothing
  have hsuper : ∀ (fuel : Nat) (row : rowIter) (e0 : Option TimerEntry), row.current = setDue now1 t1 →
      TimerIter.nextColumn st2 (fuel + 2)
        { row := row, col := some { stop := init_seq, current := init_seq, topCas := 1 },
          entry := e0 } kv2 =
      some { out := false, err := none, kv := kv2,
             it := { row := row, col := some { stop := init_seq, current := init_seq + 1, topCas := 1 },
                     entry := none } } := by
    intro fuel row e0 hrow
    apply nextColumn_single_skip st2 hf fuel row init_seq 1 e0 (by decide) (by decide)
    right
    refine ⟨_, _, by rw [hrow]; exact ha1, Or.inr ⟨_, _, hcx, ?_⟩⟩
    rw [hrow, halarm]
    exact fun h => hne12 h.symm
  constructor
  · -- a scan before the second bucket is due
    intro hearly
    have hstop : (if roundDown wall > setDue now2 t2 then setDue now2 t2 else roundDown wall) =
        roundDown wall := by
      rw [if_neg (by omega)]
    rw [hstop]
    by_cases hreach : setDue now1 t1 ≤ roundDown wall
    · -- the first bucket is reached and skipped
      obtain ⟨k1, hk1⟩ : ∃ k : Nat, roundDown created + 7 * ((k : Int) + 1) = setDue now1 t1 :=
        ⟨((setDue now1 t1 - roundDown created) / 7 - 1).toNat, by omega⟩
      obtain ⟨k2, hk2⟩ : ∃ k : Nat, setDue now1 t1 + 7 * (k : Int) = roundDown wall :=
        ⟨((roundDown wall - setDue now1 t1) / 7).toNat, by omega⟩
      refine ⟨k1 + k2 + 3, fun fuel hfuel => ?_⟩
      obtain ⟨f, rfl⟩ : ∃ f, fuel = f + 3 := ⟨fuel - 3, by omega⟩
      have hrowA := nextRowLoop_found st2 kv2 hf init_seq 1 k1 (f + 3)
        { row := { start := roundDown created, stop := roundDown wall,
                   current := roundDown created }, col := none, entry := none }
        { current := init_seq, topCas := 0, stop := 0 } (by omega)
        (by simp only; unfold isInt64 minInt64 maxInt64; omega) (by simp only; omega)
        (by simp only; omega)
        (by
          intro j hj1 hjk
          have hjk2 : (j : Int) ≤ k1 := by exact_mod_cast hjk
          exact habsent _ (by simp only; omega) (by simp only; omega))
        (by simp only [hk1]; exact hr1)
      simp only [hk1] at hrowA
      have hrowA2 : TimerIter.nextRow st2 (f + 3)
          { row := { start := roundDown created, stop := roundDown wall,
                     current := roundDown created }, col := none, entry := none } kv2 = _ := hrowA
      have hcolA := hsuper (f + 1)
        { start := roundDown created, stop := roundDown wall, current := setDue now1 t1 } none rfl
      have hrowB := nextRowLoop_exhaust st2 kv2 hf k2 (f + 3)
        { row := { start := roundDown created, stop := roundDown wall, current := setDue now1 t1 },
          col := none, entry := none }
        { current := init_seq, topCas := 0, stop := 0 } (by omega)
        (by simp only; unfold isInt64 minInt64 maxInt64; omega) (by simp only; omega)
        (by simp only; omega)
        (by
          intro j hj
          have hj2 : (j : Int) < k2 := by exact_mod_cast hj
          simp only; omega)
        (by
          intro j hj1 hjk
          have hj2 : (1 : Int) ≤ j := by exact_mod_cast hj1
          have hjk2 : (j : Int) ≤ k2 := by exact_mod_cast hjk
          exact habsent _ (by simp only; omega) (by simp only; omega))
      have hrowB2 : TimerIter.nextRow st2 (f + 3)
          { row := { start := roundDown created, stop := roundDown wall, current := setDue now1 t1 },
            col := some { stop := init_seq, current := init_seq + 1, topCas := 1 },
            entry := none } kv2 = _ := hrowB
      simp only [ScanNext, TimerIter.ScanNext]
      rw [ScanNextLoop_row _ _ _ _ _ (nextColumn_nil st2 (f + 3) _ none kv2) rfl rfl hrowA2 rfl rfl]
      rw [ScanNextLoop_end _ _ _ _ _ hcolA rfl rfl hrowB2 rfl rfl]
      simp
    · -- the scan stops before the first bucket
      obtain ⟨k, hk⟩ : ∃ k : Nat, roundDown wall ≤ roundDown created + 7 * (k : Int) ∧
          ∀ j : Nat, j < k → roundDown created + 7 * (j : Int) < roundDown wall := by
        by_cases hle : roundDown wall ≤ roundDown created
        · exact ⟨0, by simpa using hle, fun j hj => by omega⟩
        · refine ⟨((roundDown wall - roundDown created) / 7).toNat, by omega, fun j hj => ?_⟩
          have hj2 : (j : Int) < (((roundDown wall - roundDown created) / 7).toNat : Int) := by
            exact_mod_cast hj
          omega
      have hk3 : roundDown created + 7 * (k : Int) < setDue now1 t1 := by
        rcases Nat.eq_zero_or_pos k with h0 | hpos
        · subst h0; simp; omega
        · have := hk.2 (k - 1) (by omega)
          have hc : ((k - 1 : Nat) : Int) = (k : Int) - 1 := by omega
          rw [hc] at this
          omega
      refine ⟨k + 3, fun fuel hfuel => ?_⟩
      obtain ⟨f, rfl⟩ : ∃ f, fuel = f + 3 := ⟨fuel - 3, by omega⟩
      have hrowB := nextRowLoop_exhaust st2 kv2 hf k (f + 3)
        { row := { start := roundDown created, stop := roundDown wall,
                   current := roundDown created }, col := none, entry := none }
        { current := init_seq, topCas := 0, stop := 0 } (by omega)
        (by simp only; unfold isInt64 minInt64 maxInt64; omega) (by simp only; omega)
        (by simp only; exact hk.1)
        (by intro j hj; simp only; exact hk.2 j hj)
        (by
          intro j hj1 hjk
          have hj2 : (1 : Int) ≤ j := by exact_mod_cast hj1
          have hjk2 : (j : Int) ≤ k := by exact_mod_cast hjk
          exact habsent _ (by simp only; omega) (by simp only; omega))
      have hrowB2 : TimerIter.nextRow st2 (f + 3)
          { row := { start := roundDown created, stop := roundDown wall,
                     current := roundDown created }, col := none, entry := none } kv2 = _ := hrowB
      simp only [ScanNext, TimerIter.ScanNext]
      rw [ScanNextLoop_end _ _ _ _ _ (nextColumn_nil st2 (f + 3) _ none kv2) rfl rfl hrowB2 rfl rfl]
      simp
  · -- a scan once the second bucket is due
    intro hlate
    have hstop : (if roundDown wall > setDue now2 t2 then setDue now2 t2 else roundDown wall) =
        setDue now2 t2 := by
      split_ifs <;> omega
    rw [hstop]
    obtain ⟨k1, hk1⟩ : ∃ k : Nat, roundDown created + 7 * ((k : Int) + 1) = setDue now1 t1 :=
      ⟨((setDue now1 t1 - roundDown created) / 7 - 1).toNat, by omega⟩
    obtain ⟨k2, hk2⟩ : ∃ k : Nat, setDue now1 t1 + 7 * ((k : Int) + 1) = setDue now2 t2 :=
      ⟨((setDue now2 t2 - setDue now1 t1) / 7 - 1).toNat, by omega⟩
    refine ⟨k1 + k2 + 3, fun fuel hfuel => ?_⟩
    obtain ⟨f, rfl⟩ : ∃ f, fuel = f + 3 := ⟨fuel - 3, by omega⟩
    have hrowA := nextRowLoop_found st2 kv2 hf init_seq 1 k1 (f + 3)
      { row := { start := roundDown created, stop := setDue now2 t2,
                 current := roundDown created }, col := none, entry := none }
      { current := init_seq, topCas := 0, stop := 0 } (by omega)
      (by simp only; unfold isInt64 minInt64 maxInt64; omega) (by simp only; omega)
      (by simp only; omega)
      (by
        intro j hj1 hjk
        have hjk2 : (j : Int) ≤ k1 := by exact_mod_cast hjk
        exact habsent _ (by simp only; omega) (by simp only; omega))
      (by simp only [hk1]; exact hr1)
    simp only [hk1] at hrowA
    have hrowA2 : TimerIter.nextRow st2 (f + 3)
        { row := { start := roundDown created, stop := setDue now2 t2,
                   current := roundDown created }, col := none, entry := none } kv2 = _ := hrowA
    have hcolA := hsuper (f + 1)
      { start := roundDown created, stop := setDue now2 t2, current := setDue now1 t1 } none rfl
    have hrowB := nextRowLoop_found st2 kv2 hf init_seq 4 k2 (f + 3)
      { row := { start := roundDown created, stop := setDue now2 t2, current := setDue now1 t1 },
        col := none, entry := none }
      { current := init_seq, topCas := 0, stop := 0 } (by omega)
      (by simp only; unfold isInt64 minInt64 maxInt64; omega) (by simp only; omega)
      (by simp only; omega)
      (by
        intro j hj1 hjk
        have hj2 : (1 : Int) ≤ j := by exact_mod_cast hj1
        have hjk2 : (j : Int) ≤ k2 := by exact_mod_cast hjk
        exact habsent _ (by simp only; omega) (by simp only; omega))
      (by simp only [hk2]; exact hr2)
    simp only [hk2] at hrowB
    have hrowB2 : TimerIter.nextRow st2 (f + 3)
        { row := { start := roundDown created, stop := setDue now2 t2, current := setDue now1 t1 },
          col := some { stop := init_seq, current := init_seq + 1, topCas := 1 },
          entry := none } kv2 = _ := hrowB
    have hcolB := nextColumn_single_yield st2 hf (f + 2)
      { start := roundDown created, stop := setDue now2 t2, current := setDue now2 t2 } init_seq 4 none
      ha2 hcx (by rw [halarm])
    have hcolC := nextColumn_past st2 kv2 (f + 2)
      { start := roundDown created, stop := setDue now2 t2, current := setDue now2 t2 }
      { stop := init_seq, current := wrap64 (init_seq + 1), topCas := 4 }
      (some { toAlarmRecord := { AlarmDue := setDue now2 t2, ContextRef := st.kvLocatorContext H ref },
              toContextRecord := { Context := ctx2,
                                   AlarmRef := st.kvLocatorAlarm (setDue now2 t2) init_seq },
              alarmSeq := init_seq, ctxCas := 6, topCas := 4 }) (by decide)
    have hrowC := nextRowLoop_exhaust st2 kv2 hf 0 (f + 3)
      { row := { start := roundDown created, stop := setDue now2 t2, current := setDue now2 t2 },
        col := none, entry := none }
      { current := init_seq, topCas := 0, stop := 0 } (by omega)
      (by simp only; unfold isInt64 minInt64 maxInt64; omega) (by simp only; omega)
      (by simp)
      (by intro j hj; omega)
      (by intro j hj1 hjk; omega)
    have hrowC2 : TimerIter.nextRow st2 (f + 3)
        { row := { start := roundDown created, stop := setDue now2 t2, current := setDue now2 t2 },
          col := some { stop := init_seq, current := wrap64 (init_seq + 1), topCas := 4 },
          entry := none } kv2 = _ := hrowC
    simp only [ScanNext, TimerIter.ScanNext]
    rw [ScanNextLoop_row _ _ _ _ _ (nextColumn_nil st2 (f + 3) _ none kv2) rfl rfl hrowA2 rfl rfl]
    rw [ScanNextLoop_row _ _ _ _ _ hcolA rfl rfl hrowB2 rfl rfl]
    rw [ScanNextLoop_yield _ _ _ _ _ hcolB rfl rfl]
    simp only [Option.map_some']
    refine ⟨_, _, _, rfl, rfl, rfl, rfl, rfl, ?_⟩
    rw [ScanNextLoop_end _ _ _ _ _ hcolC rfl rfl hrowC2 rfl rfl]
    simp

theorem Set_overwrite_supersedes_witness :
    (0 : Int) ≤ 990 ∧ (990 : Int) ≤ 990 ∧ (990 : Int) ≤ 991 ∧ (991 : Int) + Resolution ≤ maxInt64 ∧
    isInt64 1000 ∧ isInt64 2000 ∧ isInt64 (1000 - 990) ∧ isInt64 (2000 - 991) ∧
    (1000 : Int) < 2000 ∧ setDue 990 1000 ≠ setDue 991 2000 ∧
    (0 : Int) ≤ 2010 ∧ (2010 : Int) ≤ maxInt64 ∧
    (let c := newTimerStore "p" "h" 0 "c" "b" 990 KV.empty
     let s1 := c.store.Set demoDigest 990 1000 "r3" "A" c.kv
     let s2 := s1.store.Set demoDigest 991 2000 "r3" "B" s1.kv
     s1.err = none ∧ s2.err = none ∧
     (roundDown 2010 < setDue 991 2000 →
       ∃ N, ∀ fuel, N ≤ fuel → ∃ it kv,
         ScanNext s2.store fuel (s2.store.ScanDue 2010).1 s2.kv = some ((none, none), it, kv)) ∧
     (setDue 991 2000 ≤ roundDown 2010 →
       ∃ N, ∀ fuel, N ≤ fuel → ∃ e it kv,
         ScanNext s2.store fuel (s2.store.ScanDue 2010).1 s2.kv =
           some ((some e, none), some it, kv) ∧
         e.Context = "B" ∧ e.AlarmRef = s2.store.kvLocatorAlarm (setDue 991 2000) init_seq ∧
         e.ContextRef = s2.store.kvLocatorContext demoDigest "r3" ∧
         e.AlarmDue = setDue 991 2000 ∧
         ∃ it2 kv2, ScanNext s2.store fuel (some it) kv = some ((none, none), it2, kv2))) :=
  ⟨by decide, by decide, by decide, by decide, by decide, by decide, by decide, by decide,
    by decide, by decide, by decide, by decide,
    Set_overwrite_supersedes demoDigest "p" "h" 0 "c" "b" 990 990 991 1000 2000 2010 "r3" "A" "B"
      (by decide) (by decide) (by decide) (by decide) (by decide) (by decide) (by decide)
      (by decide) (by decide) (by decide) (by decide) (by decide)⟩

/-! ## What a read tells, whatever the failure schedule -/

theorem tick_store (kv : KV) : kv.tick.2.store = kv.store ∧ kv.tick.2.casSeq = kv.casSeq := by
  unfold KV.tick
  split <;> simp

theorem MustGet_frame {α : Type} (kv : KV) (key : String) (dec : Value → Option α) :
    (MustGet kv key dec).2.store = kv.store ∧ (MustGet kv key dec).2.casSeq = kv.casSeq := by
  unfold MustGet
  simp only
  split
  · exact tick_store kv
  · split
    · exact tick_store kv
    · split <;> exact tick_store kv

/-- A `MustGet` that reports neither an error nor absence has decoded the stored
document and returns its CAS. -/
theorem MustGet_found {α : Type} (kv : KV) (key : String) (dec : Value → Option α)
    (he : (MustGet kv key dec).1.err = none) (ha : (MustGet kv key dec).1.absent = false) :
    ∃ d v, kv.store key = some d ∧ dec d.val = some v ∧ (MustGet kv key dec).1.out = some v ∧
      (MustGet kv key dec).1.cas = d.cas := by
  unfold MustGet at he ha ⊢
  simp only at he ha ⊢
  by_cases ht : kv.tick.1 = true
  · simp [ht] at he
  · simp only [ht, if_false] at he ha ⊢
    rw [(tick_store kv).1] at he ha ⊢
    cases hs : kv.store key with
    | none => simp [hs] at ha
    | some d =>
      simp only [hs] at he ha ⊢
      cases hv : dec d.val with
      | none => simp [hv] at he
      | some v => exact ⟨d, v, rfl, hv, by simp [hv], by simp [hv]⟩

theorem Value.asAlarm_eq {v : Value} {a : AlarmRecord} (h : v.asAlarm = some a) : v = .alarm a := by
  cases v <;> simp [Value.asAlarm] at h
  rw [h]

theorem Value.asContext_eq {v : Value} {c : ContextRecord} (h : v.asContext = some c) :
    v = .context c := by
  cases v <;> simp [Value.asContext] at h
  rw [h]

/-- Whatever the failure schedule, `nextColumn` leaves the bucket content alone,
and an entry it yields is a stored alarm whose stored context points back at it:
`AlarmRef` is the alarm key of the row and the sequence number, and `ctxCas` is
the CAS of the stored context. -/
theorem nextColumnLoop_sound (st : TimerStore) :
    ∀ (fuel : Nat) (it : TimerIter) (col : colIter) (kv : KV) (res : StepResult Bool),
      TimerIter.nextColumnLoop st fuel it col kv = some res →
      res.kv.store = kv.store ∧ res.kv.casSeq = kv.casSeq ∧ res.it.row = it.row ∧
      (res.out = true → res.err = none ∧ ∃ e p, res.it.entry = some e ∧
        kv.store (st.kvLocatorAlarm it.row.current e.alarmSeq) =
          some { val := .alarm e.toAlarmRecord, cas := p } ∧
        kv.store e.ContextRef = some { val := .context e.toContextRecord, cas := e.ctxCas } ∧
        e.AlarmRef = st.kvLocatorAlarm it.row.current e.alarmSeq) := by
  intro fuel
  induction fuel with
  | zero => intro it col kv res h; simp [TimerIter.nextColumnLoop] at h
  | succ fuel ih =>
    intro it col kv res h
    unfold TimerIter.nextColumnLoop at h
    simp only at h
    split at h
    · -- the cursor is within the column
      have fa := MustGet_frame kv (st.kvLocatorAlarm it.row.current col.current) Value.asAlarm
      split at h
      · -- the alarm read failed
        simp only [Option.some.injEq] at h
        subst h
        exact ⟨fa.1, fa.2, rfl, by simp⟩
      · rename_i hea
        split at h
        · -- the alarm is absent
          obtain ⟨h1, h2, h3, h4⟩ := ih _ _ _ _ h
          exact ⟨h1.trans fa.1, h2.trans fa.2, h3, fun ho => by
            obtain ⟨e1, e, p, e2, e3, e4, e5⟩ := h4 ho
            rw [fa.1] at e3 e4
            exact ⟨e1, e, p, e2, e3, e4, e5⟩⟩
        · rename_i haa
          obtain ⟨da, a, hsa, hda, hoa, -⟩ := MustGet_found kv _ _ hea (by simpa using haa)
          rw [hoa] at h
          simp only [Option.getD_some] at h
          have fc := MustGet_frame (MustGet kv (st.kvLocatorAlarm it.row.current col.current)
            Value.asAlarm).2 a.ContextRef Value.asContext
          split at h
          · -- the context read failed
            simp only [Option.some.injEq] at h
            subst h
            exact ⟨fc.1.trans fa.1, fc.2.trans fa.2, rfl, by simp⟩
          · rename_i hec
            split at h
            · -- the context is absent or points elsewhere
              obtain ⟨h1, h2, h3, h4⟩ := ih _ _ _ _ h
              exact ⟨(h1.trans fc.1).trans fa.1, (h2.trans fc.2).trans fa.2, h3, fun ho => by
                obtain ⟨e1, e, p, e2, e3, e4, e5⟩ := h4 ho
                rw [fc.1, fa.1] at e3 e4
                exact ⟨e1, e, p, e2, e3, e4, e5⟩⟩
            · -- the entry is yielded
              rename_i hlive
              simp only [Bool.or_eq_true, not_or, Bool.not_eq_true] at hlive
              obtain ⟨dc, c, hsc, hdc, hoc, hcas⟩ := MustGet_found _ _ _ hec hlive.1
              rw [fa.1] at hsc
              have hback := hlive.2
              rw [hoc] at hback
              simp only [Option.getD_some, bne_eq_false_iff_eq] at hback
              have hva := Value.asAlarm_eq hda
              have hvc := Value.asContext_eq hdc
              rw [hoc, hcas] at h
              simp only [Option.getD_some] at h
              split at h <;>
              · simp only [Option.some.injEq] at h
                subst h
                refine ⟨fc.1.trans fa.1, fc.2.trans fa.2, rfl,
                  fun _ => ⟨rfl, _, da.cas, rfl, ?_, ?_, ?_⟩⟩
                · simp only; rw [hsa, ← hva]
                · simp only; rw [hsc, ← hvc]
                · exact hback
    · simp only [Option.some.injEq] at h
      subst h
      exact ⟨rfl, rfl, rfl, by simp⟩

theorem nextColumn_sound (st : TimerStore) (fuel : Nat) (it : TimerIter) (kv : KV)
    (res : StepResult Bool) (h : TimerIter.nextColumn st fuel it kv = some res) :
    res.kv.store = kv.store ∧ res.kv.casSeq = kv.casSeq ∧ res.it.row = it.row ∧
    (res.out = true → res.err = none ∧ ∃ e p, res.it.entry = some e ∧
      kv.store (st.kvLocatorAlarm it.row.current e.alarmSeq) =
        some { val := .alarm e.toAlarmRecord, cas := p } ∧
      kv.store e.ContextRef = some { val := .context e.toContextRecord, cas := e.ctxCas } ∧
      e.AlarmRef = st.kvLocatorAlarm it.row.current e.alarmSeq) := by
  unfold TimerIter.nextColumn at h
  simp only at h
  split at h
  · simp only [Option.some.injEq] at h
    subst h
    exact ⟨rfl, rfl, rfl, by simp⟩
  · have := nextColumnLoop_sound st fuel _ _ kv res h
    exact this

/-- The four outcomes of `MustRemove`, whatever the failure schedule: failure,
absence, CAS mismatch, each leaving the content alone, or removal of the key. -/
theorem MustRemove_cases (kv : KV) (key : String) (cas : Cas) :
    ((MustRemove kv key cas).1.err ≠ none ∧ (MustRemove kv key cas).1.absent = false ∧
      (MustRemove kv key cas).1.mismatch = false ∧ (MustRemove kv key cas).2.store = kv.store) ∨
    ((MustRemove kv key cas).1.err = none ∧ (MustRemove kv key cas).1.absent = true ∧
      (MustRemove kv key cas).1.mismatch = false ∧ kv.store key = none ∧
      (MustRemove kv key cas).2.store = kv.store) ∨
    ((MustRemove kv key cas).1.err = none ∧ (MustRemove kv key cas).1.absent = false ∧
      (MustRemove kv key cas).1.mismatch = true ∧
      (∃ d, kv.store key = some d ∧ cas ≠ 0 ∧ d.cas ≠ cas) ∧
      (MustRemove kv key cas).2.store = kv.store) ∨
    ((MustRemove kv key cas).1.err = none ∧ (MustRemove kv key cas).1.absent = false ∧
      (MustRemove kv key cas).1.mismatch = false ∧
      (∃ d, kv.store key = some d ∧ (cas = 0 ∨ d.cas = cas)) ∧
      (MustRemove kv key cas).2.store = fun k => if k = key then none else kv.store k) := by
  have hts := (tick_store kv).1
  unfold MustRemove
  simp only
  cases htk : kv.tick with
  | mk f kv2 =>
    rw [htk] at hts
    simp only at hts
    cases f with
    | true =>
      left
      simp [WriteResult.failed, hts]
    | false =>
      right
      simp only [Bool.false_eq_true, if_false, hts]
      cases hs : kv.store key with
      | none => left; simp [hts]
      | some d =>
        right
        simp only
        by_cases hc : cas ≠ 0 ∧ d.cas ≠ cas
        · left
          rw [if_pos hc]
          exact ⟨rfl, rfl, rfl, ⟨d, rfl, hc.1, hc.2⟩, hts⟩
        · right
          rw [if_neg hc]
          refine ⟨rfl, rfl, rfl, ⟨d, rfl, ?_⟩, ?_⟩
          · by_cases h0 : cas = 0
            · exact Or.inl h0
            · right
              by_contra hne
              exact hc ⟨h0, hne⟩
          · funext k
            simp [KV.erase, hts]

theorem MustRemove_casSeq (kv : KV) (key : String) (cas : Cas) :
    (MustRemove kv key cas).2.casSeq = kv.casSeq := by
  unfold MustRemove
  simp only
  split
  · exact (tick_store kv).2
  · split
    · exact (tick_store kv).2
    · split
      · exact (tick_store kv).2
      · exact (tick_store kv).2

/-- When the removal of the alarm does not fail and the conditional removal of
the context reports mismatch, `Delete` returns success and leaves the in-memory
store and every key but `entry.AlarmRef` as they were. -/
theorem Delete_of_mismatch (r : TimerStore) (entry : TimerEntry) (kv : KV)
    (halarm : (MustRemove kv entry.AlarmRef 0).1.err = none)
    (hmismatch : (MustRemove (MustRemove kv entry.AlarmRef 0).2 entry.ContextRef
      entry.ctxCas).1.mismatch = true) :
    (r.Delete entry kv).err = none ∧ (r.Delete entry kv).store = r ∧
    entry.ContextRef ≠ entry.AlarmRef ∧
    ∀ k, k ≠ entry.AlarmRef → (r.Delete entry kv).kv.store k = kv.store k := by
  have hc := MustRemove_cases (MustRemove kv entry.AlarmRef 0).2 entry.ContextRef entry.ctxCas
  rcases hc with ⟨-, -, hm, -⟩ | ⟨-, -, hm, -⟩ | ⟨he2, -, -, ⟨d2, hd2, -⟩, hs2⟩ | ⟨-, -, hm, -⟩
  · rw [hm] at hmismatch; simp at hmismatch
  · rw [hm] at hmismatch; simp at hmismatch
  · have hdel : r.Delete entry kv =
        { err := none, store := r,
          kv := (MustRemove (MustRemove kv entry.AlarmRef 0).2 entry.ContextRef entry.ctxCas).2 } := by
      unfold TimerStore.Delete
      simp only [halarm, he2, hmismatch, if_true]
    rw [hdel]
    simp only [hs2, true_and]
    have ha := MustRemove_cases kv entry.AlarmRef 0
    rw [halarm] at ha
    rcases ha with ⟨h, -⟩ | ⟨-, -, -, hab, hs1⟩ | ⟨-, -, -, ⟨d1, -, hd1, -⟩, hs1⟩ | ⟨-, -, -, -, hs1⟩
    · exact absurd rfl h
    · rw [hs1] at hd2 ⊢
      refine ⟨fun h => ?_, fun _ _ => rfl⟩
      rw [h, hab] at hd2
      simp at hd2
    · rw [hs1] at hd2 ⊢
      exact absurd rfl hd1
    · rw [hs1] at hd2 ⊢
      have hne : entry.ContextRef ≠ entry.AlarmRef := by
        intro h
        rw [h] at hd2
        simp at hd2
      exact ⟨hne, fun k hk => by simp [hk]⟩
  · rw [hm] at hmismatch; simp at hmismatch

/-! ## C9: `Delete` after a context CAS mismatch -/

/-- C9. `Delete` after a context CAS mismatch: for every entry whose `AlarmRef`
is an alarm key of the store (as it is for every entry a scan yields, see
`nextColumn_sound`) and every KV state in which the unconditional removal of the
alarm does not fail and the conditional removal of `entry.ContextRef` with
`entry.ctxCas` reports mismatch, `Delete` returns success, the context record
stays as it was, no root counter key is modified and the in-memory store, so its
span, is unchanged, whatever `entry.topCas` is. -/
theorem Delete_context_mismatch (r : TimerStore) (entry : TimerEntry) (kv : KV) (due seq : Int)
    (hentry : entry.AlarmRef = r.kvLocatorAlarm due seq)
    (halarm : (MustRemove kv entry.AlarmRef 0).1.err = none)
    (hmismatch : (MustRemove (MustRemove kv entry.AlarmRef 0).2 entry.ContextRef
      entry.ctxCas).1.mismatch = true) :
    (r.Delete entry kv).err = none ∧
    (r.Delete entry kv).kv.store entry.ContextRef = kv.store entry.ContextRef ∧
    (∀ d, (r.Delete entry kv).kv.store (r.kvLocatorRoot d) = kv.store (r.kvLocatorRoot d)) ∧
    (r.Delete entry kv).store = r ∧ (r.Delete entry kv).store.span = r.span := by
  obtain ⟨h1, h2, h3, h4⟩ := Delete_of_mismatch r entry kv halarm hmismatch
  refine ⟨h1, h4 _ h3, fun d => h4 _ ?_, h2, by rw [h2]⟩
  rw [hentry]
  exact kvLocatorRoot_ne_alarm r d due seq

theorem Delete_context_mismatch_witness :
    demoEntry.AlarmRef = demoStore.kvLocatorAlarm 1001 128 ∧
    (MustRemove demoSet2.kv demoEntry.AlarmRef 0).1.err = none ∧
    (MustRemove (MustRemove demoSet2.kv demoEntry.AlarmRef 0).2 demoEntry.ContextRef
      demoEntry.ctxCas).1.mismatch = true ∧
    (demoStore.Delete demoEntry demoSet2.kv).err = none ∧
    (demoStore.Delete demoEntry demoSet2.kv).kv.store demoEntry.ContextRef =
      demoSet2.kv.store demoEntry.ContextRef ∧
    (∀ d, (demoStore.Delete demoEntry demoSet2.kv).kv.store (demoStore.kvLocatorRoot d) =
      demoSet2.kv.store (demoStore.kvLocatorRoot d)) ∧
    (demoStore.Delete demoEntry demoSet2.kv).store = demoStore ∧
    (demoStore.Delete demoEntry demoSet2.kv).store.span = demoStore.span :=
  ⟨by decide, by decide, by decide,
    Delete_context_mismatch demoStore demoEntry demoSet2.kv 1001 128 (by decide) (by decide)
      (by decide)⟩

/-! ## The CAS invariant of the bucket -/

theorem KV.wf_empty : KV.empty.wf := by
  intro k d h
  simp [KV.empty] at h

theorem KV.wf_put {kv : KV} (h : kv.wf) (key : String) (val : Value) : (kv.put key val).wf := by
  intro k d hk
  rw [put_store] at hk
  rw [put_casSeq]
  split at hk
  · simp only [Option.some.injEq] at hk
    rw [← hk]
    simp
  · have := h k d hk
    exact ⟨this.1, Nat.le_succ_of_le this.2⟩

theorem KV.wf_of_store {kv kv2 : KV} (h : kv.wf) (hs : kv2.store = kv.store)
    (hc : kv2.casSeq = kv.casSeq) : kv2.wf := by
  intro k d hk
  rw [hs] at hk
  rw [hc]
  exact h k d hk

theorem KV.wf_tick {kv : KV} (h : kv.wf) : kv.tick.2.wf :=
  KV.wf_of_store h (tick_store kv).1 (tick_store kv).2

theorem MustCounter_wf {kv : KV} (h : kv.wf) (key : String) (delta initial : Int) :
    (MustCounter kv key delta initial).2.wf := by
  unfold MustCounter
  simp only
  split
  · exact KV.wf_tick h
  · split
    · exact KV.wf_put (KV.wf_tick h) _ _
    · split
      · exact KV.wf_put (KV.wf_tick h) _ _
      · exact KV.wf_tick h

theorem MustUpsert_wf {kv : KV} (h : kv.wf) (key : String) (val : Value) :
    (MustUpsert kv key val).2.wf := by
  unfold MustUpsert
  simp only
  split
  · exact KV.wf_tick h
  · exact KV.wf_put (KV.wf_tick h) _ _

/-- The CAS invariant is kept by `Set`. -/
theorem Set_wf (H : Ripemd160) (r : TimerStore) (now due : Int) (ref : String) (context : Json)
    {kv : KV} (h : kv.wf) : (r.Set H now due ref context kv).kv.wf := by
  unfold TimerStore.Set
  simp only
  split
  · exact MustCounter_wf h _ _ _
  · split
    · exact MustUpsert_wf (MustCounter_wf h _ _ _) _ _
    · split
      · exact MustUpsert_wf (MustUpsert_wf (MustCounter_wf h _ _ _) _ _) _ _
      · exact MustUpsert_wf (MustUpsert_wf (MustCounter_wf h _ _ _) _ _) _ _

/-- Without overflow in `due - now` and `now + R`, the due time `Set` stores is
at least one period after `now`. -/
theorem setDue_ge {now due : Int} (hnow : isInt64 now) (hnowR : now + Resolution ≤ maxInt64)
    (hdue : isInt64 due) (hdiff : isInt64 (due - now)) : now + Resolution ≤ setDue now due := by
  unfold setDue
  rw [wrap64_of_isInt64 hdiff]
  have hR : Resolution = 7 := rfl
  rw [hR] at hnowR ⊢
  by_cases h : due - now ≤ 7
  · simp only [h, if_true]
    have hw : wrap64 (now + 7) = now + 7 :=
      wrap64_of_isInt64 (by unfold isInt64 minInt64 maxInt64 at *; omega)
    rw [hw]
    have := roundUp_spec (v := now + 7) (by unfold isInt64 minInt64 maxInt64 at *; omega)
    omega
  · simp only [h, if_false]
    have := roundUp_spec hdue
    omega

/-- A `Set` that meets no failure and succeeds has written the counter, the
alarm under the sequence number the counter gave, and the context. -/
theorem Set_ok (H : Ripemd160) (r : TimerStore) (now due : Int) (ref : String) (context : Json)
    (kv : KV) (hf : kv.faults = []) (hset : (r.Set H now due ref context kv).err = none) :
    ∃ seq, r.Set H now due ref context kv =
      { err := none, store := r.expandSpan (setDue now due),
        kv := ((kv.put (r.kvLocatorRoot (setDue now due)) (.counter seq)).put
                (r.kvLocatorAlarm (setDue now due) seq)
                (.alarm { AlarmDue := setDue now due, ContextRef := r.kvLocatorContext H ref })).put
                (r.kvLocatorContext H ref)
                (.context { Context := context,
                            AlarmRef := r.kvLocatorAlarm (setDue now due) seq }) } := by
  cases hroot : kv.store (r.kvLocatorRoot (setDue now due)) with
  | none => exact ⟨init_seq, Set_fresh H r now due ref context kv hf hroot⟩
  | some d =>
    obtain ⟨v, c⟩ := d
    cases v with
    | counter n => exact ⟨wrap64 (n + 1), Set_again H r now due ref context kv hf hroot⟩
    | alarm a =>
      exfalso
      unfold TimerStore.Set at hset
      simp [MustCounter, tick_nil hf, hroot] at hset
    | context a =>
      exfalso
      unfold TimerStore.Set at hset
      simp [MustCounter, tick_nil hf, hroot] at hset
    | span a =>
      exfalso
      unfold TimerStore.Set at hset
      simp [MustCounter, tick_nil hf, hroot] at hset

theorem MustRemove_nil {kv : KV} (h : kv.faults = []) (key : String) (cas : Cas) :
    (MustRemove kv key cas).1.err = none ∧ (MustRemove kv key cas).2.faults = [] := by
  unfold MustRemove
  simp only [tick_nil h, Bool.false_eq_true, if_false]
  split
  · exact ⟨rfl, h⟩
  · split
    · exact ⟨rfl, h⟩
    · exact ⟨rfl, h⟩

/-! ## C4: a `Set` between firing and `Delete` -/

/-- C4. Supersede between firing and `Delete`: let a scan yield `e` from a KV
state `kv0`, and let a `Set` with the same reference complete afterwards, at a
time `now` that is not before the bucket of `e`, on a state `kv1` reached from
`kv0` (no CAS token of `kv0` is issued again), with no KV failure and no overflow
in the due time. Then `Delete(e)` returns success, its conditional removal of the
context key reports a CAS mismatch, the in-memory store is unchanged, and the
alarm and context records that the `Set` wrote are in the bucket as written. -/
theorem Delete_after_supersede (H : Ripemd160) (st : TimerStore) (fuel : Nat) (it : TimerIter)
    (kv0 kv1 : KV) (e : TimerEntry) (now due : Int) (ref : String) (ctx : Json)
    (hwf : kv0.wf)
    (hscan : (TimerIter.nextColumn st fuel it kv0).map (fun s => (s.out, s.it.entry)) =
      some (true, some e))
    (hlater : kv0.casSeq ≤ kv1.casSeq) (hfaults : kv1.faults = [])
    (hrow : it.row.current ≤ now)
    (hnow : isInt64 now) (hnowR : now + Resolution ≤ maxInt64)
    (hdue : isInt64 due) (hdiff : isInt64 (due - now))
    (href : st.kvLocatorContext H ref = e.ContextRef)
    (hset : (st.Set H now due ref ctx kv1).err = none) :
    let s := st.Set H now due ref ctx kv1
    let d := s.store.Delete e s.kv
    d.err = none ∧
    (MustRemove (MustRemove s.kv e.AlarmRef 0).2 e.ContextRef e.ctxCas).1.mismatch = true ∧
    d.store = s.store ∧
    ∃ seq p q,
      s.kv.store (st.kvLocatorAlarm (setDue now due) seq) =
        some { val := .alarm { AlarmDue := setDue now due, ContextRef := e.ContextRef }, cas := p } ∧
      s.kv.store e.ContextRef =
        some { val := .context { Context := ctx,
                                 AlarmRef := st.kvLocatorAlarm (setDue now due) seq }, cas := q } ∧
      d.kv.store (st.kvLocatorAlarm (setDue now due) seq) =
        s.kv.store (st.kvLocatorAlarm (setDue now due) seq) ∧
      d.kv.store e.ContextRef = s.kv.store e.ContextRef := by
  intro s d
  -- what the scan read
  obtain ⟨res, hres, hpair⟩ : ∃ res, TimerIter.nextColumn st fuel it kv0 = some res ∧
      (res.out, res.it.entry) = (true, some e) := by
    cases hn : TimerIter.nextColumn st fuel it kv0 with
    | none => rw [hn] at hscan; simp at hscan
    | some res => rw [hn] at hscan; exact ⟨res, rfl, by simpa using hscan⟩
  simp only [Prod.mk.injEq] at hpair
  obtain ⟨-, -, -, hy⟩ := nextColumn_sound st fuel it kv0 res hres
  obtain ⟨-, e2, p0, he2, -, hctx0, hback⟩ := hy hpair.1
  rw [hpair.2] at he2
  simp only [Option.some.injEq] at he2
  subst he2
  have hcas := hwf _ _ hctx0
  have hcas1 : (0 : Nat) < e.ctxCas := hcas.1
  have hcas2 : (e.ctxCas : Nat) ≤ kv0.casSeq := hcas.2
  -- the bucket of the new alarm
  have hge := setDue_ge hnow hnowR hdue hdiff
  have hR : Resolution = 7 := rfl
  rw [hR] at hge
  -- the Set
  obtain ⟨seq, hs⟩ := Set_ok H st now due ref ctx kv1 hfaults hset
  have hskv : s.kv = ((kv1.put (st.kvLocatorRoot (setDue now due)) (.counter seq)).put
      (st.kvLocatorAlarm (setDue now due) seq)
      (.alarm { AlarmDue := setDue now due, ContextRef := st.kvLocatorContext H ref })).put
      (st.kvLocatorContext H ref)
      (.context { Context := ctx, AlarmRef := st.kvLocatorAlarm (setDue now due) seq }) := by
    show (st.Set H now due ref ctx kv1).kv = _
    rw [hs]
  have hsf : s.kv.faults = [] := by rw [hskv]; exact hfaults
  have hnea : st.kvLocatorAlarm (setDue now due) seq ≠ e.AlarmRef := by
    rw [hback]
    intro h
    have := (kvLocatorAlarm_inj h).1
    omega
  have hnec : e.ContextRef ≠ e.AlarmRef := by
    rw [hback, ← href]
    exact (kvLocatorAlarm_ne_context H st _ _ ref).symm
  have hnac : st.kvLocatorAlarm (setDue now due) seq ≠ st.kvLocatorContext H ref :=
    kvLocatorAlarm_ne_context H st _ _ ref
  have hsctx : s.kv.store e.ContextRef =
      some { val := .context { Context := ctx,
                               AlarmRef := st.kvLocatorAlarm (setDue now due) seq },
             cas := kv1.casSeq + 3 } := by
    rw [hskv, ← href]
    simp [put_store]
  have hsalarm : s.kv.store (st.kvLocatorAlarm (setDue now due) seq) =
      some { val := .alarm { AlarmDue := setDue now due, ContextRef := e.ContextRef },
             cas := kv1.casSeq + 2 } := by
    rw [hskv, ← href]
    simp [put_store, hnac]
  -- the two removals of Delete
  obtain ⟨ha1, ha2⟩ := MustRemove_nil hsf e.AlarmRef 0
  have hstore1 : (MustRemove s.kv e.AlarmRef 0).2.store e.ContextRef = s.kv.store e.ContextRef := by
    rcases MustRemove_cases s.kv e.AlarmRef 0 with ⟨-, -, -, h⟩ | ⟨-, -, -, -, h⟩ |
      ⟨-, -, -, -, h⟩ | ⟨-, -, -, -, h⟩
    · rw [h]
    · rw [h]
    · rw [h]
    · rw [h]; simp [hnec]
  have hmis : (MustRemove (MustRemove s.kv e.AlarmRef 0).2 e.ContextRef e.ctxCas).1.mismatch =
      true := by
    have hne0 : e.ctxCas ≠ 0 := Nat.pos_iff_ne_zero.1 hcas1
    have hne3 : kv1.casSeq + 3 ≠ e.ctxCas := fun h => by
      have h4 := hcas2
      rw [← h] at h4
      have h5 : kv1.casSeq + 3 ≤ kv0.casSeq := h4
      omega
    rw [MustRemove_mismatch ha2 (hstore1.trans hsctx) hne0 hne3]
  obtain ⟨h1, h2, -, h4⟩ := Delete_of_mismatch s.store e s.kv ha1 hmis
  exact ⟨h1, hmis, h2, seq, _, _, hsalarm, hsctx, h4 _ hnea, h4 _ hnec⟩

theorem Delete_after_supersede_witness :
    demoSet1.kv.wf ∧
    (TimerIter.nextColumn demoStore 5 demoIter demoSet1.kv).map (fun s => (s.out, s.it.entry)) =
      some (true, some demoEntry) ∧
    demoSet1.kv.casSeq ≤ demoSet1.kv.casSeq ∧ demoSet1.kv.faults = [] ∧
    demoIter.row.current ≤ 1012 ∧ isInt64 1012 ∧ (1012 : Int) + Resolution ≤ maxInt64 ∧
    isInt64 2000 ∧ isInt64 (2000 - 1012) ∧
    demoStore.kvLocatorContext demoDigest "r1" = demoEntry.ContextRef ∧
    (demoStore.Set demoDigest 1012 2000 "r1" "y=2" demoSet1.kv).err = none ∧
    (let s := demoStore.Set demoDigest 1012 2000 "r1" "y=2" demoSet1.kv
     let d := s.store.Delete demoEntry s.kv
     d.err = none ∧
     (MustRemove (MustRemove s.kv demoEntry.AlarmRef 0).2 demoEntry.ContextRef
        demoEntry.ctxCas).1.mismatch = true ∧
     d.store = s.store ∧
     ∃ seq p q,
       s.kv.store (demoStore.kvLocatorAlarm (setDue 1012 2000) seq) =
         some { val := .alarm { AlarmDue := setDue 1012 2000, ContextRef := demoEntry.ContextRef },
                cas := p } ∧
       s.kv.store demoEntry.ContextRef =
         some { val := .context { Context := "y=2",
                                  AlarmRef := demoStore.kvLocatorAlarm (setDue 1012 2000) seq },
                cas := q } ∧
       d.kv.store (demoStore.kvLocatorAlarm (setDue 1012 2000) seq) =
         s.kv.store (demoStore.kvLocatorAlarm (setDue 1012 2000) seq) ∧
       d.kv.store demoEntry.ContextRef = s.kv.store demoEntry.ContextRef) :=
  ⟨Set_wf demoDigest demoStore 990 1000 "r1" "x=1" KV.wf_empty, by decide, le_refl _, by decide,
    by decide, by decide, by decide, by decide, by decide, by decide, by decide,
    Delete_after_supersede demoDigest demoStore 5 demoIter demoSet1.kv demoSet1.kv demoEntry
      1012 2000 "r1" "y=2" (Set_wf demoDigest demoStore 990 1000 "r1" "x=1" KV.wf_empty)
      (by decide) (le_refl _) (by decide) (by decide) (by decide) (by decide) (by decide)
      (by decide) (by decide) (by decide)⟩

/-! ## The context hash -/

theorem At_le_one (b : BitString) (i : Nat) : b.At i ≤ 1 := by
  unfold BitString.At
  split
  · omega
  · exact Nat.and_le_right

theorem At_refBits (H : Ripemd160) (ref : String) (j : Nat) (h : j < 160) :
    (refBits H ref).At j = digestBit H ref j := by
  unfold BitString.At refBits digestBit
  have : ¬ j ≥ 160 := by omega
  simp only [this, if_false, Nat.and_one_is_mod, Nat.shiftRight_eq_div_pow]

theorem shift_or_bit (x b : Nat) (h : b ≤ 1) : (x <<< 1) ||| b = 2 * x + b := by
  rw [Nat.shiftLeft_eq, pow_one, Nat.mul_comm]
  have := Nat.mul_add_lt_is_or (i := 1) (b := b) (by omega) x
  rw [pow_one] at this
  exact this.symm

/-- The five bits the inner loop reads, most significant first. -/
theorem hashPos_eq (bits : BitString) (i : Nat) :
    hashPos bits i = 16 * bits.At i + 8 * bits.At (i + 1) + 4 * bits.At (i + 2) +
      2 * bits.At (i + 3) + bits.At (i + 4) := by
  have hr : List.range 5 = [0, 1, 2, 3, 4] := by decide
  unfold hashPos
  rw [hr]
  simp only [List.foldl_cons, List.foldl_nil, Nat.add_zero]
  rw [shift_or_bit _ _ (At_le_one _ _), shift_or_bit _ _ (At_le_one _ _),
    shift_or_bit _ _ (At_le_one _ _), shift_or_bit _ _ (At_le_one _ _),
    shift_or_bit _ _ (At_le_one _ _)]
  omega

theorem hashPos_lt (bits : BitString) (i : Nat) : hashPos bits i < 32 := by
  rw [hashPos_eq]
  have h0 := At_le_one bits i
  have h1 := At_le_one bits (i + 1)
  have h2 := At_le_one bits (i + 2)
  have h3 := At_le_one bits (i + 3)
  have h4 := At_le_one bits (i + 4)
  omega

theorem foldl_append_singleton_data (f : Nat → Char) (l : List Nat) (s : String) :
    (l.foldl (fun hash i => hash ++ String.singleton (f i)) s).data = s.data ++ l.map f := by
  induction l generalizing s with
  | nil => simp
  | cons a l ih =>
    simp only [List.foldl_cons, List.map_cons]
    rw [ih]
    simp [String.data_append, String.singleton]

theorem contextHash_data (bits : BitString) :
    (contextHash bits).data =
      (List.range' 0 32 5).map (fun i => dict.toList.getD (hashPos bits i) 'A') := by
  unfold contextHash
  rw [foldl_append_singleton_data (fun i => dict.toList.getD (hashPos bits i) 'A')]
  simp

theorem dict_length : dict.length = 64 := by decide

/-! ## C6: the alphabet of the context hash -/

/-- C6. Hash alphabet: the text of `kvLocatorContext(ref)` after `context:` is
the hash, which has exactly 32 characters, each a member of `dict`; its `i`-th
character is `dict[v]`, where `v < 32` is the big-endian value of bits
`5i..5i+4` of the digest of `ref`; `dict` has 64 symbols and both asserts of
`kvLocatorContext` hold; and two references with the same digest have the same
key. -/
theorem kvLocatorContext_hash_alphabet (H : Ripemd160) (r : TimerStore) (ref : String) :
    r.kvLocatorContext H ref = r.keyBase ++ ":context:" ++ contextHash (refBits H ref) ∧
    (contextHash (refBits H ref)).length = 32 ∧
    (∀ i, i < 32 →
      hashPos (refBits H ref) (5 * i) =
        16 * digestBit H ref (5 * i) + 8 * digestBit H ref (5 * i + 1) +
          4 * digestBit H ref (5 * i + 2) + 2 * digestBit H ref (5 * i + 3) +
          digestBit H ref (5 * i + 4) ∧
      hashPos (refBits H ref) (5 * i) < 32 ∧
      (contextHash (refBits H ref)).data[i]? = dict.data[hashPos (refBits H ref) (5 * i)]? ∧
      (dict.data[hashPos (refBits H ref) (5 * i)]?).isSome = true) ∧
    (∀ c ∈ (contextHash (refBits H ref)).data, c ∈ dict.data) ∧
    dict.length = 64 ∧ kvLocatorContextAsserts H ref = true ∧
    (∀ ref2, H.Sum ref2 = H.Sum ref → r.kvLocatorContext H ref2 = r.kvLocatorContext H ref) := by
  have hlen : dict.data.length = 64 := dict_length
  have hget : ∀ v, v < 32 → dict.toList.getD v 'A' ∈ dict.data ∧
      dict.data[v]? = some (dict.toList.getD v 'A') := by
    intro v hv
    have hv2 : v < dict.data.length := by omega
    have : dict.toList.getD v 'A' = dict.data[v] := by
      simp [String.toList, List.getD_eq_getElem?_getD, List.getElem?_eq_getElem hv2]
    rw [this]
    exact ⟨List.getElem_mem _, List.getElem?_eq_getElem hv2⟩
  refine ⟨rfl, ?_, ?_, ?_, dict_length, ?_, ?_⟩
  · show (contextHash (refBits H ref)).data.length = 32
    rw [contextHash_data]
    simp
  · intro i hi
    refine ⟨?_, hashPos_lt _ _, ?_, ?_⟩
    · rw [hashPos_eq, At_refBits H ref _ (by omega), At_refBits H ref _ (by omega),
        At_refBits H ref _ (by omega), At_refBits H ref _ (by omega),
        At_refBits H ref _ (by omega)]
    · rw [contextHash_data, List.getElem?_map, List.getElem?_range' 0 5 hi]
      simp only [Nat.zero_add, Option.map_some']
      exact ((hget _ (hashPos_lt _ _)).2).symm
    · rw [(hget _ (hashPos_lt _ _)).2]; rfl
  · intro c hc
    rw [contextHash_data] at hc
    obtain ⟨i, -, rfl⟩ := List.mem_map.1 hc
    exact (hget _ (hashPos_lt _ _)).1
  · unfold kvLocatorContextAsserts
    rw [dict_length]
    simp only [beq_self_eq_true, Bool.true_and, List.all_eq_true, Bool.and_eq_true,
      decide_eq_true_eq]
    intro i _
    exact ⟨Nat.zero_le _, by have := hashPos_lt (refBits H ref) i; omega⟩
  · intro ref2 h
    simp only [TimerStore.kvLocatorContext, refBits, h]

/-! ## The span under `Set` -/

theorem expandSpan_eq (r : TimerStore) (p : Int) :
    r.expandSpan p =
      { r with span := { r.span with Start := min r.span.Start p, Stop := max r.span.Stop p } } := by
  have h := expandSpan_span r p
  have h2 : ∀ r2 : TimerStore, r2.connstr = r.connstr → r2.bucket = r.bucket → r2.pfx = r.pfx →
      r2.handler = r.handler → r2.partn = r.partn → r2.log = r.log →
      r2.span = { r.span with Start := min r.span.Start p, Stop := max r.span.Stop p } →
      r2 = { r with span := { r.span with Start := min r.span.Start p,
                                          Stop := max r.span.Stop p } } := by
    intro r2 h1 h2 h3 h4 h5 h6 h7
    cases r2
    simp only at h1 h2 h3 h4 h5 h6 h7
    subst h1 h2 h3 h4 h5 h6 h7
    rfl
  apply h2 <;> first
    | exact h
    | (unfold TimerStore.expandSpan; (try dsimp only); split_ifs <;> rfl)

theorem expandSpan_bounds (r : TimerStore) (p : Int) :
    (r.expandSpan p).span.Start ≤ r.span.Start ∧ (r.expandSpan p).span.Start ≤ p ∧
    r.span.Stop ≤ (r.expandSpan p).span.Stop ∧ p ≤ (r.expandSpan p).span.Stop := by
  rw [expandSpan_span]
  exact ⟨min_le_left _ _, min_le_right _ _, le_max_left _ _, le_max_right _ _⟩

/-- The span is expanded by `Set` by the stored due time when it succeeds, and `Set` leaves
the in-memory store alone when it fails. -/
theorem Set_store (H : Ripemd160) (r : TimerStore) (now due : Int) (ref : String) (context : Json)
    (kv : KV) :
    (r.Set H now due ref context kv).store =
      if (r.Set H now due ref context kv).err = none then r.expandSpan (setDue now due) else r := by
  unfold TimerStore.Set
  dsimp only
  generalize MustCounter kv (r.kvLocatorRoot (setDue now due)) 1 init_seq = c
  cases hc : c.1.err with
  | some e => simp
  | none =>
    dsimp only
    generalize MustUpsert c.2 _ _ = ua
    cases hua : ua.1.err with
    | some e => simp
    | none =>
      dsimp only
      generalize MustUpsert ua.2 _ _ = uc
      cases huc : uc.1.err with
      | some e => simp
      | none => simp

theorem runSets_span (H : Ripemd160) (calls : List SetCall) :
    ∀ (r : TimerStore) (kv : KV),
      (runSets H r kv calls).store.span.Start ≤ r.span.Start ∧
      r.span.Stop ≤ (runSets H r kv calls).store.span.Stop ∧
      ∀ d ∈ (runSets H r kv calls).dues,
        (runSets H r kv calls).store.span.Start ≤ d ∧ d ≤ (runSets H r kv calls).store.span.Stop := by
  induction calls with
  | nil => intro r kv; simp [runSets]
  | cons c cs ih =>
    intro r kv
    have hs := Set_store H r c.now c.due c.ref c.context kv
    obtain ⟨b1, b2, b3, b4⟩ := expandSpan_bounds r (setDue c.now c.due)
    obtain ⟨i1, i2, i3⟩ := ih (r.Set H c.now c.due c.ref c.context kv).store
      (r.Set H c.now c.due c.ref c.context kv).kv
    simp only [runSets]
    by_cases he : (r.Set H c.now c.due c.ref c.context kv).err = none
    · simp only [he, if_true] at hs ⊢
      rw [hs] at i1 i2 i3 ⊢
      refine ⟨by omega, by omega, fun d hd => ?_⟩
      rcases List.mem_cons.1 hd with hd | hd
      · subst hd; omega
      · exact i3 d hd
    · simp only [he, if_false] at hs ⊢
      rw [hs] at i1 i2 i3 ⊢
      exact ⟨i1, i2, i3⟩

/-! ## C7: the span covers what `Set` stored -/

/-- C7. Span monotone stop: from every in-memory store and KV state, after every
finite sequence of `Set` calls, the span covers the rounded due time of every
call that succeeded, `Start ≤ d_i ≤ Stop`, so `Stop ≥ max d_i` and
`Start ≤ min d_i`; the span has only widened; and `expandSpan(p)` sets
`Start := min(Start, p)`, `Stop := max(Stop, p)` and changes nothing else. -/
theorem Set_span_covers_dues (H : Ripemd160) (r : TimerStore) (kv : KV) (calls : List SetCall) :
    (∀ d ∈ (runSets H r kv calls).dues,
      (runSets H r kv calls).store.span.Start ≤ d ∧ d ≤ (runSets H r kv calls).store.span.Stop) ∧
    (runSets H r kv calls).store.span.Start ≤ r.span.Start ∧
    r.span.Stop ≤ (runSets H r kv calls).store.span.Stop ∧
    ∀ (q : TimerStore) (p : Int), q.expandSpan p =
      { q with span := { q.span with Start := min q.span.Start p, Stop := max q.span.Stop p } } :=
  ⟨(runSets_span H calls r kv).2.2, (runSets_span H calls r kv).1, (runSets_span H calls r kv).2.1,
    expandSpan_eq⟩

/-! ## C8, C10, C2: runs in which the code departs from the claim -/

/-- C8, at an input where `due - now` leaves the 64-bit range: with
`now = 1700000000` and `due = -2^63` the difference wraps to a positive number,
so `Set` does not move the due time, and the alarm record is written with
`AlarmDue = -(2^63 - 1)`, which is neither `roundUp(now + R)` nor at least
`now + R`. -/
theorem Set_due_wraps_at_minInt64 :
    wrap64 (-9223372036854775808 - 1700000000) = 9223372035154775808 ∧
    setDue 1700000000 (-9223372036854775808) = -9223372036854775807 ∧
    setDue 1700000000 (-9223372036854775808) ≠ roundUp (1700000000 + Resolution) ∧
    ¬ (1700000000 + Resolution ≤ setDue 1700000000 (-9223372036854775808)) ∧
    (demoStore.Set demoDigest 1700000000 (-9223372036854775808) "r1" "x=1" KV.empty).err = none ∧
    (demoStore.Set demoDigest 1700000000 (-9223372036854775808) "r1" "x=1" KV.empty).kv.store
        (demoStore.kvLocatorAlarm (-9223372036854775807) 128) =
      some { val := .alarm { AlarmDue := -9223372036854775807,
                             ContextRef := demoStore.kvLocatorContext demoDigest "r1" },
             cas := 2 } := by
  decide

/-- C10, at an input where the counter removal reports mismatch: after
`demoSet1` a second `Set` lands in bucket 1001 once the scan has read its counter;
`Delete` of the first entry then removes the context, finds the CAS of the
counter changed, and still moves `span.Start` from 987 to 1001; the second alarm
is in the bucket, and `ScanDue` at time 2000 returns no iterator. -/
theorem Delete_shrinks_span_on_counter_mismatch :
    (demoSet1.store.Set demoDigest 991 1000 "r2" "z=3" demoSet1.kv).err = none ∧
    ((demoSet1.store.Set demoDigest 991 1000 "r2" "z=3" demoSet1.kv).store.Delete demoEntry
      (demoSet1.store.Set demoDigest 991 1000 "r2" "z=3" demoSet1.kv).kv).err = none ∧
    (MustRemove (MustRemove (demoSet1.store.Set demoDigest 991 1000 "r2" "z=3" demoSet1.kv).kv
        demoEntry.AlarmRef 0).2 demoEntry.ContextRef demoEntry.ctxCas).1.mismatch = false ∧
    (MustRemove (MustRemove (MustRemove
        (demoSet1.store.Set demoDigest 991 1000 "r2" "z=3" demoSet1.kv).kv
        demoEntry.AlarmRef 0).2 demoEntry.ContextRef demoEntry.ctxCas).2
        (demoStore.kvLocatorRoot demoEntry.AlarmDue) demoEntry.topCas).1.mismatch = true ∧
    (demoSet1.store.Set demoDigest 991 1000 "r2" "z=3" demoSet1.kv).store.span.Start = 987 ∧
    ((demoSet1.store.Set demoDigest 991 1000 "r2" "z=3" demoSet1.kv).store.Delete demoEntry
      (demoSet1.store.Set demoDigest 991 1000 "r2" "z=3" demoSet1.kv).kv).store.span =
      { Start := 1001, Stop := 1001, empty := false, spanCas := 0 } ∧
    ((demoSet1.store.Set demoDigest 991 1000 "r2" "z=3" demoSet1.kv).store.Delete demoEntry
      (demoSet1.store.Set demoDigest 991 1000 "r2" "z=3" demoSet1.kv).kv).kv.store
        (demoStore.kvLocatorAlarm 1001 129) =
      some { val := .alarm { AlarmDue := 1001,
                             ContextRef := demoStore.kvLocatorContext demoDigest "r2" },
             cas := 5 } ∧
    (((demoSet1.store.Set demoDigest 991 1000 "r2" "z=3" demoSet1.kv).store.Delete demoEntry
      (demoSet1.store.Set demoDigest 991 1000 "r2" "z=3" demoSet1.kv).kv).store.ScanDue 2000).1 =
      none := by
  decide

/-- C2, at an input where the first KV read of `Cancel` fails: after `demoSet1`,
`Cancel("r1")` whose `MustGet` meets a transient error returns no error and
removes nothing, and the scan at time 1010 yields the entry of `"r1"`. -/
theorem Cancel_returns_nil_on_failure :
    (demoSet1.store.Cancel demoDigest "r1" { demoSet1.kv with faults := [true] }).err = none ∧
    (demoSet1.store.Cancel demoDigest "r1" { demoSet1.kv with faults := [true] }).kv.faults = [] ∧
    (ScanNext demoSet1.store 5 (demoSet1.store.ScanDue 1010).1
        (demoSet1.store.Cancel demoDigest "r1" { demoSet1.kv with faults := [true] }).kv).map
        (fun x => x.1) = some (some demoEntry, none) := by
  decide

/-! ## Draining a bucket -/

@[simp] theorem shrinkSpan_kvLocatorRoot (r : TimerStore) (p d : Int) :
    (r.shrinkSpan p).kvLocatorRoot d = r.kvLocatorRoot d := by
  simp [TimerStore.kvLocatorRoot]

@[simp] theorem shrinkSpan_kvLocatorAlarm (r : TimerStore) (p d s : Int) :
    (r.shrinkSpan p).kvLocatorAlarm d s = r.kvLocatorAlarm d s := by
  simp [TimerStore.kvLocatorAlarm]

@[simp] theorem shrinkSpan_kvLocatorContext (H : Ripemd160) (r : TimerStore) (p : Int)
    (ref : String) : (r.shrinkSpan p).kvLocatorContext H ref = r.kvLocatorContext H ref := by
  simp [TimerStore.kvLocatorContext]

/-- The `Delete` of a live entry that does not carry the CAS of the counter removes
its alarm and its context and nothing else. -/
theorem Delete_inner (r : TimerStore) (e : TimerEntry) {kv : KV} (hf : kv.faults = [])
    {da dc : Doc} (ha : kv.store e.AlarmRef = some da) (hc : kv.store e.ContextRef = some dc)
    (hcas : e.ctxCas = 0 ∨ dc.cas = e.ctxCas) (hne : e.ContextRef ≠ e.AlarmRef)
    (htop : e.topCas = 0) :
    r.Delete e kv =
      { err := none, store := r, kv := (kv.erase e.AlarmRef).erase e.ContextRef } := by
  unfold TimerStore.Delete
  rw [MustRemove_ok hf ha (Or.inl rfl)]
  simp only
  have hc2 : (kv.erase e.AlarmRef).store e.ContextRef = some dc := by
    rw [erase_store]; simp [hne, hc]
  rw [MustRemove_ok (by simpa using hf) hc2 hcas]
  simp [htop]

/-- The `Delete` of a live entry that carries the CAS of the counter removes its
alarm, its context and the counter, and shrinks the span. -/
theorem Delete_last (r : TimerStore) (e : TimerEntry) {kv : KV} (hf : kv.faults = [])
    {da dc dr : Doc} (ha : kv.store e.AlarmRef = some da) (hc : kv.store e.ContextRef = some dc)
    (hr : kv.store (r.kvLocatorRoot e.AlarmDue) = some dr)
    (hcas : e.ctxCas = 0 ∨ dc.cas = e.ctxCas) (hne : e.ContextRef ≠ e.AlarmRef)
    (hra : r.kvLocatorRoot e.AlarmDue ≠ e.AlarmRef)
    (hrc : r.kvLocatorRoot e.AlarmDue ≠ e.ContextRef)
    (htop : e.topCas ≠ 0) (hrcas : dr.cas = e.topCas) :
    r.Delete e kv =
      { err := none, store := r.shrinkSpan e.AlarmDue,
        kv := ((kv.erase e.AlarmRef).erase e.ContextRef).erase (r.kvLocatorRoot e.AlarmDue) } := by
  unfold TimerStore.Delete
  rw [MustRemove_ok hf ha (Or.inl rfl)]
  simp only
  have hc2 : (kv.erase e.AlarmRef).store e.ContextRef = some dc := by
    rw [erase_store]; simp [hne, hc]
  rw [MustRemove_ok (by simpa using hf) hc2 hcas]
  have hr2 : ((kv.erase e.AlarmRef).erase e.ContextRef).store (r.kvLocatorRoot e.AlarmDue) =
      some dr := by
    rw [erase_store, erase_store]; simp [hra, hrc, hr]
  simp only [Bool.false_eq_true, if_false, beq_iff_eq, htop]
  rw [MustRemove_ok (by simpa using hf) hr2 (Or.inr hrcas)]

/-- Two keys that hold documents of different kinds are different keys. -/
theorem key_ne_of_val_ne {kv : KV} {k1 k2 : String} {d1 d2 : Doc} (h1 : kv.store k1 = some d1)
    (h2 : kv.store k2 = some d2) (hne : d1.val ≠ d2.val) : k1 ≠ k2 := by
  intro h
  rw [h, h2] at h1
  simp only [Option.some.injEq] at h1
  exact hne (by rw [h1])

/-- The host loop over the live sequence numbers `cur..v` of a bucket whose
counter stands at `v`: every entry is yielded and deleted, the last one takes the
counter with it, and what was absent stays absent. -/
theorem fireColumn_drain (r : TimerStore) (row : rowIter) (v : Int) (tc : Cas)
    (cref : Int → String) (cx : Int → Json) (ca cc : Int → Cas) (fuel : Nat)
    (hvmax : v < maxInt64) (htc : tc ≠ 0) :
    ∀ (m : Nat) (cur : Int) (e0 : Option TimerEntry) (kv : KV),
      cur + (m : Int) = v → init_seq ≤ cur → kv.faults = [] →
      kv.store (r.kvLocatorRoot row.current) = some { val := .counter v, cas := tc } →
      (∀ seq, cur ≤ seq → seq ≤ v →
        kv.store (r.kvLocatorAlarm row.current seq) =
          some { val := .alarm { AlarmDue := row.current, ContextRef := cref seq }, cas := ca seq } ∧
        kv.store (cref seq) =
          some { val := .context { Context := cx seq,
                                   AlarmRef := r.kvLocatorAlarm row.current seq },
                 cas := cc seq }) →
      ∃ e2 kv2,
        fireColumn (fuel + 1) (m + 1) r
            { row := row, col := some { stop := v, current := cur, topCas := tc }, entry := e0 } kv =
          some (r.shrinkSpan row.current,
            { row := row, col := some { stop := v, current := v + 1, topCas := tc }, entry := e2 },
            kv2) ∧
        kv2.faults = [] ∧ kv2.store (r.kvLocatorRoot row.current) = none ∧
        (∀ seq, cur ≤ seq → seq ≤ v →
          kv2.store (r.kvLocatorAlarm row.current seq) = none ∧ kv2.store (cref seq) = none) ∧
        ∀ k, kv.store k = none → kv2.store k = none := by
  intro m
  induction m with
  | zero =>
    intro cur e0 kv hcur hmin hf hroot hlive
    simp only [Nat.cast_zero, add_zero] at hcur
    subst hcur
    obtain ⟨hal, hcx⟩ := hlive cur (le_refl _) (le_refl _)
    have hw : wrap64 (cur + 1) = cur + 1 :=
      wrap64_of_isInt64 (by unfold isInt64 minInt64 maxInt64 init_seq at *; omega)
    have hnext : TimerIter.nextColumn r (fuel + 1)
        { row := row, col := some { stop := cur, current := cur, topCas := tc }, entry := e0 } kv =
        _ := nextColumn_single_yield r hf fuel row cur tc e0 hal hcx rfl
    have hne : cref cur ≠ r.kvLocatorAlarm row.current cur :=
      key_ne_of_val_ne hcx hal (by simp)
    have hra : r.kvLocatorRoot row.current ≠ r.kvLocatorAlarm row.current cur :=
      kvLocatorRoot_ne_alarm r _ _ _
    have hrc : r.kvLocatorRoot row.current ≠ cref cur :=
      key_ne_of_val_ne hroot hcx (by simp)
    have hdel := Delete_last r
      { toAlarmRecord := { AlarmDue := row.current, ContextRef := cref cur },
        toContextRecord := { Context := cx cur, AlarmRef := r.kvLocatorAlarm row.current cur },
        alarmSeq := cur, ctxCas := cc cur, topCas := tc } hf hal hcx hroot (Or.inr rfl) hne hra hrc
      htc rfl
    refine ⟨some { toAlarmRecord := { AlarmDue := row.current, ContextRef := cref cur },
                   toContextRecord := { Context := cx cur,
                                        AlarmRef := r.kvLocatorAlarm row.current cur },
                   alarmSeq := cur, ctxCas := cc cur, topCas := tc },
      ((kv.erase (r.kvLocatorAlarm row.current cur)).erase (cref cur)).erase
        (r.kvLocatorRoot row.current), ?_, hf, ?_, ?_, ?_⟩
    · simp only [fireColumn, hnext, hdel, hw]
      simp
    · simp [erase_store]
    · intro seq h1 h2
      have : seq = cur := by omega
      subst this
      simp [erase_store]
    · intro k hk
      simp [erase_store, hk]
  | succ m ih =>
    intro cur e0 kv hcur hmin hf hroot hlive
    push_cast at hcur
    obtain ⟨hal, hcx⟩ := hlive cur (le_refl _) (by omega)
    have hw : wrap64 (cur + 1) = cur + 1 :=
      wrap64_of_isInt64 (by unfold isInt64 minInt64 maxInt64 init_seq at *; omega)
    have hltv : cur ≠ v := by omega
    have hnext := nextColumnLoop_yield r hf fuel
      { row := row, col := some { stop := v, current := cur, topCas := tc }, entry := none }
      { stop := v, current := cur, topCas := tc } (by simp only; omega) hal hcx rfl
    simp only [hltv, if_false, colIter.next, hw] at hnext
    have hnext2 : TimerIter.nextColumn r (fuel + 1)
        { row := row, col := some { stop := v, current := cur, topCas := tc }, entry := e0 } kv =
        _ := hnext
    have hne : cref cur ≠ r.kvLocatorAlarm row.current cur :=
      key_ne_of_val_ne hcx hal (by simp)
    have hdel := Delete_inner r
      { toAlarmRecord := { AlarmDue := row.current, ContextRef := cref cur },
        toContextRecord := { Context := cx cur, AlarmRef := r.kvLocatorAlarm row.current cur },
        alarmSeq := cur, ctxCas := cc cur, topCas := 0 } hf hal hcx (Or.inr rfl) hne rfl
    simp only at hdel
    -- the bucket after this entry
    have hkeep : ∀ k d, kv.store k = some d → k ≠ r.kvLocatorAlarm row.current cur →
        k ≠ cref cur →
        ((kv.erase (r.kvLocatorAlarm row.current cur)).erase (cref cur)).store k = some d := by
      intro k d hk h1 h2
      simp [erase_store, h1, h2, hk]
    have hroot2 := hkeep _ _ hroot (kvLocatorRoot_ne_alarm r _ _ _)
      (key_ne_of_val_ne hroot hcx (by simp))
    have hlive2 : ∀ seq, cur + 1 ≤ seq → seq ≤ v →
        ((kv.erase (r.kvLocatorAlarm row.current cur)).erase (cref cur)).store
            (r.kvLocatorAlarm row.current seq) =
          some { val := .alarm { AlarmDue := row.current, ContextRef := cref seq }, cas := ca seq } ∧
        ((kv.erase (r.kvLocatorAlarm row.current cur)).erase (cref cur)).store (cref seq) =
          some { val := .context { Context := cx seq,
                                   AlarmRef := r.kvLocatorAlarm row.current seq },
                 cas := cc seq } := by
      intro seq h1 h2
      obtain ⟨hal2, hcx2⟩ := hlive seq (by omega) h2
      have hk : r.kvLocatorAlarm row.current seq ≠ r.kvLocatorAlarm row.current cur := by
        intro h
        have := (kvLocatorAlarm_inj h).2
        omega
      refine ⟨hkeep _ _ hal2 hk (key_ne_of_val_ne hal2 hcx (by simp)),
        hkeep _ _ hcx2 (key_ne_of_val_ne hcx2 hal (by simp)) (key_ne_of_val_ne hcx2 hcx ?_)⟩
      simp only [ne_eq, Value.context.injEq, ContextRecord.mk.injEq, not_and]
      exact fun _ => hk
    obtain ⟨e2, kv2, hrun, hf2, hr2, hgone, hstay⟩ := ih (cur + 1)
      (some { toAlarmRecord := { AlarmDue := row.current, ContextRef := cref cur },
              toContextRecord := { Context := cx cur,
                                   AlarmRef := r.kvLocatorAlarm row.current cur },
              alarmSeq := cur, ctxCas := cc cur, topCas := 0 })
      ((kv.erase (r.kvLocatorAlarm row.current cur)).erase (cref cur)) (by omega) (by omega)
      (by simpa using hf) hroot2 hlive2
    refine ⟨e2, kv2, ?_, hf2, hr2, ?_, ?_⟩
    · rw [← hrun]
      simp only [fireColumn, hnext2, hdel]
      simp
    · intro seq h1 h2
      by_cases hs : seq = cur
      · subst hs
        exact ⟨hstay _ (by simp [erase_store]), hstay _ (by simp [erase_store])⟩
      · exact hgone seq (by omega) h2
    · intro k hk
      exact hstay k (by simp [erase_store, hk])

/-! ## Further properties -/

/-- While `due - now` and `now + R` stay in the 64-bit range, `Set` stores
`roundUp(due)` when `due - now > R` and `roundUp(now + R)` otherwise: a multiple
of `R`, at least `now + R`, and the least multiple of `R` that is not below the
due time after the move; and a `Set` that succeeds without KV failure writes its
alarm record with that `AlarmDue`. -/
theorem setDue_in_range (H : Ripemd160) (r : TimerStore) (now due : Int) (ref : String)
    (context : Json) (kv : KV)
    (hnow : isInt64 now) (hdue : isInt64 due) (hdiff : isInt64 (due - now))
    (hsum : now + Resolution ≤ maxInt64) (hf : kv.faults = [])
    (hset : (r.Set H now due ref context kv).err = none) :
    setDue now due = (if due - now > Resolution then roundUp due else roundUp (now + Resolution)) ∧
    setDue now due % Resolution = 0 ∧ now + Resolution ≤ setDue now due ∧
    (∀ m : Int, m % Resolution = 0 →
      (if due - now > Resolution then due else now + Resolution) ≤ m → setDue now due ≤ m) ∧
    ∃ seq p, (r.Set H now due ref context kv).kv.store (r.kvLocatorAlarm (setDue now due) seq) =
      some { val := .alarm { AlarmDue := setDue now due, ContextRef := r.kvLocatorContext H ref },
             cas := p } := by
  have hge := setDue_ge hnow hsum hdue hdiff
  have hR : Resolution = 7 := rfl
  have heq : setDue now due =
      (if due - now > Resolution then roundUp due else roundUp (now + Resolution)) := by
    unfold setDue
    rw [wrap64_of_isInt64 hdiff]
    by_cases h : due - now ≤ Resolution
    · have h2 : ¬ due - now > Resolution := by omega
      simp only [h, h2, if_true, if_false]
      rw [wrap64_of_isInt64 (by unfold isInt64 minInt64 maxInt64 at *; rw [hR] at hsum ⊢; omega)]
    · have h2 : due - now > Resolution := by omega
      simp only [h, h2, if_true, if_false]
  refine ⟨heq, ?_, hge, ?_, ?_⟩
  · rw [heq, hR]
    split
    · exact (roundUp_spec hdue).1
    · exact (roundUp_spec (v := now + 7)
        (by unfold isInt64 minInt64 maxInt64 at *; rw [hR] at hsum; omega)).1
  · intro m hm hle
    rw [heq]
    rw [hR] at hm hle hsum ⊢
    split at hle
    · rename_i h
      simp only [h, if_true]
      have := roundUp_spec hdue
      omega
    · rename_i h
      simp only [h, if_false]
      have := roundUp_spec (v := now + 7) (by unfold isInt64 minInt64 maxInt64 at *; omega)
      omega
  · obtain ⟨seq, hs⟩ := Set_ok H r now due ref context kv hf hset
    refine ⟨seq, kv.casSeq + 2, ?_⟩
    rw [hs]
    have n1 := kvLocatorAlarm_ne_context H r (setDue now due) seq ref
    simp [put_store, n1]

theorem setDue_in_range_witness :
    isInt64 990 ∧ isInt64 1000 ∧ isInt64 (1000 - 990) ∧ (990 : Int) + Resolution ≤ maxInt64 ∧
    KV.empty.faults = [] ∧ (demoStore.Set demoDigest 990 1000 "r1" "x=1" KV.empty).err = none ∧
    setDue 990 1000 = 1001 :=
  ⟨by decide, by decide, by decide, by decide, by decide, by decide,
    (setDue_in_range demoDigest demoStore 990 1000 "r1" "x=1" KV.empty (by decide) (by decide)
      (by decide) (by decide) (by decide) (by decide)).1.trans (by decide)⟩

theorem MustGet_nil {α : Type} {kv : KV} (h : kv.faults = []) (key : String)
    (dec : Value → Option α) : (MustGet kv key dec).2 = kv := by
  unfold MustGet
  simp only [tick_nil h, Bool.false_eq_true, if_false]
  split
  · rfl
  · split <;> rfl

/-- A `Cancel` that meets no KV failure wins over the scan: afterwards no
`nextColumn` call on a bucket with the same content yields an entry whose
`ContextRef` is `kvLocatorContext(ref)`, whatever the iterator, the fuel and the
failures of the scan. -/
theorem Cancel_wins_without_failure (H : Ripemd160) (st : TimerStore) (ref : String) (kv : KV)
    (hf : kv.faults = []) :
    (st.Cancel H ref kv).err = none ∧
    ∀ (fuel : Nat) (it : TimerIter) (kv2 : KV) (res : StepResult Bool) (e : TimerEntry),
      kv2.store = (st.Cancel H ref kv).kv.store →
      TimerIter.nextColumn st fuel it kv2 = some res → res.out = true →
      res.it.entry = some e → e.ContextRef ≠ st.kvLocatorContext H ref := by
  have herr : (st.Cancel H ref kv).err = none := by
    unfold TimerStore.Cancel
    simp only
    split
    · rfl
    · split
      · rfl
      · split
        · rfl
        · split <;> rfl
  refine ⟨herr, ?_⟩
  intro fuel it kv2 res e hstore hnext hout hentry hctx
  obtain ⟨-, -, -, hy⟩ := nextColumn_sound st fuel it kv2 res hnext
  obtain ⟨-, e2, p, he2, hal, hcx, hback⟩ := hy hout
  rw [hentry] at he2
  simp only [Option.some.injEq] at he2
  subst he2
  rw [← hback] at hal
  rw [hstore] at hal hcx
  rw [hctx] at hcx
  -- the bucket after Cancel holds no context for `ref` that points at a stored alarm
  revert hal hcx
  unfold TimerStore.Cancel
  simp only
  cases hs : kv.store (st.kvLocatorContext H ref) with
  | none =>
    rw [MustGet_absent hf hs]
    simp only [if_true]
    intro _ hcx
    rw [hs] at hcx
    simp at hcx
  | some d =>
    obtain ⟨v, c⟩ := d
    cases v with
    | context c0 =>
      rw [MustGet_present hf hs (v := c0) rfl]
      simp only [Bool.false_eq_true, if_false, Option.getD_some]
      cases hs2 : kv.store c0.AlarmRef with
      | none =>
        rw [MustRemove_absent hf hs2]
        simp only [if_true]
        intro hal hcx
        rw [hs] at hcx
        simp only [Option.some.injEq, Doc.mk.injEq, Value.context.injEq] at hcx
        rw [← hcx.1] at hal
        try simp only at hal
        rw [hs2] at hal
        simp at hal
      | some d2 =>
        rw [MustRemove_ok hf hs2 (Or.inl rfl)]
        simp only [Bool.false_eq_true, if_false]
        intro _ hcx
        by_cases hsame : st.kvLocatorContext H ref = c0.AlarmRef
        · have h3 : (kv.erase c0.AlarmRef).store (st.kvLocatorContext H ref) = none := by
            rw [erase_store]; simp [hsame]
          rw [MustRemove_absent (by simpa using hf) h3] at hcx
          rw [h3] at hcx
          simp at hcx
        · have h3 : (kv.erase c0.AlarmRef).store (st.kvLocatorContext H ref) =
              some { val := .context c0, cas := c } := by
            rw [erase_store]; simp [hsame, hs]
          rw [MustRemove_ok (by simpa using hf) h3 (Or.inl rfl)] at hcx
          simp [erase_store] at hcx
    | counter n =>
      intro _ hcx
      have hk : (MustGet kv (st.kvLocatorContext H ref) Value.asContext).1.err =
          some Error.ErrDecode := by
        simp [MustGet, tick_nil hf, hs, Value.asContext]
      rw [hk, MustGet_nil hf] at hcx
      simp only at hcx
      rw [hs] at hcx
      simp at hcx
    | alarm n =>
      intro _ hcx
      have hk : (MustGet kv (st.kvLocatorContext H ref) Value.asContext).1.err =
          some Error.ErrDecode := by
        simp [MustGet, tick_nil hf, hs, Value.asContext]
      rw [hk, MustGet_nil hf] at hcx
      simp only at hcx
      rw [hs] at hcx
      simp at hcx
    | span n =>
      intro _ hcx
      have hk : (MustGet kv (st.kvLocatorContext H ref) Value.asContext).1.err =
          some Error.ErrDecode := by
        simp [MustGet, tick_nil hf, hs, Value.asContext]
      rw [hk, MustGet_nil hf] at hcx
      simp only at hcx
      rw [hs] at hcx
      simp at hcx

theorem Cancel_wins_without_failure_witness :
    demoSet1.kv.faults = [] ∧ (demoSet1.store.Cancel demoDigest "r1" demoSet1.kv).err = none ∧
    (ScanNext demoSet1.store 5 (demoSet1.store.ScanDue 1010).1
        (demoSet1.store.Cancel demoDigest "r1" demoSet1.kv).kv).map (fun x => x.1) =
      some (none, none) :=
  ⟨by decide, (Cancel_wins_without_failure demoDigest demoSet1.store "r1" demoSet1.kv
    (by decide)).1, by decide⟩

/-! ## C11: `Cancel` and a context whose alarm is gone -/

/-- C11, where the code departs from the claim: with no KV failure, when the
context record of `ref` is stored and the alarm key it references is absent,
`Cancel(ref)` returns nil at the `if absent` test after the removal of the alarm
(lines 225-228) and leaves the bucket as it was, so the context record of `ref`
is still stored after `Cancel` has returned. -/
theorem Cancel_leaves_context_when_alarm_absent (H : Ripemd160) (r : TimerStore) (ref : String)
    (kv : KV) (c : ContextRecord) (cas : Cas) (hf : kv.faults = [])
    (hc : kv.store (r.kvLocatorContext H ref) = some { val := .context c, cas := cas })
    (ha : kv.store c.AlarmRef = none) :
    (r.Cancel H ref kv).err = none ∧ (r.Cancel H ref kv).kv = kv ∧
    (r.Cancel H ref kv).kv.store (r.kvLocatorContext H ref) =
      some { val := .context c, cas := cas } := by
  have h : r.Cancel H ref kv = { err := none, store := r, kv := kv } := by
    unfold TimerStore.Cancel
    simp only
    rw [MustGet_present hf hc (v := c) rfl]
    simp only [Bool.false_eq_true, if_false, Option.getD_some]
    rw [MustRemove_absent hf ha]
    simp
  rw [h]
  exact ⟨rfl, rfl, hc⟩

theorem Cancel_leaves_context_when_alarm_absent_witness :
    (MustRemove demoSet1.kv (demoStore.kvLocatorAlarm 1001 128) 0).2.faults = [] ∧
    (MustRemove demoSet1.kv (demoStore.kvLocatorAlarm 1001 128) 0).2.store
        (demoSet1.store.kvLocatorContext demoDigest "r1") =
      some { val := .context { Context := "x=1", AlarmRef := demoStore.kvLocatorAlarm 1001 128 },
             cas := 3 } ∧
    (MustRemove demoSet1.kv (demoStore.kvLocatorAlarm 1001 128) 0).2.store
        (demoStore.kvLocatorAlarm 1001 128) = none ∧
    (demoSet1.store.Cancel demoDigest "r1"
        (MustRemove demoSet1.kv (demoStore.kvLocatorAlarm 1001 128) 0).2).kv.store
        (demoSet1.store.kvLocatorContext demoDigest "r1") =
      some { val := .context { Context := "x=1", AlarmRef := demoStore.kvLocatorAlarm 1001 128 },
             cas := 3 } :=
  ⟨by decide, by decide, by decide,
    (Cancel_leaves_context_when_alarm_absent demoDigest demoSet1.store "r1"
      (MustRemove demoSet1.kv (demoStore.kvLocatorAlarm 1001 128) 0).2
      { Context := "x=1", AlarmRef := demoStore.kvLocatorAlarm 1001 128 } 3
      (by decide) (by decide) (by decide)).2.2⟩

/-! ## C12: KV errors and the three operations -/

/-- C12, where the code departs from the claim: `Cancel` returns nil whatever
the bucket and the failure schedule, also when its first KV operation, the
`MustGet` of the context key, returns the transient error (lines 213-215). -/
theorem Cancel_hides_KV_error (H : Ripemd160) (r : TimerStore) (ref : String) (kv : KV)
    (fs : List Bool) :
    (MustGet { kv with faults := true :: fs } (r.kvLocatorContext H ref) Value.asContext).1.err =
      some Error.ErrRetryTimeout ∧
    (r.Cancel H ref { kv with faults := true :: fs }).err = none ∧
    (r.Cancel H ref kv).err = none := by
  refine ⟨by simp [MustGet, KV.tick], ?_, ?_⟩ <;>
  · unfold TimerStore.Cancel
    simp only
    split
    · rfl
    · split
      · rfl
      · split
        · rfl
        · split <;> rfl

/-! ## C13: the empty-span shortcut of `ScanDue` -/

/-- C13 as the code has it, with the wall clock rounded down first: while
`roundDown(now) - span.Stop` stays in the 64-bit range, `ScanDue` returns no
iterator exactly when `span.Start = span.Stop` and
`roundDown(now) - span.Stop > 3R`, which is `roundDown(now) > span.Stop + 3R`;
it never returns an error; otherwise it returns the iterator with
`row.start = row.current = span.Start`, `row.stop = min(roundDown(now), span.Stop)`,
no column cursor and no entry. `ScanNext` on the nil iterator returns no entry
and no error, and touches nothing. -/
theorem ScanDue_shortcut (r : TimerStore) (wall : Int)
    (h : isInt64 (roundDown wall - r.span.Stop)) :
    ((r.ScanDue wall).1 = none ↔
      r.span.Start = r.span.Stop ∧ roundDown wall - r.span.Stop > 3 * Resolution) ∧
    (roundDown wall - r.span.Stop > 3 * Resolution ↔
      roundDown wall > r.span.Stop + 3 * Resolution) ∧
    (r.ScanDue wall).2 = none ∧
    (¬ (r.span.Start = r.span.Stop ∧ roundDown wall - r.span.Stop > 3 * Resolution) →
      (r.ScanDue wall).1 =
        some { row := { start := r.span.Start, current := r.span.Start,
                        stop := min (roundDown wall) r.span.Stop },
               col := none, entry := none }) ∧
    ∀ (st : TimerStore) (fuel : Nat) (kv : KV),
      ScanNext st fuel none kv = some ((none, none), none, kv) := by
  have hw := wrap64_of_isInt64 h
  have hmin : (if roundDown wall > r.span.Stop then r.span.Stop else roundDown wall) =
      min (roundDown wall) r.span.Stop := by
    split_ifs with h1
    · rw [min_eq_right (by omega)]
    · rw [min_eq_left (by omega)]
  refine ⟨?_, by constructor <;> intro h1 <;> omega, ?_, ?_, fun _ _ _ => rfl⟩
  · unfold TimerStore.ScanDue TimerStore.readSpan
    simp only [hw]
    by_cases hc : r.span.Start = r.span.Stop ∧ roundDown wall - r.span.Stop > 3 * Resolution
    · simp [hc.1, hc.2]
    · have : ¬ ((r.span.Start == r.span.Stop && decide (roundDown wall - r.span.Stop > 3 * Resolution)) = true) := by
        simpa using hc
      simp only [this, if_false]
      simp [hc]
  · unfold TimerStore.ScanDue TimerStore.readSpan
    simp only
    split <;> rfl
  · intro hc
    unfold TimerStore.ScanDue TimerStore.readSpan
    simp only [hw]
    have : ¬ ((r.span.Start == r.span.Stop && decide (roundDown wall - r.span.Stop > 3 * Resolution)) = true) := by
      simpa using hc
    simp only [this, hmin, Bool.false_eq_true, if_false]

theorem ScanDue_shortcut_witness :
    isInt64 (roundDown 1010 - demoSet1.store.span.Stop) ∧
    (demoSet1.store.ScanDue 1010).1 =
      some { row := { start := 987, current := 987, stop := 1001 }, col := none, entry := none } :=
  ⟨by decide, ((ScanDue_shortcut demoSet1.store 1010 (by decide)).2.2.2.1 (by decide)).trans
    (by decide)⟩

/-- C13 as stated fails with the wall clock itself: for the span `{0, 0}` at
time 22, `now - stop = 22 > 3R = 21`, and `ScanDue` returns an iterator, since it
compares `roundDown(22) = 21`; and for the span `{0, 700}` at time 22 the
iterator has `row.stop = 21`, not `min(22, 700) = 22`. -/
theorem ScanDue_rounds_the_wall_clock :
    (22 : Int) - 0 > 3 * Resolution ∧
    (({ demoStore with span := { Start := 0, Stop := 0, empty := false, spanCas := 0 } } :
        TimerStore).ScanDue 22).1 =
      some { row := { start := 0, current := 0, stop := 0 }, col := none, entry := none } ∧
    (({ demoStore with span := { Start := 0, Stop := 700, empty := false, spanCas := 0 } } :
        TimerStore).ScanDue 22).1 =
      some { row := { start := 0, current := 0, stop := 21 }, col := none, entry := none } ∧
    (21 : Int) ≠ min 22 700 := by
  decide

/-! ## C15: the span invariant -/

theorem shrinkSpan_span (r : TimerStore) (p : Int) :
    (r.shrinkSpan p).span = { r.span with Start := max r.span.Start p } := by
  unfold TimerStore.shrinkSpan
  split_ifs with h
  · simp only
    rw [max_eq_right (by omega)]
  · rw [max_eq_left (by omega)]

theorem roundDown_le_roundUp {now : Int} (h : isInt64 now) : roundDown now ≤ roundUp now := by
  rw [roundDown_eq h, roundUp_eq h]
  split_ifs <;> omega

theorem Value.asSpan_eq {v : Value} {s : Span} (h : v.asSpan = some s) : v = .span s := by
  cases v <;> simp [Value.asSpan] at h
  rw [h]

/-- The `MustReplace` step of `syncSpan` changes at most `spanCas` in memory. -/
theorem syncSpanReplace_span (r : TimerStore) (rcas : Cas) (kv : KV) :
    (r.syncSpanReplace rcas kv).store.span.toSpan = r.span.toSpan ∧
    (r.syncSpanReplace rcas kv).store.span.empty = r.span.empty := by
  unfold TimerStore.syncSpanReplace
  simp only
  split
  · exact ⟨rfl, rfl⟩
  · split <;> exact ⟨rfl, rfl⟩

/-- The two `if`s of the merge branch of `syncSpan` (lines 433-438) take the
union of the in-memory span and the persisted one. -/
theorem syncSpan_merge_eq (r : TimerStore) (e : Span) :
    (if (if r.span.Start > e.Start then
            ({ r with span := { r.span with Start := e.Start } } : TimerStore) else r).span.Stop
          < e.Stop then
        ({ (if r.span.Start > e.Start then
              ({ r with span := { r.span with Start := e.Start } } : TimerStore) else r) with
            span := { (if r.span.Start > e.Start then
              ({ r with span := { r.span with Start := e.Start } } : TimerStore) else r).span with
              Stop := e.Stop } } : TimerStore)
      else (if r.span.Start > e.Start then
              ({ r with span := { r.span with Start := e.Start } } : TimerStore) else r)) =
      { r with span := { r.span with Start := min r.span.Start e.Start,
                                     Stop := max r.span.Stop e.Stop } } := by
  by_cases c1 : r.span.Start > e.Start <;> by_cases c2 : r.span.Stop < e.Stop
  · simp only [c1, c2, if_true]
    rw [min_eq_right (by omega), max_eq_right (by omega)]
  · simp only [c1, c2, if_true, if_false]
    rw [min_eq_right (by omega), max_eq_left (by omega)]
  · simp only [c1, c2, if_true, if_false]
    rw [min_eq_left (by omega), max_eq_right (by omega)]
  · simp only [c1, c2, if_false]
    rw [min_eq_left (by omega), max_eq_left (by omega)]

/-- Whatever the failure schedule, the in-memory span after `syncSpan` is the
span before, the span around `now`, the persisted span, or the union of the span
before and the persisted span. -/
theorem syncSpan_span_cases (r : TimerStore) (now : Int) (kv : KV) :
    (r.syncSpan now kv).store.span.toSpan = r.span.toSpan ∨
    (r.syncSpan now kv).store.span.toSpan = { Start := roundDown now, Stop := roundUp now } ∨
    ∃ d s, kv.store r.kvLocatorSpan = some d ∧ d.val = .span s ∧
      ((r.syncSpan now kv).store.span.toSpan = s ∨
        (r.syncSpan now kv).store.span.toSpan =
          { Start := min r.span.Start s.Start, Stop := max r.span.Stop s.Stop }) := by
  have hfound := MustGet_found kv r.kvLocatorSpan Value.asSpan
  unfold TimerStore.syncSpan
  simp only [syncSpan_merge_eq]
  generalize MustGet kv r.kvLocatorSpan Value.asSpan = g at hfound ⊢
  cases he : g.1.err with
  | some e => exact Or.inl rfl
  | none =>
    simp only
    cases hab : g.1.absent with
    | true =>
      cases hem : r.span.empty with
      | true =>
        simp only [Bool.and_self, if_true]
        exact Or.inr (Or.inl (syncSpanReplace_span _ _ _).1)
      | false =>
        simp only [Bool.and_false, Bool.false_eq_true, if_false, Bool.not_false, Bool.and_self,
          if_true]
        left
        split <;> rfl
    | false =>
      obtain ⟨d, s, hs, hd, ho, -⟩ := hfound he hab
      cases hem : r.span.empty with
      | true =>
        simp only [Bool.false_and, Bool.false_eq_true, if_false, Bool.not_false, Bool.and_self,
          if_true]
        refine Or.inr (Or.inr ⟨d, s, hs, Value.asSpan_eq hd, Or.inl ?_⟩)
        rw [(syncSpanReplace_span _ _ _).1, ho]
        rfl
      | false =>
        simp only [Bool.false_and, Bool.false_eq_true, if_false, Bool.not_false, Bool.and_false]
        by_cases h5 : (r.span.spanCas != g.1.cas) = true
        · rw [if_pos h5]
          refine Or.inr (Or.inr ⟨d, s, hs, Value.asSpan_eq hd, Or.inr ?_⟩)
          rw [(syncSpanReplace_span _ _ _).1, ho]
          rfl
        · rw [if_neg h5]
          left
          split
          · rfl
          · exact (syncSpanReplace_span _ _ _).1

/-- C15 as the code has it: from an in-memory span with `Start ≤ Stop`,
`expandSpan(p)` keeps `Start ≤ Stop` for every `p`; `shrinkSpan(p)` sets
`Start := max(Start, p)`, never changes `Stop`, and keeps `Start ≤ Stop` when
`p ≤ Stop`; and `syncSpan` keeps `Start ≤ Stop` in every branch and for every
failure schedule, given a 64-bit `now` and a persisted span, if there is one,
with `start ≤ stop`. -/
theorem span_invariant_preserved (r : TimerStore) (p now : Int) (kv : KV)
    (h : r.span.Start ≤ r.span.Stop) (hnow : isInt64 now)
    (hext : ∀ d s, kv.store r.kvLocatorSpan = some d → d.val = .span s → s.Start ≤ s.Stop) :
    (r.expandSpan p).span.Start ≤ (r.expandSpan p).span.Stop ∧
    (r.shrinkSpan p).span.Start = max r.span.Start p ∧
    (r.shrinkSpan p).span.Stop = r.span.Stop ∧
    (p ≤ r.span.Stop → (r.shrinkSpan p).span.Start ≤ (r.shrinkSpan p).span.Stop) ∧
    (r.syncSpan now kv).store.span.Start ≤ (r.syncSpan now kv).store.span.Stop := by
  refine ⟨?_, ?_, ?_, ?_, ?_⟩
  · rw [expandSpan_span]
    simp only
    omega
  · rw [shrinkSpan_span]
  · rw [shrinkSpan_span]
  · intro hp
    rw [shrinkSpan_span]
    simp only
    omega
  · have hle : ∀ s : Span, (r.syncSpan now kv).store.span.toSpan = s → s.Start ≤ s.Stop →
        (r.syncSpan now kv).store.span.Start ≤ (r.syncSpan now kv).store.span.Stop := by
      intro s hs hle
      have h1 : (r.syncSpan now kv).store.span.Start = s.Start := by rw [← hs]
      have h2 : (r.syncSpan now kv).store.span.Stop = s.Stop := by rw [← hs]
      rw [h1, h2]
      exact hle
    rcases syncSpan_span_cases r now kv with h1 | h1 | ⟨d, s, hs, hd, h1 | h1⟩
    · exact hle _ h1 h
    · exact hle _ h1 (roundDown_le_roundUp hnow)
    · exact hle _ h1 (hext d s hs hd)
    · refine hle _ h1 ?_
      have := hext d s hs hd
      simp only
      omega

theorem span_invariant_preserved_witness :
    (14 : Int) ≤ 21 ∧ isInt64 1010 ∧
    (({ demoStore with span := { Start := 14, Stop := 21, empty := false, spanCas := 0 } } :
        TimerStore).syncSpan 1010
      (KV.empty.put demoStore.kvLocatorSpan (.span { Start := 0, Stop := 7 }))).store.span =
      { Start := 0, Stop := 21, empty := false, spanCas := 2 } ∧
    (({ demoStore with span := { Start := 14, Stop := 21, empty := false, spanCas := 0 } } :
        TimerStore).syncSpan 1010
      (KV.empty.put demoStore.kvLocatorSpan (.span { Start := 0, Stop := 7 }))).store.span.Start ≤
    (({ demoStore with span := { Start := 14, Stop := 21, empty := false, spanCas := 0 } } :
        TimerStore).syncSpan 1010
      (KV.empty.put demoStore.kvLocatorSpan (.span { Start := 0, Stop := 7 }))).store.span.Stop :=
  ⟨by decide, by decide, by decide,
    (span_invariant_preserved
      { demoStore with span := { Start := 14, Stop := 21, empty := false, spanCas := 0 } }
      17 1010 (KV.empty.put demoStore.kvLocatorSpan (.span { Start := 0, Stop := 7 }))
      (by decide) (by decide)
      (fun d s hd hv => by
        have h1 : (KV.empty.put demoStore.kvLocatorSpan (.span { Start := 0, Stop := 7 })).store
            demoStore.kvLocatorSpan = some { val := .span { Start := 0, Stop := 7 }, cas := 1 } := by
          decide
        have h2 : d = { val := .span { Start := 0, Stop := 7 }, cas := 1 } :=
          Option.some.inj (hd.symm.trans h1)
        subst h2
        cases hv
        decide)).2.2.2.2⟩

/-- C15 as stated fails for `shrinkSpan`: on the span `{0, 7}`, which has
`Start ≤ Stop`, `shrinkSpan(14)` gives the span `{14, 7}`, whose start is past its
stop. -/
theorem shrinkSpan_past_stop :
    (({ demoStore with span := { Start := 0, Stop := 7, empty := false, spanCas := 0 } } :
        TimerStore).shrinkSpan 14).span =
      { Start := 14, Stop := 7, empty := false, spanCas := 0 } ∧
    ¬ ((({ demoStore with span := { Start := 0, Stop := 7, empty := false, spanCas := 0 } } :
        TimerStore).shrinkSpan 14).span.Start ≤
      (({ demoStore with span := { Start := 0, Stop := 7, empty := false, spanCas := 0 } } :
        TimerStore).shrinkSpan 14).span.Stop) := by
  decide

/-! ## `syncSpan` without failures -/

/-- A `MustReplace` on a key that is not stored changes nothing in the bucket,
whatever the failure schedule. -/
theorem MustReplace_absent_frame (kv : KV) (key : String) (val : Value) (cas : Cas)
    (hs : kv.store key = none) :
    (MustReplace kv key val cas).2.store = kv.store ∧
    (MustReplace kv key val cas).2.casSeq = kv.casSeq := by
  unfold MustReplace
  simp only
  split
  · exact tick_store kv
  · rw [(tick_store kv).1, hs]
    exact tick_store kv

/-- With no failure, the merge branch of `syncSpan`: the in-memory span becomes
the union with the persisted span, and the `MustReplace` with the CAS read
stores it. -/
theorem syncSpan_merge (r : TimerStore) (now : Int) (kv : KV) (ext : Span) (rcas : Cas)
    (hf : kv.faults = [])
    (hs : kv.store r.kvLocatorSpan = some { val := .span ext, cas := rcas })
    (hne : r.span.empty = false) (hc : r.span.spanCas ≠ rcas) :
    r.syncSpan now kv =
      { err := none,
        store := { r with span := { Start := min r.span.Start ext.Start,
                                    Stop := max r.span.Stop ext.Stop, empty := false,
                                    spanCas := kv.casSeq + 1 } },
        kv := kv.put r.kvLocatorSpan
                (.span { Start := min r.span.Start ext.Start, Stop := max r.span.Stop ext.Stop }) } := by
  unfold TimerStore.syncSpan
  simp only [syncSpan_merge_eq]
  rw [MustGet_present hf hs (v := ext) rfl]
  have hb : (r.span.spanCas != rcas) = true := by simpa using hc
  simp only [hne, Bool.false_and, Bool.and_false, Bool.false_eq_true, if_false, hb, if_true,
    Option.getD_some]
  unfold TimerStore.syncSpanReplace
  have hk : ∀ sp : storeSpan, ({ r with span := sp } : TimerStore).kvLocatorSpan =
      r.kvLocatorSpan := fun _ => rfl
  have hno : ¬ (rcas ≠ 0 ∧ rcas ≠ rcas) := fun h => h.2 rfl
  simp only [hk, MustReplace, tick_nil hf, hs, Bool.false_eq_true, if_false, hno, Bool.or_self]

/-- With no failure, `syncSpan` does nothing when the persisted span and its CAS
are the ones in memory. -/
theorem syncSpan_noop (r : TimerStore) (now : Int) (kv : KV) (hf : kv.faults = [])
    (hs : kv.store r.kvLocatorSpan = some { val := .span r.span.toSpan, cas := r.span.spanCas })
    (hne : r.span.empty = false) :
    r.syncSpan now kv = { err := none, store := r, kv := kv } := by
  unfold TimerStore.syncSpan
  simp only [syncSpan_merge_eq]
  rw [MustGet_present hf hs (v := r.span.toSpan) rfl]
  simp [hne]

/-! ## C18: `syncSpan` on a brand-new store -/

/-- C18: when the span key is not stored and the in-memory span is empty,
`syncSpan` leaves the content of the bucket and the CAS counter as they were,
whatever the failure schedule; and with no KV failure it returns no error, sets
the span to `{roundDown(now), roundUp(now)}`, `empty` to false and `spanCas` to
0, and the KV state after the call is the KV state before it: the `MustReplace`
the code issues finds the key absent and writes nothing. -/
theorem syncSpan_brand_new (r : TimerStore) (now : Int) (kv : KV)
    (he : r.span.empty = true) (hs : kv.store r.kvLocatorSpan = none) :
    (r.syncSpan now kv).kv.store = kv.store ∧ (r.syncSpan now kv).kv.casSeq = kv.casSeq ∧
    (kv.faults = [] →
      r.syncSpan now kv =
        { err := none, kv := kv,
          store := { r with span := { Start := roundDown now, Stop := roundUp now,
                                      empty := false, spanCas := 0 } } }) := by
  have hk : ∀ sp : storeSpan, ({ r with span := sp } : TimerStore).kvLocatorSpan =
      r.kvLocatorSpan := fun _ => rfl
  refine ⟨?_, ?_, ?_⟩
  · have hg := MustGet_frame kv r.kvLocatorSpan Value.asSpan
    have hab : (MustGet kv r.kvLocatorSpan Value.asSpan).1.err = none →
        (MustGet kv r.kvLocatorSpan Value.asSpan).1.absent = true := by
      intro h1
      by_contra h2
      obtain ⟨d, _, hd, _⟩ := MustGet_found kv _ _ h1 (by simpa using h2)
      rw [hs] at hd
      cases hd
    unfold TimerStore.syncSpan
    simp only [syncSpan_merge_eq]
    generalize MustGet kv r.kvLocatorSpan Value.asSpan = g at hg hab ⊢
    cases h1 : g.1.err with
    | some e => exact hg.1
    | none =>
      simp only [hab h1, he, Bool.and_self, if_true, TimerStore.syncSpanReplace, hk]
      have hr := MustReplace_absent_frame g.2 r.kvLocatorSpan
        (.span { Start := roundDown now, Stop := roundUp now }) g.1.cas (by rw [hg.1]; exact hs)
      split
      · exact hr.1.trans hg.1
      · split <;> exact hr.1.trans hg.1
  · have hg := MustGet_frame kv r.kvLocatorSpan Value.asSpan
    have hab : (MustGet kv r.kvLocatorSpan Value.asSpan).1.err = none →
        (MustGet kv r.kvLocatorSpan Value.asSpan).1.absent = true := by
      intro h1
      by_contra h2
      obtain ⟨d, _, hd, _⟩ := MustGet_found kv _ _ h1 (by simpa using h2)
      rw [hs] at hd
      cases hd
    unfold TimerStore.syncSpan
    simp only [syncSpan_merge_eq]
    generalize MustGet kv r.kvLocatorSpan Value.asSpan = g at hg hab ⊢
    cases h1 : g.1.err with
    | some e => exact hg.2
    | none =>
      simp only [hab h1, he, Bool.and_self, if_true, TimerStore.syncSpanReplace, hk]
      have hr := MustReplace_absent_frame g.2 r.kvLocatorSpan
        (.span { Start := roundDown now, Stop := roundUp now }) g.1.cas (by rw [hg.1]; exact hs)
      split
      · exact hr.2.trans hg.2
      · split <;> exact hr.2.trans hg.2
  · intro hf
    unfold TimerStore.syncSpan
    simp only [syncSpan_merge_eq]
    rw [MustGet_absent hf hs]
    simp only [he, Bool.and_self, if_true, TimerStore.syncSpanReplace, hk]
    simp [MustReplace, tick_nil hf, hs]

theorem syncSpan_brand_new_witness :
    (blankStore "p" "h" 0 "c" "b").span.empty = true ∧
    demoSet1.kv.store (blankStore "p" "h" 0 "c" "b").kvLocatorSpan = none ∧
    demoSet1.kv.faults = [] ∧
    ((blankStore "p" "h" 0 "c" "b").syncSpan 1010 demoSet1.kv).err = none ∧
    ((blankStore "p" "h" 0 "c" "b").syncSpan 1010 demoSet1.kv).store.span =
      { Start := 1008, Stop := 1015, empty := false, spanCas := 0 } :=
  ⟨by decide, by decide, by decide,
    by rw [(syncSpan_brand_new (blankStore "p" "h" 0 "c" "b") 1010 demoSet1.kv (by decide)
      (by decide)).2.2 (by decide)],
    by rw [(syncSpan_brand_new (blankStore "p" "h" 0 "c" "b") 1010 demoSet1.kv (by decide)
      (by decide)).2.2 (by decide)]; decide⟩

/-- A `MustReplace` that reports absent or mismatch has written nothing,
whatever the failure schedule. -/
theorem MustReplace_flag_frame (kv : KV) (key : String) (val : Value) (cas : Cas)
    (h : (MustReplace kv key val cas).1.absent = true ∨
      (MustReplace kv key val cas).1.mismatch = true) :
    (MustReplace kv key val cas).2.store = kv.store := by
  have hts := (tick_store kv).1
  unfold MustReplace at h ⊢
  simp only at h ⊢
  cases htk : kv.tick with
  | mk f kv2 =>
    rw [htk] at hts h
    simp only at hts h ⊢
    cases f with
    | true => simpa using hts
    | false =>
      simp only [Bool.false_eq_true, if_false] at h ⊢
      cases hs : kv2.store key with
      | none => simpa using hts
      | some d =>
        simp only [hs] at h ⊢
        by_cases hc : cas ≠ 0 ∧ d.cas ≠ cas
        · rw [if_pos hc]
          exact hts
        · rw [if_neg hc] at h
          simp at h

/-! ## C19: `syncSpan` merges an external change -/

/-- C19: when the persisted span `ext` is stored with CAS `rcas`, the in-memory
span is not empty and `spanCas` differs from `rcas`, then `syncSpan` is the
`MustReplace` step with the CAS read, run on the store whose span is
`{min(Start, ext.Start), max(Stop, ext.Stop)}`; with no KV failure between the
read and the replace the step succeeds, the persisted span is the in-memory
span and `spanCas` is the new CAS; and a `MustReplace` step that reports absent
or mismatch, on whatever bucket it runs, returns no error, writes nothing and
leaves the in-memory store, `spanCas` included, as it was. -/
theorem syncSpan_merges_external_change (r : TimerStore) (now : Int) (kv : KV) (ext : Span)
    (rcas : Cas) (hf : kv.faults = [])
    (hs : kv.store r.kvLocatorSpan = some { val := .span ext, cas := rcas })
    (hne : r.span.empty = false) (hc : r.span.spanCas ≠ rcas) :
    r.syncSpan now kv =
      TimerStore.syncSpanReplace
        { r with span := { r.span with Start := min r.span.Start ext.Start,
                                       Stop := max r.span.Stop ext.Stop } } rcas kv ∧
    (r.syncSpan now kv).err = none ∧
    (r.syncSpan now kv).store.span.toSpan =
      { Start := min r.span.Start ext.Start, Stop := max r.span.Stop ext.Stop } ∧
    (r.syncSpan now kv).kv.store r.kvLocatorSpan =
      some { val := .span (r.syncSpan now kv).store.span.toSpan,
             cas := (r.syncSpan now kv).store.span.spanCas } ∧
    (r.syncSpan now kv).store.span.spanCas = kv.casSeq + 1 ∧
    ∀ (r2 : TimerStore) (c : Cas) (kv2 : KV),
      (MustReplace kv2 r2.kvLocatorSpan (.span r2.span.toSpan) c).1.err = none →
      (MustReplace kv2 r2.kvLocatorSpan (.span r2.span.toSpan) c).1.absent = true ∨
        (MustReplace kv2 r2.kvLocatorSpan (.span r2.span.toSpan) c).1.mismatch = true →
      (r2.syncSpanReplace c kv2).err = none ∧ (r2.syncSpanReplace c kv2).store = r2 ∧
      (r2.syncSpanReplace c kv2).kv.store = kv2.store := by
  have hm := syncSpan_merge r now kv ext rcas hf hs hne hc
  refine ⟨?_, by rw [hm], by rw [hm], ?_, by rw [hm], ?_⟩
  · unfold TimerStore.syncSpan
    simp only [syncSpan_merge_eq]
    rw [MustGet_present hf hs (v := ext) rfl]
    have hb : (r.span.spanCas != rcas) = true := by simpa using hc
    simp only [hne, Bool.false_and, Bool.and_false, Bool.false_eq_true, if_false, hb, if_true,
      Option.getD_some]
  · rw [hm]
    simp [put_store]
  · intro r2 c kv2 he hor
    unfold TimerStore.syncSpanReplace
    simp only
    generalize hw : MustReplace kv2 r2.kvLocatorSpan (.span r2.span.toSpan) c = w at he hor
    have hst : w.2.store = kv2.store := by
      rw [← hw]
      exact MustReplace_flag_frame _ _ _ _ (by rw [hw]; exact hor)
    rw [he]
    simp only
    have : (w.1.absent || w.1.mismatch) = true := by
      rcases hor with h | h <;> simp [h]
    rw [if_pos this]
    exact ⟨rfl, rfl, hst⟩

theorem syncSpan_merges_external_change_witness :
    (KV.empty.put demoStore.kvLocatorSpan (.span { Start := 0, Stop := 7 })).faults = [] ∧
    (KV.empty.put demoStore.kvLocatorSpan (.span { Start := 0, Stop := 7 })).store
        demoStore.kvLocatorSpan = some { val := .span { Start := 0, Stop := 7 }, cas := 1 } ∧
    (({ demoStore with span := { Start := 14, Stop := 21, empty := false, spanCas := 0 } } :
        TimerStore).syncSpan 1010
      (KV.empty.put demoStore.kvLocatorSpan (.span { Start := 0, Stop := 7 }))).store.span.toSpan =
      { Start := 0, Stop := 21 } :=
  ⟨by decide, by decide,
    (syncSpan_merges_external_change
      { demoStore with span := { Start := 14, Stop := 21, empty := false, spanCas := 0 } } 1010
      (KV.empty.put demoStore.kvLocatorSpan (.span { Start := 0, Stop := 7 }))
      { Start := 0, Stop := 7 } 1 (by decide) (by decide) (by decide) (by decide)).2.2.1.trans
      (by decide)⟩

/-! ## C20: two stores on one span key -/

/-- C20 as the code has it. Two stores `A` and `B` share the span key, both
in-memory spans are non-empty, the span of `A` is the persisted one, stored
under the CAS `A` holds, and `B` holds another CAS; no KV operation fails. If
`B` runs `syncSpan` first and `A` second, both in-memory spans and the
persisted span are the union. If `A` runs first, it finds nothing moved and
keeps its own span, `B` then takes the union and persists it, and `A` reaches
the union at its next `syncSpan`. -/
theorem syncSpan_converges (A B : TimerStore) (nowA nowB nowA2 : Int) (kv : KV)
    (hkey : A.kvLocatorSpan = B.kvLocatorSpan) (hf : kv.faults = [])
    (hA : A.span.empty = false) (hB : B.span.empty = false)
    (hp : kv.store A.kvLocatorSpan =
      some { val := .span A.span.toSpan, cas := A.span.spanCas })
    (hcas : A.span.spanCas ≤ kv.casSeq) (hBc : B.span.spanCas ≠ A.span.spanCas) :
    -- `B` first, then `A`
    ((B.syncSpan nowB kv).err = none ∧
      (A.syncSpan nowA (B.syncSpan nowB kv).kv).err = none ∧
      (B.syncSpan nowB kv).store.span.toSpan = spanUnion A.span.toSpan B.span.toSpan ∧
      (A.syncSpan nowA (B.syncSpan nowB kv).kv).store.span.toSpan =
        spanUnion A.span.toSpan B.span.toSpan ∧
      ∃ c, (A.syncSpan nowA (B.syncSpan nowB kv).kv).kv.store A.kvLocatorSpan =
        some { val := .span (spanUnion A.span.toSpan B.span.toSpan), cas := c }) ∧
    -- `A` first, then `B`
    (A.syncSpan nowA kv = { err := none, store := A, kv := kv } ∧
      (B.syncSpan nowB (A.syncSpan nowA kv).kv).err = none ∧
      (B.syncSpan nowB (A.syncSpan nowA kv).kv).store.span.toSpan =
        spanUnion A.span.toSpan B.span.toSpan ∧
      (∃ c, (B.syncSpan nowB (A.syncSpan nowA kv).kv).kv.store A.kvLocatorSpan =
        some { val := .span (spanUnion A.span.toSpan B.span.toSpan), cas := c }) ∧
      ((A.syncSpan nowA kv).store.syncSpan nowA2
          (B.syncSpan nowB (A.syncSpan nowA kv).kv).kv).store.span.toSpan =
        spanUnion A.span.toSpan B.span.toSpan) := by
  have hpB : kv.store B.kvLocatorSpan =
      some { val := .span A.span.toSpan, cas := A.span.spanCas } := by rw [← hkey]; exact hp
  have hmB := syncSpan_merge B nowB kv A.span.toSpan A.span.spanCas hf hpB hB hBc
  have hU : ({ Start := min B.span.Start A.span.Start, Stop := max B.span.Stop A.span.Stop } : Span) =
      spanUnion A.span.toSpan B.span.toSpan := by
    unfold spanUnion
    rw [min_comm, max_comm]
  rw [hU] at hmB
  have hnoop := syncSpan_noop A nowA kv hf hp hA
  have hne : A.span.spanCas ≠ kv.casSeq + 1 := by
    intro h2
    rw [h2] at hcas
    exact Nat.not_succ_le_self _ hcas
  have hmA2 := syncSpan_merge A nowA2 (B.syncSpan nowB kv).kv
    (spanUnion A.span.toSpan B.span.toSpan) (kv.casSeq + 1)
    (by rw [hmB]; exact hf) (by rw [hmB, hkey]; simp [put_store]) hA hne
  have hmA := syncSpan_merge A nowA (B.syncSpan nowB kv).kv
    (spanUnion A.span.toSpan B.span.toSpan) (kv.casSeq + 1)
    (by rw [hmB]; exact hf) (by rw [hmB, hkey]; simp [put_store]) hA hne
  have hUU : ({ Start := min A.span.Start (spanUnion A.span.toSpan B.span.toSpan).Start,
                Stop := max A.span.Stop (spanUnion A.span.toSpan B.span.toSpan).Stop } : Span) =
      spanUnion A.span.toSpan B.span.toSpan := by
    unfold spanUnion
    simp only [Span.mk.injEq]
    constructor
    · simp
    · simp
  rw [hUU] at hmA hmA2
  refine ⟨⟨by rw [hmB], by rw [hmA], by rw [hmB], by rw [hmA], ?_⟩,
    ⟨hnoop, ?_, ?_, ?_, by rw [hnoop, hmA2]⟩⟩
  · rw [hmA]
    exact ⟨_, by rw [put_store, if_pos rfl]⟩
  · rw [hnoop, hmB]
  · rw [hnoop, hmB]
  · rw [hnoop, hmB, hkey]
    exact ⟨_, by rw [put_store, if_pos rfl]⟩

theorem syncSpan_converges_witness :
    (KV.empty.put demoStore.kvLocatorSpan (.span { Start := 0, Stop := 7 })).faults = [] ∧
    (KV.empty.put demoStore.kvLocatorSpan (.span { Start := 0, Stop := 7 })).store
        demoStore.kvLocatorSpan = some { val := .span { Start := 0, Stop := 7 }, cas := 1 } ∧
    (({ demoStore with span := { Start := 0, Stop := 7, empty := false, spanCas := 1 } } :
        TimerStore).syncSpan 1010
      (({ demoStore with span := { Start := 14, Stop := 21, empty := false, spanCas := 0 } } :
        TimerStore).syncSpan 1010
        (KV.empty.put demoStore.kvLocatorSpan (.span { Start := 0, Stop := 7 }))).kv).store.span.toSpan =
      { Start := 0, Stop := 21 } ∧
    (({ demoStore with span := { Start := 14, Stop := 21, empty := false, spanCas := 0 } } :
        TimerStore).syncSpan 1010
      (KV.empty.put demoStore.kvLocatorSpan (.span { Start := 0, Stop := 7 }))).store.span.toSpan =
      { Start := 0, Stop := 21 } :=
  ⟨by decide, by decide, (syncSpan_converges
      { demoStore with span := { Start := 0, Stop := 7, empty := false, spanCas := 1 } }
      { demoStore with span := { Start := 14, Stop := 21, empty := false, spanCas := 0 } }
      1010 1010 1017 (KV.empty.put demoStore.kvLocatorSpan (.span { Start := 0, Stop := 7 }))
      rfl (by decide) (by decide) (by decide) (by decide) (by decide) (by decide)).1.2.2.2.1.trans
      (by decide),
    (syncSpan_converges
      { demoStore with span := { Start := 0, Stop := 7, empty := false, spanCas := 1 } }
      { demoStore with span := { Start := 14, Stop := 21, empty := false, spanCas := 0 } }
      1010 1010 1017 (KV.empty.put demoStore.kvLocatorSpan (.span { Start := 0, Stop := 7 }))
      rfl (by decide) (by decide) (by decide) (by decide) (by decide) (by decide)).1.2.2.1.trans
      (by decide)⟩

/-- C20 as stated fails in one of the two orders: `A` holds the span `{0, 7}`,
which is the persisted one, and `B` holds `{14, 21}`. When `A` runs `syncSpan`
first and `B` second, without KV failure, `A` still holds `{0, 7}`, which is not
the union `{0, 21}` that `B` and the persisted span have reached. -/
theorem syncSpan_order_matters :
    (({ demoStore with span := { Start := 0, Stop := 7, empty := false, spanCas := 1 } } :
        TimerStore).syncSpan 1010
      (KV.empty.put demoStore.kvLocatorSpan (.span { Start := 0, Stop := 7 }))).err = none ∧
    (({ demoStore with span := { Start := 0, Stop := 7, empty := false, spanCas := 1 } } :
        TimerStore).syncSpan 1010
      (KV.empty.put demoStore.kvLocatorSpan (.span { Start := 0, Stop := 7 }))).store.span.toSpan =
      { Start := 0, Stop := 7 } ∧
    (({ demoStore with span := { Start := 14, Stop := 21, empty := false, spanCas := 0 } } :
        TimerStore).syncSpan 1010
      (({ demoStore with span := { Start := 0, Stop := 7, empty := false, spanCas := 1 } } :
        TimerStore).syncSpan 1010
        (KV.empty.put demoStore.kvLocatorSpan (.span { Start := 0, Stop := 7 }))).kv).err = none ∧
    (({ demoStore with span := { Start := 14, Stop := 21, empty := false, spanCas := 0 } } :
        TimerStore).syncSpan 1010
      (({ demoStore with span := { Start := 0, Stop := 7, empty := false, spanCas := 1 } } :
        TimerStore).syncSpan 1010
        (KV.empty.put demoStore.kvLocatorSpan (.span { Start := 0, Stop := 7 }))).kv).store.span.toSpan =
      { Start := 0, Stop := 21 } ∧
    (({ demoStore with span := { Start := 14, Stop := 21, empty := false, spanCas := 0 } } :
        TimerStore).syncSpan 1010
      (({ demoStore with span := { Start := 0, Stop := 7, empty := false, spanCas := 1 } } :
        TimerStore).syncSpan 1010
        (KV.empty.put demoStore.kvLocatorSpan (.span { Start := 0, Stop := 7 }))).kv).kv.store
        demoStore.kvLocatorSpan = some { val := .span { Start := 0, Stop := 21 }, cas := 2 } ∧
    spanUnion { Start := 0, Stop := 7 } { Start := 14, Stop := 21 } = { Start := 0, Stop := 21 } ∧
    ({ Start := 0, Stop := 7 } : Span) ≠ { Start := 0, Stop := 21 } := by
  decide

/-! ## Sequence numbers given by successive `Set`s -/

/-- With no failure, `Set` calls into the bucket `d` whose counter stands at `n`
all succeed, leave the counter at `n` plus their number, and the call of index
`j` leaves its alarm under the sequence number `n + 1 + j`; the alarms of the
bucket up to `n` are left alone. -/
theorem runSets_numbering (H : Ripemd160) (d : Int) :
    ∀ (calls : List SetCall) (r : TimerStore) (kv : KV) (n : Int) (c : Cas),
      kv.faults = [] → kv.store (r.kvLocatorRoot d) = some { val := .counter n, cas := c } →
      minInt64 ≤ n → n + (calls.length : Int) ≤ maxInt64 →
      (∀ call ∈ calls, setDue call.now call.due = d) →
      (runSets H r kv calls).kv.faults = [] ∧
      (runSets H r kv calls).dues.length = calls.length ∧
      (∃ c2, (runSets H r kv calls).kv.store (r.kvLocatorRoot d) =
        some { val := .counter (n + (calls.length : Int)), cas := c2 }) ∧
      (∀ (j : Nat) (hj : j < calls.length), ∃ c2,
        (runSets H r kv calls).kv.store (r.kvLocatorAlarm d (n + 1 + (j : Int))) =
          some { val := .alarm { AlarmDue := d,
                                 ContextRef := r.kvLocatorContext H (calls.get ⟨j, hj⟩).ref },
                 cas := c2 }) ∧
      (∀ s, s ≤ n → (runSets H r kv calls).kv.store (r.kvLocatorAlarm d s) =
        kv.store (r.kvLocatorAlarm d s)) := by
  intro calls
  induction calls with
  | nil =>
    intro r kv n c hf hroot _ _ _
    refine ⟨hf, rfl, ⟨c, ?_⟩, fun j hj => absurd hj (by simp), fun _ _ => rfl⟩
    simpa [runSets] using hroot
  | cons c0 cs ih =>
    intro r kv n c hf hroot hmin hmax hd
    have hd0 : setDue c0.now c0.due = d := hd c0 (List.mem_cons_self _ _)
    have hlen : ((c0 :: cs).length : Int) = (cs.length : Int) + 1 := by
      simp
    rw [hlen] at hmax
    have hw : wrap64 (n + 1) = n + 1 :=
      wrap64_of_isInt64 (by unfold isInt64; unfold minInt64 maxInt64 at *; omega)
    have hset := Set_again H r c0.now c0.due c0.ref c0.context kv hf (n := n) (c := c)
      (by rw [hd0]; exact hroot)
    rw [hd0, hw] at hset
    have hra : r.kvLocatorRoot d ≠ r.kvLocatorAlarm d (n + 1) := kvLocatorRoot_ne_alarm r d d (n + 1)
    have hrc : r.kvLocatorRoot d ≠ r.kvLocatorContext H c0.ref := kvLocatorRoot_ne_context H r d c0.ref
    have hac : ∀ s, r.kvLocatorAlarm d s ≠ r.kvLocatorContext H c0.ref :=
      fun s => kvLocatorAlarm_ne_context H r d s c0.ref
    obtain ⟨i1, i2, ⟨c3, i3⟩, i4, i5⟩ := ih (r.expandSpan d)
      (r.Set H c0.now c0.due c0.ref c0.context kv).kv (n + 1) (kv.casSeq + 1)
      (by rw [hset]; simpa using hf)
      (by rw [hset]; simp [put_store, hra, hrc])
      (by omega) (by omega) (fun call hc => hd call (List.mem_cons_of_mem _ hc))
    simp only [expandSpan_kvLocatorRoot, expandSpan_kvLocatorAlarm, expandSpan_kvLocatorContext]
      at i3 i4 i5
    have hstore : (r.Set H c0.now c0.due c0.ref c0.context kv).store = r.expandSpan d := by
      rw [hset]
    have herr : (r.Set H c0.now c0.due c0.ref c0.context kv).err = none := by rw [hset]
    simp only [runSets, hstore, herr, if_true, List.length_cons]
    refine ⟨i1, by rw [i2], ⟨c3, ?_⟩, ?_, ?_⟩
    · rw [i3]
      have e : n + 1 + (cs.length : Int) = n + ((cs.length + 1 : Nat) : Int) := by
        push_cast; ring
      rw [e]
    · intro j hj
      cases j with
      | zero =>
        refine ⟨kv.casSeq + 1 + 1, ?_⟩
        have h5 := i5 (n + 1) (le_refl _)
        simp only [Nat.cast_zero, add_zero, List.get_eq_getElem, List.getElem_cons_zero]
        rw [h5, hset]
        simp [put_store, hac]
      | succ j =>
        obtain ⟨c4, h4⟩ := i4 j (by simpa using hj)
        refine ⟨c4, ?_⟩
        have e : n + 1 + ((j + 1 : Nat) : Int) = n + 1 + 1 + (j : Int) := by push_cast; ring
        rw [e, h4]
        simp
    · intro s hs
      rw [i5 s (by omega), hset]
      have hne : r.kvLocatorAlarm d s ≠ r.kvLocatorAlarm d (n + 1) := by
        intro h
        have := (kvLocatorAlarm_inj h).2
        omega
      simp [put_store, hac, hne, (kvLocatorRoot_ne_alarm r d d s).symm]

/-! ## C17: sequence numbering by `Set` -/

/-- C17, with the counter of spec 4.1: `k ≥ 1` successive `Set` calls that meet
no failure, all into the bucket `d` whose root key is absent at the start, all
succeed; the counter ends at `init_seq + k - 1`; the call of index `j` (the
first has index 0) has its alarm under the sequence number `init_seq + j`, so the
first writes at 128 and the `k`-th at `init_seq + k - 1`; these numbers lie
between `init_seq` and the counter value, and different numbers give different
alarm keys. -/
theorem Set_sequence_numbering (H : Ripemd160) (r : TimerStore) (kv : KV) (d : Int)
    (calls : List SetCall) (hf : kv.faults = [])
    (hroot : kv.store (r.kvLocatorRoot d) = none)
    (hd : ∀ call ∈ calls, setDue call.now call.due = d) (hk : 1 ≤ calls.length)
    (hmax : init_seq + (calls.length : Int) - 1 ≤ maxInt64) :
    (runSets H r kv calls).dues.length = calls.length ∧
    (∃ c, (runSets H r kv calls).kv.store (r.kvLocatorRoot d) =
      some { val := .counter (init_seq + (calls.length : Int) - 1), cas := c }) ∧
    (∀ (j : Nat) (hj : j < calls.length),
      (∃ c, (runSets H r kv calls).kv.store (r.kvLocatorAlarm d (init_seq + (j : Int))) =
        some { val := .alarm { AlarmDue := d,
                               ContextRef := r.kvLocatorContext H (calls.get ⟨j, hj⟩).ref },
               cas := c }) ∧
      init_seq ≤ init_seq + (j : Int) ∧
      init_seq + (j : Int) ≤ init_seq + (calls.length : Int) - 1) ∧
    (∀ i j : Nat, r.kvLocatorAlarm d (init_seq + (i : Int)) =
      r.kvLocatorAlarm d (init_seq + (j : Int)) → i = j) := by
  cases calls with
  | nil => simp at hk
  | cons c0 cs =>
    have hd0 : setDue c0.now c0.due = d := hd c0 (List.mem_cons_self _ _)
    have hlen : ((c0 :: cs).length : Int) = (cs.length : Int) + 1 := by
      simp
    rw [hlen] at hmax
    have hset := Set_fresh H r c0.now c0.due c0.ref c0.context kv hf (by rw [hd0]; exact hroot)
    rw [hd0] at hset
    have hra : r.kvLocatorRoot d ≠ r.kvLocatorAlarm d init_seq :=
      kvLocatorRoot_ne_alarm r d d init_seq
    have hrc : r.kvLocatorRoot d ≠ r.kvLocatorContext H c0.ref :=
      kvLocatorRoot_ne_context H r d c0.ref
    have hac : ∀ s, r.kvLocatorAlarm d s ≠ r.kvLocatorContext H c0.ref :=
      fun s => kvLocatorAlarm_ne_context H r d s c0.ref
    obtain ⟨-, i2, ⟨c3, i3⟩, i4, i5⟩ := runSets_numbering H d cs (r.expandSpan d)
      (r.Set H c0.now c0.due c0.ref c0.context kv).kv init_seq (kv.casSeq + 1)
      (by rw [hset]; simpa using hf)
      (by rw [hset]; simp [put_store, hra, hrc])
      (by unfold minInt64 init_seq; omega) (by omega)
      (fun call hc => hd call (List.mem_cons_of_mem _ hc))
    simp only [expandSpan_kvLocatorRoot, expandSpan_kvLocatorAlarm, expandSpan_kvLocatorContext]
      at i3 i4 i5
    have hstore : (r.Set H c0.now c0.due c0.ref c0.context kv).store = r.expandSpan d := by
      rw [hset]
    have herr : (r.Set H c0.now c0.due c0.ref c0.context kv).err = none := by rw [hset]
    simp only [runSets, hstore, herr, if_true, List.length_cons]
    refine ⟨by rw [i2], ⟨c3, ?_⟩, ?_, ?_⟩
    · rw [i3]
      have e : init_seq + (cs.length : Int) = init_seq + ((cs.length + 1 : Nat) : Int) - 1 := by
        push_cast; ring
      rw [e]
    · intro j hj
      refine ⟨?_, by omega, by push_cast; omega⟩
      cases j with
      | zero =>
        refine ⟨kv.casSeq + 1 + 1, ?_⟩
        have h5 := i5 init_seq (le_refl _)
        simp only [Nat.cast_zero, add_zero, List.get_eq_getElem, List.getElem_cons_zero]
        rw [h5, hset]
        simp [put_store, hac]
      | succ j =>
        obtain ⟨c4, h4⟩ := i4 j (by simpa using hj)
        refine ⟨c4, ?_⟩
        have e : init_seq + ((j + 1 : Nat) : Int) = init_seq + 1 + (j : Int) := by
          push_cast; ring
        rw [e, h4]
        simp
    · intro i j h
      have := (kvLocatorAlarm_inj h).2
      omega

theorem Set_sequence_numbering_witness :
    KV.empty.faults = [] ∧ KV.empty.store (demoStore.kvLocatorRoot 1001) = none ∧
    setDue 990 1000 = 1001 ∧ setDue 991 1000 = 1001 ∧
    ∃ c, (runSets demoDigest demoStore KV.empty
        [{ now := 990, due := 1000, ref := "r1", context := "x=1" },
         { now := 991, due := 1000, ref := "r2", context := "z=3" }]).kv.store
        (demoStore.kvLocatorRoot 1001) = some { val := .counter 129, cas := c } :=
  ⟨by decide, by decide, by decide, by decide,
    (Set_sequence_numbering demoDigest demoStore KV.empty 1001
      [{ now := 990, due := 1000, ref := "r1", context := "x=1" },
       { now := 991, due := 1000, ref := "r2", context := "z=3" }]
      (by decide) (by decide) (by decide) (by decide) (by decide)).2.1⟩

/-! ## The order of a column -/

theorem Value.asCounter_eq {v : Value} {n : Int} (h : v.asCounter = some n) : v = .counter n := by
  cases v <;> simp [Value.asCounter] at h
  rw [h]

/-- Whatever the failure schedule, when `nextColumn` yields an entry, its
sequence number lies between the cursor and `col.stop`, the cursor is left just
after it, and its `topCas` is `col.topCas` when the number is `col.stop` and 0
otherwise. -/
theorem nextColumnLoop_step (st : TimerStore) :
    ∀ (fuel : Nat) (it : TimerIter) (col : colIter) (kv : KV) (res : StepResult Bool),
      TimerIter.nextColumnLoop st fuel it col kv = some res → res.out = true →
      minInt64 ≤ col.current → col.stop < maxInt64 →
      ∃ e, res.it.entry = some e ∧ col.current ≤ e.alarmSeq ∧ e.alarmSeq ≤ col.stop ∧
        res.it.col = some { col with current := e.alarmSeq + 1 } ∧
        e.topCas = (if e.alarmSeq = col.stop then col.topCas else 0) := by
  intro fuel
  induction fuel with
  | zero => intro it col kv res h; simp [TimerIter.nextColumnLoop] at h
  | succ fuel ih =>
    intro it col kv res h ho hmin hmax
    unfold TimerIter.nextColumnLoop at h
    simp only at h
    split at h
    · rename_i hle
      have hw : wrap64 (col.current + 1) = col.current + 1 :=
        wrap64_of_isInt64 (by unfold isInt64; unfold minInt64 maxInt64 at *; omega)
      rw [hw] at h
      have hnext : ∀ kv2 : KV,
          TimerIter.nextColumnLoop st fuel
            { it with col := some { col with current := col.current + 1 } }
            { col with current := col.current + 1 } kv2 = some res →
          ∃ e, res.it.entry = some e ∧ col.current ≤ e.alarmSeq ∧ e.alarmSeq ≤ col.stop ∧
            res.it.col = some { col with current := e.alarmSeq + 1 } ∧
            e.topCas = (if e.alarmSeq = col.stop then col.topCas else 0) := by
        intro kv2 h2
        obtain ⟨e, h1, h3, h4, h5, h6⟩ := ih _ _ _ _ h2 ho (by simp only; omega) hmax
        exact ⟨e, h1, by simp only at h3; omega, h4, h5, h6⟩
      split at h
      · simp only [Option.some.injEq] at h
        subst h
        simp at ho
      · split at h
        · exact hnext _ h
        · split at h
          · simp only [Option.some.injEq] at h
            subst h
            simp at ho
          · split at h
            · exact hnext _ h
            · split at h
              · rename_i heq
                simp only [Option.some.injEq] at h
                subst h
                have heq2 : col.current = col.stop := by simpa using heq
                exact ⟨_, rfl, le_refl _, hle, rfl, by simp [heq2]⟩
              · rename_i hne
                simp only [Option.some.injEq] at h
                subst h
                have hne2 : ¬ col.current = col.stop := by simpa using hne
                exact ⟨_, rfl, le_refl _, hle, rfl, by simp [hne2]⟩
    · simp only [Option.some.injEq] at h
      subst h
      simp at ho

/-- Whatever the failure schedule, when `nextRow` finds a row, the root key of
that row holds a counter, and the column cursor starts at the sequence number
given, with the counter value as `stop` and the CAS of the root key as
`topCas`. -/
theorem nextRowLoop_sound (st : TimerStore) :
    ∀ (fuel : Nat) (it : TimerIter) (col : colIter) (kv : KV) (res : StepResult Bool),
      TimerIter.nextRowLoop st fuel it col kv = some res → res.out = true →
      ∃ v cas, kv.store (st.kvLocatorRoot res.it.row.current) =
          some { val := .counter v, cas := cas } ∧
        res.it.col = some { current := col.current, stop := v, topCas := cas } := by
  intro fuel
  induction fuel with
  | zero => intro it col kv res h; simp [TimerIter.nextRowLoop] at h
  | succ fuel ih =>
    intro it col kv res h ho
    unfold TimerIter.nextRowLoop at h
    simp only at h
    split at h
    · have fg := MustGet_frame kv
        (st.kvLocatorRoot (wrap64 (it.row.current + Resolution))) Value.asCounter
      split at h
      · simp only [Option.some.injEq] at h
        subst h
        simp at ho
      · rename_i he
        split at h
        · rename_i hab
          have hab2 : (MustGet kv (st.kvLocatorRoot (wrap64 (it.row.current + Resolution)))
              Value.asCounter).1.absent = false := by simpa using hab
          obtain ⟨d, v, hs, hd, hout, hcas⟩ := MustGet_found kv _ _ he hab2
          simp only [Option.some.injEq] at h
          subst h
          refine ⟨v, d.cas, ?_, ?_⟩
          · simp only
            rw [hs]
            have := Value.asCounter_eq hd
            cases d
            simp only at this ⊢
            rw [this]
          · simp only [hout, hcas]
        · obtain ⟨v, cas, h1, h2⟩ := ih _ _ _ _ h ho
          rw [fg.1] at h1
          refine ⟨v, cas, h1, ?_⟩
          rw [h2]
          split <;> rfl
    · simp only [Option.some.injEq] at h
      subst h
      simp at ho

/-- The entries successive `nextColumn` calls yield from a column whose `stop`
is below the largest 64-bit number come in strictly ascending `alarmSeq` order,
from the cursor up to `col.stop`, and carry `col.topCas` as `topCas` at
`col.stop` and 0 elsewhere; whatever the bucket holds at each call and whatever
the failure schedules. -/
theorem columnYields_order (st : TimerStore) (fuel : Nat) :
    ∀ (kvs : List KV) (it : TimerIter) (col : colIter), it.col = some col →
      minInt64 ≤ col.current → col.stop < maxInt64 →
      List.Pairwise (fun a b : TimerEntry => a.alarmSeq < b.alarmSeq)
        (columnYields st fuel kvs it) ∧
      ∀ e ∈ columnYields st fuel kvs it, col.current ≤ e.alarmSeq ∧ e.alarmSeq ≤ col.stop ∧
        e.topCas = (if e.alarmSeq = col.stop then col.topCas else 0) := by
  intro kvs
  induction kvs with
  | nil => intro it col _ _ _; simp [columnYields]
  | cons kv kvs ih =>
    intro it col hcol hmin hmax
    unfold columnYields
    cases hnc : TimerIter.nextColumn st fuel it kv with
    | none => simp
    | some c =>
      simp only
      by_cases hcond : (c.out && c.err.isNone) = true
      · rw [if_pos hcond]
        have hout : c.out = true := by
          simp only [Bool.and_eq_true] at hcond
          exact hcond.1
        have hloop : TimerIter.nextColumnLoop st fuel { it with entry := none } col kv = some c := by
          unfold TimerIter.nextColumn at hnc
          obtain ⟨row, c0, en⟩ := it
          simp only at hcol
          subst hcol
          exact hnc
        obtain ⟨e, he, h1, h2, h3, h4⟩ := nextColumnLoop_step st fuel _ col kv c hloop hout hmin hmax
        rw [he]
        simp only
        obtain ⟨i1, i2⟩ := ih c.it { col with current := e.alarmSeq + 1 } h3
          (by simp only; omega) hmax
        constructor
        · rw [List.pairwise_cons]
          refine ⟨fun b hb => ?_, i1⟩
          have := (i2 b hb).1
          simp only at this
          omega
        · intro b hb
          rcases List.mem_cons.1 hb with hb | hb
          · subst hb
            exact ⟨h1, h2, h4⟩
          · obtain ⟨j1, j2, j3⟩ := i2 b hb
            simp only at j1 j2 j3
            exact ⟨by omega, j2, j3⟩
      · rw [if_neg hcond]
        simp

/-! ## Order and `topCas` within a column -/

/-- When `nextRow` finds a bucket and leaves the cursor `it`, the root key
of the bucket holds a counter `v` under a CAS `cas`, and the column cursor is
`{current := init_seq, stop := v, topCas := cas}`; and while `v` is below the
largest 64-bit number, the entries that the following `nextColumn` calls yield
from the bucket, whatever it holds at each call and whatever the failure
schedules, come in strictly ascending `alarmSeq` order, between `init_seq` and
`v`, with `topCas = cas` for the entry whose `alarmSeq` is `v` and `topCas = 0`
for every other one. -/
theorem bucket_order_and_topCas (st : TimerStore) (f fuel : Nat) (it0 it : TimerIter) (kv0 : KV)
    (kvs : List KV)
    (hrow : (TimerIter.nextRow st f it0 kv0).map (fun s => (s.out, s.it)) = some (true, it)) :
    ∃ v cas, kv0.store (st.kvLocatorRoot it.row.current) = some { val := .counter v, cas := cas } ∧
      it.col = some { current := init_seq, stop := v, topCas := cas } ∧
      (v < maxInt64 →
        List.Pairwise (fun a b : TimerEntry => a.alarmSeq < b.alarmSeq)
          (columnYields st fuel kvs it) ∧
        ∀ e ∈ columnYields st fuel kvs it, init_seq ≤ e.alarmSeq ∧ e.alarmSeq ≤ v ∧
          (e.alarmSeq = v → e.topCas = cas) ∧ (e.alarmSeq ≠ v → e.topCas = 0)) := by
  cases hr : TimerIter.nextRow st f it0 kv0 with
  | none => simp [hr] at hrow
  | some res =>
    rw [hr] at hrow
    simp only [Option.map_some', Option.some.injEq, Prod.mk.injEq] at hrow
    obtain ⟨hout, hit⟩ := hrow
    unfold TimerIter.nextRow at hr
    obtain ⟨v, cas, h1, h2⟩ := nextRowLoop_sound st f _ _ kv0 res hr hout
    rw [hit] at h1 h2
    have h2b : it.col = some { current := init_seq, stop := v, topCas := cas } := h2
    refine ⟨v, cas, h1, h2b, fun hv => ?_⟩
    obtain ⟨o1, o2⟩ := columnYields_order st fuel kvs it _ h2b
      (by show minInt64 ≤ init_seq; unfold minInt64 init_seq; omega) hv
    refine ⟨o1, fun e he => ?_⟩
    obtain ⟨p1, p2, p3⟩ := o2 e he
    simp only at p1 p2 p3
    refine ⟨p1, p2, fun h => ?_, fun h => ?_⟩
    · rw [p3, if_pos h]
    · rw [p3, if_neg h]

theorem bucket_order_and_topCas_witness :
    (TimerIter.nextRow demoStore 5
        { row := { start := 987, stop := 1001, current := 987 }, col := none, entry := none }
        (demoSet1.store.Set demoDigest 991 1000 "r2" "z=3" demoSet1.kv).kv).map
        (fun s => (s.out, s.it)) =
      some (true, { row := { start := 987, stop := 1001, current := 1001 },
                    col := some { current := 128, stop := 129, topCas := 4 }, entry := none }) ∧
    columnYields demoStore 5
        [(demoSet1.store.Set demoDigest 991 1000 "r2" "z=3" demoSet1.kv).kv,
         (demoSet1.store.Set demoDigest 991 1000 "r2" "z=3" demoSet1.kv).kv,
         (demoSet1.store.Set demoDigest 991 1000 "r2" "z=3" demoSet1.kv).kv]
        { row := { start := 987, stop := 1001, current := 1001 },
          col := some { current := 128, stop := 129, topCas := 4 }, entry := none } =
      [{ AlarmDue := 1001, ContextRef := demoStore.kvLocatorContext demoDigest "r1",
         Context := "x=1", AlarmRef := demoStore.kvLocatorAlarm 1001 128, alarmSeq := 128,
         ctxCas := 3, topCas := 0 },
       { AlarmDue := 1001, ContextRef := demoStore.kvLocatorContext demoDigest "r2",
         Context := "z=3", AlarmRef := demoStore.kvLocatorAlarm 1001 129, alarmSeq := 129,
         ctxCas := 6, topCas := 4 }] ∧
    List.Pairwise (fun a b : TimerEntry => a.alarmSeq < b.alarmSeq)
      (columnYields demoStore 5
        [(demoSet1.store.Set demoDigest 991 1000 "r2" "z=3" demoSet1.kv).kv,
         (demoSet1.store.Set demoDigest 991 1000 "r2" "z=3" demoSet1.kv).kv,
         (demoSet1.store.Set demoDigest 991 1000 "r2" "z=3" demoSet1.kv).kv]
        { row := { start := 987, stop := 1001, current := 1001 },
          col := some { current := 128, stop := 129, topCas := 4 }, entry := none }) := by
  refine ⟨by decide, by decide, ?_⟩
  obtain ⟨v, cas, -, h2, h3⟩ := bucket_order_and_topCas demoStore 5 5
    { row := { start := 987, stop := 1001, current := 987 }, col := none, entry := none }
    { row := { start := 987, stop := 1001, current := 1001 },
      col := some { current := 128, stop := 129, topCas := 4 }, entry := none }
    (demoSet1.store.Set demoDigest 991 1000 "r2" "z=3" demoSet1.kv).kv
    [(demoSet1.store.Set demoDigest 991 1000 "r2" "z=3" demoSet1.kv).kv,
     (demoSet1.store.Set demoDigest 991 1000 "r2" "z=3" demoSet1.kv).kv,
     (demoSet1.store.Set demoDigest 991 1000 "r2" "z=3" demoSet1.kv).kv] (by decide)
  simp only [Option.some.injEq, colIter.mk.injEq] at h2
  obtain ⟨hv, -, -⟩ := h2
  exact (h3 (by rw [← hv]; decide)).1

/-! ## A column whose counter stands at the largest 64-bit number -/

/-- With no failure, `nextColumn` steps over `n` sequence numbers without an
alarm, one unit of fuel each. -/
theorem nextColumnLoop_skip_range (st : TimerStore) {kv : KV} (hf : kv.faults = []) :
    ∀ (n fuel : Nat) (it : TimerIter) (col : colIter), it.col = some col →
      minInt64 ≤ col.current → col.current + (n : Int) ≤ maxInt64 →
      col.current + (n : Int) ≤ col.stop + 1 →
      (∀ j : Nat, j < n →
        kv.store (st.kvLocatorAlarm it.row.current (col.current + (j : Int))) = none) →
      TimerIter.nextColumnLoop st (fuel + n) it col kv =
        TimerIter.nextColumnLoop st fuel
          { it with col := some { col with current := col.current + (n : Int) } }
          { col with current := col.current + (n : Int) } kv := by
  intro n
  induction n with
  | zero =>
    intro fuel it col hcol _ _ _ _
    obtain ⟨row, c0, en⟩ := it
    simp only at hcol
    subst hcol
    simp
  | succ n ih =>
    intro fuel it col hcol hmin hmax hstop habs
    push_cast at hmax hstop
    have hw : wrap64 (col.current + 1) = col.current + 1 :=
      wrap64_of_isInt64 (by unfold isInt64; unfold minInt64 maxInt64 at *; omega)
    have h0 := habs 0 (by omega)
    simp only [Nat.cast_zero, add_zero] at h0
    rw [show fuel + (n + 1) = (fuel + n) + 1 from rfl]
    rw [nextColumnLoop_skip st hf (fuel + n) it col (by omega) (Or.inl h0)]
    rw [ih fuel _ col.next rfl (by simp only [colIter.next, hw]; omega)
      (by simp only [colIter.next, hw]; omega) (by simp only [colIter.next, hw]; omega)
      (fun j hj => by
        have := habs (j + 1) (by omega)
        simp only [colIter.next, hw]
        rw [← this]
        push_cast
        rw [add_assoc, add_comm (1 : Int) (j : Int)])]
    simp only [colIter.next, hw]
    have e : col.current + 1 + (n : Int) = col.current + ((n + 1 : Nat) : Int) := by
      push_cast; ring
    rw [e]

theorem nextColumn_eq_loop (st : TimerStore) (fuel : Nat) (it : TimerIter) (col : colIter)
    (kv : KV) (h : it.col = some col) :
    TimerIter.nextColumn st fuel it kv =
      TimerIter.nextColumnLoop st fuel { it with entry := none } col kv := by
  unfold TimerIter.nextColumn
  simp only [h]

theorem columnYields_cons (st : TimerStore) (fuel : Nat) (kv : KV) (kvs : List KV)
    (it : TimerIter) (c : StepResult Bool) (e : TimerEntry)
    (h : TimerIter.nextColumn st fuel it kv = some c) (ho : c.out = true) (he : c.err = none)
    (hen : c.it.entry = some e) :
    columnYields st fuel (kv :: kvs) it = e :: columnYields st fuel kvs c.it := by
  simp [columnYields, h, ho, he, hen]

theorem columnYields_nil (st : TimerStore) (fuel : Nat) (it : TimerIter) :
    columnYields st fuel [] it = [] := by
  simp [columnYields]

theorem wrapBucket_gap (j : Nat) (hj : j < 9223372036854775679) :
    wrapBucket.store (demoStore.kvLocatorAlarm 1001 (128 + (j : Int))) = none := by
  have h1 := kvLocatorAlarm_ne_context demoDigest demoStore 1001 (128 + (j : Int)) "r2"
  have h2 : demoStore.kvLocatorAlarm 1001 (128 + (j : Int)) ≠
      demoStore.kvLocatorAlarm 1001 minInt64 := by
    intro h
    have := (kvLocatorAlarm_inj h).2
    unfold minInt64 at this
    omega
  have h3 := kvLocatorAlarm_ne_context demoDigest demoStore 1001 (128 + (j : Int)) "r1"
  have h4 : demoStore.kvLocatorAlarm 1001 (128 + (j : Int)) ≠
      demoStore.kvLocatorAlarm 1001 maxInt64 := by
    intro h
    have := (kvLocatorAlarm_inj h).2
    unfold maxInt64 at this
    omega
  have h5 := (kvLocatorRoot_ne_alarm demoStore 1001 1001 (128 + (j : Int))).symm
  unfold wrapBucket
  rw [put_store, if_neg h1, put_store, if_neg h2, put_store, if_neg h3, put_store, if_neg h4,
    put_store, if_neg h5]
  rfl

/-! ## C14: order and `topCas` at the end of the 64-bit range -/

/-- C14 as stated fails at the end of the 64-bit range: in `wrapBucket` the counter of
the time bucket 1001 reads `2^63 - 1`. `nextRow` finds the bucket with the cursor
`{current := 128, stop := 2^63 - 1, topCas := 1}`. The first `nextColumn` steps
over the missing numbers and yields the alarm under `2^63 - 1`, and
`col.current++` wraps to `-2^63`, which is still `≤ col.stop`; the second
`nextColumn` yields the alarm under `-2^63`. The entries of the bucket so come
in descending `alarmSeq` order, and the second lies below `init_seq`. -/
theorem column_order_breaks_at_maxInt64 :
    (TimerIter.nextRow demoStore 5
        { row := { start := 987, stop := 1001, current := 987 }, col := none, entry := none }
        wrapBucket).map (fun s => (s.out, s.it)) =
      some (true, { row := { start := 987, stop := 1001, current := 1001 },
                    col := some { current := 128, stop := 9223372036854775807, topCas := 1 },
                    entry := none }) ∧
    columnYields demoStore 9223372036854775808 [wrapBucket, wrapBucket]
        { row := { start := 987, stop := 1001, current := 1001 },
          col := some { current := 128, stop := 9223372036854775807, topCas := 1 },
          entry := none } =
      [{ AlarmDue := 1001, ContextRef := demoStore.kvLocatorContext demoDigest "r1",
         Context := "x=1", AlarmRef := demoStore.kvLocatorAlarm 1001 9223372036854775807,
         alarmSeq := 9223372036854775807, ctxCas := 3, topCas := 1 },
       { AlarmDue := 1001, ContextRef := demoStore.kvLocatorContext demoDigest "r2",
         Context := "z=3", AlarmRef := demoStore.kvLocatorAlarm 1001 (-9223372036854775808),
         alarmSeq := -9223372036854775808, ctxCas := 5, topCas := 0 }] ∧
    ¬ ((9223372036854775807 : Int) < -9223372036854775808) ∧
    (-9223372036854775808 : Int) < init_seq := by
  have hf : wrapBucket.faults = [] := rfl
  refine ⟨by decide, ?_, by decide, by decide⟩
  have hskip := nextColumnLoop_skip_range demoStore hf 9223372036854775679 (128 + 1)
    { row := { start := 987, stop := 1001, current := 1001 },
      col := some { current := 128, stop := 9223372036854775807, topCas := 1 }, entry := none }
    { current := 128, stop := 9223372036854775807, topCas := 1 } rfl (by decide) (by decide)
    (by decide) (fun j hj => wrapBucket_gap j hj)
  have hy1 := nextColumnLoop_yield demoStore hf 128
    { row := { start := 987, stop := 1001, current := 1001 },
      col := some { current := 9223372036854775807, stop := 9223372036854775807, topCas := 1 },
      entry := none }
    { current := 9223372036854775807, stop := 9223372036854775807, topCas := 1 }
    (a := { AlarmDue := 1001, ContextRef := demoStore.kvLocatorContext demoDigest "r1" }) (p := 2)
    (c := { Context := "x=1", AlarmRef := demoStore.kvLocatorAlarm 1001 9223372036854775807 })
    (q := 3) (by decide) (by decide) (by decide) rfl
  have hy2 := nextColumnLoop_yield demoStore hf 9223372036854775807
    { row := { start := 987, stop := 1001, current := 1001 },
      col := some { current := -9223372036854775808, stop := 9223372036854775807, topCas := 1 },
      entry := none }
    { current := -9223372036854775808, stop := 9223372036854775807, topCas := 1 }
    (a := { AlarmDue := 1001, ContextRef := demoStore.kvLocatorContext demoDigest "r2" }) (p := 4)
    (c := { Context := "z=3", AlarmRef := demoStore.kvLocatorAlarm 1001 (-9223372036854775808) })
    (q := 5) (by decide) (by decide) (by decide) rfl
  have hcur : (128 : Int) + ((9223372036854775679 : Nat) : Int) = 9223372036854775807 := by
    norm_num
  simp only [hcur] at hskip
  have hnext : wrap64 (9223372036854775807 + 1) = -9223372036854775808 := by decide
  have hn1 : TimerIter.nextColumn demoStore 9223372036854775808
      { row := { start := 987, stop := 1001, current := 1001 },
        col := some { current := 128, stop := 9223372036854775807, topCas := 1 },
        entry := none } wrapBucket =
      some { out := true, err := none, kv := wrapBucket,
             it := { row := { start := 987, stop := 1001, current := 1001 },
                     col := some { current := -9223372036854775808,
                                   stop := 9223372036854775807, topCas := 1 },
                     entry := some
                       { AlarmDue := 1001,
                         ContextRef := demoStore.kvLocatorContext demoDigest "r1",
                         Context := "x=1",
                         AlarmRef := demoStore.kvLocatorAlarm 1001 9223372036854775807,
                         alarmSeq := 9223372036854775807, ctxCas := 3, topCas := 1 } } } := by
    rw [nextColumn_eq_loop _ _ _ _ _ rfl,
      show (9223372036854775808 : Nat) = 128 + 1 + 9223372036854775679 from by norm_num]
    simp only []
    rw [hskip, hy1]
    simp only [colIter.next, hnext, if_true]
  have hn2 : TimerIter.nextColumn demoStore 9223372036854775808
      { row := { start := 987, stop := 1001, current := 1001 },
        col := some { current := -9223372036854775808, stop := 9223372036854775807,
                      topCas := 1 },
        entry := some
          { AlarmDue := 1001, ContextRef := demoStore.kvLocatorContext demoDigest "r1",
            Context := "x=1", AlarmRef := demoStore.kvLocatorAlarm 1001 9223372036854775807,
            alarmSeq := 9223372036854775807, ctxCas := 3, topCas := 1 } } wrapBucket =
      some { out := true, err := none, kv := wrapBucket,
             it := { row := { start := 987, stop := 1001, current := 1001 },
                     col := some { current := -9223372036854775807,
                                   stop := 9223372036854775807, topCas := 1 },
                     entry := some
                       { AlarmDue := 1001,
                         ContextRef := demoStore.kvLocatorContext demoDigest "r2",
                         Context := "z=3",
                         AlarmRef := demoStore.kvLocatorAlarm 1001 (-9223372036854775808),
                         alarmSeq := -9223372036854775808, ctxCas := 5, topCas := 0 } } } := by
    rw [nextColumn_eq_loop _ _ _ _ _ rfl,
      show (9223372036854775808 : Nat) = 9223372036854775807 + 1 from by norm_num]
    simp only []
    rw [hy2]
    have hnext2 : wrap64 (-9223372036854775808 + 1) = -9223372036854775807 := by decide
    have hne : ¬ ((-9223372036854775808 : Int) = 9223372036854775807) := by decide
    simp only [colIter.next, hnext2, hne, if_false]
  rw [columnYields_cons _ _ _ _ _ _ _ hn1 rfl rfl rfl, columnYields_cons _ _ _ _ _ _ _ hn2 rfl rfl rfl,
    columnYields_nil]

/-! ## The rows of a scan -/

theorem bucketsWithRoot_mem (st : TimerStore) (kv : KV) :
    ∀ (m : Nat) (c b : Int), b ∈ bucketsWithRoot st kv m c ↔
      ∃ i : Nat, 1 ≤ i ∧ i ≤ m ∧ b = c + 7 * (i : Int) ∧
        (kv.store (st.kvLocatorRoot b)).isSome = true := by
  intro m
  induction m with
  | zero =>
    intro c b
    simp only [bucketsWithRoot, List.not_mem_nil, false_iff]
    rintro ⟨i, h1, h2, -⟩
    omega
  | succ m ih =>
    intro c b
    have hstep : (∃ i : Nat, 1 ≤ i ∧ i ≤ m + 1 ∧ b = c + 7 * (i : Int) ∧
          (kv.store (st.kvLocatorRoot b)).isSome = true) ↔
        (b = c + 7 ∧ (kv.store (st.kvLocatorRoot b)).isSome = true) ∨
        ∃ i : Nat, 1 ≤ i ∧ i ≤ m ∧ b = c + 7 + 7 * (i : Int) ∧
          (kv.store (st.kvLocatorRoot b)).isSome = true := by
      constructor
      · rintro ⟨i, h1, h2, h3, h4⟩
        by_cases hi : i = 1
        · left
          subst hi
          exact ⟨by simpa using h3, h4⟩
        · right
          exact ⟨i - 1, by omega, by omega, by omega, h4⟩
      · rintro (⟨h1, h2⟩ | ⟨i, h1, h2, h3, h4⟩)
        · exact ⟨1, le_refl _, by omega, by simpa using h1, h2⟩
        · exact ⟨i + 1, by omega, by omega, by push_cast; omega, h4⟩
    rw [hstep]
    unfold bucketsWithRoot
    by_cases hp : (kv.store (st.kvLocatorRoot (c + 7))).isSome = true
    · rw [if_pos hp, List.mem_cons, ih]
      constructor
      · rintro (h | h)
        · left
          subst h
          exact ⟨rfl, hp⟩
        · exact Or.inr h
      · rintro (⟨h, -⟩ | h)
        · exact Or.inl h
        · exact Or.inr h
    · rw [if_neg hp, ih]
      constructor
      · intro h
        exact Or.inr h
      · rintro (⟨h, h2⟩ | h)
        · subst h
          exact absurd h2 hp
        · exact h

theorem bucketsWithRoot_sorted (st : TimerStore) (kv : KV) :
    ∀ (m : Nat) (c : Int), List.Pairwise (fun a b : Int => a < b) (bucketsWithRoot st kv m c) := by
  intro m
  induction m with
  | zero => intro c; simp [bucketsWithRoot]
  | succ m ih =>
    intro c
    unfold bucketsWithRoot
    split
    · rw [List.pairwise_cons]
      refine ⟨fun b hb => ?_, ih _⟩
      obtain ⟨i, h1, -, h3, -⟩ := (bucketsWithRoot_mem st kv m (c + 7) b).1 hb
      omega
    · exact ih _

/-- When the first bucket with a root key after `c` is `b`, the later ones are
those after `b`. -/
theorem bucketsWithRoot_cons (st : TimerStore) (kv : KV) :
    ∀ (m : Nat) (c b : Int) (rest : List Int), bucketsWithRoot st kv m c = b :: rest →
      ∃ k : Nat, k < m ∧ b = c + 7 * ((k : Int) + 1) ∧
        rest = bucketsWithRoot st kv (m - k - 1) b := by
  intro m
  induction m with
  | zero => intro c b rest h; simp [bucketsWithRoot] at h
  | succ m ih =>
    intro c b rest h
    unfold bucketsWithRoot at h
    split at h
    · simp only [List.cons.injEq] at h
      obtain ⟨h1, h2⟩ := h
      refine ⟨0, by omega, by simpa using h1.symm, ?_⟩
      rw [← h2, ← h1]
      simp
    · obtain ⟨k, h1, h2, h3⟩ := ih _ _ _ h
      refine ⟨k + 1, by omega, by push_cast; omega, ?_⟩
      rw [h3]
      congr 1
      omega

/-- With no failure and only counters under the root keys, `nextRow` on a
cursor with `m` buckets left before `row.stop` stops at the first of them that
has a root key, and finds nothing when none has. -/
theorem nextRowLoop_buckets (st : TimerStore) (kv : KV) (hf : kv.faults = [])
    (hroot : ∀ b d, kv.store (st.kvLocatorRoot b) = some d → ∃ v, d.val = .counter v) :
    ∀ (m fuel : Nat) (it : TimerIter) (col : colIter), m < fuel →
      isInt64 it.row.current → it.row.stop ≤ maxInt64 →
      it.row.stop ≤ it.row.current + 7 * (m : Int) →
      (0 < m → it.row.current + 7 * (m : Int) ≤ it.row.stop) →
      ∃ res, TimerIter.nextRowLoop st fuel it col kv = some res ∧ res.err = none ∧ res.kv = kv ∧
        res.it.row.start = it.row.start ∧ res.it.row.stop = it.row.stop ∧
        (bucketsWithRoot st kv m it.row.current = [] → res.out = false) ∧
        (∀ b rest, bucketsWithRoot st kv m it.row.current = b :: rest →
          res.out = true ∧ res.it.row.current = b) := by
  intro m
  induction m with
  | zero =>
    intro fuel it col hfuel _ _ hstop _
    obtain ⟨fuel, rfl⟩ : ∃ f, fuel = f + 1 := ⟨fuel - 1, by omega⟩
    have hlt : ¬ it.row.current < it.row.stop := by
      simp only [Nat.cast_zero, mul_zero, add_zero] at hstop
      omega
    refine ⟨{ out := false, err := none, it := it, kv := kv }, ?_, rfl, rfl, rfl, rfl,
      fun _ => rfl, fun b rest h => ?_⟩
    · simp only [TimerIter.nextRowLoop, hlt, if_false]
    · simp [bucketsWithRoot] at h
  | succ m ih =>
    intro fuel it col hfuel hcur hmax hstop hlow
    obtain ⟨fuel, rfl⟩ : ∃ f, fuel = f + 1 := ⟨fuel - 1, by omega⟩
    have hlow2 := hlow (by omega)
    push_cast at hstop hlow2
    have hw : wrap64 (it.row.current + Resolution) = it.row.current + 7 := by
      apply wrap64_of_isInt64
      unfold isInt64 minInt64 maxInt64 Resolution at *
      omega
    have hlt : it.row.current < it.row.stop := by omega
    cases hs : kv.store (st.kvLocatorRoot (it.row.current + 7)) with
    | none =>
      obtain ⟨res, h1, h2, h3, h4, h5, h6, h7⟩ := ih fuel
        { it with row := { it.row with current := it.row.current + 7 } } col (by omega)
        (by unfold isInt64 minInt64 maxInt64 at *; simp only; omega) hmax
        (by simp only; omega) (fun _ => by simp only; omega)
      refine ⟨res, ?_, h2, h3, h4, h5, ?_, ?_⟩
      · simp only [TimerIter.nextRowLoop, hlt, if_true, hw]
        rw [MustGet_absent hf hs]
        simp only [Bool.not_true, Bool.false_eq_true, if_false]
        exact h1
      · intro hb
        apply h6
        unfold bucketsWithRoot at hb
        simpa [hs] using hb
      · intro b rest hb
        apply h7 b rest
        unfold bucketsWithRoot at hb
        simpa [hs] using hb
    | some d =>
      obtain ⟨v, hv⟩ := hroot _ d hs
      have hs2 : kv.store (st.kvLocatorRoot (it.row.current + 7)) =
          some { val := .counter v, cas := d.cas } := by
        rw [hs, ← hv]
      refine ⟨{ out := true, err := none, kv := kv,
                it := { row := { it.row with current := it.row.current + 7 },
                        col := some { stop := v, current := col.current, topCas := d.cas },
                        entry := it.entry } }, ?_, ?_, ?_, ?_, ?_, ?_, ?_⟩
      · simp only [TimerIter.nextRowLoop, hlt, if_true, hw]
        rw [MustGet_present hf hs2 (v := v) rfl]
        simp only [Bool.not_false, if_true]
      · rfl
      · rfl
      · rfl
      · rfl
      · intro hb
        unfold bucketsWithRoot at hb
        simp [hs] at hb
      · intro b rest hb
        unfold bucketsWithRoot at hb
        simp only [hs, Option.isSome_some, if_true, List.cons.injEq] at hb
        exact ⟨rfl, hb.1⟩

/-- With no failure and only counters under the root keys, the rows a scan
finds from a cursor with `m` buckets left before `row.stop` are the buckets
among them that have a root key, in ascending order. -/
theorem rowsFound_eq (st : TimerStore) (kv : KV) (hf : kv.faults = [])
    (hroot : ∀ b d, kv.store (st.kvLocatorRoot b) = some d → ∃ v, d.val = .counter v)
    (fuel : Nat) :
    ∀ (n m : Nat) (it : TimerIter), m < n → m < fuel →
      isInt64 it.row.current → it.row.stop ≤ maxInt64 →
      it.row.stop ≤ it.row.current + 7 * (m : Int) →
      (0 < m → it.row.current + 7 * (m : Int) ≤ it.row.stop) →
      rowsFound st fuel n it kv = bucketsWithRoot st kv m it.row.current := by
  intro n
  induction n with
  | zero => intro m it h; omega
  | succ n ih =>
    intro m it hn hfuel hcur hmax hstop hlow
    obtain ⟨res, h1, h2, h3, h4, h5, h6, h7⟩ := nextRowLoop_buckets st kv hf hroot m fuel
      { it with col := none, entry := none } { current := init_seq, topCas := 0, stop := 0 }
      hfuel hcur hmax hstop hlow
    have hrow : TimerIter.nextRow st fuel it kv = some res := h1
    unfold rowsFound
    rw [hrow]
    simp only
    cases hb : bucketsWithRoot st kv m it.row.current with
    | nil =>
      have := h6 hb
      simp [this]
    | cons b rest =>
      obtain ⟨ho, hc⟩ := h7 b rest hb
      obtain ⟨k, hk, hbk, hrest⟩ := bucketsWithRoot_cons st kv m _ b rest hb
      have hm : 0 < m := by omega
      have hlow2 := hlow hm
      have hkm : (k : Int) + 1 ≤ (m : Int) := by exact_mod_cast hk
      have hcast : ((m - k - 1 : Nat) : Int) = (m : Int) - (k : Int) - 1 := by omega
      simp only [ho, h2, Option.isNone_none, Bool.and_self, if_true, hc, h3]
      rw [hrest]
      congr 1
      have h5b : res.it.row.stop = it.row.stop := h5
      rw [ih (m - k - 1) res.it (by omega) (by omega)
        (by rw [hc]; unfold isInt64 minInt64 maxInt64 at *; omega) (by rw [h5b]; exact hmax)
        (by rw [h5b, hc]; omega)
        (fun _ => by rw [h5b, hc]; omega)]
      rw [hc]

/-- The root keys of the bucket after `demoSet1` hold counters. -/
theorem demoSet1_roots (b : Int) (d : Doc)
    (h : demoSet1.kv.store (demoStore.kvLocatorRoot b) = some d) : ∃ v, d.val = .counter v := by
  have hset := Set_fresh demoDigest demoStore 990 1000 "r1" "x=1" KV.empty rfl rfl
  have hkv : demoSet1.kv = (demoStore.Set demoDigest 990 1000 "r1" "x=1" KV.empty).kv := rfl
  rw [hkv, hset] at h
  simp only [put_store, kvLocatorRoot_ne_context, kvLocatorRoot_ne_alarm, if_false] at h
  split at h
  · simp only [Option.some.injEq] at h
    exact ⟨_, by rw [← h]⟩
  · simp [KV.empty] at h

/-! ## What `Cancel` touches -/

/-- Whatever the failure schedule, `MustRemove` leaves every other key alone. -/
theorem MustRemove_store_other (kv : KV) (key : String) (cas : Cas) (k : String) (hk : k ≠ key) :
    (MustRemove kv key cas).2.store k = kv.store k := by
  rcases MustRemove_cases kv key cas with h | h | h | h
  · rw [h.2.2.2]
  · rw [h.2.2.2.2]
  · rw [h.2.2.2.2]
  · rw [h.2.2.2.2]
    simp [hk]

/-- `Cancel` never changes the in-memory store, so never the span; whatever the
failure schedule it leaves alone every key other than the context key of `ref`
and the alarm key its record references; and with no KV failure, when the
context record is stored and the alarm key it references is stored too, both
keys are absent after `Cancel`. -/
theorem Cancel_frame (H : Ripemd160) (r : TimerStore) (ref : String) (kv : KV) :
    (r.Cancel H ref kv).store = r ∧
    (∀ k, k ≠ r.kvLocatorContext H ref →
      (∀ d c, kv.store (r.kvLocatorContext H ref) = some d → d.val = .context c →
        k ≠ c.AlarmRef) →
      (r.Cancel H ref kv).kv.store k = kv.store k) ∧
    (∀ c cas, kv.faults = [] →
      kv.store (r.kvLocatorContext H ref) = some { val := .context c, cas := cas } →
      (kv.store c.AlarmRef).isSome = true →
      (r.Cancel H ref kv).kv.store (r.kvLocatorContext H ref) = none ∧
      (r.Cancel H ref kv).kv.store c.AlarmRef = none) := by
  refine ⟨?_, ?_, ?_⟩
  · unfold TimerStore.Cancel
    simp only
    split
    · rfl
    · split
      · rfl
      · split
        · rfl
        · split <;> rfl
  · intro k hk1 hk2
    have fg := MustGet_frame kv (r.kvLocatorContext H ref) Value.asContext
    have hfound := MustGet_found kv (r.kvLocatorContext H ref) Value.asContext
    unfold TimerStore.Cancel
    simp only
    generalize MustGet kv (r.kvLocatorContext H ref) Value.asContext = g at fg hfound ⊢
    cases he : g.1.err with
    | some e => simp only; rw [fg.1]
    | none =>
      simp only
      cases hab : g.1.absent with
      | true => simp only [if_true]; rw [fg.1]
      | false =>
        obtain ⟨d, v, hs, hd, ho, -⟩ := hfound he hab
        have hk3 : k ≠ v.AlarmRef := hk2 d v hs (Value.asContext_eq hd)
        simp only [Bool.false_eq_true, if_false, ho, Option.getD_some]
        have h1 : (MustRemove g.2 v.AlarmRef 0).2.store k = kv.store k := by
          rw [MustRemove_store_other _ _ _ _ hk3, fg.1]
        split
        · exact h1
        · split
          · exact h1
          · simp only
            rw [MustRemove_store_other _ _ _ _ hk1, h1]
  · intro c cas hf hc ha
    obtain ⟨da, hda⟩ := Option.isSome_iff_exists.1 ha
    unfold TimerStore.Cancel
    simp only
    rw [MustGet_present hf hc (v := c) rfl]
    simp only [Bool.false_eq_true, if_false, Option.getD_some]
    rw [MustRemove_ok hf hda (Or.inl rfl)]
    simp only [Bool.false_eq_true, if_false]
    by_cases heq : r.kvLocatorContext H ref = c.AlarmRef
    · have hnone : (kv.erase c.AlarmRef).store (r.kvLocatorContext H ref) = none := by
        simp [erase_store, heq]
      rw [MustRemove_absent (by simpa using hf) hnone]
      simp only
      rw [← heq] at hnone ⊢
      exact ⟨hnone, hnone⟩
    · have hsome : (kv.erase c.AlarmRef).store (r.kvLocatorContext H ref) =
          some { val := .context c, cas := cas } := by
        simp [erase_store, heq, hc]
      rw [MustRemove_ok (by simpa using hf) hsome (Or.inl rfl)]
      simp only [erase_store, if_true]
      exact ⟨trivial, by simp [Ne.symm heq]⟩

theorem Cancel_frame_witness :
    (demoSet1.store.Cancel demoDigest "r1" demoSet1.kv).store = demoSet1.store ∧
    (demoSet1.store.Cancel demoDigest "r1" demoSet1.kv).kv.store
        (demoStore.kvLocatorRoot 1001) = some { val := .counter 128, cas := 1 } ∧
    (demoSet1.store.Cancel demoDigest "r1" demoSet1.kv).kv.store
        (demoSet1.store.kvLocatorContext demoDigest "r1") = none ∧
    (demoSet1.store.Cancel demoDigest "r1" demoSet1.kv).kv.store
        (demoStore.kvLocatorAlarm 1001 128) = none :=
  ⟨(Cancel_frame demoDigest demoSet1.store "r1" demoSet1.kv).1, by decide,
    ((Cancel_frame demoDigest demoSet1.store "r1" demoSet1.kv).2.2
      { Context := "x=1", AlarmRef := demoStore.kvLocatorAlarm 1001 128 } 3 (by decide)
      (by decide) (by decide)).1,
    ((Cancel_frame demoDigest demoSet1.store "r1" demoSet1.kv).2.2
      { Context := "x=1", AlarmRef := demoStore.kvLocatorAlarm 1001 128 } 3 (by decide)
      (by decide) (by decide)).2⟩

/-! ## KV errors in `Set` and `Delete` -/

theorem tick_cons {kv : KV} {b : Bool} {fs : List Bool} (h : kv.faults = b :: fs) :
    kv.tick = (b, { kv with faults := fs }) := by
  simp [KV.tick, h]

/-- A failure schedule whose first failure comes after the failure-free entries
`pre`: either it starts with the failure, or with a failure-free entry. -/
theorem schedule_cases {faults pre fs : List Bool} (hpre : ∀ x ∈ pre, x = false)
    (hf : faults = pre ++ true :: fs) :
    (pre = [] ∧ faults = true :: fs) ∨
    ∃ pre2, pre = false :: pre2 ∧ faults = false :: (pre2 ++ true :: fs) ∧
      ∀ x ∈ pre2, x = false := by
  cases pre with
  | nil => exact Or.inl ⟨rfl, by simpa using hf⟩
  | cons b pre2 =>
    right
    have hb : b = false := hpre b (List.mem_cons_self _ _)
    subst hb
    exact ⟨pre2, rfl, by simpa using hf, fun x hx => hpre x (List.mem_cons_of_mem _ hx)⟩

theorem MustCounter_sched (kv : KV) (key : String) (delta initial : Int) (fs : List Bool) :
    (kv.faults = true :: fs →
      (MustCounter kv key delta initial).1.err = some .ErrRetryTimeout ∧
      (MustCounter kv key delta initial).2.faults = fs) ∧
    (kv.faults = false :: fs →
      (MustCounter kv key delta initial).2.faults = fs ∧
      ((∀ d, kv.store key = some d → ∃ n, d.val = .counter n) →
        (MustCounter kv key delta initial).1.err = none)) := by
  constructor
  · intro h
    simp [MustCounter, tick_cons h]
  · intro h
    unfold MustCounter
    simp only [tick_cons h, Bool.false_eq_true, if_false]
    cases hs : kv.store key with
    | none => simp
    | some d =>
      obtain ⟨v, c⟩ := d
      cases v with
      | counter n => simp
      | alarm a =>
        refine ⟨by simp, fun hd => ?_⟩
        obtain ⟨n, hn⟩ := hd _ rfl
        cases hn
      | context a =>
        refine ⟨by simp, fun hd => ?_⟩
        obtain ⟨n, hn⟩ := hd _ rfl
        cases hn
      | span a =>
        refine ⟨by simp, fun hd => ?_⟩
        obtain ⟨n, hn⟩ := hd _ rfl
        cases hn

theorem MustUpsert_sched (kv : KV) (key : String) (val : Value) (fs : List Bool) :
    (kv.faults = true :: fs →
      (MustUpsert kv key val).1.err = some .ErrRetryTimeout ∧
      (MustUpsert kv key val).2.faults = fs) ∧
    (kv.faults = false :: fs →
      (MustUpsert kv key val).2.faults = fs ∧ (MustUpsert kv key val).1.err = none) := by
  constructor
  · intro h
    simp [MustUpsert, tick_cons h, WriteResult.failed]
  · intro h
    simp [MustUpsert, tick_cons h]

theorem MustRemove_sched (kv : KV) (key : String) (cas : Cas) (fs : List Bool) :
    (kv.faults = true :: fs →
      (MustRemove kv key cas).1.err = some .ErrRetryTimeout ∧
      (MustRemove kv key cas).2.faults = fs) ∧
    (kv.faults = false :: fs →
      (MustRemove kv key cas).2.faults = fs ∧ (MustRemove kv key cas).1.err = none) := by
  constructor
  · intro h
    simp [MustRemove, tick_cons h, WriteResult.failed]
  · intro h
    unfold MustRemove
    simp only [tick_cons h, Bool.false_eq_true, if_false]
    split
    · exact ⟨rfl, rfl⟩
    · split <;> exact ⟨rfl, rfl⟩

/-- A transient KV error in `Set` is returned to the caller, and no KV
operation follows it. The failure schedule of the bucket has its first failure
after the failure-free entries `pre`: either `Set` ends before that operation
(more than `fs` is left of the schedule), or it returns the error of that
operation, leaves the in-memory store alone and consumes nothing of the rest
`fs` of the schedule; and the failing operation is reached when it is one of the
three of `Set` and the root key holds a counter or nothing. -/
theorem Set_sched (H : Ripemd160) (r : TimerStore) (now due : Int) (ref : String)
    (context : Json) (kv : KV) (pre fs : List Bool) (hpre : ∀ x ∈ pre, x = false)
    (hf : kv.faults = pre ++ true :: fs) :
    (((r.Set H now due ref context kv).err = some .ErrRetryTimeout ∧
        (r.Set H now due ref context kv).kv.faults = fs ∧
        (r.Set H now due ref context kv).store = r) ∨
      fs.length < (r.Set H now due ref context kv).kv.faults.length) ∧
    (pre.length ≤ 2 →
      (∀ d, kv.store (r.kvLocatorRoot (setDue now due)) = some d → ∃ n, d.val = .counter n) →
      (r.Set H now due ref context kv).err = some .ErrRetryTimeout ∧
      (r.Set H now due ref context kv).kv.faults = fs) := by
  unfold TimerStore.Set
  dsimp only
  have hc := MustCounter_sched kv (r.kvLocatorRoot (setDue now due)) 1 init_seq
  generalize MustCounter kv (r.kvLocatorRoot (setDue now due)) 1 init_seq = c at hc ⊢
  rcases schedule_cases hpre hf with ⟨rfl, h0⟩ | ⟨pre2, rfl, h0, hpre2⟩
  · obtain ⟨e1, e2⟩ := (hc fs).1 h0
    rw [e1]
    exact ⟨Or.inl ⟨rfl, e2, rfl⟩, fun _ _ => ⟨rfl, e2⟩⟩
  · obtain ⟨f1, f2⟩ := (hc _).2 h0
    cases hce : c.1.err with
    | some e =>
      dsimp only
      refine ⟨Or.inr ?_, fun _ hd => ?_⟩
      · rw [f1]; simp; omega
      · rw [f2 hd] at hce
        cases hce
    | none =>
      dsimp only
      have hu := MustUpsert_sched c.2 (r.kvLocatorAlarm (setDue now due) c.1.value)
        (.alarm { AlarmDue := setDue now due, ContextRef := r.kvLocatorContext H ref })
      generalize MustUpsert c.2 (r.kvLocatorAlarm (setDue now due) c.1.value)
        (.alarm { AlarmDue := setDue now due, ContextRef := r.kvLocatorContext H ref }) = ua
        at hu ⊢
      rcases schedule_cases hpre2 f1 with ⟨rfl, h1⟩ | ⟨pre3, rfl, h1, hpre3⟩
      · obtain ⟨e1, e2⟩ := (hu fs).1 h1
        rw [e1]
        exact ⟨Or.inl ⟨rfl, e2, rfl⟩, fun _ _ => ⟨rfl, e2⟩⟩
      · obtain ⟨g1, g2⟩ := (hu _).2 h1
        rw [g2]
        dsimp only
        have hv := MustUpsert_sched ua.2 (r.kvLocatorContext H ref)
          (.context { Context := context,
                      AlarmRef := r.kvLocatorAlarm (setDue now due) c.1.value })
        generalize MustUpsert ua.2 (r.kvLocatorContext H ref)
          (.context { Context := context,
                      AlarmRef := r.kvLocatorAlarm (setDue now due) c.1.value }) = uc at hv ⊢
        rcases schedule_cases hpre3 g1 with ⟨rfl, h2⟩ | ⟨pre4, rfl, h2, hpre4⟩
        · obtain ⟨e1, e2⟩ := (hv fs).1 h2
          rw [e1]
          exact ⟨Or.inl ⟨rfl, e2, rfl⟩, fun _ _ => ⟨rfl, e2⟩⟩
        · obtain ⟨k1, k2⟩ := (hv _).2 h2
          rw [k2]
          dsimp only
          refine ⟨Or.inr ?_, fun hl _ => ?_⟩
          · rw [k1]; simp; omega
          · simp at hl

/-- A transient KV error in `Delete` is returned to the caller, and no KV
operation follows it; the failing operation is reached when it is one of the
first two of `Delete`. -/
theorem Delete_sched (r : TimerStore) (entry : TimerEntry) (kv : KV) (pre fs : List Bool)
    (hpre : ∀ x ∈ pre, x = false) (hf : kv.faults = pre ++ true :: fs) :
    (((r.Delete entry kv).err = some .ErrRetryTimeout ∧ (r.Delete entry kv).kv.faults = fs ∧
        (r.Delete entry kv).store = r) ∨
      fs.length < (r.Delete entry kv).kv.faults.length) ∧
    (pre.length ≤ 1 →
      (r.Delete entry kv).err = some .ErrRetryTimeout ∧ (r.Delete entry kv).kv.faults = fs) := by
  unfold TimerStore.Delete
  dsimp only
  have ha := MustRemove_sched kv entry.AlarmRef 0
  generalize MustRemove kv entry.AlarmRef 0 = ra at ha ⊢
  rcases schedule_cases hpre hf with ⟨rfl, h0⟩ | ⟨pre2, rfl, h0, hpre2⟩
  · obtain ⟨e1, e2⟩ := (ha fs).1 h0
    rw [e1]
    exact ⟨Or.inl ⟨rfl, e2, rfl⟩, fun _ => ⟨rfl, e2⟩⟩
  · obtain ⟨f1, f2⟩ := (ha _).2 h0
    rw [f2]
    dsimp only
    have hc := MustRemove_sched ra.2 entry.ContextRef entry.ctxCas
    generalize MustRemove ra.2 entry.ContextRef entry.ctxCas = rc at hc ⊢
    rcases schedule_cases hpre2 f1 with ⟨rfl, h1⟩ | ⟨pre3, rfl, h1, hpre3⟩
    · obtain ⟨e1, e2⟩ := (hc fs).1 h1
      rw [e1]
      exact ⟨Or.inl ⟨rfl, e2, rfl⟩, fun _ => ⟨rfl, e2⟩⟩
    · obtain ⟨g1, g2⟩ := (hc _).2 h1
      rw [g2]
      dsimp only
      have hlen : fs.length < rc.2.faults.length := by rw [g1]; simp; omega
      split
      · exact ⟨Or.inr hlen, fun hl => by simp at hl⟩
      · split
        · exact ⟨Or.inr hlen, fun hl => by simp at hl⟩
        · have ht := MustRemove_sched rc.2 (r.kvLocatorRoot entry.AlarmDue) entry.topCas
          generalize MustRemove rc.2 (r.kvLocatorRoot entry.AlarmDue) entry.topCas = rt at ht ⊢
          rcases schedule_cases hpre3 g1 with ⟨rfl, h2⟩ | ⟨pre4, rfl, h2, hpre4⟩
          · obtain ⟨e1, e2⟩ := (ht fs).1 h2
            rw [e1]
            exact ⟨Or.inl ⟨rfl, e2, rfl⟩, fun hl => by simp at hl⟩
          · obtain ⟨k1, k2⟩ := (ht _).2 h2
            rw [k2]
            dsimp only
            refine ⟨Or.inr ?_, fun hl => by simp at hl⟩
            rw [k1]; simp; omega

/-- `Set` and `Delete` surface a transient KV error: with the first failure of
the schedule after the failure-free entries `pre`, each of them either ends
before the failing operation, or returns its error `ErrRetryTimeout`, leaves the
in-memory store alone and issues no KV operation after it (nothing of the rest
`fs` of the schedule is consumed). The failing operation is reached by `Set`
when it is one of its three and the root key holds a counter or nothing, and by
`Delete` when it is one of its first two. -/
theorem Set_and_Delete_return_KV_errors (H : Ripemd160) (r : TimerStore) (now due : Int)
    (ref : String) (context : Json) (entry : TimerEntry) (kv : KV) (pre fs : List Bool)
    (hpre : ∀ x ∈ pre, x = false) (hf : kv.faults = pre ++ true :: fs) :
    ((((r.Set H now due ref context kv).err = some .ErrRetryTimeout ∧
         (r.Set H now due ref context kv).kv.faults = fs ∧
         (r.Set H now due ref context kv).store = r) ∨
       fs.length < (r.Set H now due ref context kv).kv.faults.length) ∧
     (pre.length ≤ 2 →
       (∀ d, kv.store (r.kvLocatorRoot (setDue now due)) = some d → ∃ n, d.val = .counter n) →
       (r.Set H now due ref context kv).err = some .ErrRetryTimeout ∧
       (r.Set H now due ref context kv).kv.faults = fs)) ∧
    ((((r.Delete entry kv).err = some .ErrRetryTimeout ∧ (r.Delete entry kv).kv.faults = fs ∧
         (r.Delete entry kv).store = r) ∨
       fs.length < (r.Delete entry kv).kv.faults.length) ∧
     (pre.length ≤ 1 →
       (r.Delete entry kv).err = some .ErrRetryTimeout ∧ (r.Delete entry kv).kv.faults = fs)) :=
  ⟨Set_sched H r now due ref context kv pre fs hpre hf, Delete_sched r entry kv pre fs hpre hf⟩

theorem Set_and_Delete_return_KV_errors_witness :
    ({ demoSet1.kv with faults := [false, true, false] } : KV).faults =
      [false] ++ true :: [false] ∧
    (demoStore.Set demoDigest 991 1000 "r2" "z=3"
        { demoSet1.kv with faults := [false, true, false] }).err = some .ErrRetryTimeout ∧
    (demoStore.Set demoDigest 991 1000 "r2" "z=3"
        { demoSet1.kv with faults := [false, true, false] }).kv.faults = [false] ∧
    (demoStore.Delete demoEntry
        { demoSet1.kv with faults := [false, true, false] }).err = some .ErrRetryTimeout ∧
    (demoStore.Delete demoEntry
        { demoSet1.kv with faults := [false, true, false] }).kv.faults = [false] :=
  ⟨rfl,
    ((Set_and_Delete_return_KV_errors demoDigest demoStore 991 1000 "r2" "z=3" demoEntry
      { demoSet1.kv with faults := [false, true, false] } [false] [false] (by decide) rfl).1.2
      (by decide) (fun d hd => demoSet1_roots (setDue 991 1000) d hd)).1,
    ((Set_and_Delete_return_KV_errors demoDigest demoStore 991 1000 "r2" "z=3" demoEntry
      { demoSet1.kv with faults := [false, true, false] } [false] [false] (by decide) rfl).1.2
      (by decide) (fun d hd => demoSet1_roots (setDue 991 1000) d hd)).2,
    ((Set_and_Delete_return_KV_errors demoDigest demoStore 991 1000 "r2" "z=3" demoEntry
      { demoSet1.kv with faults := [false, true, false] } [false] [false] (by decide) rfl).2.2
      (by decide)).1,
    ((Set_and_Delete_return_KV_errors demoDigest demoStore 991 1000 "r2" "z=3" demoEntry
      { demoSet1.kv with faults := [false, true, false] } [false] [false] (by decide) rfl).2.2
      (by decide)).2⟩

/-! ## `roundDown` below zero -/

/-- Before the epoch `roundDown` rounds up: Go's `/` truncates toward zero,
so for every negative 64-bit `v` that is not a multiple of 7, `roundDown(v)` is a
multiple of 7 strictly above `v`, the one `roundUp(v)` returns, and not the
greatest multiple of 7 that does not exceed `v`. -/
theorem roundDown_rounds_up_below_zero (v : Int) (h : isInt64 v) (hneg : v < 0)
    (hnm : v % 7 ≠ 0) :
    roundDown v % 7 = 0 ∧ v < roundDown v ∧ roundDown v < v + 7 ∧ roundDown v = roundUp v ∧
    ¬ (roundDown v ≤ v) := by
  rw [roundUp_eq h, roundDown_eq h]
  have h0 : ¬ (0 ≤ v) := by omega
  simp only [h0, if_false]
  refine ⟨by omega, by omega, by omega, trivial, by omega⟩

theorem roundDown_rounds_up_below_zero_witness :
    isInt64 (-8) ∧ (-8 : Int) < 0 ∧ roundDown (-8) = -7 ∧ ¬ (roundDown (-8) ≤ -8) :=
  ⟨by decide, by decide, by decide,
    (roundDown_rounds_up_below_zero (-8) (by decide) (by decide) (by decide)).2.2.2.2⟩

/-! ## The context key and the digest -/

theorem dict_inj : ∀ v : Fin 32, ∀ w : Fin 32,
    dict.toList.getD v.1 'A' = dict.toList.getD w.1 'A' → v = w := by
  decide

/-- A byte is given by its eight bits. -/
theorem byte_of_bits {a b : Nat} (ha : a < 256) (hb : b < 256)
    (h : ∀ p, p < 8 → a / 2 ^ (7 - p) % 2 = b / 2 ^ (7 - p) % 2) : a = b := by
  have h0 := h 0 (by omega)
  have h1 := h 1 (by omega)
  have h2 := h 2 (by omega)
  have h3 := h 3 (by omega)
  have h4 := h 4 (by omega)
  have h5 := h 5 (by omega)
  have h6 := h 6 (by omega)
  have h7 := h 7 (by omega)
  norm_num at h0 h1 h2 h3 h4 h5 h6 h7
  omega

/-- Two references get the same hash only when their digests are equal. -/
theorem contextHash_inj (H : Ripemd160) (ref1 ref2 : String)
    (h : contextHash (refBits H ref1) = contextHash (refBits H ref2)) :
    H.Sum ref1 = H.Sum ref2 := by
  have hd := congrArg String.data h
  rw [contextHash_data, contextHash_data] at hd
  have hpos : ∀ i, i < 32 → hashPos (refBits H ref1) (5 * i) = hashPos (refBits H ref2) (5 * i) := by
    intro i hi
    have hmem : 5 * i ∈ List.range' 0 32 5 := by
      rw [List.mem_range']
      exact ⟨i, hi, by omega⟩
    have := (List.map_inj_left.1 hd) _ hmem
    have h2 := dict_inj ⟨_, hashPos_lt (refBits H ref1) (5 * i)⟩
      ⟨_, hashPos_lt (refBits H ref2) (5 * i)⟩ this
    exact Fin.mk.inj_iff.1 h2
  have hbit : ∀ j, j < 160 → digestBit H ref1 j = digestBit H ref2 j := by
    intro j hj
    have hp := hpos (j / 5) (by omega)
    rw [hashPos_eq, hashPos_eq] at hp
    have a0 := At_le_one (refBits H ref1) (5 * (j / 5))
    have a1 := At_le_one (refBits H ref1) (5 * (j / 5) + 1)
    have a2 := At_le_one (refBits H ref1) (5 * (j / 5) + 2)
    have a3 := At_le_one (refBits H ref1) (5 * (j / 5) + 3)
    have a4 := At_le_one (refBits H ref1) (5 * (j / 5) + 4)
    have b0 := At_le_one (refBits H ref2) (5 * (j / 5))
    have b1 := At_le_one (refBits H ref2) (5 * (j / 5) + 1)
    have b2 := At_le_one (refBits H ref2) (5 * (j / 5) + 2)
    have b3 := At_le_one (refBits H ref2) (5 * (j / 5) + 3)
    have b4 := At_le_one (refBits H ref2) (5 * (j / 5) + 4)
    rw [← At_refBits H ref1 j hj, ← At_refBits H ref2 j hj]
    have hj5 : j = 5 * (j / 5) ∨ j = 5 * (j / 5) + 1 ∨ j = 5 * (j / 5) + 2 ∨
        j = 5 * (j / 5) + 3 ∨ j = 5 * (j / 5) + 4 := by omega
    rcases hj5 with e | e | e | e | e <;> rw [e] <;> omega
  apply List.ext_getElem (by rw [H.size, H.size])
  intro k hk1 hk2
  have hk : k < 20 := by rw [H.size] at hk1; exact hk1
  apply byte_of_bits (H.byte _ _ (List.getElem_mem _)) (H.byte _ _ (List.getElem_mem _))
  intro p hp
  have := hbit (8 * k + p) (by omega)
  unfold digestBit at this
  have e1 : (8 * k + p) / 8 = k := by omega
  have e2 : (8 * k + p) % 8 = p := by omega
  rw [e1, e2] at this
  simpa [List.getD_eq_getElem?_getD, List.getElem?_eq_getElem hk1,
    List.getElem?_eq_getElem hk2] using this

theorem kvLocatorRoot_ne_span (r : TimerStore) (a : Int) : r.kvLocatorRoot a ≠ r.kvLocatorSpan := by
  intro h
  have h2 := congrArg String.data h
  simp [kvLocatorRoot_data, kvLocatorSpan_data] at h2

theorem kvLocatorAlarm_ne_span (r : TimerStore) (a s : Int) :
    r.kvLocatorAlarm a s ≠ r.kvLocatorSpan := by
  intro h
  have h2 := congrArg String.data h
  simp [kvLocatorAlarm_data, kvLocatorSpan_data] at h2

theorem kvLocatorContext_ne_span (H : Ripemd160) (r : TimerStore) (ref : String) :
    r.kvLocatorContext H ref ≠ r.kvLocatorSpan := by
  intro h
  have h2 := congrArg String.data h
  simp [kvLocatorContext_data, kvLocatorSpan_data] at h2

/-! ## C22: the key layout within one store -/

/-- C22: within one store, `kvLocatorRoot` is injective in `due`,
`kvLocatorAlarm` is injective in the pair `(due, seq)`, two references have the
same context key exactly when their digests are equal, and a root key, an alarm
key, a context key and the span key are never equal to a key of another kind. -/
theorem key_layout_collision_free (H : Ripemd160) (r : TimerStore) :
    (∀ a b : Int, r.kvLocatorRoot a = r.kvLocatorRoot b ↔ a = b) ∧
    (∀ a b s t : Int, r.kvLocatorAlarm a s = r.kvLocatorAlarm b t ↔ a = b ∧ s = t) ∧
    (∀ ref1 ref2 : String,
      r.kvLocatorContext H ref1 = r.kvLocatorContext H ref2 ↔ H.Sum ref1 = H.Sum ref2) ∧
    (∀ a b s : Int, r.kvLocatorRoot a ≠ r.kvLocatorAlarm b s) ∧
    (∀ (a : Int) (ref : String), r.kvLocatorRoot a ≠ r.kvLocatorContext H ref) ∧
    (∀ a : Int, r.kvLocatorRoot a ≠ r.kvLocatorSpan) ∧
    (∀ (a s : Int) (ref : String), r.kvLocatorAlarm a s ≠ r.kvLocatorContext H ref) ∧
    (∀ a s : Int, r.kvLocatorAlarm a s ≠ r.kvLocatorSpan) ∧
    (∀ ref : String, r.kvLocatorContext H ref ≠ r.kvLocatorSpan) := by
  refine ⟨fun a b => ⟨kvLocatorRoot_inj, fun h => by rw [h]⟩,
    fun a b s t => ⟨kvLocatorAlarm_inj, fun h => by rw [h.1, h.2]⟩,
    fun ref1 ref2 => ⟨fun h => ?_, fun h => ?_⟩,
    kvLocatorRoot_ne_alarm r, kvLocatorRoot_ne_context H r, kvLocatorRoot_ne_span r,
    kvLocatorAlarm_ne_context H r, kvLocatorAlarm_ne_span r, kvLocatorContext_ne_span H r⟩
  · apply contextHash_inj
    have h2 := congrArg String.data h
    simp only [kvLocatorContext_data, List.append_cancel_left_eq, List.cons.injEq, true_and] at h2
    exact String.ext h2
  · simp only [TimerStore.kvLocatorContext, refBits, h]

/-! ## A column that never ends -/

/-- With no failure, when `col.stop` is the largest 64-bit number and the row
holds no alarm, the column loop does not end, whatever the fuel: the test
`col.current <= col.stop` holds for every 64-bit cursor. -/
theorem nextColumnLoop_endless (st : TimerStore) {kv : KV} (hf : kv.faults = []) :
    ∀ (fuel : Nat) (it : TimerIter) (col : colIter), col.stop = maxInt64 →
      isInt64 col.current →
      (∀ s, kv.store (st.kvLocatorAlarm it.row.current s) = none) →
      TimerIter.nextColumnLoop st fuel it col kv = none := by
  intro fuel
  induction fuel with
  | zero => intro it col _ _ _; rfl
  | succ fuel ih =>
    intro it col hstop hcur habs
    rw [nextColumnLoop_skip st hf fuel it col (by rw [hstop]; exact hcur.2) (Or.inl (habs _))]
    exact ih _ _ hstop (isInt64_wrap64 _) habs

theorem endlessBucket_no_alarm (s : Int) :
    endlessBucket.store (demoStore.kvLocatorAlarm 1001 s) = none := by
  unfold endlessBucket
  rw [put_store, if_neg (kvLocatorRoot_ne_alarm demoStore 1001 1001 s).symm]
  rfl

/-! ## The column loop below the end of the 64-bit range -/

/-- Whatever the bucket holds and whatever the failure schedule, the column
loop returns when `col.stop` is below the largest 64-bit number and the fuel
exceeds the numbers left in the column; it leaves the row and the bucket content
alone, and the cursor within the column. -/
theorem nextColumnLoop_terminates (st : TimerStore) :
    ∀ (n fuel : Nat) (it : TimerIter) (col : colIter) (kv : KV), it.col = some col →
      minInt64 ≤ col.current → col.stop < maxInt64 →
      col.stop + 1 - col.current ≤ (n : Int) → n < fuel →
      ∃ res, TimerIter.nextColumnLoop st fuel it col kv = some res ∧ res.it.row = it.row ∧
        res.kv.store = kv.store ∧
        ∃ c2, res.it.col = some c2 ∧ c2.stop = col.stop ∧ minInt64 ≤ c2.current := by
  intro n
  induction n with
  | zero =>
    intro fuel it col kv hcol hmin hmax hn hfuel
    obtain ⟨fuel, rfl⟩ : ∃ f, fuel = f + 1 := ⟨fuel - 1, by omega⟩
    have hgt : ¬ col.current ≤ col.stop := by
      simp only [Nat.cast_zero] at hn
      omega
    refine ⟨{ out := false, err := none, it := it, kv := kv }, ?_, rfl, rfl, col, hcol, rfl, hmin⟩
    simp only [TimerIter.nextColumnLoop, hgt, if_false]
  | succ n ih =>
    intro fuel it col kv hcol hmin hmax hn hfuel
    obtain ⟨fuel, rfl⟩ : ∃ f, fuel = f + 1 := ⟨fuel - 1, by omega⟩
    push_cast at hn
    by_cases hle : col.current ≤ col.stop
    · have hw : wrap64 (col.current + 1) = col.current + 1 :=
        wrap64_of_isInt64 (by unfold isInt64; unfold minInt64 maxInt64 at *; omega)
      have hrec : ∀ kv2 : KV, kv2.store = kv.store →
          ∃ res, TimerIter.nextColumnLoop st fuel
              { it with col := some { col with current := col.current + 1 } }
              { col with current := col.current + 1 } kv2 = some res ∧
            res.it.row = it.row ∧ res.kv.store = kv.store ∧
            ∃ c2, res.it.col = some c2 ∧ c2.stop = col.stop ∧ minInt64 ≤ c2.current := by
        intro kv2 hkv2
        obtain ⟨res, h1, h2, h3, c2, h4, h5, h6⟩ := ih fuel
          { it with col := some { col with current := col.current + 1 } }
          { col with current := col.current + 1 } kv2 rfl (by simp only; omega) hmax
          (by simp only; omega) (by omega)
        exact ⟨res, h1, h2, h3.trans hkv2, c2, h4, h5, h6⟩
      have fa := MustGet_frame kv (st.kvLocatorAlarm it.row.current col.current) Value.asAlarm
      unfold TimerIter.nextColumnLoop
      simp only [hle, if_true, hw]
      split
      · exact ⟨_, rfl, rfl, fa.1, _, rfl, rfl, by simp only; omega⟩
      · split
        · exact hrec _ fa.1
        · have fc := MustGet_frame (MustGet kv (st.kvLocatorAlarm it.row.current col.current)
            Value.asAlarm).2
            ((MustGet kv (st.kvLocatorAlarm it.row.current col.current)
              Value.asAlarm).1.out.getD { AlarmDue := 0, ContextRef := "" }).ContextRef
            Value.asContext
          split
          · exact ⟨_, rfl, rfl, fc.1.trans fa.1, _, rfl, rfl, by simp only; omega⟩
          · split
            · exact hrec _ (fc.1.trans fa.1)
            · exact ⟨_, rfl, rfl, fc.1.trans fa.1, _, rfl, rfl, by simp only; omega⟩
    · obtain ⟨res, h1, h2, h3, h4⟩ := ih (fuel + 1) it col kv hcol hmin hmax (by omega) (by omega)
      exact ⟨res, h1, h2, h3, h4⟩

/-- The root counters of the bucket after `demoSet1` are below the largest
64-bit number. -/
theorem demoSet1_counters (b : Int) (d : Doc) (n : Int)
    (h : demoSet1.kv.store (demoStore.kvLocatorRoot b) = some d) (hd : d.val = .counter n) :
    n < maxInt64 := by
  have hset := Set_fresh demoDigest demoStore 990 1000 "r1" "x=1" KV.empty rfl rfl
  have hkv : demoSet1.kv = (demoStore.Set demoDigest 990 1000 "r1" "x=1" KV.empty).kv := rfl
  rw [hkv, hset] at h
  simp only [put_store, kvLocatorRoot_ne_context, kvLocatorRoot_ne_alarm, if_false] at h
  split at h
  · simp only [Option.some.injEq] at h
    rw [← h] at hd
    simp only [Value.counter.injEq] at hd
    rw [← hd]
    decide
  · simp [KV.empty] at h

/-! ## The cursors of a scan, whatever the failure schedule -/

/-- One pass of the column loop below the end of the 64-bit range moves
`col.current` up by exactly one: the loop either returns with the cursor there
or goes on from there. -/
theorem nextColumnLoop_pass (st : TimerStore) (fuel : Nat) (it : TimerIter) (col : colIter)
    (kv : KV) (hmin : minInt64 ≤ col.current) (hle : col.current ≤ col.stop)
    (hmax : col.stop < maxInt64) :
    (∃ res, TimerIter.nextColumnLoop st (fuel + 1) it col kv = some res ∧
      res.it.col = some { col with current := col.current + 1 }) ∨
    ∃ kv2, TimerIter.nextColumnLoop st (fuel + 1) it col kv =
      TimerIter.nextColumnLoop st fuel
        { it with col := some { col with current := col.current + 1 } }
        { col with current := col.current + 1 } kv2 := by
  have hw : wrap64 (col.current + 1) = col.current + 1 :=
    wrap64_of_isInt64 (by unfold isInt64; unfold minInt64 maxInt64 at *; omega)
  simp only [TimerIter.nextColumnLoop, hle, if_true, hw]
  split
  · exact Or.inl ⟨_, rfl, rfl⟩
  · split
    · exact Or.inr ⟨_, rfl⟩
    · split
      · exact Or.inl ⟨_, rfl, rfl⟩
      · split
        · exact Or.inr ⟨_, rfl⟩
        · exact Or.inl ⟨_, rfl, rfl⟩

/-- One pass of the row loop moves `row.current` up by exactly `R` when stepping
by `R` cannot leave the 64-bit range before `row.stop`: the loop either returns
with the cursor there or goes on from there. -/
theorem nextRowLoop_pass (st : TimerStore) (fuel : Nat) (it : TimerIter) (col : colIter)
    (kv : KV) (hcur : isInt64 it.row.current) (hlt : it.row.current < it.row.stop)
    (hstop : it.row.stop ≤ maxInt64)
    (hal : (it.row.stop - it.row.current) % 7 = 0 ∨ it.row.stop ≤ maxInt64 - 6) :
    (∃ res, TimerIter.nextRowLoop st (fuel + 1) it col kv = some res ∧
      res.it.row.current = it.row.current + 7) ∨
    ∃ col2 kv2, TimerIter.nextRowLoop st (fuel + 1) it col kv =
      TimerIter.nextRowLoop st fuel
        { it with row := { it.row with current := it.row.current + 7 } } col2 kv2 := by
  have hw : wrap64 (it.row.current + Resolution) = it.row.current + 7 := by
    apply wrap64_of_isInt64
    unfold isInt64 minInt64 maxInt64 Resolution at *
    omega
  simp only [TimerIter.nextRowLoop, hlt, if_true, hw]
  split
  · exact Or.inl ⟨_, rfl, rfl⟩
  · split
    · exact Or.inl ⟨_, rfl, rfl⟩
    · exact Or.inr ⟨_, _, rfl⟩

/-- Whatever the bucket holds and whatever the failure schedule, the column
loop leaves `col.stop` and `col.topCas` alone and does not move `col.current`
back, while `col.stop` is below the largest 64-bit number. -/
theorem nextColumnLoop_col (st : TimerStore) :
    ∀ (fuel : Nat) (it : TimerIter) (col : colIter) (kv : KV) (res : StepResult Bool),
      TimerIter.nextColumnLoop st fuel it col kv = some res → it.col = some col →
      minInt64 ≤ col.current → col.stop < maxInt64 →
      ∃ c2, res.it.col = some c2 ∧ c2.stop = col.stop ∧ c2.topCas = col.topCas ∧
        col.current ≤ c2.current := by
  intro fuel
  induction fuel with
  | zero => intro it col kv res h; simp [TimerIter.nextColumnLoop] at h
  | succ fuel ih =>
    intro it col kv res h hcol hmin hmax
    unfold TimerIter.nextColumnLoop at h
    simp only at h
    split at h
    · rename_i hle
      have hw : wrap64 (col.current + 1) = col.current + 1 :=
        wrap64_of_isInt64 (by unfold isInt64; unfold minInt64 maxInt64 at *; omega)
      rw [hw] at h
      have hnext : ∀ kv2 : KV,
          TimerIter.nextColumnLoop st fuel
            { it with col := some { col with current := col.current + 1 } }
            { col with current := col.current + 1 } kv2 = some res →
          ∃ c2, res.it.col = some c2 ∧ c2.stop = col.stop ∧ c2.topCas = col.topCas ∧
            col.current ≤ c2.current := by
        intro kv2 h2
        obtain ⟨c2, h1, h3, h4, h5⟩ := ih _ _ _ _ h2 rfl (by simp only; omega) hmax
        exact ⟨c2, h1, h3, h4, by simp only at h5; omega⟩
      split at h
      · simp only [Option.some.injEq] at h
        subst h
        exact ⟨_, rfl, rfl, rfl, by simp only; omega⟩
      · split at h
        · exact hnext _ h
        · split at h
          · simp only [Option.some.injEq] at h
            subst h
            exact ⟨_, rfl, rfl, rfl, by simp only; omega⟩
          · split at h
            · exact hnext _ h
            · simp only [Option.some.injEq] at h
              subst h
              exact ⟨_, rfl, rfl, rfl, by simp only; omega⟩
    · simp only [Option.some.injEq] at h
      subst h
      exact ⟨col, hcol, rfl, rfl, le_refl _⟩

/-- Whatever the bucket holds and whatever the failure schedule, the row loop
leaves the bucket content and `row.stop` alone and moves `row.current` up by a
whole number of steps `R`, by at least one when it finds a row; when it finds
nothing and meets no failure, `row.current` has reached `row.stop`. -/
theorem nextRowLoop_advance (st : TimerStore) :
    ∀ (fuel : Nat) (it : TimerIter) (col : colIter) (kv : KV) (res : StepResult Bool),
      TimerIter.nextRowLoop st fuel it col kv = some res →
      isInt64 it.row.current → it.row.stop ≤ maxInt64 →
      ((it.row.stop - it.row.current) % 7 = 0 ∨ it.row.stop ≤ maxInt64 - 6) →
      res.kv.store = kv.store ∧ res.it.row.stop = it.row.stop ∧ isInt64 res.it.row.current ∧
      (res.it.row.current - it.row.current) % 7 = 0 ∧ it.row.current ≤ res.it.row.current ∧
      (res.out = true → it.row.current < res.it.row.current ∧ it.row.current < it.row.stop) ∧
      (res.out = false → res.err = none → ¬ res.it.row.current < it.row.stop) ∧
      (res.out = false → it.col = none → res.it.col = none) := by
  intro fuel
  induction fuel with
  | zero => intro it col kv res h; simp [TimerIter.nextRowLoop] at h
  | succ fuel ih =>
    intro it col kv res h hcur hstop hal
    unfold TimerIter.nextRowLoop at h
    simp only at h
    split at h
    · rename_i hlt
      have hw : wrap64 (it.row.current + Resolution) = it.row.current + 7 := by
        apply wrap64_of_isInt64
        unfold isInt64 minInt64 maxInt64 Resolution at *
        omega
      rw [hw] at h
      have hcur2 : isInt64 (it.row.current + 7) := by
        unfold isInt64 minInt64 maxInt64 at *
        omega
      have fg := MustGet_frame kv (st.kvLocatorRoot (it.row.current + 7)) Value.asCounter
      split at h
      · simp only [Option.some.injEq] at h
        subst h
        refine ⟨fg.1, rfl, hcur2, ?_, ?_, ?_, ?_, ?_⟩
        · simp only; omega
        · simp only; omega
        · intro ho; simp at ho
        · intro _ he; simp at he
        · intro _ hc; exact hc
      · split at h
        · simp only [Option.some.injEq] at h
          subst h
          refine ⟨fg.1, rfl, hcur2, ?_, ?_, ?_, ?_, ?_⟩
          · simp only; omega
          · simp only; omega
          · intro _; simp only; exact ⟨by omega, hlt⟩
          · intro ho; simp at ho
          · intro ho; simp at ho
        · obtain ⟨h1, h2, h3, h4, h5, h6, h7, h8⟩ := ih _ _ _ _ h hcur2 hstop
            (by simp only; omega)
          simp only at h1 h2 h4 h5 h6 h7 h8
          refine ⟨h1.trans fg.1, h2, h3, by omega, by omega, ?_, h7, h8⟩
          intro ho
          have := h6 ho
          exact ⟨by omega, hlt⟩
    · rename_i hlt
      simp only [Option.some.injEq] at h
      subst h
      refine ⟨rfl, rfl, hcur, by simp, le_refl _, ?_, ?_, ?_⟩
      · intro ho; simp at ho
      · intro _ _; exact hlt
      · intro _ hc; exact hc

/-- Whatever the bucket holds and whatever the failure schedule, the row loop
returns when stepping by `R` cannot leave the 64-bit range before `row.stop` and
the fuel exceeds the buckets left. -/
theorem nextRowLoop_returns (st : TimerStore) :
    ∀ (n fuel : Nat) (it : TimerIter) (col : colIter) (kv : KV),
      isInt64 it.row.current → it.row.stop ≤ maxInt64 →
      ((it.row.stop - it.row.current) % 7 = 0 ∨ it.row.stop ≤ maxInt64 - 6) →
      it.row.stop - it.row.current ≤ 7 * (n : Int) → n < fuel →
      ∃ res, TimerIter.nextRowLoop st fuel it col kv = some res := by
  intro n
  induction n with
  | zero =>
    intro fuel it col kv hcur hstop hal hn hfuel
    obtain ⟨fuel, rfl⟩ : ∃ f, fuel = f + 1 := ⟨fuel - 1, by omega⟩
    have hlt : ¬ it.row.current < it.row.stop := by
      simp only [Nat.cast_zero, mul_zero] at hn
      omega
    refine ⟨{ out := false, err := none, it := it, kv := kv }, ?_⟩
    simp only [TimerIter.nextRowLoop, hlt, if_false]
  | succ n ih =>
    intro fuel it col kv hcur hstop hal hn hfuel
    obtain ⟨fuel, rfl⟩ : ∃ f, fuel = f + 1 := ⟨fuel - 1, by omega⟩
    push_cast at hn
    by_cases hlt : it.row.current < it.row.stop
    · have hw : wrap64 (it.row.current + Resolution) = it.row.current + 7 := by
        apply wrap64_of_isInt64
        unfold isInt64 minInt64 maxInt64 Resolution at *
        omega
      have hcur2 : isInt64 (it.row.current + 7) := by
        unfold isInt64 minInt64 maxInt64 at *
        omega
      unfold TimerIter.nextRowLoop
      simp only [hlt, if_true, hw]
      split
      · exact ⟨_, rfl⟩
      · split
        · exact ⟨_, rfl⟩
        · exact ih fuel
            { it with row := { it.row with current := it.row.current + 7 } } _ _
            hcur2 hstop (by simp only; omega) (by simp only; omega) (by omega)
    · refine ⟨{ out := false, err := none, it := it, kv := kv }, ?_⟩
      simp only [TimerIter.nextRowLoop, hlt, if_false]

/-- Whatever the failure schedule, `nextColumn` keeps the cursor among the
cursors of the scan, and an entry it yields lies between the column cursor and
`col.stop`, with the cursor left just after it and `topCas` set at `col.stop`
only. -/
theorem nextColumn_inv (st : TimerStore) (kv0 : KV) (stop : Int) (fuel : Nat) (it : TimerIter)
    (kv : KV) (c : StepResult Bool) (h : TimerIter.nextColumn st fuel it kv = some c)
    (hkv : kv.store = kv0.store) (hinv : scanInv st kv0 stop it) :
    c.kv.store = kv0.store ∧ scanInv st kv0 stop c.it ∧ c.it.row = it.row ∧
    (c.out = true → ∃ e col col0, c.it.entry = some e ∧ c.it.col = some col ∧
      it.col = some col0 ∧ col.current = e.alarmSeq + 1 ∧ col0.current ≤ e.alarmSeq ∧
      init_seq ≤ e.alarmSeq ∧ e.alarmSeq ≤ col.stop ∧
      e.topCas = (if e.alarmSeq = col.stop then col.topCas else 0) ∧
      e.AlarmRef = st.kvLocatorAlarm it.row.current e.alarmSeq) := by
  obtain ⟨s1, -, s3, s4⟩ := nextColumn_sound st fuel it kv c h
  obtain ⟨i1, i2, i3, i4, i5⟩ := hinv
  have hrc : c.it.row.current = it.row.current := by rw [s3]
  have hrs : c.it.row.stop = it.row.stop := by rw [s3]
  rcases i5 with hnone | ⟨col, hsome, c1, c2, c3⟩
  · have hc : c = { out := false, err := none,
                    it := { row := it.row, col := none, entry := none }, kv := kv } := by
      unfold TimerIter.nextColumn at h
      simp only [hnone] at h
      simp only [Option.some.injEq] at h
      exact h.symm
    refine ⟨s1.trans hkv, ⟨by rw [hrc]; exact i1, by rw [hrs]; exact i2, i3,
      by rw [hrc]; exact i4, Or.inl ?_⟩, s3, ?_⟩
    · rw [hc]
    · intro ho; rw [hc] at ho; simp at ho
  · have hmin : minInt64 ≤ col.current := by
      unfold minInt64; unfold init_seq at c1; omega
    have hloop : TimerIter.nextColumnLoop st fuel { it with entry := none } col kv = some c := by
      rw [← nextColumn_eq_loop st fuel it col kv hsome]; exact h
    obtain ⟨k2, k1, k3, k4, k5⟩ := nextColumnLoop_col st fuel _ col kv c hloop hsome hmin c2
    refine ⟨s1.trans hkv, ⟨by rw [hrc]; exact i1, by rw [hrs]; exact i2, i3,
      by rw [hrc]; exact i4, Or.inr ⟨k2, k1, by omega, by rw [k3]; exact c2, ?_⟩⟩, s3, ?_⟩
    · rw [hrc, k3, k4]; exact c3
    · intro ho
      obtain ⟨e, he, h1, h2, h3, h4⟩ := nextColumnLoop_step st fuel _ col kv c hloop ho hmin c2
      obtain ⟨-, e2, p, he2, -, -, href⟩ := s4 ho
      rw [he] at he2
      simp only [Option.some.injEq] at he2
      subst he2
      exact ⟨e, _, col, he, h3, hsome, rfl, h1, by omega, h2, h4, href⟩

/-- Whatever the failure schedule, `nextRow` keeps the cursor among the cursors
of the scan while the root counters are below the largest 64-bit number; a row
it finds lies after the cursor, and when it finds nothing and meets no failure
the scan has reached `row.stop`. -/
theorem nextRow_inv (st : TimerStore) (kv0 : KV)
    (hcnt : ∀ b d n, kv0.store (st.kvLocatorRoot b) = some d → d.val = .counter n →
      n < maxInt64)
    (stop : Int) (fuel : Nat) (it : TimerIter) (kv : KV) (r : StepResult Bool)
    (h : TimerIter.nextRow st fuel it kv = some r) (hkv : kv.store = kv0.store)
    (hinv : scanInv st kv0 stop it) :
    r.kv.store = kv0.store ∧ scanInv st kv0 stop r.it ∧
    it.row.current ≤ r.it.row.current ∧
    (r.out = true → it.row.current + 7 ≤ r.it.row.current ∧ it.row.current < stop) ∧
    (r.out = false → r.err = none → ¬ r.it.row.current < stop) := by
  obtain ⟨i1, i2, i3, i4, -⟩ := hinv
  unfold TimerIter.nextRow at h
  obtain ⟨a1, a2, a3, a4, a5, a6, a7, a8⟩ := nextRowLoop_advance st fuel _ _ kv r h i1
    (by simp only; rw [i2]; exact i3) (by simp only; rw [i2]; exact i4)
  simp only at a2 a4 a5 a6 a7 a8
  refine ⟨a1.trans hkv, ⟨a3, a2.trans i2, i3, ?_, ?_⟩, a5, ?_, ?_⟩
  · rw [i2] at a2; omega
  · cases ho : r.out with
    | false => exact Or.inl (a8 ho trivial)
    | true =>
      obtain ⟨v, cas, hs, hcol⟩ := nextRowLoop_sound st fuel _ _ kv r h ho
      rw [hkv] at hs
      exact Or.inr ⟨_, hcol, le_refl _, hcnt _ _ v hs rfl, hs⟩
  · intro ho
    have := a6 ho
    rw [i2] at this
    omega
  · intro ho he
    rw [← i2]
    exact a7 ho he

/-- Whatever the failure schedule, a `ScanNext` call keeps the cursor among the
cursors of the scan and does not move `row.current` back; an entry it yields has
a sequence number from `init_seq` to the counter read with the row (`col.stop`),
the column cursor is left just after it, its `topCas` is the CAS read with the
counter when the number is the counter and 0 otherwise, and when the row has not
changed the number is not below the column cursor before the call. -/
theorem ScanNextLoop_step (st : TimerStore) (kv0 : KV)
    (hcnt : ∀ b d n, kv0.store (st.kvLocatorRoot b) = some d → d.val = .counter n →
      n < maxInt64)
    (stop : Int) (inner : Nat) :
    ∀ (fuel : Nat) (it : TimerIter) (kv : KV) (s : StepResult (Option TimerEntry)),
      TimerIter.ScanNextLoop st inner fuel it kv = some s → kv.store = kv0.store →
      scanInv st kv0 stop it →
      s.kv.store = kv0.store ∧ scanInv st kv0 stop s.it ∧
      it.row.current ≤ s.it.row.current ∧
      (s.out = none → s.err = none → ¬ s.it.row.current < stop) ∧
      ∀ e, s.out = some e → ∃ col, s.it.col = some col ∧ col.current = e.alarmSeq + 1 ∧
        init_seq ≤ e.alarmSeq ∧ e.alarmSeq ≤ col.stop ∧
        e.topCas = (if e.alarmSeq = col.stop then col.topCas else 0) ∧
        e.AlarmRef = st.kvLocatorAlarm s.it.row.current e.alarmSeq ∧
        (s.it.row.current = it.row.current → ∃ c0, it.col = some c0 ∧
          c0.current ≤ e.alarmSeq) := by
  intro fuel
  induction fuel with
  | zero => intro it kv s h; simp [TimerIter.ScanNextLoop] at h
  | succ fuel ih =>
    intro it kv s h hkv hinv
    unfold TimerIter.ScanNextLoop at h
    cases hnc : TimerIter.nextColumn st inner it kv with
    | none => simp [hnc] at h
    | some c =>
      obtain ⟨c1, c2, c3, c4⟩ := nextColumn_inv st kv0 stop inner it kv c hnc hkv hinv
      have hrc : c.it.row.current = it.row.current := by rw [c3]
      simp only [hnc] at h
      split at h
      · simp only [Option.some.injEq] at h
        subst h
        refine ⟨c1, c2, by simp only; omega, ?_, ?_⟩
        · intro _ he; simp_all
        · intro e he; simp at he
      · split at h
        · rename_i ho
          simp only [Option.some.injEq] at h
          subst h
          obtain ⟨e, col, col0, he, hcol, hcol0, k1, k2, k3, k4, k5, k6⟩ := c4 ho
          refine ⟨c1, c2, by simp only; omega, ?_, ?_⟩
          · intro hn; simp only at hn; rw [he] at hn; simp at hn
          · intro e2 he2
            simp only at he2
            rw [he] at he2
            simp only [Option.some.injEq] at he2
            subst he2
            refine ⟨col, hcol, k1, k3, k4, k5, ?_, fun _ => ⟨col0, hcol0, k2⟩⟩
            simp only
            rw [hrc]
            exact k6
        · cases hnr : TimerIter.nextRow st inner c.it c.kv with
          | none => simp [hnr] at h
          | some r =>
            obtain ⟨r1, r2, r3, r4, r5⟩ := nextRow_inv st kv0 hcnt stop inner c.it c.kv r hnr c1 c2
            simp only [hnr] at h
            split at h
            · rename_i hcond
              simp only [Option.some.injEq] at h
              subst h
              refine ⟨r1, r2, by simp only; omega, ?_, ?_⟩
              · intro _ he
                simp only at he
                have ho : r.out = false := by
                  cases hro : r.out with
                  | false => rfl
                  | true => simp [hro, he] at hcond
                exact r5 ho he
              · intro e he; simp at he
            · rename_i hcond
              have ho : r.out = true := by
                cases hro : r.out with
                | true => rfl
                | false => simp [hro] at hcond
              obtain ⟨s1, s2, s3, s4, s5⟩ := ih r.it r.kv s h r1 r2
              have hlt := (r4 ho).1
              refine ⟨s1, s2, by omega, s4, ?_⟩
              intro e he
              obtain ⟨col, t1, t2, t3, t4, t5, t6, -⟩ := s5 e he
              exact ⟨col, t1, t2, t3, t4, t5, t6, fun heq => by omega⟩

/-- Whatever the failure schedule, the loop of `ScanNext` returns from every
cursor of the scan when the root counters are below the largest 64-bit number,
the inner fuel covers the 64-bit range and the outer fuel the buckets left. -/
theorem ScanNextLoop_returns (st : TimerStore) (kv0 : KV)
    (hcnt : ∀ b d n, kv0.store (st.kvLocatorRoot b) = some d → d.val = .counter n →
      n < maxInt64)
    (stop : Int) (inner : Nat) (hinner : 18446744073709551616 ≤ inner) :
    ∀ (m fuel : Nat) (it : TimerIter) (kv : KV), kv.store = kv0.store →
      scanInv st kv0 stop it → stop - it.row.current ≤ 7 * (m : Int) → m < fuel →
      ∃ res, TimerIter.ScanNextLoop st inner fuel it kv = some res := by
  intro m
  induction m using Nat.strong_induction_on with
  | _ m ih =>
    intro fuel it kv hkv hinv hm hfuel
    obtain ⟨fuel, rfl⟩ : ∃ f, fuel = f + 1 := ⟨fuel - 1, by omega⟩
    have hinv0 := hinv
    obtain ⟨i1, i2, i3, i4, i5⟩ := hinv
    have hA : ∃ c, TimerIter.nextColumn st inner it kv = some c := by
      rcases i5 with hnone | ⟨col, hsome, c1, c2, -⟩
      · refine ⟨{ out := false, err := none, it := { it with entry := none }, kv := kv }, ?_⟩
        unfold TimerIter.nextColumn
        simp only [hnone]
      · rw [nextColumn_eq_loop st inner it col kv hsome]
        obtain ⟨res, h1, -⟩ := nextColumnLoop_terminates st
          (col.stop + 1 - col.current).toNat inner { it with entry := none } col kv hsome
          (by unfold minInt64; unfold init_seq at c1; omega)
          c2 (by omega) (by unfold maxInt64 at c2; unfold init_seq at c1; omega)
        exact ⟨res, h1⟩
    obtain ⟨c, hc⟩ := hA
    obtain ⟨c1, c2, c3, -⟩ := nextColumn_inv st kv0 stop inner it kv c hc hkv hinv0
    have hcc : c.it.row.current = it.row.current := by rw [c3]
    have c2b := c2
    obtain ⟨j1, j2, j3, j4, -⟩ := c2
    obtain ⟨r, hr⟩ := nextRowLoop_returns st ((stop - it.row.current + 6) / 7).toNat inner
      { c.it with col := none, entry := none } { current := init_seq, topCas := 0, stop := 0 }
      c.kv j1 (by simp only; rw [j2]; exact j3) (by simp only; rw [j2]; exact j4)
      (by simp only; rw [j2, hcc]; omega)
      (by unfold isInt64 minInt64 maxInt64 at *; omega)
    have hr1 : TimerIter.nextRow st inner c.it c.kv = some r := hr
    obtain ⟨r1, r2, r3, r4, -⟩ := nextRow_inv st kv0 hcnt stop inner c.it c.kv r hr1 c1 c2b
    unfold TimerIter.ScanNextLoop
    simp only [hc, hr1]
    split
    · exact ⟨_, rfl⟩
    · split
      · exact ⟨_, rfl⟩
      · split
        · exact ⟨_, rfl⟩
        · rename_i hcond
          have hout : r.out = true := by
            cases ho : r.out with
            | true => rfl
            | false => simp [ho] at hcond
          obtain ⟨hlt, hlt2⟩ := r4 hout
          rw [hcc] at hlt hlt2
          have hm1 : 1 ≤ m := by omega
          exact ih (m - 1) (by omega) fuel r.it r.kv r1 r2 (by omega) (by omega)

/-- The cursor `ScanDue` returns is a cursor of the scan: it stands at
`span.Start`, without a column, and ends at the earlier of `span.Stop` and the
clock rounded down. -/
theorem ScanDue_inv (r : TimerStore) (wall : Int) (kv0 : KV) (it : TimerIter)
    (hit : (r.ScanDue wall).1 = some it) (hwall : isInt64 wall) (hstart : isInt64 r.span.Start)
    (hstop : r.span.Stop ≤ maxInt64)
    (hspan : (r.span.Start % 7 = 0 ∧ r.span.Stop % 7 = 0) ∨ r.span.Stop ≤ maxInt64 - 6) :
    scanInv r kv0 it.row.stop it ∧ it.row.current = r.span.Start ∧ it.col = none ∧
    it.row.stop = (if roundDown wall > r.span.Stop then r.span.Stop else roundDown wall) := by
  have hrd : roundDown wall % 7 = 0 ∧ roundDown wall ≤ maxInt64 := by
    rw [roundDown_eq hwall]
    unfold isInt64 minInt64 maxInt64 at hwall
    unfold maxInt64
    split_ifs <;> omega
  obtain ⟨hrd1, hrd2⟩ := hrd
  unfold TimerStore.ScanDue TimerStore.readSpan at hit
  simp only at hit
  split at hit
  · simp at hit
  · simp only [Option.some.injEq] at hit
    subst hit
    refine ⟨⟨hstart, rfl, ?_, ?_, Or.inl rfl⟩, rfl, rfl, rfl⟩
    · simp only
      split_ifs <;> omega
    · simp only
      rcases hspan with ⟨a1, a2⟩ | hroom
      · left
        split_ifs <;> omega
      · right
        split_ifs <;> omega

/-- Whatever the failure schedules, every one of a series of `ScanNext` calls
returns, from any cursor of the scan, when the root counters are below the
largest 64-bit number and the fuel covers the 64-bit range. -/
theorem scanCalls_return (st : TimerStore) (kv0 : KV)
    (hcnt : ∀ b d n, kv0.store (st.kvLocatorRoot b) = some d → d.val = .counter n →
      n < maxInt64)
    (stop : Int) (fuel : Nat) (hfuel : 18446744073709551616 ≤ fuel) :
    ∀ (kvs : List KV) (it : TimerIter), (∀ k ∈ kvs, k.store = kv0.store) →
      scanInv st kv0 stop it → ∃ it2, scanCalls st fuel kvs it = some it2 := by
  intro kvs
  induction kvs with
  | nil => intro it _ _; exact ⟨it, rfl⟩
  | cons kv kvs ih =>
    intro it hk hinv
    have hkv := hk kv (List.mem_cons_self _ _)
    have hinv0 := hinv
    obtain ⟨i1, i2, i3, i4, -⟩ := hinv
    obtain ⟨res, hres⟩ := ScanNextLoop_returns st kv0 hcnt stop fuel hfuel
      ((stop - it.row.current + 6) / 7).toNat fuel it kv hkv hinv0 (by omega)
      (by unfold isInt64 minInt64 maxInt64 at *; omega)
    obtain ⟨-, s2, -⟩ := ScanNextLoop_step st kv0 hcnt stop fuel fuel it kv res hres hkv hinv0
    have hres2 : TimerIter.ScanNext st fuel it kv = some res := hres
    unfold scanCalls
    rw [hres2]
    exact ih res.it (fun k hk2 => hk k (List.mem_cons_of_mem _ hk2)) s2

/-! ## C23: `ScanNext` returns -/

/-- C23 as amended. On an iterator that `ScanDue` returned for a span whose
start and stop are 64-bit multiples of `R` (or whose stop leaves room for one
step of `R` below the largest 64-bit number), and a bucket whose root counters
are all below the largest 64-bit number, each of any series of `ScanNext` calls
returns, whatever else the bucket holds and whatever the failure schedules:
every fuel from `2^64` on gives a result. Each pass of the loop of `nextRow`
moves `row.current` up by exactly `R` while `row.current < row.stop` and
`row.stop` lies a whole number of steps ahead (or leaves room for one step), and
each pass of the loop of `nextColumn` moves `col.current` up by exactly 1 while
`col.current ≤ col.stop` and `col.stop` is below the largest 64-bit number. -/
theorem ScanNext_returns_below_maxInt64 (r : TimerStore) (wall : Int) (kv : KV) (it : TimerIter)
    (hit : (r.ScanDue wall).1 = some it) (hwall : isInt64 wall) (hstart : isInt64 r.span.Start)
    (hstop : r.span.Stop ≤ maxInt64)
    (hspan : (r.span.Start % 7 = 0 ∧ r.span.Stop % 7 = 0) ∨ r.span.Stop ≤ maxInt64 - 6)
    (hcnt : ∀ b d n, kv.store (r.kvLocatorRoot b) = some d → d.val = .counter n →
      n < maxInt64) :
    (∀ (kvs : List KV) (fuel : Nat), (∀ k ∈ kvs, k.store = kv.store) →
      18446744073709551616 ≤ fuel → ∃ it2, scanCalls r fuel kvs it = some it2) ∧
    (∀ (fuel : Nat) (it2 : TimerIter) (col : colIter) (kv2 : KV), isInt64 it2.row.current →
      it2.row.current < it2.row.stop → it2.row.stop ≤ maxInt64 →
      ((it2.row.stop - it2.row.current) % 7 = 0 ∨ it2.row.stop ≤ maxInt64 - 6) →
      (∃ res, TimerIter.nextRowLoop r (fuel + 1) it2 col kv2 = some res ∧
        res.it.row.current = it2.row.current + 7) ∨
      ∃ col2 kv3, TimerIter.nextRowLoop r (fuel + 1) it2 col kv2 =
        TimerIter.nextRowLoop r fuel
          { it2 with row := { it2.row with current := it2.row.current + 7 } } col2 kv3) ∧
    (∀ (fuel : Nat) (it2 : TimerIter) (col : colIter) (kv2 : KV), minInt64 ≤ col.current →
      col.current ≤ col.stop → col.stop < maxInt64 →
      (∃ res, TimerIter.nextColumnLoop r (fuel + 1) it2 col kv2 = some res ∧
        res.it.col = some { col with current := col.current + 1 }) ∨
      ∃ kv3, TimerIter.nextColumnLoop r (fuel + 1) it2 col kv2 =
        TimerIter.nextColumnLoop r fuel
          { it2 with col := some { col with current := col.current + 1 } }
          { col with current := col.current + 1 } kv3) := by
  obtain ⟨hinv, -⟩ := ScanDue_inv r wall kv it hit hwall hstart hstop hspan
  refine ⟨fun kvs fuel hk hfuel => ?_, fun fuel it2 col kv2 h1 h2 h3 h4 => ?_,
    fun fuel it2 col kv2 h1 h2 h3 => ?_⟩
  · exact scanCalls_return r kv hcnt it.row.stop fuel hfuel kvs it hk hinv
  · exact nextRowLoop_pass r fuel it2 col kv2 h1 h2 h3 h4
  · exact nextColumnLoop_pass r fuel it2 col kv2 h1 h2 h3

theorem ScanNext_returns_below_maxInt64_witness :
    (({ demoStore with span := { Start := 987, Stop := 1001, empty := false, spanCas := 0 } } :
        TimerStore).ScanDue 1010).1 =
      some { row := { start := 987, stop := 1001, current := 987 }, col := none,
             entry := none } ∧
    isInt64 1010 ∧ isInt64 987 ∧ (1001 : Int) ≤ maxInt64 ∧ (987 : Int) % 7 = 0 ∧
    (1001 : Int) % 7 = 0 ∧
    ∃ it2, scanCalls
      { demoStore with span := { Start := 987, Stop := 1001, empty := false, spanCas := 0 } }
      18446744073709551616 [demoSet1.kv, demoSet1.kv, demoSet1.kv]
      { row := { start := 987, stop := 1001, current := 987 }, col := none, entry := none } =
      some it2 :=
  ⟨by decide, by decide, by decide, by decide, by decide, by decide,
    (ScanNext_returns_below_maxInt64
      { demoStore with span := { Start := 987, Stop := 1001, empty := false, spanCas := 0 } }
      1010 demoSet1.kv
      { row := { start := 987, stop := 1001, current := 987 }, col := none, entry := none }
      (by decide) (by decide) (by decide) (by decide) (Or.inl ⟨by decide, by decide⟩)
      demoSet1_counters).1 [demoSet1.kv, demoSet1.kv, demoSet1.kv] 18446744073709551616
      (fun _ hk => by
        simp only [List.mem_cons, List.mem_singleton, List.not_mem_nil, or_false, or_self] at hk
        rw [hk])
      (le_refl _)⟩

/-- With no KV failure, when the next bucket after `row.current` holds a root
counter equal to the largest 64-bit number and no alarm, `ScanNext` does not
return, whatever the fuel: `nextRow` finds the bucket, and in `nextColumn` the
test `col.current <= col.stop` never fails, since `col.current++` at `2^63 - 1`
wraps to `-2^63`. -/
theorem ScanNext_endless (st : TimerStore) (kv : KV) (it : TimerIter) (cas : Cas)
    (hf : kv.faults = []) (hcol : it.col = none) (hcur : isInt64 it.row.current)
    (hstop : it.row.current + 7 ≤ it.row.stop) (hmax : it.row.stop ≤ maxInt64)
    (hroot : kv.store (st.kvLocatorRoot (it.row.current + 7)) =
      some { val := .counter maxInt64, cas := cas })
    (habs : ∀ s, kv.store (st.kvLocatorAlarm (it.row.current + 7) s) = none) :
    ∀ fuel, TimerIter.ScanNext st fuel it kv = none := by
  intro fuel
  unfold TimerIter.ScanNext
  cases fuel with
  | zero => rfl
  | succ n =>
    have hnc : TimerIter.nextColumn st (n + 1) it kv =
        some { out := false, err := none, it := { it with entry := none }, kv := kv } := by
      unfold TimerIter.nextColumn
      simp only [hcol]
    have hrow := nextRowLoop_found st kv hf maxInt64 cas 0 (n + 1)
      { it with col := none, entry := none } { current := init_seq, topCas := 0, stop := 0 }
      (by omega) hcur (by simpa using hstop) hmax (fun j h1 h2 => by omega)
      (by simpa using hroot)
    have hrow2 : TimerIter.nextRow st (n + 1) { it with entry := none } kv = _ := hrow
    unfold TimerIter.ScanNextLoop
    simp only [hnc, hrow2, Bool.false_eq_true, if_false, Bool.not_true, Option.isSome_none,
      Bool.or_self]
    cases n with
    | zero => rfl
    | succ m =>
      unfold TimerIter.ScanNextLoop
      rw [nextColumn_eq_loop _ _ _ _ _ rfl]
      rw [nextColumnLoop_endless st hf _ _ _ rfl (show isInt64 init_seq by decide)
        (fun s => by simpa using habs s)]

/-- C23 as stated fails at the end of the 64-bit range. In `endlessBucket` the
root counter of the time bucket 1001 stands at `2^63 - 1` and the bucket holds no
alarm: on the iterator `ScanDue` returns at time 1010 for the span `{994, 1001}`,
`ScanNext` does not return, whatever the fuel, since the step of the column
cursor after `2^63 - 1` goes to `-2^63`, which is still `≤ col.stop`. And a
`row.stop` that lies neither a whole number of steps ahead nor a step below the
end of the range lets the row cursor wrap: on the iterator `ScanDue` returns for
the span `{2^63 - 4, 2^63 - 1}` at time `2^63 - 1`, `nextRow` moves `row.current`
from `2^63 - 4` to `-2^63 + 3`. -/
theorem ScanNext_endless_at_largest_counter :
    endlessBucket.faults = [] ∧
    endlessBucket.store (demoStore.kvLocatorRoot 1001) =
      some { val := .counter 9223372036854775807, cas := 1 } ∧
    (({ demoStore with span := { Start := 994, Stop := 1001, empty := false, spanCas := 0 } } :
        TimerStore).ScanDue 1010).1 =
      some { row := { start := 994, stop := 1001, current := 994 }, col := none,
             entry := none } ∧
    (∀ fuel, ScanNext demoStore fuel
      (some { row := { start := 994, stop := 1001, current := 994 }, col := none,
              entry := none }) endlessBucket = none) ∧
    (colIter.next { current := 9223372036854775807, stop := 9223372036854775807,
                    topCas := 1 }).current = -9223372036854775808 ∧
    (({ demoStore with span := { Start := 9223372036854775804, Stop := 9223372036854775807,
                                 empty := false, spanCas := 0 } } :
        TimerStore).ScanDue 9223372036854775807).1 =
      some { row := { start := 9223372036854775804, stop := 9223372036854775807,
                      current := 9223372036854775804 }, col := none, entry := none } ∧
    (TimerIter.nextRow demoStore 2
        { row := { start := 9223372036854775804, stop := 9223372036854775807,
                   current := 9223372036854775804 }, col := none, entry := none }
        (KV.empty.put (demoStore.kvLocatorRoot (-9223372036854775805)) (.counter 128))).map
        (fun s => (s.out, s.it.row.current)) = some (true, -9223372036854775805) := by
  refine ⟨by decide, by decide, by decide, fun fuel => ?_, by decide, by decide, by decide⟩
  have h := ScanNext_endless demoStore endlessBucket
    { row := { start := 994, stop := 1001, current := 994 }, col := none, entry := none } 1
    (by decide) rfl (by decide) (by decide) (by decide) (by decide)
    (fun s => endlessBucket_no_alarm s) fuel
  simp [ScanNext, h]

/-! ## C21: `roundDown` and the floor -/

/-- C21 as amended. For every 64-bit time `v`, `roundDown(v)` is a multiple of
`R = 7`; and from the epoch on (`0 ≤ v`), as at every multiple of 7,
`roundDown(v) ≤ v < roundDown(v) + R`, that is, `roundDown(v)` is the greatest
multiple of `R` that does not exceed `v`. -/
theorem roundDown_floor_from_epoch (v : Int) (h : isInt64 v) :
    roundDown v % 7 = 0 ∧
    (0 ≤ v ∨ v % 7 = 0 →
      roundDown v ≤ v ∧ v < roundDown v + 7 ∧
      ∀ m : Int, m % 7 = 0 → m ≤ v → m ≤ roundDown v) := by
  rw [roundDown_eq h]
  split_ifs with h0
  · exact ⟨by omega, fun _ => ⟨by omega, by omega, fun m hm hle => by omega⟩⟩
  · refine ⟨by omega, fun hv => ?_⟩
    have h7 : v % 7 = 0 := by rcases hv with hv | hv <;> [omega; exact hv]
    exact ⟨by omega, by omega, fun m hm hle => by omega⟩

theorem roundDown_floor_from_epoch_witness :
    isInt64 1010 ∧ roundDown 1010 = 1008 ∧ roundDown 1010 % 7 = 0 ∧ roundDown 1010 ≤ 1010 ∧
    (1010 : Int) < roundDown 1010 + 7 :=
  ⟨by decide, by decide, (roundDown_floor_from_epoch 1010 (by decide)).1,
    ((roundDown_floor_from_epoch 1010 (by decide)).2 (Or.inl (by decide))).1,
    ((roundDown_floor_from_epoch 1010 (by decide)).2 (Or.inl (by decide))).2.1⟩

/-- C21 as stated fails before the epoch: Go's `/` truncates toward zero, so
`roundDown(-8) = -7`, which exceeds `-8`; the greatest multiple of 7 that does
not exceed `-8` is `-14`. -/
theorem roundDown_exceeds_minus_8 :
    isInt64 (-8) ∧ roundDown (-8) = -7 ∧ ¬ (roundDown (-8) ≤ -8) ∧
    (-14 : Int) % 7 = 0 ∧ (-14 : Int) ≤ -8 ∧ ¬ ((-14 : Int) ≤ roundDown (-8) → roundDown (-8) ≤ -8) := by
  decide

/-! ## The order of the entries of a scan -/

/-- Whatever the failure schedules, the entries a series of `ScanNext` calls
yields from any cursor of the scan come bucket after bucket, and within a bucket
in strictly ascending `alarmSeq` order; each has a sequence number from
`init_seq` to the counter of its bucket, and carries the CAS of the root key as
`topCas` when the number is the counter and 0 otherwise. -/
theorem scanYields_order (st : TimerStore) (kv0 : KV)
    (hcnt : ∀ b d n, kv0.store (st.kvLocatorRoot b) = some d → d.val = .counter n →
      n < maxInt64)
    (stop : Int) (fuel : Nat) :
    ∀ (kvs : List KV) (it : TimerIter), (∀ k ∈ kvs, k.store = kv0.store) →
      scanInv st kv0 stop it →
      List.Pairwise (fun p q : Int × TimerEntry =>
          p.1 < q.1 ∨ (p.1 = q.1 ∧ p.2.alarmSeq < q.2.alarmSeq))
        (scanYields st fuel kvs it) ∧
      ∀ p ∈ scanYields st fuel kvs it, it.row.current ≤ p.1 ∧
        (p.1 = it.row.current → ∃ c0, it.col = some c0 ∧ c0.current ≤ p.2.alarmSeq) ∧
        ∃ v cas, kv0.store (st.kvLocatorRoot p.1) = some { val := .counter v, cas := cas } ∧
          init_seq ≤ p.2.alarmSeq ∧ p.2.alarmSeq ≤ v ∧
          p.2.topCas = (if p.2.alarmSeq = v then cas else 0) ∧
          p.2.AlarmRef = st.kvLocatorAlarm p.1 p.2.alarmSeq := by
  intro kvs
  induction kvs with
  | nil => intro it _ _; simp [scanYields]
  | cons kv kvs ih =>
    intro it hk hinv
    have hkv := hk kv (List.mem_cons_self _ _)
    unfold scanYields
    cases hs : TimerIter.ScanNext st fuel it kv with
    | none => simp
    | some s =>
      simp only
      cases ho : s.out with
      | none => simp
      | some e =>
        simp only
        obtain ⟨s1, s2, s3, -, s5⟩ := ScanNextLoop_step st kv0 hcnt stop fuel fuel it kv s hs hkv hinv
        obtain ⟨col, t1, t2, t3, t4, t5, t6, t7⟩ := s5 e ho
        have hroot : kv0.store (st.kvLocatorRoot s.it.row.current) =
            some { val := .counter col.stop, cas := col.topCas } := by
          obtain ⟨-, -, -, -, i5⟩ := s2
          rcases i5 with hn | ⟨c2, hc2, -, -, hr⟩
          · rw [t1] at hn; simp at hn
          · rw [t1] at hc2
            simp only [Option.some.injEq] at hc2
            subst hc2
            exact hr
        obtain ⟨i1, i2⟩ := ih s.it (fun k hk2 => hk k (List.mem_cons_of_mem _ hk2)) s2
        constructor
        · rw [List.pairwise_cons]
          refine ⟨fun q hq => ?_, i1⟩
          obtain ⟨q1, q2, -⟩ := i2 q hq
          by_cases heq : q.1 = s.it.row.current
          · obtain ⟨c0, hc0, hle⟩ := q2 heq
            rw [t1] at hc0
            have hcc : col = c0 := Option.some.inj hc0
            rw [← hcc] at hle
            right
            refine ⟨heq.symm, ?_⟩
            show e.alarmSeq < q.2.alarmSeq
            omega
          · left
            simp only
            omega
        · intro p hp
          rcases List.mem_cons.1 hp with hp | hp
          · subst hp
            exact ⟨s3, t7, col.stop, col.topCas, hroot, t3, t4, t5, t6⟩
          · obtain ⟨q1, q2, q3⟩ := i2 p hp
            refine ⟨by omega, fun heq => ?_, q3⟩
            have heq2 : p.1 = s.it.row.current := by omega
            obtain ⟨c0, hc0, hle⟩ := q2 heq2
            rw [t1] at hc0
            have hcc : col = c0 := Option.some.inj hc0
            rw [← hcc] at hle
            obtain ⟨c1, hc1, hle1⟩ := t7 (by omega)
            exact ⟨c1, hc1, by omega⟩

/-! ## Live entries -/

theorem liveEntry_some {st : TimerStore} {kv : KV} {due stop : Int} {topCas : Cas} {seq : Int}
    {e : TimerEntry} (h : liveEntry st kv due stop topCas seq = some e) :
    ∃ p, kv.store (st.kvLocatorAlarm due seq) = some { val := .alarm e.toAlarmRecord, cas := p } ∧
      kv.store e.ContextRef = some { val := .context e.toContextRecord, cas := e.ctxCas } ∧
      e.AlarmRef = st.kvLocatorAlarm due seq ∧ e.alarmSeq = seq ∧
      e.topCas = (if seq = stop then topCas else 0) := by
  unfold liveEntry at h
  split at h
  · rename_i alarm p ha
    split at h
    · rename_i context q hc
      split at h
      · rename_i hback
        simp only [Option.some.injEq] at h
        subst h
        exact ⟨p, ha, hc, hback, rfl, rfl⟩
      · simp at h
    · simp at h
  · simp at h

theorem liveEntry_seq {st : TimerStore} {kv : KV} {due stop : Int} {topCas : Cas} {seq : Int}
    {e : TimerEntry} (h : liveEntry st kv due stop topCas seq = some e) : e.alarmSeq = seq := by
  obtain ⟨p, -, -, -, hs, -⟩ := liveEntry_some h
  exact hs

theorem liveEntry_of_store {st : TimerStore} {kv : KV} {due stop : Int} {topCas : Cas}
    {seq : Int} {a : AlarmRecord} {p : Cas} {c : ContextRecord} {q : Cas}
    (ha : kv.store (st.kvLocatorAlarm due seq) = some { val := .alarm a, cas := p })
    (hc : kv.store a.ContextRef = some { val := .context c, cas := q })
    (hback : c.AlarmRef = st.kvLocatorAlarm due seq) :
    liveEntry st kv due stop topCas seq =
      some { toAlarmRecord := a, toContextRecord := c, alarmSeq := seq, ctxCas := q,
             topCas := if seq = stop then topCas else 0 } := by
  unfold liveEntry
  simp only [ha, hc, hback, if_true]

/-- A sequence number without a live entry, in a bucket whose alarm keys hold
alarm records and whose context keys hold context records: the alarm is missing,
its context is missing, or its context points elsewhere. -/
theorem liveEntry_none {st : TimerStore} {kv : KV} {due stop : Int} {topCas : Cas} {seq : Int}
    (ht : ∀ d, kv.store (st.kvLocatorAlarm due seq) = some d →
      ∃ a, d.val = .alarm a ∧ ∀ d2, kv.store a.ContextRef = some d2 → ∃ c, d2.val = .context c)
    (h : liveEntry st kv due stop topCas seq = none) :
    kv.store (st.kvLocatorAlarm due seq) = none ∨
      ∃ a ca, kv.store (st.kvLocatorAlarm due seq) = some { val := .alarm a, cas := ca } ∧
        (kv.store a.ContextRef = none ∨
          ∃ c cc, kv.store a.ContextRef = some { val := .context c, cas := cc } ∧
            c.AlarmRef ≠ st.kvLocatorAlarm due seq) := by
  cases hs : kv.store (st.kvLocatorAlarm due seq) with
  | none => exact Or.inl rfl
  | some d =>
    obtain ⟨a, hd, hctx⟩ := ht d hs
    obtain ⟨dv, dcas⟩ := d
    simp only at hd
    subst hd
    refine Or.inr ⟨a, dcas, rfl, ?_⟩
    cases hc : kv.store a.ContextRef with
    | none => exact Or.inl rfl
    | some d2 =>
      obtain ⟨c, hd2⟩ := hctx d2 hc
      obtain ⟨d2v, d2cas⟩ := d2
      simp only at hd2
      subst hd2
      refine Or.inr ⟨c, d2cas, rfl, fun hback => ?_⟩
      rw [liveEntry_of_store hs hc hback] at h
      simp at h

/-- The live entries of a column depend on the live entries at its sequence
numbers only. -/
theorem columnEntries_congr (st : TimerStore) (kv kv2 : KV) (due stop : Int) (topCas : Cas) :
    ∀ (n : Nat) (seq : Int),
      (∀ s, seq ≤ s → liveEntry st kv due stop topCas s = liveEntry st kv2 due stop topCas s) →
      columnEntries st kv due stop topCas n seq = columnEntries st kv2 due stop topCas n seq := by
  intro n
  induction n with
  | zero => intro seq _; rfl
  | succ n ih =>
    intro seq h
    unfold columnEntries
    rw [h seq (le_refl _), ih (seq + 1) (fun s hs => h s (by omega))]

/-- The first live entry of a column and what follows it. -/
theorem columnEntries_cons (st : TimerStore) (kv : KV) (due stop : Int) (topCas : Cas) :
    ∀ (n : Nat) (seq : Int) (e : TimerEntry) (rest : List TimerEntry),
      columnEntries st kv due stop topCas n seq = e :: rest →
      seq ≤ e.alarmSeq ∧ liveEntry st kv due stop topCas e.alarmSeq = some e ∧
      ∃ k : Nat, e.alarmSeq + 1 + (k : Int) = seq + (n : Int) ∧
        rest = columnEntries st kv due stop topCas k (e.alarmSeq + 1) := by
  intro n
  induction n with
  | zero => intro seq e rest h; simp [columnEntries] at h
  | succ n ih =>
    intro seq e rest h
    unfold columnEntries at h
    split at h
    · rename_i e2 he2
      simp only [List.cons.injEq] at h
      obtain ⟨h1, h2⟩ := h
      subst h1
      have hseq := liveEntry_seq he2
      rw [hseq]
      exact ⟨le_refl _, he2, n, by push_cast; omega, h2.symm⟩
    · obtain ⟨h1, h2, k, h3, h4⟩ := ih (seq + 1) e rest h
      exact ⟨by omega, h2, k, by push_cast; omega, h4⟩

/-- Every live entry at one of the sequence numbers of a column is among its
entries, and the column holds nothing else. -/
theorem mem_columnEntries (st : TimerStore) (kv : KV) (due stop : Int) (topCas : Cas) :
    ∀ (n : Nat) (seq : Int) (e : TimerEntry),
      e ∈ columnEntries st kv due stop topCas n seq ↔
        seq ≤ e.alarmSeq ∧ e.alarmSeq < seq + (n : Int) ∧
          liveEntry st kv due stop topCas e.alarmSeq = some e := by
  intro n
  induction n with
  | zero => intro seq e; simp [columnEntries]; intro h1 h2; omega
  | succ n ih =>
    intro seq e
    unfold columnEntries
    push_cast
    cases hl : liveEntry st kv due stop topCas seq with
    | none =>
      simp only
      rw [ih]
      constructor
      · rintro ⟨h1, h2, h3⟩
        exact ⟨by omega, by omega, h3⟩
      · rintro ⟨h1, h2, h3⟩
        have hne : e.alarmSeq ≠ seq := by
          intro heq
          rw [heq, hl] at h3
          simp at h3
        exact ⟨by omega, by omega, h3⟩
    | some e2 =>
      simp only [List.mem_cons]
      rw [ih]
      have hseq := liveEntry_seq hl
      constructor
      · rintro (h | ⟨h1, h2, h3⟩)
        · subst h
          rw [hseq]
          exact ⟨le_refl _, by omega, hl⟩
        · exact ⟨by omega, by omega, h3⟩
      · rintro ⟨h1, h2, h3⟩
        by_cases heq : e.alarmSeq = seq
        · left
          rw [heq, hl] at h3
          simp only [Option.some.injEq] at h3
          exact h3.symm
        · right
          exact ⟨by omega, by omega, h3⟩

/-- The entries of a column come in strictly ascending `alarmSeq` order. -/
theorem columnEntries_sorted (st : TimerStore) (kv : KV) (due stop : Int) (topCas : Cas) :
    ∀ (n : Nat) (seq : Int),
      List.Pairwise (fun a b : TimerEntry => a.alarmSeq < b.alarmSeq)
        (columnEntries st kv due stop topCas n seq) := by
  intro n
  induction n with
  | zero => intro seq; simp [columnEntries]
  | succ n ih =>
    intro seq
    unfold columnEntries
    cases hl : liveEntry st kv due stop topCas seq with
    | none => exact ih (seq + 1)
    | some e =>
      simp only
      rw [List.pairwise_cons]
      refine ⟨fun b hb => ?_, ih (seq + 1)⟩
      have h1 := ((mem_columnEntries st kv due stop topCas n (seq + 1) b).1 hb).1
      have h2 := liveEntry_seq hl
      omega

/-! ## The column of a bucket without KV failure -/

/-- With no KV failure, on a bucket whose alarm keys hold alarm records and
whose context keys hold context records, `nextColumn` returns when the fuel
exceeds the sequence numbers left: it yields the first live entry at or after
the cursor and leaves the cursor just after it, or finds nothing when no live
entry is left. -/
theorem nextColumnLoop_live (st : TimerStore) {kv : KV} (hf : kv.faults = []) (b : Int)
    (ht : ∀ s d, kv.store (st.kvLocatorAlarm b s) = some d →
      ∃ a, d.val = .alarm a ∧ ∀ d2, kv.store a.ContextRef = some d2 → ∃ c, d2.val = .context c) :
    ∀ (n fuel : Nat) (it : TimerIter) (col : colIter), it.row.current = b →
      minInt64 ≤ col.current → col.stop < maxInt64 →
      (col.stop + 1 - col.current).toNat = n → n < fuel →
      ∃ res, TimerIter.nextColumnLoop st fuel it col kv = some res ∧ res.err = none ∧
        res.kv = kv ∧ res.it.row = it.row ∧
        (columnEntries st kv b col.stop col.topCas n col.current = [] → res.out = false) ∧
        ∀ e rest, columnEntries st kv b col.stop col.topCas n col.current = e :: rest →
          res.out = true ∧ res.it.entry = some e ∧
          res.it.col = some { col with current := e.alarmSeq + 1 } := by
  intro n
  induction n with
  | zero =>
    intro fuel it col hb hmin hmax hn hfuel
    obtain ⟨fuel, rfl⟩ : ∃ f, fuel = f + 1 := ⟨fuel - 1, by omega⟩
    rw [nextColumnLoop_done st kv fuel it col (by omega)]
    exact ⟨_, rfl, rfl, rfl, rfl, fun _ => rfl, fun e rest h => by simp [columnEntries] at h⟩
  | succ n ih =>
    intro fuel it col hb hmin hmax hn hfuel
    obtain ⟨fuel, rfl⟩ : ∃ f, fuel = f + 1 := ⟨fuel - 1, by omega⟩
    have hle : col.current ≤ col.stop := by omega
    have hw : wrap64 (col.current + 1) = col.current + 1 :=
      wrap64_of_isInt64 (by unfold isInt64; unfold minInt64 maxInt64 at *; omega)
    cases hl : liveEntry st kv b col.stop col.topCas col.current with
    | some e =>
      obtain ⟨p, ha, hc, hback, hseq, htop⟩ := liveEntry_some hl
      rw [← hb] at ha hback
      have hy := nextColumnLoop_yield st hf fuel it col hle ha hc hback
      refine ⟨_, hy, rfl, rfl, rfl, ?_, ?_⟩
      · intro h; simp [columnEntries, hl] at h
      · intro e2 rest h
        simp only [columnEntries, hl, List.cons.injEq] at h
        obtain ⟨h1, -⟩ := h
        subst h1
        refine ⟨rfl, ?_, ?_⟩
        · simp only [Option.some.injEq]
          obtain ⟨⟨a1, a2⟩, ⟨c1, c2⟩, s, q, t⟩ := e
          simp only at hseq htop ⊢
          rw [hseq, htop]
        · simp only [colIter.next, hw, hseq]
    | none =>
      have hsk := nextColumnLoop_skip st hf fuel it col hle
        (by rw [hb]; exact liveEntry_none (ht col.current) hl)
      obtain ⟨res, h1, h2, h3, h4, h5, h6⟩ := ih fuel { it with col := some col.next } col.next hb
        (by simp only [colIter.next, hw]; omega) hmax
        (by simp only [colIter.next, hw]; omega) (by omega)
      simp only [colIter.next, hw] at h1 h5 h6
      rw [hsk]
      simp only [colIter.next, hw]
      refine ⟨res, h1, h2, h3, h4, ?_, ?_⟩
      · intro h
        simp only [columnEntries, hl] at h
        exact h5 h
      · intro e rest h
        simp only [columnEntries, hl] at h
        exact h6 e rest h

/-! ## Draining a bucket with `ScanNext` -/

/-- Removing a live alarm and its context leaves every other sequence number of
the bucket as it was: live with the same entry, or not live. -/
theorem liveEntry_erase (st : TimerStore) (kv : KV) (due stop : Int) (topCas : Cas) (s s2 : Int)
    (a : AlarmRecord) (p : Cas) (c : ContextRecord) (q : Cas)
    (ha : kv.store (st.kvLocatorAlarm due s) = some { val := .alarm a, cas := p })
    (hc : kv.store a.ContextRef = some { val := .context c, cas := q })
    (hback : c.AlarmRef = st.kvLocatorAlarm due s) (hne : s2 ≠ s) :
    liveEntry st ((kv.erase (st.kvLocatorAlarm due s)).erase a.ContextRef) due stop topCas s2 =
      liveEntry st kv due stop topCas s2 := by
  have hk : st.kvLocatorAlarm due s2 ≠ st.kvLocatorAlarm due s :=
    fun h => hne (kvLocatorAlarm_inj h).2
  unfold liveEntry
  by_cases h1 : st.kvLocatorAlarm due s2 = a.ContextRef
  · have e1 : ((kv.erase (st.kvLocatorAlarm due s)).erase a.ContextRef).store
        (st.kvLocatorAlarm due s2) = none := by
      simp [erase_store, h1]
    have e2 : kv.store (st.kvLocatorAlarm due s2) = some { val := .context c, cas := q } := by
      rw [h1]; exact hc
    rw [e1, e2]
  · have e1 : ((kv.erase (st.kvLocatorAlarm due s)).erase a.ContextRef).store
        (st.kvLocatorAlarm due s2) = kv.store (st.kvLocatorAlarm due s2) := by
      simp [erase_store, h1, hk]
    rw [e1]
    cases hs : kv.store (st.kvLocatorAlarm due s2) with
    | none => rfl
    | some d =>
      obtain ⟨dv, dcas⟩ := d
      cases dv with
      | alarm a2 =>
        simp only
        by_cases h2 : a2.ContextRef = st.kvLocatorAlarm due s
        · have f1 : ((kv.erase (st.kvLocatorAlarm due s)).erase a.ContextRef).store
              a2.ContextRef = none := by
            simp [erase_store, h2]
          have f2 : kv.store a2.ContextRef = some { val := .alarm a, cas := p } := by
            rw [h2]; exact ha
          rw [f1, f2]
        · by_cases h3 : a2.ContextRef = a.ContextRef
          · have f1 : ((kv.erase (st.kvLocatorAlarm due s)).erase a.ContextRef).store
                a2.ContextRef = none := by
              simp [erase_store, h3]
            have f2 : kv.store a2.ContextRef = some { val := .context c, cas := q } := by
              rw [h3]; exact hc
            rw [f1, f2]
            simp only
            rw [if_neg]
            rw [hback]
            exact fun h => hk h.symm
          · have f1 : ((kv.erase (st.kvLocatorAlarm due s)).erase a.ContextRef).store
                a2.ContextRef = kv.store a2.ContextRef := by
              simp [erase_store, h2, h3]
            rw [f1]
      | counter n => rfl
      | context c2 => rfl
      | span sp => rfl

/-- The host loop over a bucket whose counter stands at `v` and whose alarm at
`v` is live, from the column cursor `cur` on: `ScanNext` yields the live entries
in ascending order and `Delete` removes the alarm and the context of each, the
last one takes the counter with it, and no other key changes. -/
theorem fireScan_drain (r : TimerStore) (row : rowIter) (v : Int) (tc : Cas) (kv0 : KV)
    (hvmax : v < maxInt64) (htc : tc ≠ 0)
    (hroot0 : kv0.store (r.kvLocatorRoot row.current) = some { val := .counter v, cas := tc })
    (ht0 : ∀ s d, kv0.store (r.kvLocatorAlarm row.current s) = some d →
      ∃ cref, d.val = .alarm { AlarmDue := row.current, ContextRef := cref } ∧
        ∀ d2, kv0.store cref = some d2 → ∃ c, d2.val = .context c)
    (hlast : (liveEntry r kv0 row.current v tc v).isSome) :
    ∀ (m : Nat) (cur : Int) (e0 : Option TimerEntry) (kv : KV),
      cur + (m : Int) = v + 1 → 1 ≤ m → minInt64 ≤ cur → kv.faults = [] →
      (∀ k, kv.store k = kv0.store k ∨ kv.store k = none) →
      kv.store (r.kvLocatorRoot row.current) = kv0.store (r.kvLocatorRoot row.current) →
      (∀ s, cur ≤ s →
        liveEntry r kv row.current v tc s = liveEntry r kv0 row.current v tc s) →
      ∃ r2 it2 kv2,
        (∀ fuel, m < fuel →
          fireScan fuel (columnEntries r kv0 row.current v tc m cur).length r
              { row := row, col := some { stop := v, current := cur, topCas := tc },
                entry := e0 } kv =
            some (r2, it2, kv2, columnEntries r kv0 row.current v tc m cur)) ∧
        kv2.faults = [] ∧ kv2.store (r.kvLocatorRoot row.current) = none ∧
        r2 = r.shrinkSpan row.current ∧
        (∀ e ∈ columnEntries r kv0 row.current v tc m cur,
          kv2.store e.AlarmRef = none ∧ kv2.store e.ContextRef = none) ∧
        (∀ k, k ≠ r.kvLocatorRoot row.current →
          (∀ e ∈ columnEntries r kv0 row.current v tc m cur,
            k ≠ e.AlarmRef ∧ k ≠ e.ContextRef) → kv2.store k = kv.store k) ∧
        ∀ k, kv.store k = none → kv2.store k = none := by
  intro m
  induction m using Nat.strong_induction_on with
  | _ m ih =>
    intro cur e0 kv hcur hm hmin hf hsub hroot hlive
    -- the bucket is typed
    have hin : ∀ k d, kv.store k = some d → kv0.store k = some d := by
      intro k d hk
      rcases hsub k with h | h
      · rw [← h]; exact hk
      · rw [h] at hk; simp at hk
    have ht : ∀ s d, kv.store (r.kvLocatorAlarm row.current s) = some d →
        ∃ a, d.val = .alarm a ∧ ∀ d2, kv.store a.ContextRef = some d2 →
          ∃ c, d2.val = .context c := by
      intro s d hd
      obtain ⟨cref, h1, h2⟩ := ht0 s d (hin _ _ hd)
      exact ⟨_, h1, fun d2 hd2 => h2 d2 (hin _ _ hd2)⟩
    -- the entries left
    have hcong : columnEntries r kv row.current v tc m cur =
        columnEntries r kv0 row.current v tc m cur :=
      columnEntries_congr r kv kv0 row.current v tc m cur hlive
    obtain ⟨ev, hev⟩ := Option.isSome_iff_exists.1 hlast
    have hevs := liveEntry_seq hev
    have hmem : ev ∈ columnEntries r kv0 row.current v tc m cur :=
      (mem_columnEntries r kv0 row.current v tc m cur ev).2
        ⟨by omega, by omega, by rw [hevs]; exact hev⟩
    cases hL : columnEntries r kv0 row.current v tc m cur with
    | nil => rw [hL] at hmem; simp at hmem
    | cons e rest =>
      obtain ⟨hge, hle0, k, hk, hrest⟩ := columnEntries_cons r kv0 row.current v tc m cur e rest hL
      have hlek : liveEntry r kv row.current v tc e.alarmSeq = some e := by
        rw [hlive _ hge]; exact hle0
      obtain ⟨p, ha, hc, hback, -, htop⟩ := liveEntry_some hlek
      -- the record carries its bucket
      have hdue : e.AlarmDue = row.current := by
        obtain ⟨cref, h1, -⟩ := ht0 _ _ (hin _ _ ha)
        simp only [Value.alarm.injEq] at h1
        rw [h1]
      have hne : e.ContextRef ≠ e.AlarmRef := by
        rw [hback]
        exact key_ne_of_val_ne hc ha (by simp)
      have ha2 : kv.store e.AlarmRef = some { val := .alarm e.toAlarmRecord, cas := p } := by
        rw [hback]; exact ha
      have hrootk : kv.store (r.kvLocatorRoot row.current) =
          some { val := .counter v, cas := tc } := by rw [hroot]; exact hroot0
      -- one `ScanNext`
      have hscan : ∀ fuel, m < fuel →
          TimerIter.ScanNext r fuel
              { row := row, col := some { stop := v, current := cur, topCas := tc },
                entry := e0 } kv =
            some { out := some e, err := none, kv := kv,
                   it := { row := row,
                           col := some { stop := v, current := e.alarmSeq + 1, topCas := tc },
                           entry := some e } } := by
        intro fuel hfuel
        obtain ⟨fuel, rfl⟩ : ∃ f, fuel = f + 1 := ⟨fuel - 1, by omega⟩
        obtain ⟨res, h1, h2, h3, h4, -, h6⟩ := nextColumnLoop_live r hf row.current ht m (fuel + 1)
          { row := row, col := some { stop := v, current := cur, topCas := tc }, entry := none }
          { stop := v, current := cur, topCas := tc } rfl hmin hvmax (by simp only; omega) hfuel
        rw [hcong, hL] at h6
        obtain ⟨h7, h8, h9⟩ := h6 e rest rfl
        have hnc : TimerIter.nextColumn r (fuel + 1)
            { row := row, col := some { stop := v, current := cur, topCas := tc },
              entry := e0 } kv = some res := by
          rw [nextColumn_eq_loop r (fuel + 1) _ _ kv rfl]
          exact h1
        unfold TimerIter.ScanNext
        rw [ScanNextLoop_yield r (fuel + 1) fuel _ kv hnc h2 h7]
        obtain ⟨o, er, ⟨rw2, cl, en⟩, kv3⟩ := res
        simp only at h2 h3 h4 h7 h8 h9
        subst h2 h3 h4 h8 h9
        rfl
      by_cases hv : e.alarmSeq = v
      · -- the last entry
        have hk0 : k = 0 := by omega
        subst hk0
        have hrest2 : rest = [] := by rw [hrest]; rfl
        subst hrest2
        have htop2 : e.topCas = tc := by rw [htop, if_pos hv]
        have hra : r.kvLocatorRoot e.AlarmDue ≠ e.AlarmRef := by
          rw [hback]; exact kvLocatorRoot_ne_alarm r _ _ _
        have hrc : r.kvLocatorRoot e.AlarmDue ≠ e.ContextRef := by
          rw [hdue]
          exact key_ne_of_val_ne hrootk hc (by simp)
        have hdel := Delete_last r e hf ha2 hc (by rw [hdue]; exact hrootk) (Or.inr rfl) hne
          hra hrc (by rw [htop2]; exact htc) (by rw [htop2])
        rw [hdue] at hdel
        refine ⟨r.shrinkSpan row.current,
          { row := row, col := some { stop := v, current := e.alarmSeq + 1, topCas := tc },
            entry := some e },
          ((kv.erase e.AlarmRef).erase e.ContextRef).erase (r.kvLocatorRoot row.current),
          ?_, hf, ?_, rfl, ?_, ?_, ?_⟩
        · intro fuel hfuel
          simp only [List.length_singleton, fireScan, hscan fuel hfuel, hdel, Option.isNone_none,
            if_true, Option.map_some']
        · simp [erase_store]
        · intro e2 he2
          simp only [List.mem_singleton] at he2
          subst he2
          simp [erase_store]
        · intro k2 hk2 hk3
          obtain ⟨n1, n2⟩ := hk3 e (List.mem_singleton_self _)
          simp [erase_store, hk2, n1, n2]
        · intro k2 hk2
          simp [erase_store, hk2]
      · -- an entry before the last
        have htop2 : e.topCas = 0 := by rw [htop, if_neg hv]
        have hlt : e.alarmSeq < v := by
          have := ((mem_columnEntries r kv0 row.current v tc m cur e).1
            (by rw [hL]; exact List.mem_cons_self _ _)).2.1
          omega
        have hdel := Delete_inner r e hf ha2 hc (Or.inr rfl) hne htop2
        have hkeep : ∀ k2, k2 ≠ e.AlarmRef → k2 ≠ e.ContextRef →
            ((kv.erase e.AlarmRef).erase e.ContextRef).store k2 = kv.store k2 := by
          intro k2 h1 h2
          simp [erase_store, h1, h2]
        have hgone : ∀ k2, kv.store k2 = none →
            ((kv.erase e.AlarmRef).erase e.ContextRef).store k2 = none := by
          intro k2 h
          simp [erase_store, h]
        have hroot2 : ((kv.erase e.AlarmRef).erase e.ContextRef).store
            (r.kvLocatorRoot row.current) = kv0.store (r.kvLocatorRoot row.current) := by
          rw [hkeep _ (by rw [hback]; exact kvLocatorRoot_ne_alarm r _ _ _)
            (key_ne_of_val_ne hrootk hc (by simp))]
          exact hroot
        have hlive2 : ∀ s, e.alarmSeq + 1 ≤ s →
            liveEntry r ((kv.erase e.AlarmRef).erase e.ContextRef) row.current v tc s =
              liveEntry r kv0 row.current v tc s := by
          intro s hs
          rw [hback]
          rw [liveEntry_erase r kv row.current v tc e.alarmSeq s e.toAlarmRecord p
            e.toContextRecord e.ctxCas ha hc hback (by omega)]
          exact hlive s (by omega)
        obtain ⟨r2, it2, kv2, i1, i2, i3, i4, i5, i6, i7⟩ := ih k (by omega) (e.alarmSeq + 1)
          (some e) ((kv.erase e.AlarmRef).erase e.ContextRef) (by omega) (by omega) (by omega)
          (by simpa using hf)
          (fun k2 => by
            by_cases h1 : k2 = e.AlarmRef
            · right; simp [erase_store, h1]
            · by_cases h2 : k2 = e.ContextRef
              · right; simp [erase_store, h2]
              · rw [hkeep k2 h1 h2]; exact hsub k2)
          hroot2 hlive2
        rw [← hrest] at i1 i5 i6
        refine ⟨r2, it2, kv2, ?_, i2, i3, i4, ?_, ?_, ?_⟩
        · intro fuel hfuel
          simp only [List.length_cons, fireScan, hscan fuel hfuel, hdel, Option.isNone_none,
            if_true]
          rw [i1 fuel (by omega)]
          rfl
        · intro e2 he2
          rcases List.mem_cons.1 he2 with he2 | he2
          · subst he2
            exact ⟨i7 _ (by simp [erase_store]), i7 _ (by simp [erase_store])⟩
          · exact i5 e2 he2
        · intro k2 hk2 hk3
          obtain ⟨n1, n2⟩ := hk3 e (List.mem_cons_self _ _)
          rw [i6 k2 hk2 (fun e2 he2 => hk3 e2 (List.mem_cons_of_mem _ he2))]
          exact hkeep k2 n1 n2
        · intro k2 hk2
          exact i7 k2 (hgone k2 hk2)

/-- The bucket after `demoSet1b`, key by key. -/
theorem demoSet1b_store (k : String) :
    demoSet1b.kv.store k =
      if k = demoStore.kvLocatorContext demoDigest "r1" then
        some { val := .context { Context := "x=2", AlarmRef := demoStore.kvLocatorAlarm 1001 129 },
               cas := 6 }
      else if k = demoStore.kvLocatorAlarm 1001 129 then
        some { val := .alarm { AlarmDue := 1001,
                               ContextRef := demoStore.kvLocatorContext demoDigest "r1" },
               cas := 5 }
      else if k = demoStore.kvLocatorRoot 1001 then some { val := .counter 129, cas := 4 }
      else if k = demoStore.kvLocatorAlarm 1001 128 then
        some { val := .alarm { AlarmDue := 1001,
                               ContextRef := demoStore.kvLocatorContext demoDigest "r1" },
               cas := 2 }
      else none := by
  have hset1 := Set_fresh demoDigest demoStore 990 1000 "r1" "x=1" KV.empty rfl rfl
  have h1 : demoSet1 = _ := hset1
  have hroot : demoSet1.kv.store (demoSet1.store.kvLocatorRoot (setDue 991 1000)) =
      some { val := .counter 128, cas := 1 } := by decide
  have hset2 := Set_again demoDigest demoSet1.store 991 1000 "r1" "x=2" demoSet1.kv (by decide)
    hroot
  have h2 : demoSet1b = _ := hset2
  have e1 : setDue 990 1000 = 1001 := by decide
  have e2 : setDue 991 1000 = 1001 := by decide
  have e3 : wrap64 (128 + 1) = 129 := by decide
  have e4 : init_seq = 128 := rfl
  rw [h2]
  simp only [put_store, put_casSeq]
  rw [h1]
  simp only [put_store, put_casSeq, expandSpan_kvLocatorRoot, expandSpan_kvLocatorAlarm,
    expandSpan_kvLocatorContext, e1, e2, e3, e4]
  have c0 : KV.empty.casSeq = 0 := rfl
  have s0 : KV.empty.store k = none := rfl
  rw [c0, s0]
  split_ifs <;> rfl

/-- The alarm keys of the bucket after `demoSet1b` hold alarm records that carry
their time bucket, and the context key they name holds a context record. -/
theorem demoSet1b_typed (b s : Int) (d : Doc)
    (h : demoSet1b.kv.store (demoStore.kvLocatorAlarm b s) = some d) :
    ∃ cref, d.val = .alarm { AlarmDue := b, ContextRef := cref } ∧
      ∀ d2, demoSet1b.kv.store cref = some d2 → ∃ c, d2.val = .context c := by
  have hctx : ∀ d2, demoSet1b.kv.store (demoStore.kvLocatorContext demoDigest "r1") = some d2 →
      ∃ c, d2.val = .context c := by
    intro d2 hd2
    rw [demoSet1b_store, if_pos rfl] at hd2
    simp only [Option.some.injEq] at hd2
    exact ⟨_, by rw [← hd2]⟩
  rw [demoSet1b_store] at h
  rw [if_neg (kvLocatorAlarm_ne_context demoDigest demoStore b s "r1")] at h
  split at h
  · rename_i hk
    have hb := (kvLocatorAlarm_inj hk).1
    simp only [Option.some.injEq] at h
    exact ⟨_, by rw [← h, hb], hctx⟩
  · rw [if_neg (kvLocatorRoot_ne_alarm demoStore 1001 b s).symm] at h
    split at h
    · rename_i hk
      have hb := (kvLocatorAlarm_inj hk).1
      simp only [Option.some.injEq] at h
      exact ⟨_, by rw [← h, hb], hctx⟩
    · simp at h

/-- The root keys of the bucket after `demoSet1b` hold counters below the largest
64-bit number. -/
theorem demoSet1b_roots (b : Int) (d : Doc)
    (h : demoSet1b.kv.store (demoStore.kvLocatorRoot b) = some d) :
    ∃ v, d.val = .counter v ∧ v < maxInt64 := by
  rw [demoSet1b_store] at h
  rw [if_neg (kvLocatorRoot_ne_context demoDigest demoStore b "r1"),
    if_neg (kvLocatorRoot_ne_alarm demoStore b 1001 129)] at h
  split at h
  · simp only [Option.some.injEq] at h
    exact ⟨129, by rw [← h], by decide⟩
  · rw [if_neg (kvLocatorRoot_ne_alarm demoStore b 1001 128)] at h
    simp at h

/-! ## C5: the counter of a drained bucket -/

/-- C5 as amended. Counter reset: let the time bucket `row.current` hold a
counter at `v` under the CAS `tc`, alarm records that carry the bucket under its
alarm keys, context records under the keys they name, and a live alarm at
sequence number `v`; and let the cursor be the one `nextRow` leaves on finding
the bucket. With no KV failure, the host loop that takes each entry from
`ScanNext` and passes it to `Delete` delivers `es`, the live entries of the
bucket, each once and in ascending order of sequence number, the last one with
the CAS of the counter; afterwards the counter key, the alarm key and the
context key of every entry delivered are absent, and no other key has changed
(an alarm key the scan skipped stays). A subsequent `Set` into the same bucket
finds no counter, writes it at `init_seq` and writes its alarm under sequence
number `init_seq` (128). -/
theorem drained_bucket_restarts_at_init_seq (H : Ripemd160) (r : TimerStore) (row : rowIter)
    (kv : KV) (v : Int) (tc : Cas) (e0 : Option TimerEntry) (now due : Int) (ref : String)
    (ctx : Json)
    (hf : kv.faults = []) (hv : init_seq ≤ v) (hvmax : v < maxInt64) (htc : tc ≠ 0)
    (hroot : kv.store (r.kvLocatorRoot row.current) = some { val := .counter v, cas := tc })
    (htyped : ∀ s d, kv.store (r.kvLocatorAlarm row.current s) = some d →
      ∃ cref, d.val = .alarm { AlarmDue := row.current, ContextRef := cref } ∧
        ∀ d2, kv.store cref = some d2 → ∃ c, d2.val = .context c)
    (hlast : (liveEntry r kv row.current v tc v).isSome)
    (hset : setDue now due = row.current) :
    ∃ es r2 it2 kv2,
      (∀ fuel, (v + 1 - init_seq).toNat < fuel →
        fireScan fuel es.length r
            { row := row, col := some { stop := v, current := init_seq, topCas := tc },
              entry := e0 } kv = some (r2, it2, kv2, es)) ∧
      (∀ s e, init_seq ≤ s → s ≤ v → liveEntry r kv row.current v tc s = some e → e ∈ es) ∧
      (∀ e ∈ es, init_seq ≤ e.alarmSeq ∧ e.alarmSeq ≤ v ∧
        liveEntry r kv row.current v tc e.alarmSeq = some e ∧
        e.topCas = (if e.alarmSeq = v then tc else 0)) ∧
      List.Pairwise (fun a b : TimerEntry => a.alarmSeq < b.alarmSeq) es ∧
      kv2.store (r.kvLocatorRoot row.current) = none ∧
      (∀ e ∈ es, kv2.store e.AlarmRef = none ∧ kv2.store e.ContextRef = none) ∧
      (∀ k, k ≠ r.kvLocatorRoot row.current → (∀ e ∈ es, k ≠ e.AlarmRef ∧ k ≠ e.ContextRef) →
        kv2.store k = kv.store k) ∧
      (r2.Set H now due ref ctx kv2).err = none ∧
      (r2.Set H now due ref ctx kv2).kv.store (r.kvLocatorRoot row.current) =
        some { val := .counter init_seq, cas := kv2.casSeq + 1 } ∧
      (r2.Set H now due ref ctx kv2).kv.store (r.kvLocatorAlarm row.current init_seq) =
        some { val := .alarm { AlarmDue := row.current, ContextRef := r.kvLocatorContext H ref },
               cas := kv2.casSeq + 2 } := by
  have hm : init_seq + (((v + 1 - init_seq).toNat : Nat) : Int) = v + 1 := by
    rw [Int.toNat_of_nonneg (by omega)]; omega
  obtain ⟨r2, it2, kv2, i1, i2, i3, i4, i5, i6, -⟩ := fireScan_drain r row v tc kv hvmax htc hroot
    htyped hlast (v + 1 - init_seq).toNat init_seq e0 kv hm (by omega)
    (by unfold minInt64 init_seq; omega) hf (fun _ => Or.inl rfl) rfl (fun _ _ => rfl)
  refine ⟨columnEntries r kv row.current v tc (v + 1 - init_seq).toNat init_seq, r2, it2, kv2,
    i1, ?_, ?_, columnEntries_sorted r kv row.current v tc _ _, i3, i5, i6, ?_⟩
  · intro s e h1 h2 hl
    have hs := liveEntry_seq hl
    exact (mem_columnEntries r kv row.current v tc _ _ e).2
      ⟨by omega, by omega, by rw [hs]; exact hl⟩
  · intro e he
    obtain ⟨h1, h2, h3⟩ := (mem_columnEntries r kv row.current v tc _ _ e).1 he
    obtain ⟨p, -, -, -, -, htop⟩ := liveEntry_some h3
    exact ⟨h1, by omega, h3, htop⟩
  · subst i4
    have hroot2 : kv2.store ((r.shrinkSpan row.current).kvLocatorRoot (setDue now due)) = none := by
      rw [hset, shrinkSpan_kvLocatorRoot]; exact i3
    rw [Set_fresh H _ now due ref ctx kv2 i2 hroot2, hset]
    simp only [shrinkSpan_kvLocatorRoot, shrinkSpan_kvLocatorAlarm, shrinkSpan_kvLocatorContext,
      put_store, put_casSeq, true_and]
    have n1 := kvLocatorRoot_ne_context H r row.current ref
    have n2 := kvLocatorRoot_ne_alarm r row.current row.current init_seq
    have n3 := kvLocatorAlarm_ne_context H r row.current init_seq ref
    simp [n1, n2, n3]

theorem drained_bucket_restarts_at_init_seq_witness :
    demoSet1b.kv.faults = [] ∧ init_seq ≤ (129 : Int) ∧ (129 : Int) < maxInt64 ∧ (4 : Cas) ≠ 0 ∧
    demoSet1b.kv.store (demoStore.kvLocatorRoot 1001) = some { val := .counter 129, cas := 4 } ∧
    demoSet1b.kv.store (demoStore.kvLocatorAlarm 1001 128) =
      some { val := .alarm { AlarmDue := 1001,
                             ContextRef := demoStore.kvLocatorContext demoDigest "r1" },
             cas := 2 } ∧
    liveEntry demoStore demoSet1b.kv 1001 129 4 128 = none ∧
    liveEntry demoStore demoSet1b.kv 1001 129 4 129 = some demoEntry1b ∧
    setDue 990 1000 = 1001 ∧
    ∃ es r2 it2 kv2,
      fireScan 3 es.length demoStore
          { row := { start := 987, stop := 1001, current := 1001 },
            col := some { stop := 129, current := init_seq, topCas := 4 }, entry := none }
          demoSet1b.kv = some (r2, it2, kv2, es) ∧
      demoEntry1b ∈ es ∧
      kv2.store (demoStore.kvLocatorRoot 1001) = none ∧
      kv2.store demoEntry1b.AlarmRef = none ∧ kv2.store demoEntry1b.ContextRef = none ∧
      (r2.Set demoDigest 990 1000 "r7" "w=4" kv2).kv.store (demoStore.kvLocatorRoot 1001) =
        some { val := .counter init_seq, cas := kv2.casSeq + 1 } := by
  obtain ⟨es, r2, it2, kv2, h1, h2, -, -, h5, h6, -, -, h9, -⟩ :=
    drained_bucket_restarts_at_init_seq demoDigest demoStore
      { start := 987, stop := 1001, current := 1001 } demoSet1b.kv 129 4 none 990 1000 "r7" "w=4"
      (by decide) (by decide) (by decide) (by decide) (by decide)
      (fun s d h => demoSet1b_typed 1001 s d h) (by decide) (by decide)
  have hmem := h2 129 demoEntry1b (by decide) (by decide) (by decide)
  exact ⟨by decide, by decide, by decide, by decide, by decide, by decide, by decide, by decide,
    by decide, es, r2, it2, kv2, h1 3 (by decide), hmem, h5, (h6 _ hmem).1, (h6 _ hmem).2, h9⟩

/-- C5 as stated fails on a bucket with a superseded alarm, and in the sequence
number of the next `Set`. After `demoSet1b` the time bucket 1001 holds the
superseded alarm under 128 and the live one under 129. One scan at time 1010
yields the live entry, which carries the CAS of the counter, and then nothing
more; `Delete` removes its alarm, its context and the counter, and leaves the
alarm key `alarm:1001:128` of the bucket stored. A `Set` into bucket 1001 then
finds no counter: the counter stands at 128 and the alarm is written under
sequence number 128, and nothing is written under 129. -/
theorem counter_reset_keeps_superseded_alarm :
    (ScanNext demoSet1b.store 5 (demoSet1b.store.ScanDue 1010).1 demoSet1b.kv).map
        (fun x => (x.1, x.2.1)) =
      some ((some demoEntry1b, none),
        some { row := { start := 987, stop := 1001, current := 1001 },
               col := some { stop := 129, current := 130, topCas := 4 },
               entry := some demoEntry1b }) ∧
    (demoSet1b.store.Delete demoEntry1b demoSet1b.kv).err = none ∧
    (demoSet1b.store.Delete demoEntry1b demoSet1b.kv).kv.store (demoStore.kvLocatorRoot 1001) =
      none ∧
    (demoSet1b.store.Delete demoEntry1b demoSet1b.kv).kv.store demoEntry1b.AlarmRef = none ∧
    (demoSet1b.store.Delete demoEntry1b demoSet1b.kv).kv.store demoEntry1b.ContextRef = none ∧
    (ScanNext demoSet1b.store 5
        (some { row := { start := 987, stop := 1001, current := 1001 },
                col := some { stop := 129, current := 130, topCas := 4 },
                entry := some demoEntry1b })
        (demoSet1b.store.Delete demoEntry1b demoSet1b.kv).kv).map (fun x => x.1) =
      some (none, none) ∧
    (demoSet1b.store.Delete demoEntry1b demoSet1b.kv).kv.store
        (demoStore.kvLocatorAlarm 1001 128) =
      some { val := .alarm { AlarmDue := 1001,
                             ContextRef := demoStore.kvLocatorContext demoDigest "r1" },
             cas := 2 } ∧
    setDue 990 1000 = 1001 ∧
    ((demoSet1b.store.Delete demoEntry1b demoSet1b.kv).store.Set demoDigest 990 1000 "r7" "w=4"
      (demoSet1b.store.Delete demoEntry1b demoSet1b.kv).kv).err = none ∧
    ((demoSet1b.store.Delete demoEntry1b demoSet1b.kv).store.Set demoDigest 990 1000 "r7" "w=4"
      (demoSet1b.store.Delete demoEntry1b demoSet1b.kv).kv).kv.store
        (demoStore.kvLocatorRoot 1001) = some { val := .counter 128, cas := 7 } ∧
    ((demoSet1b.store.Delete demoEntry1b demoSet1b.kv).store.Set demoDigest 990 1000 "r7" "w=4"
      (demoSet1b.store.Delete demoEntry1b demoSet1b.kv).kv).kv.store
        (demoStore.kvLocatorAlarm 1001 128) =
      some { val := .alarm { AlarmDue := 1001,
                             ContextRef := demoStore.kvLocatorContext demoDigest "r7" },
             cas := 8 } ∧
    ((demoSet1b.store.Delete demoEntry1b demoSet1b.kv).store.Set demoDigest 990 1000 "r7" "w=4"
      (demoSet1b.store.Delete demoEntry1b demoSet1b.kv).kv).kv.store
        (demoStore.kvLocatorAlarm 1001 129) = none := by
  decide

/-! ## The rows of a scan without KV failure -/

theorem rowKeys_append (st : TimerStore) :
    ∀ (k1 k2 : Nat) (c : Int),
      rowKeys st (k1 + k2) c = rowKeys st k1 c ++ rowKeys st k2 (c + 7 * (k1 : Int)) := by
  intro k1
  induction k1 with
  | zero => intro k2 c; simp [rowKeys]
  | succ k1 ih =>
    intro k2 c
    rw [show k1 + 1 + k2 = (k1 + k2) + 1 from by omega]
    simp only [rowKeys, List.cons_append, List.cons.injEq, true_and]
    rw [ih k2 (c + 7)]
    congr 2
    push_cast
    ring

/-- The key at each index of the list of root keys. -/
theorem rowKeys_eq_map (st : TimerStore) :
    ∀ (k : Nat) (c : Int),
      rowKeys st k c =
        (List.range k).map (fun j : Nat => st.kvLocatorRoot (c + 7 * ((j : Int) + 1))) := by
  intro k
  induction k with
  | zero => intro c; rfl
  | succ k ih =>
    intro c
    rw [List.range_succ_eq_map, List.map_cons, List.map_map, rowKeys, ih (c + 7)]
    simp only [Nat.cast_zero, zero_add, mul_one, List.cons.injEq, true_and]
    apply List.map_congr_left
    intro j _
    simp only [Function.comp, Nat.succ_eq_add_one]
    congr 1
    push_cast
    ring

/-- A live entry of a bucket among the `m` that follow `c` is among the live
entries of these buckets. -/
theorem mem_rowsEntries (st : TimerStore) (kv : KV) :
    ∀ (m : Nat) (c : Int) (j : Nat) (e : TimerEntry), j < m →
      e ∈ bucketEntries st kv (c + 7 * ((j : Int) + 1)) → e ∈ rowsEntries st kv m c := by
  intro m
  induction m with
  | zero => intro c j e hj; omega
  | succ m ih =>
    intro c j e hj he
    unfold rowsEntries
    rw [List.mem_append]
    cases j with
    | zero =>
      left
      simpa using he
    | succ j =>
      right
      apply ih (c + 7) j e (by omega)
      have e1 : c + 7 + 7 * ((j : Int) + 1) = c + 7 * (((j + 1 : Nat) : Int) + 1) := by
        push_cast; ring
      rw [e1]
      exact he

/-- With no KV failure and only counters under the root keys, `nextRow` returns
when the fuel exceeds the buckets left: it reads the root keys of the buckets
that follow `row.current`, one after the other, up to the first that is stored
or up to `row.stop`, and a bucket it finds is the next one with live entries to
yield. -/
theorem nextRowLoop_live (st : TimerStore) {kv : KV} (hf : kv.faults = [])
    (hroots : ∀ b d, kv.store (st.kvLocatorRoot b) = some d → ∃ n, d.val = .counter n) :
    ∀ (m fuel : Nat) (it : TimerIter) (col : colIter),
      it.row.stop ≤ it.row.current + 7 * (m : Int) →
      (0 < m → it.row.current + 7 * (m : Int) = it.row.stop) →
      isInt64 it.row.current → it.row.stop ≤ maxInt64 → m < fuel →
      ∃ (res : StepResult Bool) (k : Nat),
        TimerIter.nextRowLoop st fuel it col kv = some res ∧ res.err = none ∧ res.kv = kv ∧
        res.it.row.stop = it.row.stop ∧ k ≤ m ∧
        res.it.row.current = it.row.current + 7 * (k : Int) ∧
        TimerIter.nextRowLoopReads st fuel it kv = rowKeys st k it.row.current ∧
        (res.out = false → k = m ∧ rowsEntries st kv m it.row.current = [] ∧
          res.it.col = it.col) ∧
        (res.out = true → 1 ≤ k ∧ ∃ v cas,
          kv.store (st.kvLocatorRoot (it.row.current + 7 * (k : Int))) =
            some { val := .counter v, cas := cas } ∧
          res.it.col = some { col with stop := v, topCas := cas } ∧
          rowsEntries st kv m it.row.current =
            columnEntries st kv (it.row.current + 7 * (k : Int)) v cas
                (v + 1 - init_seq).toNat init_seq ++
              rowsEntries st kv (m - k) (it.row.current + 7 * (k : Int))) := by
  intro m
  induction m with
  | zero =>
    intro fuel it col h1 h2 hcur hstop hfuel
    obtain ⟨fuel, rfl⟩ : ∃ f, fuel = f + 1 := ⟨fuel - 1, by omega⟩
    have hlt : ¬ it.row.current < it.row.stop := by
      simp only [Nat.cast_zero, mul_zero, add_zero] at h1
      omega
    refine ⟨{ out := false, err := none, it := it, kv := kv }, 0, ?_, rfl, rfl, rfl, le_refl _,
      by simp, ?_, fun _ => ⟨rfl, rfl, rfl⟩, fun h => by simp at h⟩
    · simp only [TimerIter.nextRowLoop, hlt, if_false]
    · simp only [TimerIter.nextRowLoopReads, hlt, if_false, rowKeys]
  | succ m ih =>
    intro fuel it col h1 h2 hcur hstop hfuel
    obtain ⟨fuel, rfl⟩ : ∃ f, fuel = f + 1 := ⟨fuel - 1, by omega⟩
    have h3 := h2 (by omega)
    push_cast at h3
    have hlt : it.row.current < it.row.stop := by omega
    have hw : wrap64 (it.row.current + Resolution) = it.row.current + 7 := by
      apply wrap64_of_isInt64
      unfold isInt64 minInt64 maxInt64 Resolution at *
      omega
    have hcur2 : isInt64 (it.row.current + 7) := by
      unfold isInt64 minInt64 maxInt64 at *
      omega
    cases hs : kv.store (st.kvLocatorRoot (it.row.current + 7)) with
    | none =>
      obtain ⟨res, k, i1, i2, i3, i4, i5, i6, i7, i8, i9⟩ := ih fuel
        { it with row := { it.row with current := it.row.current + 7 } } col
        (by simp only; omega) (fun _ => by simp only; omega) hcur2 hstop (by omega)
      simp only at i4 i6 i7 i8 i9
      refine ⟨res, k + 1, ?_, i2, i3, i4, by omega, by rw [i6]; push_cast; ring, ?_, ?_, ?_⟩
      · simp only [TimerIter.nextRowLoop, hlt, if_true, hw]
        rw [MustGet_absent hf hs]
        simp only [Bool.not_true, Bool.false_eq_true, if_false]
        exact i1
      · simp only [TimerIter.nextRowLoopReads, hlt, if_true, hw]
        rw [MustGet_absent hf hs]
        simp only [Bool.not_true, Bool.false_eq_true, if_false, rowKeys]
        rw [i7]
      · intro ho
        obtain ⟨j1, j2, j3⟩ := i8 ho
        refine ⟨by omega, ?_, j3⟩
        simp only [rowsEntries, bucketEntries, hs, List.nil_append]
        exact j2
      · intro ho
        obtain ⟨j1, v, cas, j2, j3, j4⟩ := i9 ho
        have e1 : it.row.current + 7 + 7 * (k : Int) =
            it.row.current + 7 * (((k + 1 : Nat) : Int)) := by push_cast; ring
        rw [e1] at j2 j4
        refine ⟨by omega, v, cas, j2, j3, ?_⟩
        simp only [rowsEntries, bucketEntries, hs, List.nil_append]
        rw [j4]
        congr 2
        omega
    | some d =>
      obtain ⟨v, hd⟩ := hroots _ d hs
      obtain ⟨dv, dcas⟩ := d
      simp only at hd
      subst hd
      refine ⟨{ out := true, err := none, kv := kv,
                it := { row := { it.row with current := it.row.current + 7 },
                        col := some { col with stop := v, topCas := dcas },
                        entry := it.entry } }, 1, ?_, rfl, rfl, rfl, by omega, by simp, ?_,
        fun h => by simp at h, fun _ => ⟨le_refl _, v, dcas, by simpa using hs, rfl, ?_⟩⟩
      · simp only [TimerIter.nextRowLoop, hlt, if_true, hw]
        rw [MustGet_present hf hs (v := v) rfl]
        simp
      · simp only [TimerIter.nextRowLoopReads, hlt, if_true, hw]
        rw [MustGet_present hf hs (v := v) rfl]
        simp [rowKeys]
      · simp only [rowsEntries, bucketEntries, hs, Nat.cast_one, mul_one, Nat.add_sub_cancel]

/-- With no KV failure, on a bucket whose keys hold the records their names
say and whose counters are below the largest 64-bit number, a `ScanNext` call
returns when the fuel covers the 64-bit range: it yields the next live entry of
the scan, or no entry when none is left, and reads the root keys of the buckets
it passes, each once and in ascending order. -/
theorem ScanNextLoop_live (st : TimerStore) {kv : KV} (hf : kv.faults = [])
    (hroots : ∀ b d, kv.store (st.kvLocatorRoot b) = some d →
      ∃ n, d.val = .counter n ∧ n < maxInt64)
    (halarms : ∀ b s d, kv.store (st.kvLocatorAlarm b s) = some d →
      ∃ a, d.val = .alarm a ∧ ∀ d2, kv.store a.ContextRef = some d2 → ∃ c, d2.val = .context c)
    (inner : Nat) (hinner : 18446744073709551616 ≤ inner) :
    ∀ (m fuel : Nat) (it : TimerIter),
      it.row.stop ≤ it.row.current + 7 * (m : Int) →
      (0 < m → it.row.current + 7 * (m : Int) = it.row.stop) →
      isInt64 it.row.current → it.row.stop ≤ maxInt64 →
      (it.col = none ∨ ∃ col, it.col = some col ∧ minInt64 ≤ col.current ∧
        col.stop < maxInt64) →
      m < fuel →
      ∃ (s : StepResult (Option TimerEntry)) (k : Nat),
        TimerIter.ScanNextLoop st inner fuel it kv = some s ∧ s.err = none ∧ s.kv = kv ∧
        s.it.row.stop = it.row.stop ∧ k ≤ m ∧
        s.it.row.current = it.row.current + 7 * (k : Int) ∧
        (s.it.col = none ∨ ∃ col, s.it.col = some col ∧ minInt64 ≤ col.current ∧
          col.stop < maxInt64) ∧
        TimerIter.ScanNextLoopReads st inner fuel it kv = rowKeys st k it.row.current ∧
        (scanRest st kv m it = [] → s.out = none ∧ k = m) ∧
        ∀ e rest, scanRest st kv m it = e :: rest →
          s.out = some e ∧ scanRest st kv (m - k) s.it = rest := by
  intro m
  induction m using Nat.strong_induction_on with
  | _ m ih =>
    intro fuel it h1 h2 hcur hstop hcol hfuel
    obtain ⟨fuel, rfl⟩ : ∃ f, fuel = f + 1 := ⟨fuel - 1, by omega⟩
    -- the column
    have hA : ∃ c, TimerIter.nextColumn st inner it kv = some c ∧ c.err = none ∧ c.kv = kv ∧
        c.it.row = it.row ∧
        ((match it.col with
            | none => []
            | some col =>
              columnEntries st kv it.row.current col.stop col.topCas
                (col.stop + 1 - col.current).toNat col.current) = [] → c.out = false) ∧
        ∀ e rest,
          (match it.col with
            | none => []
            | some col =>
              columnEntries st kv it.row.current col.stop col.topCas
                (col.stop + 1 - col.current).toNat col.current) = e :: rest →
          c.out = true ∧ c.it.entry = some e ∧
          ∃ col, it.col = some col ∧ c.it.col = some { col with current := e.alarmSeq + 1 } ∧
            columnEntries st kv it.row.current col.stop col.topCas
              (col.stop + 1 - (e.alarmSeq + 1)).toNat (e.alarmSeq + 1) = rest ∧
            minInt64 ≤ e.alarmSeq + 1 := by
      rcases hcol with hnone | ⟨col, hsome, hmin, hmax⟩
      · refine ⟨{ out := false, err := none, it := { it with entry := none }, kv := kv }, ?_,
          rfl, rfl, rfl, fun _ => rfl, ?_⟩
        · unfold TimerIter.nextColumn
          simp only [hnone]
        · intro e rest h
          simp [hnone] at h
      · obtain ⟨res, r1, r2, r3, r4, r5, r6⟩ := nextColumnLoop_live st hf it.row.current
          (halarms it.row.current) (col.stop + 1 - col.current).toNat inner
          { it with entry := none } col rfl hmin hmax rfl
          (by unfold minInt64 maxInt64 at *; omega)
        refine ⟨res, ?_, r2, r3, r4, ?_, ?_⟩
        · rw [nextColumn_eq_loop st inner it col kv hsome]; exact r1
        · intro h
          simp only [hsome] at h
          exact r5 h
        · intro e rest h
          simp only [hsome] at h
          obtain ⟨q1, q2, q3⟩ := r6 e rest h
          obtain ⟨g1, -, k, g3, g4⟩ := columnEntries_cons st kv it.row.current col.stop col.topCas
            _ col.current e rest h
          have hk : (col.stop + 1 - (e.alarmSeq + 1)).toNat = k := by omega
          refine ⟨q1, q2, col, hsome, q3, ?_, by omega⟩
          rw [hk, g4]
    obtain ⟨c, hc, c1, c2, c3, c4, c5⟩ := hA
    have hcc : c.it.row.current = it.row.current := by rw [c3]
    have hcs : c.it.row.stop = it.row.stop := by rw [c3]
    cases hP : (match it.col with
        | none => []
        | some col =>
          columnEntries st kv it.row.current col.stop col.topCas
            (col.stop + 1 - col.current).toNat col.current) with
    | cons e restc =>
      -- the column yields
      obtain ⟨o1, o2, col, o3, o4, o5, o6⟩ := c5 e restc hP
      have hcmax : col.stop < maxInt64 := by
        rcases hcol with hnone | ⟨col2, hsome, -, hmax⟩
        · rw [hnone] at o3; simp at o3
        · rw [hsome] at o3
          simp only [Option.some.injEq] at o3
          rw [← o3]; exact hmax
      refine ⟨{ out := c.it.entry, err := none, it := c.it, kv := c.kv }, 0, ?_, rfl, c2, hcs,
        Nat.zero_le _, by simp [hcc], Or.inr ⟨_, o4, o6, hcmax⟩, ?_, ?_, ?_⟩
      · exact ScanNextLoop_yield st inner fuel it kv hc c1 o1
      · simp only [TimerIter.ScanNextLoopReads, hc, c1, o1, if_true, rowKeys]
      · intro h
        unfold scanRest at h
        rw [hP] at h
        simp at h
      · intro e2 rest h
        unfold scanRest at h
        rw [hP] at h
        simp only [List.cons_append, List.cons.injEq] at h
        obtain ⟨h3, h4⟩ := h
        subst h3
        refine ⟨o2, ?_⟩
        unfold scanRest
        simp only [o4, hcc, Nat.sub_zero]
        rw [o5]
        exact h4
    | nil =>
      -- the column is exhausted: on to the next row
      have o1 := c4 hP
      have hrest : scanRest st kv m it = rowsEntries st kv m it.row.current := by
        unfold scanRest
        rw [hP]
        rfl
      obtain ⟨r, k1, r1, r2, r3, r4, r5, r6, r7, r8, r9⟩ := nextRowLoop_live st hf
        (fun b d h => by obtain ⟨n, hn, -⟩ := hroots b d h; exact ⟨n, hn⟩) m inner
        { c.it with col := none, entry := none } { current := init_seq, topCas := 0, stop := 0 }
        (by simp only; rw [hcc, hcs]; exact h1) (fun hm => by simp only; rw [hcc, hcs]; exact h2 hm)
        (by simp only; rw [hcc]; exact hcur) (by simp only; rw [hcs]; exact hstop)
        (by unfold isInt64 minInt64 maxInt64 at *; omega)
      simp only at r4 r6 r7 r8 r9
      rw [hcc] at r6 r7 r8 r9
      rw [hcs] at r4
      have hr1 : TimerIter.nextRow st inner c.it kv = some r := r1
      have hreads : TimerIter.ScanNextLoopReads st inner (fuel + 1) it kv =
          rowKeys st k1 it.row.current ++
            (if !r.out || r.err.isSome then []
             else TimerIter.ScanNextLoopReads st inner fuel r.it r.kv) := by
        simp only [TimerIter.ScanNextLoopReads, hc, c1, o1, Bool.false_eq_true, if_false, c2, r7,
          hr1]
      cases hro : r.out with
      | false =>
        obtain ⟨p1, p2, p3⟩ := r8 hro
        refine ⟨{ out := none, err := none, it := r.it, kv := r.kv }, k1, ?_, rfl, r3, r4, r5, r6,
          Or.inl p3, ?_, ?_, ?_⟩
        · rw [ScanNextLoop_end st inner fuel it kv hc c1 o1 (by rw [c2]; exact hr1) r2 hro]
        · rw [hreads]
          simp [hro]
        · intro _
          exact ⟨rfl, p1⟩
        · intro e rest h
          rw [hrest, p2] at h
          simp at h
      | true =>
        obtain ⟨p1, v, cas, p2, p3, p4⟩ := r9 hro
        have hvmax2 : v < maxInt64 := by
          obtain ⟨n, hn, hlt⟩ := hroots _ _ p2
          simp only [Value.counter.injEq] at hn
          rw [hn]; exact hlt
        have hm1 : 0 < m := by omega
        have h3 := h2 hm1
        have hcur2 : isInt64 r.it.row.current := by
          rw [r6]
          unfold isInt64 minInt64 maxInt64 at *
          have : (k1 : Int) ≤ (m : Int) := by exact_mod_cast r5
          omega
        have hk1m : (k1 : Int) ≤ (m : Int) := by exact_mod_cast r5
        obtain ⟨s, k2, s1, s2, s3, s4, s5, s6, s7, s8, s9, s10⟩ := ih (m - k1) (by omega) fuel r.it
          (by rw [r4, r6]; push_cast [Nat.cast_sub r5]; omega)
          (fun _ => by rw [r4, r6]; push_cast [Nat.cast_sub r5]; omega)
          hcur2 (by rw [r4]; exact hstop)
          (Or.inr ⟨_, p3, by simp only; unfold minInt64 init_seq; omega, hvmax2⟩)
          (by omega)
        have hrest2 : scanRest st kv (m - k1) r.it = scanRest st kv m it := by
          rw [hrest, p4]
          unfold scanRest
          simp only [p3, r6]
        refine ⟨s, k1 + k2, ?_, s2, s3, by rw [s4, r4], by omega, ?_, s7, ?_, ?_, ?_⟩
        · rw [ScanNextLoop_row st inner fuel it kv hc c1 o1 (by rw [c2]; exact hr1) r2 hro, r3]
          exact s1
        · rw [s6, r6]; push_cast; ring
        · rw [hreads]
          simp only [hro, r2, Bool.not_true, Option.isSome_none, Bool.or_self, Bool.false_eq_true,
            if_false, r3]
          rw [s8, r6, rowKeys_append]
        · intro h
          rw [← hrest2] at h
          obtain ⟨q1, q2⟩ := s9 h
          exact ⟨q1, by omega⟩
        · intro e rest h
          rw [← hrest2] at h
          obtain ⟨q1, q2⟩ := s10 e rest h
          refine ⟨q1, ?_⟩
          rw [show m - (k1 + k2) = m - k1 - k2 from by omega]
          exact q2

/-- With no KV failure, on a bucket whose keys hold the records their names
say and whose counters are below the largest 64-bit number, the scan driven to
its end yields the live entries it has still to yield and reads the root keys of
the buckets left, each once and in ascending order. -/
theorem scanAll_live (st : TimerStore) {kv : KV} (hf : kv.faults = [])
    (hroots : ∀ b d, kv.store (st.kvLocatorRoot b) = some d →
      ∃ n, d.val = .counter n ∧ n < maxInt64)
    (halarms : ∀ b s d, kv.store (st.kvLocatorAlarm b s) = some d →
      ∃ a, d.val = .alarm a ∧ ∀ d2, kv.store a.ContextRef = some d2 → ∃ c, d2.val = .context c)
    (fuel : Nat) (hfuel : 18446744073709551616 ≤ fuel) :
    ∀ (L : List TimerEntry) (n m : Nat) (it : TimerIter), scanRest st kv m it = L →
      L.length < n → it.row.stop ≤ it.row.current + 7 * (m : Int) →
      (0 < m → it.row.current + 7 * (m : Int) = it.row.stop) →
      isInt64 it.row.current → it.row.stop ≤ maxInt64 →
      (it.col = none ∨ ∃ col, it.col = some col ∧ minInt64 ≤ col.current ∧
        col.stop < maxInt64) →
      scanAll st fuel n (some it) kv = some (L, rowKeys st m it.row.current) := by
  intro L
  induction L with
  | nil =>
    intro n m it hL hn h1 h2 hcur hstop hcol
    obtain ⟨n, rfl⟩ : ∃ k, n = k + 1 := ⟨n - 1, by simp at hn; omega⟩
    obtain ⟨s, k, s1, s2, s3, s4, s5, s6, s7, s8, s9, -⟩ := ScanNextLoop_live st hf hroots halarms
      fuel hfuel m fuel it h1 h2 hcur hstop hcol
      (by
        by_cases hm : 0 < m
        · have := h2 hm
          unfold isInt64 minInt64 maxInt64 at *
          omega
        · omega)
    obtain ⟨o1, o2⟩ := s9 hL
    have hs : TimerIter.ScanNext st fuel it kv = some s := s1
    simp only [scanAll, hs, o1, s8, o2]
  | cons e rest ih =>
    intro n m it hL hn h1 h2 hcur hstop hcol
    obtain ⟨n, rfl⟩ : ∃ k, n = k + 1 := ⟨n - 1, by simp at hn; omega⟩
    obtain ⟨s, k, s1, s2, s3, s4, s5, s6, s7, s8, -, s10⟩ := ScanNextLoop_live st hf hroots
      halarms fuel hfuel m fuel it h1 h2 hcur hstop hcol
      (by
        by_cases hm : 0 < m
        · have := h2 hm
          unfold isInt64 minInt64 maxInt64 at *
          omega
        · omega)
    obtain ⟨o1, o2⟩ := s10 e rest hL
    have hs : TimerIter.ScanNext st fuel it kv = some s := s1
    have hkm : (k : Int) ≤ (m : Int) := by exact_mod_cast s5
    have hnext := ih n (m - k) s.it o2 (by simp only [List.length_cons] at hn; omega)
      (by rw [s4, s6]; push_cast [Nat.cast_sub s5]; omega)
      (fun hp => by
        have := h2 (by omega)
        rw [s4, s6]; push_cast [Nat.cast_sub s5]; omega)
      (by
        rw [s6]
        by_cases hm : 0 < m
        · have := h2 hm
          unfold isInt64 minInt64 maxInt64 at *
          omega
        · have hk0 : k = 0 := by omega
          subst hk0
          simpa using hcur)
      (by rw [s4]; exact hstop) s7
    simp only [scanAll, hs, o1, s3, hnext, Option.map_some', s8, Option.some.injEq, Prod.mk.injEq,
      true_and]
    rw [s6, ← rowKeys_append, Nat.add_sub_cancel' s5]

/-! ## C16: the range a scan covers -/

/-- C16 as amended. The scan covers the half-open range
`(span.Start, min(roundDown(now), span.Stop)]`: for a span whose start and stop
are 64-bit multiples of `R`, with no KV failure, on a bucket
whose keys hold the records their names say and whose root counters are below
the largest 64-bit number, the scan created by `ScanDue` and driven by `ScanNext`
until it returns nil comes to its end (for every fuel from `2^64` on and every
bound above the number of entries), and it reads the root keys
`span.Start + R`, `span.Start + 2R`, ..., in ascending order, each once: those
of the buckets `b` that are multiples of `R` with
`span.Start < b ≤ min(roundDown(now), span.Stop)`, and of no other; so every
live alarm in such a bucket, under a sequence number from `init_seq` to the
counter of the bucket, is yielded. The root key of the bucket `span.Start` is not
read. -/
theorem scan_covers_half_open_range (r : TimerStore) (wall : Int) (kv : KV)
    (hwall : isInt64 wall) (hstart : isInt64 r.span.Start) (hstop : r.span.Stop ≤ maxInt64)
    (h7s : r.span.Start % 7 = 0) (h7e : r.span.Stop % 7 = 0)
    (hf : kv.faults = [])
    (hroots : ∀ b d, kv.store (r.kvLocatorRoot b) = some d →
      ∃ n, d.val = .counter n ∧ n < maxInt64)
    (halarms : ∀ b s d, kv.store (r.kvLocatorAlarm b s) = some d →
      ∃ a, d.val = .alarm a ∧ ∀ d2, kv.store a.ContextRef = some d2 →
        ∃ c, d2.val = .context c) :
    ∃ (es : List TimerEntry) (m : Nat),
      (∀ n fuel, es.length < n → 18446744073709551616 ≤ fuel →
        scanAll r fuel n (r.ScanDue wall).1 kv =
          some (es, (List.range m).map
            (fun j : Nat => r.kvLocatorRoot (r.span.Start + 7 * ((j : Int) + 1))))) ∧
      (∀ b : Int, (∃ j : Nat, j < m ∧ b = r.span.Start + 7 * ((j : Int) + 1)) ↔
        (b % 7 = 0 ∧ r.span.Start < b ∧ b ≤ roundDown wall ∧ b ≤ r.span.Stop)) ∧
      (∀ b s v tc e, b % 7 = 0 → r.span.Start < b → b ≤ roundDown wall → b ≤ r.span.Stop →
        kv.store (r.kvLocatorRoot b) = some { val := .counter v, cas := tc } →
        init_seq ≤ s → s ≤ v → liveEntry r kv b v tc s = some e → e ∈ es) := by
  have hrd : roundDown wall % 7 = 0 ∧ roundDown wall ≤ maxInt64 := by
    rw [roundDown_eq hwall]
    unfold isInt64 minInt64 maxInt64 at hwall
    unfold maxInt64
    split_ifs <;> omega
  obtain ⟨hrd1, hrd2⟩ := hrd
  -- the end of the scan and the number of buckets
  obtain ⟨stop, hstopdef⟩ : ∃ stop, stop =
      (if roundDown wall > r.span.Stop then r.span.Stop else roundDown wall) := ⟨_, rfl⟩
  have hs1 : stop % 7 = 0 := by rw [hstopdef]; split_ifs <;> assumption
  have hs2 : stop ≤ roundDown wall ∧ stop ≤ r.span.Stop ∧
      (stop = roundDown wall ∨ stop = r.span.Stop) := by
    rw [hstopdef]; split_ifs <;> omega
  obtain ⟨hs2, hs3, hs4⟩ := hs2
  obtain ⟨m, hm⟩ : ∃ m : Nat, m = ((stop - r.span.Start) / 7).toNat := ⟨_, rfl⟩
  have hm1 : stop ≤ r.span.Start + 7 * (m : Int) := by omega
  have hm2 : 0 < m → r.span.Start + 7 * (m : Int) = stop := by omega
  have hchar : ∀ b : Int, (∃ j : Nat, j < m ∧ b = r.span.Start + 7 * ((j : Int) + 1)) ↔
      (b % 7 = 0 ∧ r.span.Start < b ∧ b ≤ roundDown wall ∧ b ≤ r.span.Stop) := by
    intro b
    constructor
    · rintro ⟨j, hj, rfl⟩
      have := hm2 (by omega)
      have hjm : (j : Int) + 1 ≤ (m : Int) := by exact_mod_cast hj
      refine ⟨by omega, by omega, by omega, by omega⟩
    · rintro ⟨b1, b2, b3, b4⟩
      have hbs : b ≤ stop := by rcases hs4 with h | h <;> omega
      refine ⟨((b - r.span.Start) / 7 - 1).toNat, ?_, ?_⟩
      · omega
      · omega
  refine ⟨rowsEntries r kv m r.span.Start, m, ?_, hchar, ?_⟩
  · intro n fuel hn hfuel
    rw [← rowKeys_eq_map]
    unfold TimerStore.ScanDue TimerStore.readSpan
    simp only
    split
    · -- the shortcut: nothing to scan
      rename_i hcond
      obtain ⟨n, rfl⟩ : ∃ k, n = k + 1 := ⟨n - 1, by omega⟩
      have heq : r.span.Start = r.span.Stop := by
        simp only [Bool.and_eq_true, beq_iff_eq, decide_eq_true_eq] at hcond
        exact hcond.1
      have hm0 : m = 0 := by omega
      subst hm0
      simp [scanAll, rowsEntries, rowKeys]
    · rw [← hstopdef]
      exact scanAll_live r hf hroots halarms fuel hfuel _ n m _ (by simp [scanRest]) hn hm1 hm2
        hstart (by simp only; omega) (Or.inl rfl)
  · intro b s v tc e b1 b2 b3 b4 hroot h1 h2 hl
    obtain ⟨j, hj, hb⟩ := (hchar b).2 ⟨b1, b2, b3, b4⟩
    apply mem_rowsEntries r kv m r.span.Start j e hj
    rw [← hb]
    unfold bucketEntries
    simp only [hroot]
    have hseq := liveEntry_seq hl
    exact (mem_columnEntries r kv b v tc _ _ e).2 ⟨by omega, by omega, by rw [hseq]; exact hl⟩

theorem scan_covers_half_open_range_witness :
    isInt64 1010 ∧ isInt64 987 ∧ (1001 : Int) ≤ maxInt64 ∧ (987 : Int) % 7 = 0 ∧
    (1001 : Int) % 7 = 0 ∧ demoSet1b.kv.faults = [] ∧
    demoSet1b.kv.store (demoStore.kvLocatorRoot 1001) = some { val := .counter 129, cas := 4 } ∧
    liveEntry demoStore demoSet1b.kv 1001 129 4 128 = none ∧
    liveEntry demoStore demoSet1b.kv 1001 129 4 129 = some demoEntry1b ∧
    (1001 : Int) ≤ roundDown 1010 ∧
    ∃ es,
      scanAll
        { demoStore with span := { Start := 987, Stop := 1001, empty := false, spanCas := 0 } }
        18446744073709551616 (es.length + 1)
        (({ demoStore with span := { Start := 987, Stop := 1001, empty := false,
                                     spanCas := 0 } } : TimerStore).ScanDue 1010).1
        demoSet1b.kv =
        some (es, [demoStore.kvLocatorRoot 994, demoStore.kvLocatorRoot 1001]) ∧
      demoEntry1b ∈ es := by
  obtain ⟨es, m, h1, h2, h3⟩ := scan_covers_half_open_range
    { demoStore with span := { Start := 987, Stop := 1001, empty := false, spanCas := 0 } }
    1010 demoSet1b.kv (by decide) (by decide) (by decide) (by decide) (by decide)
    (by decide) demoSet1b_roots
    (fun b s d h => by
      obtain ⟨cref, c1, c2⟩ := demoSet1b_typed b s d h
      exact ⟨_, c1, c2⟩)
  have hm : m = 2 := by
    have a1 := (h2 1001).2 ⟨by decide, by decide, by decide, by decide⟩
    have a2 : ¬ ∃ j : Nat, j < m ∧ (1008 : Int) =
        ({ demoStore with span := { Start := 987, Stop := 1001, empty := false,
                                    spanCas := 0 } } : TimerStore).span.Start +
          7 * ((j : Int) + 1) := by
      intro h
      have := ((h2 1008).1 h).2.2.2
      revert this
      decide
    obtain ⟨j, hj, hb⟩ := a1
    have hj1 : j = 1 := by
      have : (1001 : Int) = 987 + 7 * ((j : Int) + 1) := hb
      omega
    by_contra hne
    apply a2
    refine ⟨2, by omega, ?_⟩
    show (1008 : Int) = 987 + 7 * (((2 : Nat) : Int) + 1)
    norm_num
  subst hm
  have hmem := h3 1001 129 129 4 demoEntry1b (by decide) (by decide) (by decide) (by decide)
    (by decide) (by decide) (by decide) (by decide)
  exact ⟨by decide, by decide, by decide, by decide, by decide, by decide, by decide,
    by decide, by decide, by decide, es, h1 (es.length + 1) 18446744073709551616 (by omega)
      (le_refl _), hmem⟩

/-- C16 as stated fails at `b = span.Start`, and at a counter that stands at
the largest 64-bit number. After `demoSet1` the bucket 1001 holds a live alarm,
with its counter and its context. On a store whose span is `{1001, 1008}`, both
multiples of 7, the scan at time 1010, driven by `ScanNext` until it returns nil,
reads the root key of bucket 1008 only and yields nothing: the alarm due at
`span.Start = 1001` is not yielded. With the span `{994, 1008}` the same scan
reads the root keys of the buckets 1001 and 1008 and yields the alarm. And on
`endlessBucket`, whose counter of bucket 1001 stands at `2^63 - 1`, the scan over
the span `{994, 1001}` does not come to an end, whatever the fuel and the number
of calls. -/
theorem scan_skips_span_start :
    demoSet1.kv.store (demoStore.kvLocatorRoot 1001) = some { val := .counter 128, cas := 1 } ∧
    liveEntry demoStore demoSet1.kv 1001 128 1 128 = some demoEntry ∧
    (1001 : Int) % 7 = 0 ∧ (1008 : Int) % 7 = 0 ∧ (1001 : Int) ≤ min (roundDown 1010) 1008 ∧
    scanAll { demoStore with span := { Start := 1001, Stop := 1008, empty := false, spanCas := 0 } }
        5 5 (({ demoStore with span := { Start := 1001, Stop := 1008, empty := false,
                                         spanCas := 0 } } : TimerStore).ScanDue 1010).1
        demoSet1.kv = some ([], [demoStore.kvLocatorRoot 1008]) ∧
    scanAll { demoStore with span := { Start := 994, Stop := 1008, empty := false, spanCas := 0 } }
        5 5 (({ demoStore with span := { Start := 994, Stop := 1008, empty := false,
                                         spanCas := 0 } } : TimerStore).ScanDue 1010).1
        demoSet1.kv =
      some ([demoEntry], [demoStore.kvLocatorRoot 1001, demoStore.kvLocatorRoot 1008]) ∧
    (({ demoStore with span := { Start := 994, Stop := 1001, empty := false, spanCas := 0 } } :
        TimerStore).ScanDue 1010).1 =
      some { row := { start := 994, stop := 1001, current := 994 }, col := none,
             entry := none } ∧
    endlessBucket.store (demoStore.kvLocatorRoot 1001) =
      some { val := .counter 9223372036854775807, cas := 1 } ∧
    ∀ n fuel, scanAll
      { demoStore with span := { Start := 994, Stop := 1001, empty := false, spanCas := 0 } }
      fuel n
      (some { row := { start := 994, stop := 1001, current := 994 }, col := none, entry := none })
      endlessBucket = none := by
  refine ⟨by decide, by decide, by decide, by decide, by decide, by decide, by decide, by decide,
    by decide, fun n fuel => ?_⟩
  cases n with
  | zero => rfl
  | succ n =>
    have h := ScanNext_endless
      { demoStore with span := { Start := 994, Stop := 1001, empty := false, spanCas := 0 } }
      endlessBucket
      { row := { start := 994, stop := 1001, current := 994 }, col := none, entry := none } 1
      (by decide) rfl (by decide) (by decide) (by decide) (by decide)
      (fun s => endlessBucket_no_alarm s) fuel
    simp only [scanAll, h]

/-! ## Two timers in one bucket -/

/-- Two `Set` calls with different context keys into a time bucket without a
counter, with no KV failure, and then a scan that reaches the bucket over `k`
buckets without a counter: the first `ScanNext` yields the first timer, under `init_seq` and with
`topCas = 0`, the second yields the second timer, under `init_seq + 1` and with
the CAS of the counter as `topCas`. -/
theorem two_timers_scan (H : Ripemd160) (r : TimerStore) (kv : KV) (now1 due1 now2 due2 : Int)
    (ref1 ref2 : String) (ctx1 ctx2 : Json) (it : TimerIter) (k fuel : Nat)
    (hf : kv.faults = []) (hroot : kv.store (r.kvLocatorRoot (setDue now1 due1)) = none)
    (hsame : setDue now2 due2 = setDue now1 due1)
    (hrefs : r.kvLocatorContext H ref1 ≠ r.kvLocatorContext H ref2)
    (hcol : it.col = none) (hcur : isInt64 it.row.current)
    (hnext : it.row.current + 7 * ((k : Int) + 1) = setDue now1 due1)
    (habs : ∀ j : Nat, 1 ≤ j → j ≤ k →
      kv.store (r.kvLocatorRoot (it.row.current + 7 * (j : Int))) = none)
    (hstop : setDue now1 due1 ≤ it.row.stop)
    (hmax : it.row.stop ≤ maxInt64) (hfuel : k + 2 ≤ fuel) :
    scanYields r fuel
        [((r.Set H now1 due1 ref1 ctx1 kv).store.Set H now2 due2 ref2 ctx2
            (r.Set H now1 due1 ref1 ctx1 kv).kv).kv,
         ((r.Set H now1 due1 ref1 ctx1 kv).store.Set H now2 due2 ref2 ctx2
            (r.Set H now1 due1 ref1 ctx1 kv).kv).kv] it =
      [(setDue now1 due1,
        { AlarmDue := setDue now1 due1, ContextRef := r.kvLocatorContext H ref1,
          Context := ctx1, AlarmRef := r.kvLocatorAlarm (setDue now1 due1) init_seq,
          alarmSeq := init_seq, ctxCas := kv.casSeq + 3, topCas := 0 }),
       (setDue now1 due1,
        { AlarmDue := setDue now1 due1, ContextRef := r.kvLocatorContext H ref2,
          Context := ctx2, AlarmRef := r.kvLocatorAlarm (setDue now1 due1) (init_seq + 1),
          alarmSeq := init_seq + 1, ctxCas := kv.casSeq + 6, topCas := kv.casSeq + 4 })] := by
  obtain ⟨fuel, rfl⟩ : ∃ f, fuel = f + 1 + 1 := ⟨fuel - 2, by omega⟩
  have h1 := Set_fresh H r now1 due1 ref1 ctx1 kv hf hroot
  rw [h1]
  simp only
  have n1 := kvLocatorRoot_ne_context H r (setDue now1 due1) ref1
  have n2 := kvLocatorRoot_ne_context H r (setDue now1 due1) ref2
  have n3 := kvLocatorRoot_ne_alarm r (setDue now1 due1) (setDue now1 due1) init_seq
  have n4 := kvLocatorRoot_ne_alarm r (setDue now1 due1) (setDue now1 due1) (init_seq + 1)
  have n5 := kvLocatorAlarm_ne_context H r (setDue now1 due1) init_seq ref1
  have n6 := kvLocatorAlarm_ne_context H r (setDue now1 due1) init_seq ref2
  have n7 := kvLocatorAlarm_ne_context H r (setDue now1 due1) (init_seq + 1) ref1
  have n8 := kvLocatorAlarm_ne_context H r (setDue now1 due1) (init_seq + 1) ref2
  have n9 : r.kvLocatorAlarm (setDue now1 due1) init_seq ≠
      r.kvLocatorAlarm (setDue now1 due1) (init_seq + 1) := by
    intro h
    have := (kvLocatorAlarm_inj h).2
    omega
  have hw : wrap64 (init_seq + 1) = init_seq + 1 := by decide
  have hroot1 : (((kv.put (r.kvLocatorRoot (setDue now1 due1)) (.counter init_seq)).put
      (r.kvLocatorAlarm (setDue now1 due1) init_seq)
      (.alarm { AlarmDue := setDue now1 due1, ContextRef := r.kvLocatorContext H ref1 })).put
      (r.kvLocatorContext H ref1)
      (.context { Context := ctx1,
                  AlarmRef := r.kvLocatorAlarm (setDue now1 due1) init_seq })).store
      ((r.expandSpan (setDue now1 due1)).kvLocatorRoot (setDue now2 due2)) =
      some { val := .counter init_seq, cas := kv.casSeq + 1 } := by
    rw [hsame]
    simp [put_store, n1, n3]
  have h2 := Set_again H (r.expandSpan (setDue now1 due1)) now2 due2 ref2 ctx2 _
    (by simpa using hf) hroot1
  rw [h2]
  simp only [hsame, expandSpan_kvLocatorRoot, expandSpan_kvLocatorAlarm,
    expandSpan_kvLocatorContext, hw]
  -- the bucket after the two calls
  generalize hK : (((((kv.put (r.kvLocatorRoot (setDue now1 due1)) (.counter init_seq)).put
      (r.kvLocatorAlarm (setDue now1 due1) init_seq)
      (.alarm { AlarmDue := setDue now1 due1, ContextRef := r.kvLocatorContext H ref1 })).put
      (r.kvLocatorContext H ref1)
      (.context { Context := ctx1,
                  AlarmRef := r.kvLocatorAlarm (setDue now1 due1) init_seq })).put
      (r.kvLocatorRoot (setDue now1 due1)) (.counter (init_seq + 1))).put
      (r.kvLocatorAlarm (setDue now1 due1) (init_seq + 1))
      (.alarm { AlarmDue := setDue now1 due1, ContextRef := r.kvLocatorContext H ref2 })).put
      (r.kvLocatorContext H ref2)
      (.context { Context := ctx2,
                  AlarmRef := r.kvLocatorAlarm (setDue now1 due1) (init_seq + 1) }) = K
  have hfK : K.faults = [] := by rw [← hK]; simpa using hf
  have kR : K.store (r.kvLocatorRoot (setDue now1 due1)) =
      some { val := .counter (init_seq + 1), cas := kv.casSeq + 4 } := by
    rw [← hK]; simp [put_store, n2, n4]
  have kA1 : K.store (r.kvLocatorAlarm (setDue now1 due1) init_seq) =
      some { val := .alarm { AlarmDue := setDue now1 due1,
                             ContextRef := r.kvLocatorContext H ref1 },
             cas := kv.casSeq + 2 } := by
    rw [← hK]; simp [put_store, n3.symm, n5, n6, n9]
  have kC1 : K.store (r.kvLocatorContext H ref1) =
      some { val := .context { Context := ctx1,
                               AlarmRef := r.kvLocatorAlarm (setDue now1 due1) init_seq },
             cas := kv.casSeq + 3 } := by
    rw [← hK]; simp [put_store, n1.symm, n7.symm, hrefs]
  have kA2 : K.store (r.kvLocatorAlarm (setDue now1 due1) (init_seq + 1)) =
      some { val := .alarm { AlarmDue := setDue now1 due1,
                             ContextRef := r.kvLocatorContext H ref2 },
             cas := kv.casSeq + 5 } := by
    rw [← hK]; simp [put_store, n8]
  have kC2 : K.store (r.kvLocatorContext H ref2) =
      some { val := .context { Context := ctx2,
                               AlarmRef := r.kvLocatorAlarm (setDue now1 due1) (init_seq + 1) },
             cas := kv.casSeq + 6 } := by
    rw [← hK]; simp [put_store]
  -- the first call
  obtain ⟨ea, hea⟩ : ∃ ea : TimerEntry, ea =
      { AlarmDue := setDue now1 due1, ContextRef := r.kvLocatorContext H ref1,
        Context := ctx1, AlarmRef := r.kvLocatorAlarm (setDue now1 due1) init_seq,
        alarmSeq := init_seq, ctxCas := kv.casSeq + 3, topCas := 0 } := ⟨_, rfl⟩
  obtain ⟨eb, heb⟩ : ∃ eb : TimerEntry, eb =
      { AlarmDue := setDue now1 due1, ContextRef := r.kvLocatorContext H ref2,
        Context := ctx2, AlarmRef := r.kvLocatorAlarm (setDue now1 due1) (init_seq + 1),
        alarmSeq := init_seq + 1, ctxCas := kv.casSeq + 6, topCas := kv.casSeq + 4 } := ⟨_, rfl⟩
  obtain ⟨row1, hrow1⟩ : ∃ row1 : rowIter, row1 =
      { start := it.row.start, stop := it.row.stop, current := setDue now1 due1 } := ⟨_, rfl⟩
  have hrc : row1.current = setDue now1 due1 := by rw [hrow1]
  have hnc : TimerIter.nextColumn r (fuel + 1 + 1) it K =
      some { out := false, err := none, it := { it with entry := none }, kv := K } := by
    unfold TimerIter.nextColumn
    simp only [hcol]
  have habsK : ∀ j : Nat, 1 ≤ j → j ≤ k →
      K.store (r.kvLocatorRoot (it.row.current + 7 * (j : Int))) = none := by
    intro j j1 j2
    have m1 := kvLocatorRoot_ne_context H r (it.row.current + 7 * (j : Int)) ref1
    have m2 := kvLocatorRoot_ne_context H r (it.row.current + 7 * (j : Int)) ref2
    have m3 := kvLocatorRoot_ne_alarm r (it.row.current + 7 * (j : Int)) (setDue now1 due1)
      init_seq
    have m4 := kvLocatorRoot_ne_alarm r (it.row.current + 7 * (j : Int)) (setDue now1 due1)
      (init_seq + 1)
    have m5 : r.kvLocatorRoot (it.row.current + 7 * (j : Int)) ≠
        r.kvLocatorRoot (setDue now1 due1) := by
      intro h
      have := kvLocatorRoot_inj h
      have hjk : (j : Int) ≤ (k : Int) := by exact_mod_cast j2
      omega
    rw [← hK]
    simp only [put_store, m1, m2, m3, m4, m5, if_false]
    exact habs j j1 j2
  have hrow := nextRowLoop_found r K hfK (init_seq + 1) (kv.casSeq + 4) k (fuel + 1 + 1)
    { it with col := none, entry := none } { current := init_seq, topCas := 0, stop := 0 }
    (by omega) hcur (by simp only; omega) hmax habsK
    (by simp only; rw [hnext]; exact kR)
  simp only [hnext] at hrow
  rw [← hrow1] at hrow
  have hrow2 : TimerIter.nextRow r (fuel + 1 + 1) { it with entry := none } K =
      some { out := true, err := none, kv := K,
             it := { row := row1,
                     col := some { stop := init_seq + 1, current := init_seq,
                                   topCas := kv.casSeq + 4 },
                     entry := none } } := hrow
  have hne1 : ¬ init_seq = init_seq + 1 := by omega
  have hy1 : TimerIter.nextColumnLoop r (fuel + 1 + 1)
      { row := row1,
        col := some { stop := init_seq + 1, current := init_seq, topCas := kv.casSeq + 4 },
        entry := none }
      { stop := init_seq + 1, current := init_seq, topCas := kv.casSeq + 4 } K =
      some { out := true, err := none, kv := K,
             it := { row := row1,
                     col := some { stop := init_seq + 1, current := init_seq + 1,
                                   topCas := kv.casSeq + 4 },
                     entry := some ea } } := by
    rw [nextColumnLoop_yield r hfK (fuel + 1) _ _ (by simp only; omega)
      (by simp only; rw [hrc]; exact kA1) kC1 (by simp only; rw [hrc])]
    simp only [colIter.next, hw, hne1, if_false, hea]
  have hnc1 : TimerIter.nextColumn r (fuel + 1 + 1)
      { row := row1,
        col := some { stop := init_seq + 1, current := init_seq, topCas := kv.casSeq + 4 },
        entry := none } K =
      some { out := true, err := none, kv := K,
             it := { row := row1,
                     col := some { stop := init_seq + 1, current := init_seq + 1,
                                   topCas := kv.casSeq + 4 },
                     entry := some ea } } := by
    rw [nextColumn_eq_loop r (fuel + 1 + 1) _
      { stop := init_seq + 1, current := init_seq, topCas := kv.casSeq + 4 } K rfl]
    exact hy1
  have hs1 : TimerIter.ScanNext r (fuel + 1 + 1) it K =
      some { out := some ea, err := none, kv := K,
             it := { row := row1,
                     col := some { stop := init_seq + 1, current := init_seq + 1,
                                   topCas := kv.casSeq + 4 },
                     entry := some ea } } := by
    unfold TimerIter.ScanNext
    rw [ScanNextLoop_row r (fuel + 1 + 1) (fuel + 1) it K hnc rfl rfl hrow2 rfl rfl]
    rw [ScanNextLoop_yield r (fuel + 1 + 1) fuel _ K hnc1 rfl rfl]
  -- the second call
  have hy2 : TimerIter.nextColumnLoop r (fuel + 1 + 1)
      { row := row1,
        col := some { stop := init_seq + 1, current := init_seq + 1, topCas := kv.casSeq + 4 },
        entry := none }
      { stop := init_seq + 1, current := init_seq + 1, topCas := kv.casSeq + 4 } K =
      some { out := true, err := none, kv := K,
             it := { row := row1,
                     col := some { stop := init_seq + 1, current := wrap64 (init_seq + 1 + 1),
                                   topCas := kv.casSeq + 4 },
                     entry := some eb } } := by
    rw [nextColumnLoop_yield r hfK (fuel + 1) _ _ (le_refl _)
      (by simp only; rw [hrc]; exact kA2) kC2 (by simp only; rw [hrc])]
    simp only [colIter.next, if_true, heb]
  have hnc2 : TimerIter.nextColumn r (fuel + 1 + 1)
      { row := row1,
        col := some { stop := init_seq + 1, current := init_seq + 1, topCas := kv.casSeq + 4 },
        entry := some ea } K =
      some { out := true, err := none, kv := K,
             it := { row := row1,
                     col := some { stop := init_seq + 1, current := wrap64 (init_seq + 1 + 1),
                                   topCas := kv.casSeq + 4 },
                     entry := some eb } } := by
    rw [nextColumn_eq_loop r (fuel + 1 + 1) _
      { stop := init_seq + 1, current := init_seq + 1, topCas := kv.casSeq + 4 } K rfl]
    exact hy2
  have hs2 : TimerIter.ScanNext r (fuel + 1 + 1)
      { row := row1,
        col := some { stop := init_seq + 1, current := init_seq + 1, topCas := kv.casSeq + 4 },
        entry := some ea } K =
      some { out := some eb, err := none, kv := K,
             it := { row := row1,
                     col := some { stop := init_seq + 1, current := wrap64 (init_seq + 1 + 1),
                                   topCas := kv.casSeq + 4 },
                     entry := some eb } } := by
    unfold TimerIter.ScanNext
    rw [ScanNextLoop_yield r (fuel + 1 + 1) (fuel + 1) _ K hnc2 rfl rfl]
  simp only [scanYields, hs1, hs2, hrc, ← hea, ← heb]

/-! ## C14: order and `topCas` within a bucket -/

/-- C14 as amended. Order and `topCas` within a bucket, for root counters below
the largest 64-bit number: on the iterator `ScanDue` returned for a span whose
start and stop are 64-bit multiples of `R` (or whose stop leaves room for one
step of `R` below the largest 64-bit number), whatever the bucket holds beside
counters below the largest 64-bit number and whatever the failure schedules, the
entries that the `ScanNext` calls of the scan yield come bucket after bucket, and
those from one bucket in strictly ascending `alarmSeq` order starting no lower
than `init_seq`; an entry yielded from bucket `b` has `topCas` equal to the CAS
`cas` read with the root counter `v` of `b` when its `alarmSeq` is `v`, and
`topCas = 0` otherwise, so, `cas` not being zero, `topCas = cas` exactly when
`alarmSeq = v`. Hence with two timers set one after the other into one bucket
without a counter, under different context keys and with no KV failure, the scan
that reaches the bucket over `k` buckets without a counter yields the first and
then the second, and only the second carries a non-zero `topCas`. -/
theorem scan_order_and_topCas (r : TimerStore) (wall : Int) (kv : KV) (it : TimerIter)
    (hit : (r.ScanDue wall).1 = some it) (hwall : isInt64 wall) (hstart : isInt64 r.span.Start)
    (hstop : r.span.Stop ≤ maxInt64)
    (hspan : (r.span.Start % 7 = 0 ∧ r.span.Stop % 7 = 0) ∨ r.span.Stop ≤ maxInt64 - 6)
    (hcnt : ∀ b d n, kv.store (r.kvLocatorRoot b) = some d → d.val = .counter n →
      n < maxInt64) :
    (∀ (kvs : List KV) (fuel : Nat), (∀ k ∈ kvs, k.store = kv.store) →
      List.Pairwise (fun p q : Int × TimerEntry =>
          p.1 < q.1 ∨ (p.1 = q.1 ∧ p.2.alarmSeq < q.2.alarmSeq))
        (scanYields r fuel kvs it) ∧
      ∀ p ∈ scanYields r fuel kvs it, ∃ v cas,
        kv.store (r.kvLocatorRoot p.1) = some { val := .counter v, cas := cas } ∧
        p.2.AlarmRef = r.kvLocatorAlarm p.1 p.2.alarmSeq ∧
        init_seq ≤ p.2.alarmSeq ∧ p.2.alarmSeq ≤ v ∧
        (p.2.alarmSeq = v → p.2.topCas = cas) ∧ (p.2.alarmSeq ≠ v → p.2.topCas = 0) ∧
        (cas ≠ 0 → (p.2.topCas = cas ↔ p.2.alarmSeq = v))) ∧
    (∀ (H : Ripemd160) (kvE : KV) (now1 due1 now2 due2 : Int) (ref1 ref2 : String)
        (ctx1 ctx2 : Json) (k fuel : Nat),
      kvE.faults = [] → kvE.store (r.kvLocatorRoot (setDue now1 due1)) = none →
      setDue now2 due2 = setDue now1 due1 →
      r.kvLocatorContext H ref1 ≠ r.kvLocatorContext H ref2 →
      it.row.current + 7 * ((k : Int) + 1) = setDue now1 due1 →
      (∀ j : Nat, 1 ≤ j → j ≤ k →
        kvE.store (r.kvLocatorRoot (it.row.current + 7 * (j : Int))) = none) →
      setDue now1 due1 ≤ it.row.stop → k + 2 ≤ fuel →
      ∃ ea eb : TimerEntry,
        scanYields r fuel
          [((r.Set H now1 due1 ref1 ctx1 kvE).store.Set H now2 due2 ref2 ctx2
              (r.Set H now1 due1 ref1 ctx1 kvE).kv).kv,
           ((r.Set H now1 due1 ref1 ctx1 kvE).store.Set H now2 due2 ref2 ctx2
              (r.Set H now1 due1 ref1 ctx1 kvE).kv).kv] it =
          [(setDue now1 due1, ea), (setDue now1 due1, eb)] ∧
        ea.Context = ctx1 ∧ ea.ContextRef = r.kvLocatorContext H ref1 ∧
        ea.alarmSeq = init_seq ∧ ea.topCas = 0 ∧
        eb.Context = ctx2 ∧ eb.ContextRef = r.kvLocatorContext H ref2 ∧
        eb.alarmSeq = init_seq + 1 ∧ eb.topCas ≠ 0) := by
  obtain ⟨hinv, -, hcol, -⟩ := ScanDue_inv r wall kv it hit hwall hstart hstop hspan
  have hinv0 := hinv
  obtain ⟨i1, -, i3, -, -⟩ := hinv
  constructor
  · intro kvs fuel hk
    obtain ⟨o1, o2⟩ := scanYields_order r kv hcnt it.row.stop fuel kvs it hk hinv0
    refine ⟨o1, fun p hp => ?_⟩
    obtain ⟨-, -, v, cas, p1, p2, p3, p4, p5⟩ := o2 p hp
    refine ⟨v, cas, p1, p5, p2, p3, fun h => ?_, fun h => ?_, fun hc => ?_⟩
    · rw [p4, if_pos h]
    · rw [p4, if_neg h]
    · rw [p4]
      constructor
      · intro h
        by_contra hne
        rw [if_neg hne] at h
        exact hc h.symm
      · intro h
        rw [if_pos h]
  · intro H kvE now1 due1 now2 due2 ref1 ref2 ctx1 ctx2 k fuel hf hroot hsame hrefs hnext habs
      hst hfuel
    refine ⟨_, _, two_timers_scan H r kvE now1 due1 now2 due2 ref1 ref2 ctx1 ctx2 it k fuel hf
      hroot hsame hrefs hcol i1 hnext habs hst i3 hfuel, rfl, rfl, rfl, rfl, rfl, rfl, rfl, ?_⟩
    show kvE.casSeq + 4 ≠ 0
    omega

theorem scan_order_and_topCas_witness :
    (({ demoStore with span := { Start := 987, Stop := 1001, empty := false, spanCas := 0 } } :
        TimerStore).ScanDue 1010).1 =
      some { row := { start := 987, stop := 1001, current := 987 }, col := none,
             entry := none } ∧
    isInt64 1010 ∧ isInt64 987 ∧ (1001 : Int) ≤ maxInt64 ∧ (987 : Int) % 7 = 0 ∧
    (1001 : Int) % 7 = 0 ∧
    scanYields
        { demoStore with span := { Start := 987, Stop := 1001, empty := false, spanCas := 0 } }
        5 [demoSet1b.kv, demoSet1b.kv, demoSet1b.kv]
        { row := { start := 987, stop := 1001, current := 987 }, col := none, entry := none } =
      [(1001, demoEntry1b)] ∧
    List.Pairwise (fun p q : Int × TimerEntry =>
        p.1 < q.1 ∨ (p.1 = q.1 ∧ p.2.alarmSeq < q.2.alarmSeq))
      (scanYields
        { demoStore with span := { Start := 987, Stop := 1001, empty := false, spanCas := 0 } }
        5 [demoSet1b.kv, demoSet1b.kv, demoSet1b.kv]
        { row := { start := 987, stop := 1001, current := 987 }, col := none, entry := none }) ∧
    ∃ ea eb : TimerEntry,
      scanYields
          { demoStore with span := { Start := 987, Stop := 1001, empty := false, spanCas := 0 } }
          5
          [(demoSet1.store.Set demoDigest 991 1000 "r2" "z=3" demoSet1.kv).kv,
           (demoSet1.store.Set demoDigest 991 1000 "r2" "z=3" demoSet1.kv).kv]
          { row := { start := 987, stop := 1001, current := 987 }, col := none, entry := none } =
        [(1001, ea), (1001, eb)] ∧
      ea.Context = "x=1" ∧ ea.alarmSeq = 128 ∧ ea.topCas = 0 ∧
      eb.Context = "z=3" ∧ eb.alarmSeq = 129 ∧ eb.topCas ≠ 0 := by
  have h := scan_order_and_topCas
    { demoStore with span := { Start := 987, Stop := 1001, empty := false, spanCas := 0 } }
    1010 demoSet1b.kv
    { row := { start := 987, stop := 1001, current := 987 }, col := none, entry := none }
    (by decide) (by decide) (by decide) (by decide) (Or.inl ⟨by decide, by decide⟩)
    (fun b d n hd hn => by
      obtain ⟨v, hv, hlt⟩ := demoSet1b_roots b d hd
      rw [hv] at hn
      simp only [Value.counter.injEq] at hn
      rw [← hn]; exact hlt)
  obtain ⟨ea, eb, t1, t2, -, t3, t4, t5, -, t6, t7⟩ := h.2 demoDigest KV.empty 990 1000 991 1000
    "r1" "r2" "x=1" "z=3" 1 5 (by decide) (by decide) (by decide) (by decide) (by decide)
    (fun j j1 j2 => rfl) (by decide) (by decide)
  exact ⟨by decide, by decide, by decide, by decide, by decide, by decide, by decide,
    (h.1 [demoSet1b.kv, demoSet1b.kv, demoSet1b.kv] 5 (fun _ hk => by
      simp only [List.mem_cons, List.mem_singleton, List.not_mem_nil, or_false, or_self] at hk
      rw [hk])).1,
    ea, eb, t1, t2, t3, t4, t5, t6, t7⟩

end Timers
